import Mathlib

/-!
# SearchServer: a shallow embedding of the TF-IDF search engine

The C++ sources embedded here are `include/search_server.h`, `src/search_server.cpp`,
`include/concurrent_map.h`, `src/remove_duplicates.cpp`, `src/process_queries.cpp` and
`include/request_queue.h` with `src/request_queue.cpp`.  The headers `document.h` and
`string_processing.h` are not part of the sources at hand; what is used of them is modelled from
the specification and marked so.

Modelling conventions.

* A `std::string` / `std::string_view` is a `List Char` (one `Char` per C++ `char`, the code of the
  `Char` being the byte value).
* `std::map<K, V>` is an association list kept in strictly ascending key order (`OrdMap`), so that
  iteration order is the order of the list; `std::set<K>` is an ascending list of keys.
* `double` is an arbitrary linearly ordered field `F` together with a function `ln : F → F` that
  stands for `log`; arithmetic is exact.  All definitions are computable for `F = ℚ`; statements
  about the real logarithm instantiate `F = ℝ` and `ln = Real.log`.
* `int` is `Int`; the only arithmetic that can overflow (`ComputeAverageRating`) wraps modulo
  `2^32`.
* A thrown exception is a value of `Failure`; a method that can throw after the object exists
  returns the outcome together with the state of the object at that point.
* Execution policies are not modelled: the parallel overloads are embedded with the sequential
  semantics of their bodies.
* `std::sort` is a stable insertion sort (`stdSort`) in `FindTopDocuments`, which serves the
  statements that do not depend on the arrangement of the result.  The `std::sort` of libstdc++
  is embedded as `Libstdcxx.sort`; the statements about the order and the selection of the
  returned documents (claims C7, C31 and C32) are made on `FindTopDocumentsLibstdcxx`, which
  runs it.
-/

namespace SearchEngine

/-! ## Ordered containers -/

/-- The model of `std::map<K, V>`: a list of entries, intended to be sorted by key. -/
abbrev OrdMap (K V : Type) := List (K × V)

namespace OrdMap

variable {K V : Type} [LinearOrder K]

/-- Well-formedness of a `std::map`: keys strictly ascending. -/
def WF (m : OrdMap K V) : Prop := (m.map Prod.fst).Sorted (· < ·)

/-- The value stored under `k` (`find`), if any. -/
def lookup (k : K) : OrdMap K V → Option V
  | [] => none
  | (k', v) :: rest => if k = k' then some v else lookup k rest

/-- The `count(k)` of `std::map`: 0 or 1. -/
def count (k : K) (m : OrdMap K V) : Nat :=
  match lookup k m with
  | some _ => 1
  | none => 0

/-- Replace the value under `k` by `f` of the old value, inserting in key order when absent. -/
def upsert (k : K) (f : Option V → V) : OrdMap K V → OrdMap K V
  | [] => [(k, f none)]
  | (k', v) :: rest =>
    if k < k' then (k, f none) :: (k', v) :: rest
    else if k = k' then (k, f (some v)) :: rest
    else (k', v) :: upsert k f rest

/-- The statement `m[k] = g(m[k])`, where `operator[]` value-initialises a missing entry to
`dflt`. -/
def modify (k : K) (dflt : V) (g : V → V) (m : OrdMap K V) : OrdMap K V :=
  upsert k (fun o => g (o.getD dflt)) m

/-- The `emplace(k, v)` / `insert({k, v})` of `std::map`: no effect when `k` is present. -/
def emplace (k : K) (v : V) (m : OrdMap K V) : OrdMap K V :=
  upsert k (fun o => o.getD v) m

/-- The `erase(k)` of `std::map`. -/
def erase (k : K) (m : OrdMap K V) : OrdMap K V :=
  m.filter (fun e => decide (e.1 ≠ k))

/-- The keys in iteration order. -/
def keys (m : OrdMap K V) : List K := m.map Prod.fst

end OrdMap

/-- The `insert` / `emplace` of `std::set`: ordered insertion, no effect when present. -/
def setInsert {K : Type} [LinearOrder K] (k : K) : List K → List K
  | [] => [k]
  | k' :: rest =>
    if k < k' then k :: k' :: rest
    else if k = k' then k' :: rest
    else k' :: setInsert k rest

/-- The `erase(k)` of `std::set`. -/
def setErase {K : Type} [DecidableEq K] (k : K) (l : List K) : List K :=
  l.filter (fun e => decide (e ≠ k))

/-! ## Words and tokens -/

/-- A string or string view. -/
abbrev Word := List Char

/-- Exceptions and undefined behaviour that the embedded code can run into. -/
inductive Failure where
  | invalid_argument
  | out_of_range
  | undefined_behaviour
  deriving DecidableEq, Repr

/-- Modelled from the spec: the enumeration `DocumentStatus` of the absent `document.h`, the
four-valued tag of section 3. -/
inductive DocumentStatus where
  | ACTUAL
  | IRRELEVANT
  | BANNED
  | REMOVED
  deriving DecidableEq, Repr

/-- Modelled from the spec: the struct `Document` of the absent `document.h` (section 6), with the
field order used by the aggregate initialisation in `FindAllDocuments`. -/
structure Document (F : Type) where
  id : Int
  relevance : F
  rating : Int
  deriving DecidableEq, Repr

/-- Scanning from the right: the word that touches the left end of the text (empty when the text
starts with a space) and the complete words after it. -/
def splitFrom : List Char → Word × List Word
  | [] => ([], [])
  | c :: cs =>
    let r := splitFrom cs
    if c = ' ' then ([], if r.1.isEmpty then r.2 else r.1 :: r.2)
    else (c :: r.1, r.2)

/-- Modelled from the spec: `SplitIntoWords` of the absent `string_processing.h` (section 4.1):
split on runs of the space character, empty tokens discarded. -/
def SplitIntoWords (text : List Char) : List Word :=
  let r := splitFrom text
  if r.1.isEmpty then r.2 else r.1 :: r.2

/-- Modelled from the spec: `MakeUniqueNonEmptyStrings` of the absent `string_processing.h`: the
set of the distinct non-empty strings of the collection. -/
def MakeUniqueNonEmptyStrings (strings : List Word) : List Word :=
  strings.foldl (fun acc str => if str.isEmpty then acc else setInsert str acc) []

/-- `SearchServer::IsValidWord`: no character `c` with `c >= 0 && c < 32`. -/
def IsValidWord (word : Word) : Bool :=
  !word.any (fun c => decide (0 ≤ c.toNat) && decide (c.toNat < 32))

/-! ## The server state -/

/-- `SearchServer::DocumentData`. -/
structure DocumentData where
  rating : Int
  status : DocumentStatus
  deriving DecidableEq, Repr

/-- `SearchServer::QueryWord`. -/
structure QueryWord where
  data : Word
  is_minus : Bool
  is_stop : Bool
  deriving DecidableEq, Repr

/-- `SearchServer::Query`: two `std::set<std::string_view>`. -/
structure Query where
  plus_words : List Word
  minus_words : List Word
  deriving DecidableEq, Repr

/-- The data members of `SearchServer`. -/
structure SearchServer (F : Type) where
  all_words_ : List Word
  stop_words_ : List Word
  word_to_document_freqs_ : OrdMap Word (OrdMap Int F)
  document_to_words_freqs_ : OrdMap Int (OrdMap Word F)
  documents_ : OrdMap Int DocumentData
  document_ids_ : List Int

/-- The constant `MAX_RESULT_DOCUMENT_COUNT`. -/
def MAX_RESULT_DOCUMENT_COUNT : Nat := 5

/-- Two's-complement wrap-around of a 32-bit `int`. -/
def wrapInt32 (x : Int) : Int := (x + 2147483648) % 4294967296 - 2147483648

/-- The `static_cast<size_t>` of an `int` on a 64-bit target. -/
def castSizeT (x : Int) : Nat := (x % 18446744073709551616).toNat

/-- The `insert` of `std::unordered_set<std::string>` (iteration order is not specified; the
model keeps insertion order). -/
def internWord (word : Word) (all_words : List Word) : List Word :=
  if word ∈ all_words then all_words else all_words ++ [word]

namespace SearchServer

variable {F : Type}

/-- The templated constructor `SearchServer(StringContainer stop_words)`. -/
def new (stop_words : List Word) : Except Failure (SearchServer F) :=
  if stop_words.any (fun word => !IsValidWord word) then .error .invalid_argument
  else .ok ⟨[], MakeUniqueNonEmptyStrings stop_words, [], [], [], []⟩

/-- The constructors from a text of space-separated stop words. -/
def ofText (stop_words_text : List Char) : Except Failure (SearchServer F) :=
  new (SplitIntoWords stop_words_text)

/-- `SearchServer::GetDocumentCount`. -/
def GetDocumentCount (s : SearchServer F) : Int := (s.documents_.length : Int)

/-- `SearchServer::IsStopWord`. -/
def IsStopWord (s : SearchServer F) (word : Word) : Bool := decide (word ∈ s.stop_words_)

/-- `SearchServer::IsWordFound`. -/
def IsWordFound (s : SearchServer F) (word : Word) (document_id : Int) : Bool :=
  match OrdMap.lookup word s.word_to_document_freqs_ with
  | none => false
  | some freqs => decide (OrdMap.count document_id freqs ≠ 0)

/-- `SearchServer::ComputeAverageRating`. -/
def ComputeAverageRating (ratings : List Int) : Int :=
  if ratings.isEmpty then 0
  else
    let rating_sum := ratings.foldl (fun acc rating => wrapInt32 (acc + rating)) 0
    Int.tdiv rating_sum (wrapInt32 (ratings.length : Int))

/-- The loop of `SearchServer::SplitIntoWordsNoStop` over the tokens. -/
def splitNoStopLoop (s : SearchServer F) : List Word → Except Failure (List Word)
  | [] => .ok []
  | word :: rest =>
    if !IsValidWord word then .error .invalid_argument
    else
      match splitNoStopLoop s rest with
      | .error e => .error e
      | .ok words => if !s.IsStopWord word then .ok (word :: words) else .ok words

/-- `SearchServer::SplitIntoWordsNoStop`. -/
def SplitIntoWordsNoStop (s : SearchServer F) (text : List Char) : Except Failure (List Word) :=
  splitNoStopLoop s (SplitIntoWords text)

/-- The body of the loop of `SearchServer::AddDocument` for one word. -/
def addWord [LinearOrderedField F] (document_id : Int) (inv_word_count : F)
    (s : SearchServer F) (word : Word) : SearchServer F :=
  { s with
    all_words_ := internWord word s.all_words_
    word_to_document_freqs_ :=
      OrdMap.modify word [] (OrdMap.modify document_id 0 (fun v => v + inv_word_count))
        s.word_to_document_freqs_
    document_to_words_freqs_ :=
      OrdMap.modify document_id [] (OrdMap.modify word 0 (fun v => v + inv_word_count))
        s.document_to_words_freqs_ }

/-- `SearchServer::AddDocument`: the outcome and the state of the server after the call. -/
def AddDocument [LinearOrderedField F] (s : SearchServer F) (document_id : Int)
    (document : List Char) (status : DocumentStatus) (ratings : List Int) :
    Except Failure Unit × SearchServer F :=
  if document_id < 0 ∨ OrdMap.count document_id s.documents_ > 0 then
    (.error .invalid_argument, s)
  else
    match s.SplitIntoWordsNoStop document with
    | .error e => (.error e, s)
    | .ok words =>
      let inv_word_count : F := 1 / (words.length : F)
      let s1 := words.foldl (addWord document_id inv_word_count) s
      (.ok (),
        { s1 with
          document_ids_ := setInsert document_id s1.document_ids_
          documents_ :=
            OrdMap.emplace document_id ⟨ComputeAverageRating ratings, status⟩ s1.documents_ })

/-- `SearchServer::GetWordFrequencies`. -/
def GetWordFrequencies (s : SearchServer F) (document_id : Int) : OrdMap Word F :=
  match OrdMap.lookup document_id s.document_to_words_freqs_ with
  | some doc => doc
  | none => []

/-- The loop of the sequential `SearchServer::RemoveDocument` over the words of the document;
dereferencing the result of a failed `find` is undefined behaviour. -/
def removeWordsLoop (document_id : Int) :
    List (Word × F) → OrdMap Word (OrdMap Int F) →
      Except Failure Unit × OrdMap Word (OrdMap Int F)
  | [], w2d => (.ok (), w2d)
  | word_from_doc :: rest, w2d =>
    match OrdMap.lookup word_from_doc.1 w2d with
    | none => (.error .undefined_behaviour, w2d)
    | some word_in_docs =>
      if word_in_docs.length = 1 then
        removeWordsLoop document_id rest (OrdMap.erase word_from_doc.1 w2d)
      else
        removeWordsLoop document_id rest
          (OrdMap.modify word_from_doc.1 [] (OrdMap.erase document_id) w2d)

/-- `SearchServer::RemoveDocument(int)`, also reached through the `sequenced_policy` overload. -/
def RemoveDocument (s : SearchServer F) (document_id : Int) :
    Except Failure Unit × SearchServer F :=
  match OrdMap.lookup document_id s.document_to_words_freqs_ with
  | none => (.ok (), s)
  | some doc =>
    match removeWordsLoop document_id doc s.word_to_document_freqs_ with
    | (.error e, w2d) => (.error e, { s with word_to_document_freqs_ := w2d })
    | (.ok (), w2d) =>
      (.ok (),
        { s with
          word_to_document_freqs_ := w2d
          document_to_words_freqs_ := OrdMap.erase document_id s.document_to_words_freqs_
          document_ids_ := setErase document_id s.document_ids_
          documents_ := OrdMap.erase document_id s.documents_ })

/-- The `for_each` of the parallel `SearchServer::RemoveDocument`; `at` throws on a missing
word. -/
def removeWordsLoopPar (document_id : Int) :
    List (Word × F) → OrdMap Word (OrdMap Int F) →
      Except Failure Unit × OrdMap Word (OrdMap Int F)
  | [], w2d => (.ok (), w2d)
  | word_freq :: rest, w2d =>
    match OrdMap.lookup word_freq.1 w2d with
    | none => (.error .out_of_range, w2d)
    | some _ =>
      removeWordsLoopPar document_id rest
        (OrdMap.modify word_freq.1 [] (OrdMap.erase document_id) w2d)

/-- `SearchServer::RemoveDocument(const std::execution::parallel_policy &, int)`. -/
def RemoveDocumentPar (s : SearchServer F) (document_id : Int) :
    Except Failure Unit × SearchServer F :=
  if OrdMap.count document_id s.document_to_words_freqs_ = 0 then (.ok (), s)
  else
    match OrdMap.lookup document_id s.document_to_words_freqs_ with
    | none => (.error .out_of_range, s)
    | some words_freqs =>
      match removeWordsLoopPar document_id words_freqs s.word_to_document_freqs_ with
      | (.error e, w2d) => (.error e, { s with word_to_document_freqs_ := w2d })
      | (.ok (), w2d) =>
        (.ok (),
          { s with
            word_to_document_freqs_ := w2d
            document_ids_ := setErase document_id s.document_ids_
            documents_ := OrdMap.erase document_id s.documents_
            document_to_words_freqs_ := OrdMap.erase document_id s.document_to_words_freqs_ })

/-- `SearchServer::ParseQueryWord`. -/
def ParseQueryWord (s : SearchServer F) (text : Word) : Except Failure QueryWord :=
  if text.isEmpty then .error .invalid_argument
  else
    let is_minus : Bool := decide (text.head? = some '-')
    let text1 : Word := if is_minus then text.drop 1 else text
    if text1.isEmpty ∨ text1.head? = some '-' ∨ IsValidWord text1 = false then
      .error .invalid_argument
    else .ok ⟨text1, is_minus, s.IsStopWord text1⟩

/-- The loop of `SearchServer::ParseQuery` over the tokens. -/
def parseQueryLoop (s : SearchServer F) : List Word → Query → Except Failure Query
  | [], result => .ok result
  | word :: rest, result =>
    match s.ParseQueryWord word with
    | .error e => .error e
    | .ok query_word =>
      if !query_word.is_stop then
        if query_word.is_minus then
          parseQueryLoop s rest
            { result with minus_words := setInsert query_word.data result.minus_words }
        else
          parseQueryLoop s rest
            { result with plus_words := setInsert query_word.data result.plus_words }
      else parseQueryLoop s rest result

/-- `SearchServer::ParseQuery`. -/
def ParseQuery (s : SearchServer F) (text : List Char) : Except Failure Query :=
  parseQueryLoop s (SplitIntoWords text) ⟨[], []⟩

/-- The `documents_.at(document_id).status` of `MatchDocument`. -/
def statusAt (s : SearchServer F) (document_id : Int) : Except Failure DocumentStatus :=
  match OrdMap.lookup document_id s.documents_ with
  | none => .error .out_of_range
  | some data => .ok data.status

/-- `SearchServer::MatchDocument(std::string_view, int)`, also reached through the
`sequenced_policy` overload. -/
def MatchDocument (s : SearchServer F) (raw_query : List Char) (document_id : Int) :
    Except Failure (List Word × DocumentStatus) :=
  match s.ParseQuery raw_query with
  | .error e => .error e
  | .ok query =>
    if query.minus_words.any (fun word => s.IsWordFound word document_id) then
      match s.statusAt document_id with
      | .error e => .error e
      | .ok status => .ok ([], status)
    else
      let matched_words := query.plus_words.filter (fun word => s.IsWordFound word document_id)
      match s.statusAt document_id with
      | .error e => .error e
      | .ok status => .ok (matched_words, status)

/-- `SearchServer::MatchDocument(const std::execution::parallel_policy &, ...)`: the result
vector is created with one empty string per plus-word and `copy_if` overwrites its front. -/
def MatchDocumentPar (s : SearchServer F) (raw_query : List Char) (document_id : Int) :
    Except Failure (List Word × DocumentStatus) :=
  match s.ParseQuery raw_query with
  | .error e => .error e
  | .ok query =>
    if query.minus_words.any (fun word => s.IsWordFound word document_id) then
      match s.statusAt document_id with
      | .error e => .error e
      | .ok status => .ok ([], status)
    else
      let copied := query.plus_words.filter (fun word => s.IsWordFound word document_id)
      let matched_words :=
        copied ++ List.replicate (query.plus_words.length - copied.length) []
      match s.statusAt document_id with
      | .error e => .error e
      | .ok status => .ok (matched_words, status)

/-- `SearchServer::ComputeWordInverseDocumentFreq`, with `ln` for `log`. -/
def ComputeWordInverseDocumentFreq [LinearOrderedField F] (s : SearchServer F) (ln : F → F)
    (word : Word) : Except Failure F :=
  match OrdMap.lookup word s.word_to_document_freqs_ with
  | none => .error .out_of_range
  | some freqs => .ok (ln ((s.GetDocumentCount : F) * 1 / (freqs.length : F)))

end SearchServer

/-! ## The sharded accumulator -/

/-- `ConcurrentMap<int, Value>`: the vector of buckets (the mutexes are not modelled). -/
structure ConcurrentMap (V : Type) where
  buckets_ : List (OrdMap Int V)

namespace ConcurrentMap

variable {V : Type}

/-- The constructor `ConcurrentMap(size_t bucket_count)`. -/
def new (bucket_count : Nat) : ConcurrentMap V := ⟨List.replicate bucket_count []⟩

/-- What `map[key].ref_to_value += delta` does to the map of the selected bucket: `operator[]`
inserts a value-initialised entry when the key is missing, then the value is increased. -/
def bucketAdd [Zero V] [Add V] (key : Int) (delta : V) (map_ : OrdMap Int V) : OrdMap Int V :=
  OrdMap.modify key 0 (fun v => v + delta)
    (if OrdMap.count key map_ = 0 then OrdMap.emplace key 0 map_ else map_)

/-- The statement `map[key].ref_to_value += delta`: `operator[]` selects the bucket
`static_cast<size_t>(key) % buckets_.size()`. -/
def addAt [Zero V] [Add V] (cm : ConcurrentMap V) (key : Int) (delta : V) : ConcurrentMap V :=
  let bucket_num := castSizeT key % cm.buckets_.length
  ⟨cm.buckets_.modify (bucketAdd key delta) bucket_num⟩

/-- `std::map::merge`: the entries of `source` whose key is not in `target` move to `target`. -/
def mergeInto (target source : OrdMap Int V) : OrdMap Int V :=
  source.foldl (fun acc e => OrdMap.emplace e.1 e.2 acc) target

/-- `ConcurrentMap::BuildOrdinaryMap`. -/
def BuildOrdinaryMap (cm : ConcurrentMap V) : OrdMap Int V :=
  cm.buckets_.foldl (fun result bucket_map => mergeInto result bucket_map) []

end ConcurrentMap

/-! ## Ranking -/

/-- Model of `std::sort(first, last, comp)`: a stable insertion sort; an element moves in front of
those it is not `comp`-after.  The `std::sort` of libstdc++ itself is embedded as
`Libstdcxx.sort`; it returns this list on at most 16 elements that the comparator orders as a
strict weak order (`sort_documents_eq_stdSort`), and a sorted rearrangement, possibly another
one, on any number of such elements (`Libstdcxx.sort_spec`). -/
def stdSort {α : Type} (comp : α → α → Bool) (l : List α) : List α :=
  l.insertionSort (fun a b => comp b a = false)

/-- The comparator passed to `sort` in `FindTopDocuments`. -/
def documentBefore {F : Type} [LinearOrderedField F] (lhs rhs : Document F) : Bool :=
  if |lhs.relevance - rhs.relevance| < 1 / 1000000 then decide (lhs.rating > rhs.rating)
  else decide (lhs.relevance > rhs.relevance)

namespace SearchServer

variable {F : Type} [LinearOrderedField F]

/-- The inner `for_each` of `FindAllDocuments` over the postings of one plus-word. -/
def scorePostings (s : SearchServer F) (document_predicate : Int → DocumentStatus → Int → Bool)
    (inverse_document_freq : F) :
    List (Int × F) → ConcurrentMap F → Except Failure (ConcurrentMap F)
  | [], document_to_relevance => .ok document_to_relevance
  | doc_freq :: rest, document_to_relevance =>
    match OrdMap.lookup doc_freq.1 s.documents_ with
    | none => .error .out_of_range
    | some doc_data =>
      if document_predicate doc_freq.1 doc_data.status doc_data.rating then
        scorePostings s document_predicate inverse_document_freq rest
          (document_to_relevance.addAt doc_freq.1 (doc_freq.2 * inverse_document_freq))
      else scorePostings s document_predicate inverse_document_freq rest document_to_relevance

/-- The outer `for_each` of `FindAllDocuments` over the plus-words. -/
def scorePlusWords (s : SearchServer F) (ln : F → F)
    (document_predicate : Int → DocumentStatus → Int → Bool) :
    List Word → ConcurrentMap F → Except Failure (ConcurrentMap F)
  | [], document_to_relevance => .ok document_to_relevance
  | word :: rest, document_to_relevance =>
    match OrdMap.lookup word s.word_to_document_freqs_ with
    | none => scorePlusWords s ln document_predicate rest document_to_relevance
    | some document_freqs =>
      match s.ComputeWordInverseDocumentFreq ln word with
      | .error e => .error e
      | .ok inverse_document_freq =>
        match scorePostings s document_predicate inverse_document_freq document_freqs
            document_to_relevance with
        | .error e => .error e
        | .ok next => scorePlusWords s ln document_predicate rest next

/-- The `for_each` of `FindAllDocuments` over the minus-words. -/
def eraseMinusWords (s : SearchServer F) : List Word → OrdMap Int F → OrdMap Int F
  | [], doc_to_rel => doc_to_rel
  | word :: rest, doc_to_rel =>
    match OrdMap.lookup word s.word_to_document_freqs_ with
    | none => eraseMinusWords s rest doc_to_rel
    | some document_freqs =>
      eraseMinusWords s rest
        (document_freqs.foldl (fun acc e => OrdMap.erase e.1 acc) doc_to_rel)

/-- The final loop of `FindAllDocuments`, which builds the vector of documents. -/
def collectDocuments (s : SearchServer F) : List (Int × F) → Except Failure (List (Document F))
  | [] => .ok []
  | e :: rest =>
    match OrdMap.lookup e.1 s.documents_ with
    | none => .error .out_of_range
    | some data =>
      match collectDocuments s rest with
      | .error err => .error err
      | .ok docs => .ok (⟨e.1, e.2, data.rating⟩ :: docs)

/-- `SearchServer::FindAllDocuments`. -/
def FindAllDocuments (s : SearchServer F) (ln : F → F) (query : Query)
    (document_predicate : Int → DocumentStatus → Int → Bool) :
    Except Failure (List (Document F)) :=
  match scorePlusWords s ln document_predicate query.plus_words (ConcurrentMap.new 6) with
  | .error e => .error e
  | .ok document_to_relevance =>
    let doc_to_rel := document_to_relevance.BuildOrdinaryMap
    collectDocuments s (eraseMinusWords s query.minus_words doc_to_rel)

/-- `SearchServer::FindTopDocuments` with a predicate (every policy). -/
def FindTopDocuments (s : SearchServer F) (ln : F → F) (raw_query : List Char)
    (document_predicate : Int → DocumentStatus → Int → Bool) :
    Except Failure (List (Document F)) :=
  match s.ParseQuery raw_query with
  | .error e => .error e
  | .ok query =>
    match s.FindAllDocuments ln query document_predicate with
    | .error e => .error e
    | .ok matched_documents =>
      let sorted := stdSort documentBefore matched_documents
      .ok (if sorted.length > MAX_RESULT_DOCUMENT_COUNT then
        sorted.take MAX_RESULT_DOCUMENT_COUNT else sorted)

/-- The macro `GetStatusPredicate`. -/
def GetStatusPredicate (status : DocumentStatus) : Int → DocumentStatus → Int → Bool :=
  fun _ document_status _ => decide (document_status = status)

/-- `SearchServer::FindTopDocuments` with a status. -/
def FindTopDocumentsStatus (s : SearchServer F) (ln : F → F) (raw_query : List Char)
    (status : DocumentStatus) : Except Failure (List (Document F)) :=
  s.FindTopDocuments ln raw_query (GetStatusPredicate status)

/-- `SearchServer::FindTopDocuments` with the query alone. -/
def FindTopDocumentsDefault (s : SearchServer F) (ln : F → F) (raw_query : List Char) :
    Except Failure (List (Document F)) :=
  s.FindTopDocumentsStatus ln raw_query DocumentStatus.ACTUAL

/-- The states a server can be in: constructed, then any successful calls of `AddDocument` and
of the two `RemoveDocument` variants (a failed `AddDocument` leaves the state as it was). -/
inductive Reachable : SearchServer F → Prop where
  | init (stop_words : List Word) (s : SearchServer F) :
      SearchServer.new stop_words = .ok s → Reachable s
  | add (s s1 : SearchServer F) (document_id : Int) (document : List Char)
      (status : DocumentStatus) (ratings : List Int) :
      Reachable s → s.AddDocument document_id document status ratings = (.ok (), s1) →
      Reachable s1
  | remove (s s1 : SearchServer F) (document_id : Int) :
      Reachable s → s.RemoveDocument document_id = (.ok (), s1) → Reachable s1
  | removePar (s s1 : SearchServer F) (document_id : Int) :
      Reachable s → s.RemoveDocumentPar document_id = (.ok (), s1) → Reachable s1

end SearchServer

end SearchEngine

/-! ## Duplicates, batch queries and the request queue -/

namespace SearchEngine

variable {F : Type}

/-- The loop of `RemoveDuplicates` over the ids copied from the server: the collection of word
sets seen so far, the server, and the ids reported on `std::cout` so far. -/
def removeDuplicatesLoop :
    List Int → List (List Word) → SearchServer F → List Int →
      Except Failure Unit × SearchServer F × List Int
  | [], _, search_server, reported => (.ok (), search_server, reported)
  | id :: rest, unique_docs, search_server, reported =>
    let doc_words : List Word :=
      (search_server.GetWordFrequencies id).foldl (fun acc pair => setInsert pair.1 acc) []
    if doc_words ∈ unique_docs then
      match search_server.RemoveDocument id with
      | (.error e, s1) => (.error e, s1, reported ++ [id])
      | (.ok (), s1) => removeDuplicatesLoop rest unique_docs s1 (reported ++ [id])
    else removeDuplicatesLoop rest (doc_words :: unique_docs) search_server reported

/-- `RemoveDuplicates`: the outcome, the server after the call and the ids of the lines
"Found duplicate document id ..." in the order they are printed. -/
def RemoveDuplicates (search_server : SearchServer F) :
    Except Failure Unit × SearchServer F × List Int :=
  removeDuplicatesLoop search_server.document_ids_ [] search_server []

/-- `ProcessQueries`: one result list per query, in the order of the queries.  The source runs
the searches under `std::execution::par`, where an exception leaving a search ends the program;
the model reports that outcome as the failure of the first query that fails. -/
def ProcessQueries [LinearOrderedField F] (search_server : SearchServer F) (ln : F → F) :
    List (List Char) → Except Failure (List (List (Document F)))
  | [] => .ok []
  | query :: rest =>
    match search_server.FindTopDocumentsDefault ln query with
    | .error e => .error e
    | .ok docs =>
      match ProcessQueries search_server ln rest with
      | .error e => .error e
      | .ok more => .ok (docs :: more)

/-- `ProcessQueriesJoined`. -/
def ProcessQueriesJoined [LinearOrderedField F] (search_server : SearchServer F) (ln : F → F)
    (queries : List (List Char)) : Except Failure (List (Document F)) :=
  match ProcessQueries search_server ln queries with
  | .error e => .error e
  | .ok docs => .ok docs.flatten

/-- `RequestQueue::QueryResult`; `no_results_Count` is a `size_t`. -/
structure QueryResult where
  query : List Char
  no_result_status : Bool
  no_results_Count : Nat
  deriving DecidableEq, Repr

/-- The deque `requests_` of a `RequestQueue`, front first (the server is passed to each
call). -/
structure RequestQueue where
  requests_ : List QueryResult
  deriving DecidableEq, Repr

/-- The constant `RequestQueue::sec_in_day_`. -/
def sec_in_day_ : Nat := 1440

namespace RequestQueue

/-- `RequestQueue::AddFindRequest` with a predicate: the outcome and the queue after the call;
the arithmetic on `size_t` wraps modulo `2^64`. -/
def AddFindRequest [LinearOrderedField F] (rq : RequestQueue) (search_server : SearchServer F)
    (ln : F → F) (raw_query : List Char)
    (document_predicate : Int → DocumentStatus → Int → Bool) :
    Except Failure (List (Document F)) × RequestQueue :=
  match search_server.FindTopDocuments ln raw_query document_predicate with
  | .error e => (.error e, rq)
  | .ok request_content =>
    let query_result : QueryResult :=
      ⟨raw_query, request_content.isEmpty, if request_content.isEmpty then 1 else 0⟩
    match rq.requests_.getLast?, rq.requests_ with
    | some back, front :: others =>
      let count := (back.no_results_Count + query_result.no_results_Count) % 18446744073709551616
      if rq.requests_.length ≥ sec_in_day_ then
        let count1 :=
          (count + 18446744073709551616 - (if front.no_result_status then 1 else 0)) %
            18446744073709551616
        (.ok request_content,
          ⟨others ++ [{ query_result with no_results_Count := count1 }]⟩)
      else
        (.ok request_content,
          ⟨rq.requests_ ++ [{ query_result with no_results_Count := count }]⟩)
    | _, _ => (.ok request_content, ⟨rq.requests_ ++ [query_result]⟩)

/-- `RequestQueue::AddFindRequest` with a status. -/
def AddFindRequestStatus [LinearOrderedField F] (rq : RequestQueue)
    (search_server : SearchServer F) (ln : F → F) (raw_query : List Char)
    (status : DocumentStatus) : Except Failure (List (Document F)) × RequestQueue :=
  rq.AddFindRequest search_server ln raw_query (SearchServer.GetStatusPredicate status)

/-- `RequestQueue::AddFindRequest` with the query alone. -/
def AddFindRequestDefault [LinearOrderedField F] (rq : RequestQueue)
    (search_server : SearchServer F) (ln : F → F) (raw_query : List Char) :
    Except Failure (List (Document F)) × RequestQueue :=
  rq.AddFindRequestStatus search_server ln raw_query DocumentStatus.ACTUAL

/-- `RequestQueue::GetNoResultRequests`; `back()` of an empty deque is undefined behaviour. -/
def GetNoResultRequests (rq : RequestQueue) : Except Failure Int :=
  match rq.requests_.getLast? with
  | none => .error .undefined_behaviour
  | some back => .ok (wrapInt32 (back.no_results_Count : Int))

/-- The queues reached from a new `RequestQueue` by calls of `AddFindRequest`, with the record,
oldest call first, of whether the result of each call that returned was empty; a call that
throws adds nothing to the record.  The server may change between the calls. -/
inductive Served (F : Type) [LinearOrderedField F] : List Bool → RequestQueue → Prop where
  | new : Served F [] ⟨[]⟩
  | call (flags : List Bool) (rq rq1 : RequestQueue) (search_server : SearchServer F)
      (ln : F → F) (raw_query : List Char)
      (document_predicate : Int → DocumentStatus → Int → Bool) (docs : List (Document F)) :
      Served F flags rq →
      rq.AddFindRequest search_server ln raw_query document_predicate = (.ok docs, rq1) →
      Served F (flags ++ [docs.isEmpty]) rq1
  | throwing (flags : List Bool) (rq rq1 : RequestQueue) (search_server : SearchServer F)
      (ln : F → F) (raw_query : List Char)
      (document_predicate : Int → DocumentStatus → Int → Bool) (e : Failure) :
      Served F flags rq →
      rq.AddFindRequest search_server ln raw_query document_predicate = (.error e, rq1) →
      Served F flags rq1

end RequestQueue

end SearchEngine

/-! ## Invariants of the index -/

namespace SearchEngine

namespace SearchServer

variable {F : Type}

/-- The term frequency recorded for `(word, document_id)` in `word_to_document_freqs_`. -/
def tfW (s : SearchServer F) (word : Word) (document_id : Int) : Option F :=
  (OrdMap.lookup word s.word_to_document_freqs_).bind (OrdMap.lookup document_id)

/-- The term frequency recorded for `(document_id, word)` in `document_to_words_freqs_`. -/
def tfD (s : SearchServer F) (document_id : Int) (word : Word) : Option F :=
  (OrdMap.lookup document_id s.document_to_words_freqs_).bind (OrdMap.lookup word)

/-- The part of the invariant that concerns the two index maps; it also holds between the
iterations of the loop of `AddDocument`. -/
structure IndexInv (s : SearchServer F) : Prop where
  w2d_wf : OrdMap.WF s.word_to_document_freqs_
  w2d_inner : ∀ w p, OrdMap.lookup w s.word_to_document_freqs_ = some p → OrdMap.WF p
  d2w_wf : OrdMap.WF s.document_to_words_freqs_
  d2w_inner : ∀ d m, OrdMap.lookup d s.document_to_words_freqs_ = some m → OrdMap.WF m
  transpose : ∀ w d, s.tfW w d = s.tfD d w
  no_stop : ∀ d m, OrdMap.lookup d s.document_to_words_freqs_ = some m →
    ∀ w ∈ OrdMap.keys m, w ∉ s.stop_words_
  d2w_nonempty : ∀ d m, OrdMap.lookup d s.document_to_words_freqs_ = some m → m ≠ []

/-- The invariant of every reachable state. -/
structure Inv (s : SearchServer F) : Prop where
  index : IndexInv s
  docs_wf : OrdMap.WF s.documents_
  ids_eq : s.document_ids_ = OrdMap.keys s.documents_
  d2w_docs : ∀ d, d ∈ OrdMap.keys s.document_to_words_freqs_ → d ∈ OrdMap.keys s.documents_

end SearchServer

end SearchEngine

/-! ## Quantities used to describe the ranking -/

namespace SearchEngine

namespace SearchServer

variable {F : Type}

/-- The document predicate applied to the stored status and rating of `document_id`; false for a
document without metadata. -/
def docPred (s : SearchServer F) (document_predicate : Int → DocumentStatus → Int → Bool)
    (document_id : Int) : Bool :=
  match OrdMap.lookup document_id s.documents_ with
  | some data => document_predicate document_id data.status data.rating
  | none => false

/-- The rating stored for `document_id` (0 for a document without metadata). -/
def ratingOf (s : SearchServer F) (document_id : Int) : Int :=
  match OrdMap.lookup document_id s.documents_ with
  | some data => data.rating
  | none => 0

/-- The value `ComputeWordInverseDocumentFreq` computes for a word with the given postings. -/
def idfOf [LinearOrderedField F] (s : SearchServer F) (ln : F → F) (word : Word) : F :=
  ln ((s.GetDocumentCount : F) * 1 /
    ((((OrdMap.lookup word s.word_to_document_freqs_).getD []).length : Nat) : F))

/-- The sum of `tf * idf` of a document over a list of words (a word that is not in the document
adds 0). -/
def relevanceOf [LinearOrderedField F] (s : SearchServer F) (ln : F → F) (words : List Word)
    (document_id : Int) : F :=
  (words.map (fun w => (s.tfW w document_id).getD 0 * s.idfOf ln w)).sum

end SearchServer

end SearchEngine

/-! ## The set of matching documents -/

namespace SearchEngine

namespace SearchServer

variable {F : Type}

/-- Membership in the set of documents that match a parsed query under a predicate: the
predicate holds of the stored status and rating, `GetWordFrequencies` of the document has one of
the plus-words as a key, and has none of the minus-words as a key. -/
def inMatchSet (s : SearchServer F) (query : Query)
    (document_predicate : Int → DocumentStatus → Int → Bool) (document_id : Int) : Bool :=
  s.docPred document_predicate document_id &&
    query.plus_words.any
      (fun w => decide (w ∈ OrdMap.keys (s.GetWordFrequencies document_id))) &&
    !query.minus_words.any
      (fun w => decide (w ∈ OrdMap.keys (s.GetWordFrequencies document_id)))

end SearchServer

end SearchEngine

/-! ## Fixtures of the unit tests -/

namespace SearchEngine

/-- A server constructed without stop words (`SearchServer server("")`). -/
def emptyServer (F : Type) : SearchServer F := ⟨[], [], [], [], [], []⟩

/-- The server of `TestMatchDocumentNormalQuery`: no stop words and the one document 1. -/
def matchFixture (F : Type) [LinearOrderedField F] : SearchServer F :=
  ((emptyServer F).AddDocument 1 "cat in the city. cat is full and happy".toList
    DocumentStatus.ACTUAL [1]).2

/-- The server of `GetSearchServer` in the unit tests: five documents, no stop words. -/
def testFixture (F : Type) [LinearOrderedField F] : SearchServer F :=
  let s0 := ((emptyServer F).AddDocument 0 "dog in the cat cat happy".toList
    DocumentStatus.ACTUAL [1]).2
  let s1 := (s0.AddDocument 10 "cat and cat and happy cat".toList DocumentStatus.ACTUAL [5]).2
  let s2 := (s1.AddDocument 24 "dog the city dog is full happy".toList
    DocumentStatus.ACTUAL [1]).2
  let s3 := (s2.AddDocument 13 "cat and cat and cat cat".toList DocumentStatus.ACTUAL [1]).2
  (s3.AddDocument 43 "cat in cat and happy cat".toList DocumentStatus.ACTUAL [1]).2

/-- The text of `n` words "c", each after a space. -/
def fillerText : Nat → List Char
  | 0 => []
  | n + 1 => ' ' :: 'c' :: fillerText n

/-- The text "x c c ... c": the word "x" and then `n` words "c". -/
def nearTieText (n : Nat) : List Char := 'x' :: fillerText n

/-- Three documents of 633, 632 and 631 words that contain "x" once, rated 3, 2 and 1, and a
fourth document without "x". -/
def nearTieFixture (F : Type) [LinearOrderedField F] : SearchServer F :=
  let s1 := ((emptyServer F).AddDocument 1 (nearTieText 632) DocumentStatus.ACTUAL [3]).2
  let s2 := (s1.AddDocument 2 (nearTieText 631) DocumentStatus.ACTUAL [2]).2
  let s3 := (s2.AddDocument 3 (nearTieText 630) DocumentStatus.ACTUAL [1]).2
  (s3.AddDocument 4 "y".toList DocumentStatus.ACTUAL [1]).2

/-- The state of `GetSearchServer` after its first 1 calls of `AddDocument`, written out. -/
def testState1 (F : Type) [LinearOrderedField F] : SearchServer F :=
  { all_words_ := ["dog".toList, "in".toList, "the".toList, "cat".toList, "happy".toList]
    stop_words_ := []
    word_to_document_freqs_ :=
      [("cat".toList, [(0, 0 + 1 / ((6 : ℕ) : F) + 1 / ((6 : ℕ) : F))]),
       ("dog".toList, [(0, 0 + 1 / ((6 : ℕ) : F))]),
       ("happy".toList, [(0, 0 + 1 / ((6 : ℕ) : F))]),
       ("in".toList, [(0, 0 + 1 / ((6 : ℕ) : F))]),
       ("the".toList, [(0, 0 + 1 / ((6 : ℕ) : F))])]
    document_to_words_freqs_ :=
      [(0, [("cat".toList, 0 + 1 / ((6 : ℕ) : F) + 1 / ((6 : ℕ) : F)),
         ("dog".toList, 0 + 1 / ((6 : ℕ) : F)),
         ("happy".toList, 0 + 1 / ((6 : ℕ) : F)),
         ("in".toList, 0 + 1 / ((6 : ℕ) : F)),
         ("the".toList, 0 + 1 / ((6 : ℕ) : F))])]
    documents_ := [(0, ⟨1, DocumentStatus.ACTUAL⟩)]
    document_ids_ := [0] }

/-- The state of `GetSearchServer` after its first 2 calls of `AddDocument`, written out. -/
def testState2 (F : Type) [LinearOrderedField F] : SearchServer F :=
  { all_words_ := ["dog".toList, "in".toList, "the".toList, "cat".toList, "happy".toList,
      "and".toList]
    stop_words_ := []
    word_to_document_freqs_ :=
      [("and".toList, [(10, 0 + 1 / ((6 : ℕ) : F) + 1 / ((6 : ℕ) : F))]),
       ("cat".toList, [(0, 0 + 1 / ((6 : ℕ) : F) + 1 / ((6 : ℕ) : F)),
           (10, 0 + 1 / ((6 : ℕ) : F) + 1 / ((6 : ℕ) : F) + 1 / ((6 : ℕ) : F))]),
       ("dog".toList, [(0, 0 + 1 / ((6 : ℕ) : F))]),
       ("happy".toList, [(0, 0 + 1 / ((6 : ℕ) : F)), (10, 0 + 1 / ((6 : ℕ) : F))]),
       ("in".toList, [(0, 0 + 1 / ((6 : ℕ) : F))]),
       ("the".toList, [(0, 0 + 1 / ((6 : ℕ) : F))])]
    document_to_words_freqs_ :=
      [(0, [("cat".toList, 0 + 1 / ((6 : ℕ) : F) + 1 / ((6 : ℕ) : F)),
         ("dog".toList, 0 + 1 / ((6 : ℕ) : F)),
         ("happy".toList, 0 + 1 / ((6 : ℕ) : F)),
         ("in".toList, 0 + 1 / ((6 : ℕ) : F)),
         ("the".toList, 0 + 1 / ((6 : ℕ) : F))]),
       (10, [("and".toList, 0 + 1 / ((6 : ℕ) : F) + 1 / ((6 : ℕ) : F)),
         ("cat".toList, 0 + 1 / ((6 : ℕ) : F) + 1 / ((6 : ℕ) : F) + 1 / ((6 : ℕ) : F)),
         ("happy".toList, 0 + 1 / ((6 : ℕ) : F))])]
    documents_ := [(0, ⟨1, DocumentStatus.ACTUAL⟩), (10, ⟨5, DocumentStatus.ACTUAL⟩)]
    document_ids_ := [0, 10] }

/-- The state of `GetSearchServer` after its first 3 calls of `AddDocument`, written out. -/
def testState3 (F : Type) [LinearOrderedField F] : SearchServer F :=
  { all_words_ := ["dog".toList, "in".toList, "the".toList, "cat".toList, "happy".toList,
      "and".toList, "city".toList, "is".toList, "full".toList]
    stop_words_ := []
    word_to_document_freqs_ :=
      [("and".toList, [(10, 0 + 1 / ((6 : ℕ) : F) + 1 / ((6 : ℕ) : F))]),
       ("cat".toList, [(0, 0 + 1 / ((6 : ℕ) : F) + 1 / ((6 : ℕ) : F)),
           (10, 0 + 1 / ((6 : ℕ) : F) + 1 / ((6 : ℕ) : F) + 1 / ((6 : ℕ) : F))]),
       ("city".toList, [(24, 0 + 1 / ((7 : ℕ) : F))]),
       ("dog".toList, [(0, 0 + 1 / ((6 : ℕ) : F)),
           (24, 0 + 1 / ((7 : ℕ) : F) + 1 / ((7 : ℕ) : F))]),
       ("full".toList, [(24, 0 + 1 / ((7 : ℕ) : F))]),
       ("happy".toList, [(0, 0 + 1 / ((6 : ℕ) : F)), (10, 0 + 1 / ((6 : ℕ) : F)),
           (24, 0 + 1 / ((7 : ℕ) : F))]),
       ("in".toList, [(0, 0 + 1 / ((6 : ℕ) : F))]),
       ("is".toList, [(24, 0 + 1 / ((7 : ℕ) : F))]),
       ("the".toList, [(0, 0 + 1 / ((6 : ℕ) : F)), (24, 0 + 1 / ((7 : ℕ) : F))])]
    document_to_words_freqs_ :=
      [(0, [("cat".toList, 0 + 1 / ((6 : ℕ) : F) + 1 / ((6 : ℕ) : F)),
         ("dog".toList, 0 + 1 / ((6 : ℕ) : F)),
         ("happy".toList, 0 + 1 / ((6 : ℕ) : F)),
         ("in".toList, 0 + 1 / ((6 : ℕ) : F)),
         ("the".toList, 0 + 1 / ((6 : ℕ) : F))]),
       (10, [("and".toList, 0 + 1 / ((6 : ℕ) : F) + 1 / ((6 : ℕ) : F)),
         ("cat".toList, 0 + 1 / ((6 : ℕ) : F) + 1 / ((6 : ℕ) : F) + 1 / ((6 : ℕ) : F)),
         ("happy".toList, 0 + 1 / ((6 : ℕ) : F))]),
       (24, [("city".toList, 0 + 1 / ((7 : ℕ) : F)),
         ("dog".toList, 0 + 1 / ((7 : ℕ) : F) + 1 / ((7 : ℕ) : F)),
         ("full".toList, 0 + 1 / ((7 : ℕ) : F)),
         ("happy".toList, 0 + 1 / ((7 : ℕ) : F)),
         ("is".toList, 0 + 1 / ((7 : ℕ) : F)),
         ("the".toList, 0 + 1 / ((7 : ℕ) : F))])]
    documents_ := [(0, ⟨1, DocumentStatus.ACTUAL⟩), (10, ⟨5, DocumentStatus.ACTUAL⟩),
        (24, ⟨1, DocumentStatus.ACTUAL⟩)]
    document_ids_ := [0, 10, 24] }

/-- The state of `GetSearchServer` after its first 4 calls of `AddDocument`, written out. -/
def testState4 (F : Type) [LinearOrderedField F] : SearchServer F :=
  { all_words_ := ["dog".toList, "in".toList, "the".toList, "cat".toList, "happy".toList,
      "and".toList, "city".toList, "is".toList, "full".toList]
    stop_words_ := []
    word_to_document_freqs_ :=
      [("and".toList, [(10, 0 + 1 / ((6 : ℕ) : F) + 1 / ((6 : ℕ) : F)),
          (13, 0 + 1 / ((6 : ℕ) : F) + 1 / ((6 : ℕ) : F))]),
       ("cat".toList, [(0, 0 + 1 / ((6 : ℕ) : F) + 1 / ((6 : ℕ) : F)),
           (10, 0 + 1 / ((6 : ℕ) : F) + 1 / ((6 : ℕ) : F) + 1 / ((6 : ℕ) : F)),
               (13, 0 + 1 / ((6 : ℕ) : F) + 1 / ((6 : ℕ) : F) + 1 / ((6 : ℕ) : F) + 1 / ((6 : ℕ) : F))]),
       ("city".toList, [(24, 0 + 1 / ((7 : ℕ) : F))]),
       ("dog".toList, [(0, 0 + 1 / ((6 : ℕ) : F)),
           (24, 0 + 1 / ((7 : ℕ) : F) + 1 / ((7 : ℕ) : F))]),
       ("full".toList, [(24, 0 + 1 / ((7 : ℕ) : F))]),
       ("happy".toList, [(0, 0 + 1 / ((6 : ℕ) : F)), (10, 0 + 1 / ((6 : ℕ) : F)),
           (24, 0 + 1 / ((7 : ℕ) : F))]),
       ("in".toList, [(0, 0 + 1 / ((6 : ℕ) : F))]),
       ("is".toList, [(24, 0 + 1 / ((7 : ℕ) : F))]),
       ("the".toList, [(0, 0 + 1 / ((6 : ℕ) : F)), (24, 0 + 1 / ((7 : ℕ) : F))])]
    document_to_words_freqs_ :=
      [(0, [("cat".toList, 0 + 1 / ((6 : ℕ) : F) + 1 / ((6 : ℕ) : F)),
         ("dog".toList, 0 + 1 / ((6 : ℕ) : F)),
         ("happy".toList, 0 + 1 / ((6 : ℕ) : F)),
         ("in".toList, 0 + 1 / ((6 : ℕ) : F)),
         ("the".toList, 0 + 1 / ((6 : ℕ) : F))]),
       (10, [("and".toList, 0 + 1 / ((6 : ℕ) : F) + 1 / ((6 : ℕ) : F)),
         ("cat".toList, 0 + 1 / ((6 : ℕ) : F) + 1 / ((6 : ℕ) : F) + 1 / ((6 : ℕ) : F)),
         ("happy".toList, 0 + 1 / ((6 : ℕ) : F))]),
       (13, [("and".toList, 0 + 1 / ((6 : ℕ) : F) + 1 / ((6 : ℕ) : F)),
         ("cat".toList, 0 + 1 / ((6 : ℕ) : F) + 1 / ((6 : ℕ) : F) + 1 / ((6 : ℕ) : F) + 1 / ((6 : ℕ) : F))]),
       (24, [("city".toList, 0 + 1 / ((7 : ℕ) : F)),
         ("dog".toList, 0 + 1 / ((7 : ℕ) : F) + 1 / ((7 : ℕ) : F)),
         ("full".toList, 0 + 1 / ((7 : ℕ) : F)),
         ("happy".toList, 0 + 1 / ((7 : ℕ) : F)),
         ("is".toList, 0 + 1 / ((7 : ℕ) : F)),
         ("the".toList, 0 + 1 / ((7 : ℕ) : F))])]
    documents_ := [(0, ⟨1, DocumentStatus.ACTUAL⟩), (10, ⟨5, DocumentStatus.ACTUAL⟩),
        (13, ⟨1, DocumentStatus.ACTUAL⟩), (24, ⟨1, DocumentStatus.ACTUAL⟩)]
    document_ids_ := [0, 10, 13, 24] }

/-- The state of `GetSearchServer` after its first 5 calls of `AddDocument`, written out. -/
def testState5 (F : Type) [LinearOrderedField F] : SearchServer F :=
  { all_words_ := ["dog".toList, "in".toList, "the".toList, "cat".toList, "happy".toList,
      "and".toList, "city".toList, "is".toList, "full".toList]
    stop_words_ := []
    word_to_document_freqs_ :=
      [("and".toList, [(10, 0 + 1 / ((6 : ℕ) : F) + 1 / ((6 : ℕ) : F)),
          (13, 0 + 1 / ((6 : ℕ) : F) + 1 / ((6 : ℕ) : F)), (43, 0 + 1 / ((6 : ℕ) : F))]),
       ("cat".toList, [(0, 0 + 1 / ((6 : ℕ) : F) + 1 / ((6 : ℕ) : F)),
           (10, 0 + 1 / ((6 : ℕ) : F) + 1 / ((6 : ℕ) : F) + 1 / ((6 : ℕ) : F)),
               (13, 0 + 1 / ((6 : ℕ) : F) + 1 / ((6 : ℕ) : F) + 1 / ((6 : ℕ) : F) + 1 / ((6 : ℕ) : F)), (43, 0 + 1 / ((6 : ℕ) : F) + 1 / ((6 : ℕ) : F) + 1 / ((6 : ℕ) : F))]),
       ("city".toList, [(24, 0 + 1 / ((7 : ℕ) : F))]),
       ("dog".toList, [(0, 0 + 1 / ((6 : ℕ) : F)),
           (24, 0 + 1 / ((7 : ℕ) : F) + 1 / ((7 : ℕ) : F))]),
       ("full".toList, [(24, 0 + 1 / ((7 : ℕ) : F))]),
       ("happy".toList, [(0, 0 + 1 / ((6 : ℕ) : F)), (10, 0 + 1 / ((6 : ℕ) : F)),
           (24, 0 + 1 / ((7 : ℕ) : F)), (43, 0 + 1 / ((6 : ℕ) : F))]),
       ("in".toList, [(0, 0 + 1 / ((6 : ℕ) : F)), (43, 0 + 1 / ((6 : ℕ) : F))]),
       ("is".toList, [(24, 0 + 1 / ((7 : ℕ) : F))]),
       ("the".toList, [(0, 0 + 1 / ((6 : ℕ) : F)), (24, 0 + 1 / ((7 : ℕ) : F))])]
    document_to_words_freqs_ :=
      [(0, [("cat".toList, 0 + 1 / ((6 : ℕ) : F) + 1 / ((6 : ℕ) : F)),
         ("dog".toList, 0 + 1 / ((6 : ℕ) : F)),
         ("happy".toList, 0 + 1 / ((6 : ℕ) : F)),
         ("in".toList, 0 + 1 / ((6 : ℕ) : F)),
         ("the".toList, 0 + 1 / ((6 : ℕ) : F))]),
       (10, [("and".toList, 0 + 1 / ((6 : ℕ) : F) + 1 / ((6 : ℕ) : F)),
         ("cat".toList, 0 + 1 / ((6 : ℕ) : F) + 1 / ((6 : ℕ) : F) + 1 / ((6 : ℕ) : F)),
         ("happy".toList, 0 + 1 / ((6 : ℕ) : F))]),
       (13, [("and".toList, 0 + 1 / ((6 : ℕ) : F) + 1 / ((6 : ℕ) : F)),
         ("cat".toList, 0 + 1 / ((6 : ℕ) : F) + 1 / ((6 : ℕ) : F) + 1 / ((6 : ℕ) : F) + 1 / ((6 : ℕ) : F))]),
       (24, [("city".toList, 0 + 1 / ((7 : ℕ) : F)),
         ("dog".toList, 0 + 1 / ((7 : ℕ) : F) + 1 / ((7 : ℕ) : F)),
         ("full".toList, 0 + 1 / ((7 : ℕ) : F)),
         ("happy".toList, 0 + 1 / ((7 : ℕ) : F)),
         ("is".toList, 0 + 1 / ((7 : ℕ) : F)),
         ("the".toList, 0 + 1 / ((7 : ℕ) : F))]),
       (43, [("and".toList, 0 + 1 / ((6 : ℕ) : F)),
         ("cat".toList, 0 + 1 / ((6 : ℕ) : F) + 1 / ((6 : ℕ) : F) + 1 / ((6 : ℕ) : F)),
         ("happy".toList, 0 + 1 / ((6 : ℕ) : F)),
         ("in".toList, 0 + 1 / ((6 : ℕ) : F))])]
    documents_ := [(0, ⟨1, DocumentStatus.ACTUAL⟩), (10, ⟨5, DocumentStatus.ACTUAL⟩),
        (13, ⟨1, DocumentStatus.ACTUAL⟩), (24, ⟨1, DocumentStatus.ACTUAL⟩),
            (43, ⟨1, DocumentStatus.ACTUAL⟩)]
    document_ids_ := [0, 10, 13, 24, 43] }

end SearchEngine

/-! ## Fixtures for removal and matching -/

namespace SearchEngine

/-- A server without stop words that holds the one document 1, added with an empty text. -/
def emptyDocFixture (F : Type) [LinearOrderedField F] : SearchServer F :=
  ((emptyServer F).AddDocument 1 [] DocumentStatus.ACTUAL []).2

/-- A server without stop words that holds the documents 1 and 2, both added with an empty
text. -/
def twoEmptyDocsFixture (F : Type) [LinearOrderedField F] : SearchServer F :=
  ((emptyDocFixture F).AddDocument 2 [] DocumentStatus.ACTUAL []).2

/-- A server without stop words that holds the one document 1 with the text "a". -/
def oneWordFixture (F : Type) [LinearOrderedField F] : SearchServer F :=
  ((emptyServer F).AddDocument 1 "a".toList DocumentStatus.ACTUAL []).2

/-- The server left by the parallel removal of the document of `oneWordFixture`. -/
def afterParRemovalFixture (F : Type) [LinearOrderedField F] : SearchServer F :=
  ((oneWordFixture F).RemoveDocumentPar 1).2

/-- The server constructed with the stop words "and with" (`SearchServer server("and with")`). -/
def stopWordsServer (F : Type) : SearchServer F :=
  ⟨[], ["and".toList, "with".toList], [], [], [], []⟩

/-- The server of `TestRemoveDuplicates` before the call of `RemoveDuplicates`: stop words "and"
and "with" and nine documents. -/
def duplicatesFixture (F : Type) [LinearOrderedField F] : SearchServer F :=
  let s1 := ((stopWordsServer F).AddDocument 1 "funny pet and nasty rat".toList
    DocumentStatus.ACTUAL [7, 2, 7]).2
  let s2 := (s1.AddDocument 2 "funny pet with curly hair".toList DocumentStatus.ACTUAL [1, 2]).2
  let s3 := (s2.AddDocument 3 "funny pet with curly hair".toList DocumentStatus.ACTUAL [1, 2]).2
  let s4 := (s3.AddDocument 4 "funny pet and curly hair".toList DocumentStatus.ACTUAL [1, 2]).2
  let s5 := (s4.AddDocument 5 "funny funny pet and nasty nasty rat".toList
    DocumentStatus.ACTUAL [1, 2]).2
  let s6 := (s5.AddDocument 6 "funny pet and not very nasty rat".toList
    DocumentStatus.ACTUAL [1, 2]).2
  let s7 := (s6.AddDocument 7 "very nasty rat and not very funny pet".toList
    DocumentStatus.ACTUAL [1, 2]).2
  let s8 := (s7.AddDocument 8 "pet with rat and rat and rat".toList
    DocumentStatus.ACTUAL [1, 2]).2
  (s8.AddDocument 9 "nasty rat with curly hair".toList DocumentStatus.ACTUAL [1, 2]).2

end SearchEngine

/-! ## Fixtures for stop words -/

namespace SearchEngine

/-- The server of `TestStopWordStringConstructor` without stop words: the one document 42. -/
def cityFixture (F : Type) [LinearOrderedField F] : SearchServer F :=
  ((emptyServer F).AddDocument 42 "cat in the city".toList DocumentStatus.ACTUAL [1, 2, 3]).2

/-- The server constructed with the stop words "in the" (`SearchServer server("in the")`). -/
def inTheServer (F : Type) : SearchServer F :=
  ⟨[], ["in".toList, "the".toList], [], [], [], []⟩

/-- The server of `TestStopWordStringConstructor` with the stop words "in the" and the one
document 42. -/
def cityStopFixture (F : Type) [LinearOrderedField F] : SearchServer F :=
  ((inTheServer F).AddDocument 42 "cat in the city".toList DocumentStatus.ACTUAL [1, 2, 3]).2

/-- The server constructed with the one stop word "-" (`SearchServer server("-")`). -/
def dashStopServer (F : Type) : SearchServer F :=
  ⟨[], ["-".toList], [], [], [], []⟩

/-- The server constructed from the collection that holds the one string "in the". -/
def phraseStopServer (F : Type) : SearchServer F :=
  ⟨[], ["in the".toList], [], [], [], []⟩

/-- The server `phraseStopServer` with the one document 42. -/
def phraseStopFixture (F : Type) [LinearOrderedField F] : SearchServer F :=
  ((phraseStopServer F).AddDocument 42 "cat in the city".toList DocumentStatus.ACTUAL
    [1, 2, 3]).2

/-- The server constructed with the one stop word "-in" (`SearchServer server("-in")`). -/
def minusStopServer (F : Type) : SearchServer F :=
  ⟨[], ["-in".toList], [], [], [], []⟩

/-- The server `minusStopServer` with the one document 42. -/
def minusStopFixture (F : Type) [LinearOrderedField F] : SearchServer F :=
  ((minusStopServer F).AddDocument 42 "cat in the city".toList DocumentStatus.ACTUAL
    [1, 2, 3]).2

/-- The server constructed with the one stop word "--in" (`SearchServer server("--in")`). -/
def doubleDashStopServer (F : Type) : SearchServer F :=
  ⟨[], ["--in".toList], [], [], [], []⟩

/-- The server without stop words that holds the one document 42 with the text
"cat -in the city". -/
def minusWordFixture (F : Type) [LinearOrderedField F] : SearchServer F :=
  ((emptyServer F).AddDocument 42 "cat -in the city".toList DocumentStatus.ACTUAL [1, 2, 3]).2

end SearchEngine

/-! ## Fixtures for batches of queries and for the request queue -/

namespace SearchEngine

/-- The server of `TestProcessQueries`: stop words "and with" and five documents. -/
def queriesFixture (F : Type) [LinearOrderedField F] : SearchServer F :=
  let s1 := ((stopWordsServer F).AddDocument 1 "funny pet and nasty rat".toList
    DocumentStatus.ACTUAL [1, 2]).2
  let s2 := (s1.AddDocument 2 "funny pet with curly hair".toList DocumentStatus.ACTUAL [1, 2]).2
  let s3 := (s2.AddDocument 3 "funny pet and not very nasty rat".toList
    DocumentStatus.ACTUAL [1, 2]).2
  let s4 := (s3.AddDocument 4 "pet with rat and rat and rat".toList
    DocumentStatus.ACTUAL [1, 2]).2
  (s4.AddDocument 5 "nasty rat with curly hair".toList DocumentStatus.ACTUAL [1, 2]).2

/-- The queries of `TestProcessQueries`. -/
def queriesOfTest : List (List Char) :=
  ["nasty rat -not".toList, "not very funny nasty pet".toList, "curly hair".toList]

/-- The server of `TestProcessQueries` after its first 1 calls of `AddDocument`, written
out. -/
def queriesState1 (F : Type) [LinearOrderedField F] : SearchServer F :=
  { all_words_ :=
      ["funny".toList, "pet".toList, "nasty".toList, "rat".toList]
    stop_words_ := ["and".toList, "with".toList]
    word_to_document_freqs_ :=
      [("funny".toList,
         [(1, 0 + 1 / ((4 : ℕ) : F))]),
       ("nasty".toList,
         [(1, 0 + 1 / ((4 : ℕ) : F))]),
       ("pet".toList,
         [(1, 0 + 1 / ((4 : ℕ) : F))]),
       ("rat".toList,
         [(1, 0 + 1 / ((4 : ℕ) : F))])]
    document_to_words_freqs_ :=
      [(1,
         [("funny".toList, 0 + 1 / ((4 : ℕ) : F)), ("nasty".toList, 0 + 1 / ((4 : ℕ) : F)),
          ("pet".toList, 0 + 1 / ((4 : ℕ) : F)), ("rat".toList, 0 + 1 / ((4 : ℕ) : F))])]
    documents_ :=
      [(1, ⟨1, DocumentStatus.ACTUAL⟩)]
    document_ids_ := [1] }

/-- The server of `TestProcessQueries` after its first 2 calls of `AddDocument`, written
out. -/
def queriesState2 (F : Type) [LinearOrderedField F] : SearchServer F :=
  { all_words_ :=
      ["funny".toList, "pet".toList, "nasty".toList, "rat".toList, "curly".toList, "hair".toList]
    stop_words_ := ["and".toList, "with".toList]
    word_to_document_freqs_ :=
      [("curly".toList,
         [(2, 0 + 1 / ((4 : ℕ) : F))]),
       ("funny".toList,
         [(1, 0 + 1 / ((4 : ℕ) : F)), (2, 0 + 1 / ((4 : ℕ) : F))]),
       ("hair".toList,
         [(2, 0 + 1 / ((4 : ℕ) : F))]),
       ("nasty".toList,
         [(1, 0 + 1 / ((4 : ℕ) : F))]),
       ("pet".toList,
         [(1, 0 + 1 / ((4 : ℕ) : F)), (2, 0 + 1 / ((4 : ℕ) : F))]),
       ("rat".toList,
         [(1, 0 + 1 / ((4 : ℕ) : F))])]
    document_to_words_freqs_ :=
      [(1,
         [("funny".toList, 0 + 1 / ((4 : ℕ) : F)), ("nasty".toList, 0 + 1 / ((4 : ℕ) : F)),
          ("pet".toList, 0 + 1 / ((4 : ℕ) : F)), ("rat".toList, 0 + 1 / ((4 : ℕ) : F))]),
       (2,
         [("curly".toList, 0 + 1 / ((4 : ℕ) : F)), ("funny".toList, 0 + 1 / ((4 : ℕ) : F)),
          ("hair".toList, 0 + 1 / ((4 : ℕ) : F)), ("pet".toList, 0 + 1 / ((4 : ℕ) : F))])]
    documents_ :=
      [(1, ⟨1, DocumentStatus.ACTUAL⟩), (2, ⟨1, DocumentStatus.ACTUAL⟩)]
    document_ids_ := [1, 2] }

/-- The server of `TestProcessQueries` after its first 3 calls of `AddDocument`, written
out. -/
def queriesState3 (F : Type) [LinearOrderedField F] : SearchServer F :=
  { all_words_ :=
      ["funny".toList, "pet".toList, "nasty".toList, "rat".toList, "curly".toList, "hair".toList,
       "not".toList, "very".toList]
    stop_words_ := ["and".toList, "with".toList]
    word_to_document_freqs_ :=
      [("curly".toList,
         [(2, 0 + 1 / ((4 : ℕ) : F))]),
       ("funny".toList,
         [(1, 0 + 1 / ((4 : ℕ) : F)), (2, 0 + 1 / ((4 : ℕ) : F)), (3, 0 + 1 / ((6 : ℕ) : F))]),
       ("hair".toList,
         [(2, 0 + 1 / ((4 : ℕ) : F))]),
       ("nasty".toList,
         [(1, 0 + 1 / ((4 : ℕ) : F)), (3, 0 + 1 / ((6 : ℕ) : F))]),
       ("not".toList,
         [(3, 0 + 1 / ((6 : ℕ) : F))]),
       ("pet".toList,
         [(1, 0 + 1 / ((4 : ℕ) : F)), (2, 0 + 1 / ((4 : ℕ) : F)), (3, 0 + 1 / ((6 : ℕ) : F))]),
       ("rat".toList,
         [(1, 0 + 1 / ((4 : ℕ) : F)), (3, 0 + 1 / ((6 : ℕ) : F))]),
       ("very".toList,
         [(3, 0 + 1 / ((6 : ℕ) : F))])]
    document_to_words_freqs_ :=
      [(1,
         [("funny".toList, 0 + 1 / ((4 : ℕ) : F)), ("nasty".toList, 0 + 1 / ((4 : ℕ) : F)),
          ("pet".toList, 0 + 1 / ((4 : ℕ) : F)), ("rat".toList, 0 + 1 / ((4 : ℕ) : F))]),
       (2,
         [("curly".toList, 0 + 1 / ((4 : ℕ) : F)), ("funny".toList, 0 + 1 / ((4 : ℕ) : F)),
          ("hair".toList, 0 + 1 / ((4 : ℕ) : F)), ("pet".toList, 0 + 1 / ((4 : ℕ) : F))]),
       (3,
         [("funny".toList, 0 + 1 / ((6 : ℕ) : F)), ("nasty".toList, 0 + 1 / ((6 : ℕ) : F)),
          ("not".toList, 0 + 1 / ((6 : ℕ) : F)), ("pet".toList, 0 + 1 / ((6 : ℕ) : F)),
          ("rat".toList, 0 + 1 / ((6 : ℕ) : F)), ("very".toList, 0 + 1 / ((6 : ℕ) : F))])]
    documents_ :=
      [(1, ⟨1, DocumentStatus.ACTUAL⟩), (2, ⟨1, DocumentStatus.ACTUAL⟩),
       (3, ⟨1, DocumentStatus.ACTUAL⟩)]
    document_ids_ := [1, 2, 3] }

/-- The server of `TestProcessQueries` after its first 4 calls of `AddDocument`, written
out. -/
def queriesState4 (F : Type) [LinearOrderedField F] : SearchServer F :=
  { all_words_ :=
      ["funny".toList, "pet".toList, "nasty".toList, "rat".toList, "curly".toList, "hair".toList,
       "not".toList, "very".toList]
    stop_words_ := ["and".toList, "with".toList]
    word_to_document_freqs_ :=
      [("curly".toList,
         [(2, 0 + 1 / ((4 : ℕ) : F))]),
       ("funny".toList,
         [(1, 0 + 1 / ((4 : ℕ) : F)), (2, 0 + 1 / ((4 : ℕ) : F)), (3, 0 + 1 / ((6 : ℕ) : F))]),
       ("hair".toList,
         [(2, 0 + 1 / ((4 : ℕ) : F))]),
       ("nasty".toList,
         [(1, 0 + 1 / ((4 : ℕ) : F)), (3, 0 + 1 / ((6 : ℕ) : F))]),
       ("not".toList,
         [(3, 0 + 1 / ((6 : ℕ) : F))]),
       ("pet".toList,
         [(1, 0 + 1 / ((4 : ℕ) : F)), (2, 0 + 1 / ((4 : ℕ) : F)), (3, 0 + 1 / ((6 : ℕ) : F)),
          (4, 0 + 1 / ((4 : ℕ) : F))]),
       ("rat".toList,
         [(1, 0 + 1 / ((4 : ℕ) : F)), (3, 0 + 1 / ((6 : ℕ) : F)),
          (4, 0 + 1 / ((4 : ℕ) : F) + 1 / ((4 : ℕ) : F) + 1 / ((4 : ℕ) : F))]),
       ("very".toList,
         [(3, 0 + 1 / ((6 : ℕ) : F))])]
    document_to_words_freqs_ :=
      [(1,
         [("funny".toList, 0 + 1 / ((4 : ℕ) : F)), ("nasty".toList, 0 + 1 / ((4 : ℕ) : F)),
          ("pet".toList, 0 + 1 / ((4 : ℕ) : F)), ("rat".toList, 0 + 1 / ((4 : ℕ) : F))]),
       (2,
         [("curly".toList, 0 + 1 / ((4 : ℕ) : F)), ("funny".toList, 0 + 1 / ((4 : ℕ) : F)),
          ("hair".toList, 0 + 1 / ((4 : ℕ) : F)), ("pet".toList, 0 + 1 / ((4 : ℕ) : F))]),
       (3,
         [("funny".toList, 0 + 1 / ((6 : ℕ) : F)), ("nasty".toList, 0 + 1 / ((6 : ℕ) : F)),
          ("not".toList, 0 + 1 / ((6 : ℕ) : F)), ("pet".toList, 0 + 1 / ((6 : ℕ) : F)),
          ("rat".toList, 0 + 1 / ((6 : ℕ) : F)), ("very".toList, 0 + 1 / ((6 : ℕ) : F))]),
       (4,
         [("pet".toList, 0 + 1 / ((4 : ℕ) : F)),
          ("rat".toList, 0 + 1 / ((4 : ℕ) : F) + 1 / ((4 : ℕ) : F) + 1 / ((4 : ℕ) : F))])]
    documents_ :=
      [(1, ⟨1, DocumentStatus.ACTUAL⟩), (2, ⟨1, DocumentStatus.ACTUAL⟩),
       (3, ⟨1, DocumentStatus.ACTUAL⟩), (4, ⟨1, DocumentStatus.ACTUAL⟩)]
    document_ids_ := [1, 2, 3, 4] }

/-- The server of `TestProcessQueries` after its first 5 calls of `AddDocument`, written
out. -/
def queriesState5 (F : Type) [LinearOrderedField F] : SearchServer F :=
  { all_words_ :=
      ["funny".toList, "pet".toList, "nasty".toList, "rat".toList, "curly".toList, "hair".toList,
       "not".toList, "very".toList]
    stop_words_ := ["and".toList, "with".toList]
    word_to_document_freqs_ :=
      [("curly".toList,
         [(2, 0 + 1 / ((4 : ℕ) : F)), (5, 0 + 1 / ((4 : ℕ) : F))]),
       ("funny".toList,
         [(1, 0 + 1 / ((4 : ℕ) : F)), (2, 0 + 1 / ((4 : ℕ) : F)), (3, 0 + 1 / ((6 : ℕ) : F))]),
       ("hair".toList,
         [(2, 0 + 1 / ((4 : ℕ) : F)), (5, 0 + 1 / ((4 : ℕ) : F))]),
       ("nasty".toList,
         [(1, 0 + 1 / ((4 : ℕ) : F)), (3, 0 + 1 / ((6 : ℕ) : F)), (5, 0 + 1 / ((4 : ℕ) : F))]),
       ("not".toList,
         [(3, 0 + 1 / ((6 : ℕ) : F))]),
       ("pet".toList,
         [(1, 0 + 1 / ((4 : ℕ) : F)), (2, 0 + 1 / ((4 : ℕ) : F)), (3, 0 + 1 / ((6 : ℕ) : F)),
          (4, 0 + 1 / ((4 : ℕ) : F))]),
       ("rat".toList,
         [(1, 0 + 1 / ((4 : ℕ) : F)), (3, 0 + 1 / ((6 : ℕ) : F)),
          (4, 0 + 1 / ((4 : ℕ) : F) + 1 / ((4 : ℕ) : F) + 1 / ((4 : ℕ) : F)),
          (5, 0 + 1 / ((4 : ℕ) : F))]),
       ("very".toList,
         [(3, 0 + 1 / ((6 : ℕ) : F))])]
    document_to_words_freqs_ :=
      [(1,
         [("funny".toList, 0 + 1 / ((4 : ℕ) : F)), ("nasty".toList, 0 + 1 / ((4 : ℕ) : F)),
          ("pet".toList, 0 + 1 / ((4 : ℕ) : F)), ("rat".toList, 0 + 1 / ((4 : ℕ) : F))]),
       (2,
         [("curly".toList, 0 + 1 / ((4 : ℕ) : F)), ("funny".toList, 0 + 1 / ((4 : ℕ) : F)),
          ("hair".toList, 0 + 1 / ((4 : ℕ) : F)), ("pet".toList, 0 + 1 / ((4 : ℕ) : F))]),
       (3,
         [("funny".toList, 0 + 1 / ((6 : ℕ) : F)), ("nasty".toList, 0 + 1 / ((6 : ℕ) : F)),
          ("not".toList, 0 + 1 / ((6 : ℕ) : F)), ("pet".toList, 0 + 1 / ((6 : ℕ) : F)),
          ("rat".toList, 0 + 1 / ((6 : ℕ) : F)), ("very".toList, 0 + 1 / ((6 : ℕ) : F))]),
       (4,
         [("pet".toList, 0 + 1 / ((4 : ℕ) : F)),
          ("rat".toList, 0 + 1 / ((4 : ℕ) : F) + 1 / ((4 : ℕ) : F) + 1 / ((4 : ℕ) : F))]),
       (5,
         [("curly".toList, 0 + 1 / ((4 : ℕ) : F)), ("hair".toList, 0 + 1 / ((4 : ℕ) : F)),
          ("nasty".toList, 0 + 1 / ((4 : ℕ) : F)), ("rat".toList, 0 + 1 / ((4 : ℕ) : F))])]
    documents_ :=
      [(1, ⟨1, DocumentStatus.ACTUAL⟩), (2, ⟨1, DocumentStatus.ACTUAL⟩),
       (3, ⟨1, DocumentStatus.ACTUAL⟩), (4, ⟨1, DocumentStatus.ACTUAL⟩),
       (5, ⟨1, DocumentStatus.ACTUAL⟩)]
    document_ids_ := [1, 2, 3, 4, 5] }

end SearchEngine

/-! ## The `std::sort` of libstdc++

`FindTopDocuments` sorts with `std::sort`, which the C++ standard does not require to be stable.
This section embeds the implementation of libstdc++ (GCC 12, `bits/stl_algo.h` and
`bits/stl_heap.h`), function by function, on a vector given as a list; positions are indices
from the start of the vector, and `none` stands for an access outside the vector (undefined
behaviour).  The loops carry a `fuel` or a `count` that is at least the number of their turns. -/

namespace SearchEngine

namespace Libstdcxx

variable {α : Type}

/-- `std::__lg`: the floor of the binary logarithm (0 for 0 and 1). -/
def lg : Nat → Nat → Nat
  | 0, _ => 0
  | fuel + 1, n => if n < 2 then 0 else lg fuel (n / 2) + 1

/-- `std::iter_swap` of two positions of the vector. -/
def iter_swap (v : List α) (a b : Nat) : Option (List α) :=
  match v[a]?, v[b]? with
  | some x, some y => some ((v.set a y).set b x)
  | _, _ => none

/-- `std::__move_median_to_first`. -/
def move_median_to_first (comp : α → α → Bool) (v : List α) (result a b c : Nat) :
    Option (List α) :=
  match v[a]?, v[b]?, v[c]? with
  | some x, some y, some z =>
    if comp x y then
      if comp y z then iter_swap v result b
      else if comp x z then iter_swap v result c
      else iter_swap v result a
    else if comp x z then iter_swap v result a
    else if comp y z then iter_swap v result c
    else iter_swap v result b
  | _, _, _ => none

/-- The loop `while (comp(first, pivot)) ++first;` of `std::__unguarded_partition`: the position
at which it stops. -/
def scanUp (comp : α → α → Bool) (v : List α) (pivot : Nat) : Nat → Nat → Option Nat
  | 0, _ => none
  | fuel + 1, first =>
    match v[first]?, v[pivot]? with
    | some x, some p => if comp x p then scanUp comp v pivot fuel (first + 1) else some first
    | _, _ => none

/-- The loop `while (comp(pivot, last)) --last;` of `std::__unguarded_partition`: the position
at which it stops. -/
def scanDown (comp : α → α → Bool) (v : List α) (pivot : Nat) : Nat → Option Nat
  | 0 =>
    match v[0]?, v[pivot]? with
    | some x, some p => if comp p x then none else some 0
    | _, _ => none
  | last + 1 =>
    match v[last + 1]?, v[pivot]? with
    | some x, some p => if comp p x then scanDown comp v pivot last else some (last + 1)
    | _, _ => none

/-- `std::__unguarded_partition`: the vector and the cut. -/
def unguarded_partition (comp : α → α → Bool) (pivot : Nat) :
    Nat → List α → Nat → Nat → Option (List α × Nat)
  | 0, _, _, _ => none
  | fuel + 1, v, first, last =>
    match scanUp comp v pivot (v.length + 1) first with
    | none => none
    | some first1 =>
      match last with
      | 0 => none
      | last0 + 1 =>
        match scanDown comp v pivot last0 with
        | none => none
        | some last1 =>
          if first1 < last1 then
            match iter_swap v first1 last1 with
            | none => none
            | some v1 => unguarded_partition comp pivot fuel v1 (first1 + 1) last1
          else some (v, first1)

/-- `std::__unguarded_partition_pivot`. -/
def unguarded_partition_pivot (comp : α → α → Bool) (v : List α) (first last : Nat) :
    Option (List α × Nat) :=
  let mid := first + (last - first) / 2
  match move_median_to_first comp v first (first + 1) mid (last - 1) with
  | none => none
  | some v1 => unguarded_partition comp first (v1.length + 1) v1 (first + 1) last

/-- `std::__push_heap`. -/
def push_heap (comp : α → α → Bool) (first topIndex : Nat) (value : α) :
    Nat → List α → Nat → Option (List α)
  | 0, _, _ => none
  | fuel + 1, v, holeIndex =>
    let parent := (holeIndex - 1) / 2
    if holeIndex > topIndex then
      match v[first + parent]? with
      | none => none
      | some x =>
        if comp x value then push_heap comp first topIndex value fuel
          (v.set (first + holeIndex) x) parent
        else if first + holeIndex < v.length then some (v.set (first + holeIndex) value)
        else none
    else if first + holeIndex < v.length then some (v.set (first + holeIndex) value)
    else none

/-- The `while` loop of `std::__adjust_heap`: the vector, `holeIndex` and `secondChild`. -/
def adjust_heap_loop (comp : α → α → Bool) (first len : Nat) :
    Nat → List α → Nat → Nat → Option (List α × Nat × Nat)
  | 0, _, _, _ => none
  | fuel + 1, v, holeIndex, secondChild =>
    if secondChild < (len - 1) / 2 then
      let secondChild1 := 2 * (secondChild + 1)
      match v[first + secondChild1]?, v[first + (secondChild1 - 1)]? with
      | some x, some y =>
        let secondChild2 := if comp x y then secondChild1 - 1 else secondChild1
        match v[first + secondChild2]? with
        | some z =>
          if first + holeIndex < v.length then
            adjust_heap_loop comp first len fuel (v.set (first + holeIndex) z) secondChild2
              secondChild2
          else none
        | none => none
      | _, _ => none
    else some (v, holeIndex, secondChild)

/-- `std::__adjust_heap`. -/
def adjust_heap (comp : α → α → Bool) (v : List α) (first holeIndex len : Nat) (value : α) :
    Option (List α) :=
  match adjust_heap_loop comp first len (len + 1) v holeIndex holeIndex with
  | none => none
  | some (v1, holeIndex1, secondChild) =>
    if len % 2 = 0 ∧ 2 ≤ len ∧ secondChild = (len - 2) / 2 then
      let secondChild1 := 2 * (secondChild + 1)
      match v1[first + (secondChild1 - 1)]? with
      | some z =>
        if first + holeIndex1 < v1.length then
          push_heap comp first holeIndex value (len + 1) (v1.set (first + holeIndex1) z)
            (secondChild1 - 1)
        else none
      | none => none
    else push_heap comp first holeIndex value (len + 1) v1 holeIndex1

/-- `std::__pop_heap`. -/
def pop_heap (comp : α → α → Bool) (v : List α) (first last result : Nat) : Option (List α) :=
  match v[result]?, v[first]? with
  | some value, some x => adjust_heap comp (v.set result x) first 0 (last - first) value
  | _, _ => none

/-- The loop of `std::__make_heap`, from `parent` down to 0. -/
def make_heap_loop (comp : α → α → Bool) (first len : Nat) : Nat → List α → Option (List α)
  | 0, v =>
    match v[first]? with
    | some value => adjust_heap comp v first 0 len value
    | none => none
  | parent + 1, v =>
    match v[first + (parent + 1)]? with
    | some value =>
      match adjust_heap comp v first (parent + 1) len value with
      | some v1 => make_heap_loop comp first len parent v1
      | none => none
    | none => none

/-- `std::__make_heap`. -/
def make_heap (comp : α → α → Bool) (v : List α) (first last : Nat) : Option (List α) :=
  if last - first < 2 then some v
  else make_heap_loop comp first (last - first) ((last - first - 2) / 2) v

/-- The loop of `std::__heap_select` over the positions from `middle` to `last`. -/
def heap_select_loop (comp : α → α → Bool) (first middle : Nat) :
    Nat → Nat → List α → Option (List α)
  | 0, _, v => some v
  | count + 1, i, v =>
    match v[i]?, v[first]? with
    | some x, some y =>
      if comp x y then
        match pop_heap comp v first middle i with
        | some v1 => heap_select_loop comp first middle count (i + 1) v1
        | none => none
      else heap_select_loop comp first middle count (i + 1) v
    | _, _ => none

/-- `std::__heap_select`. -/
def heap_select (comp : α → α → Bool) (v : List α) (first middle last : Nat) :
    Option (List α) :=
  match make_heap comp v first middle with
  | none => none
  | some v1 => heap_select_loop comp first middle (last - middle) middle v1

/-- `std::__sort_heap`, with `count` the number of elements still in the heap. -/
def sort_heap (comp : α → α → Bool) (first : Nat) : Nat → List α → Option (List α)
  | 0, v => some v
  | count + 1, v =>
    if count + 1 > 1 then
      match pop_heap comp v first (first + count) (first + count) with
      | some v1 => sort_heap comp first count v1
      | none => none
    else some v

/-- `std::__partial_sort`. -/
def partial_sort (comp : α → α → Bool) (v : List α) (first middle last : Nat) :
    Option (List α) :=
  match heap_select comp v first middle last with
  | none => none
  | some v1 => sort_heap comp first (middle - first) v1

/-- `std::__introsort_loop`; both the recursive call and the next turn of the loop run with the
decremented `depth_limit`. -/
def introsort_loop (comp : α → α → Bool) : Nat → List α → Nat → Nat → Option (List α)
  | 0, v, first, last =>
    if last - first > 16 then partial_sort comp v first last last else some v
  | depth_limit + 1, v, first, last =>
    if last - first > 16 then
      match unguarded_partition_pivot comp v first last with
      | none => none
      | some (v1, cut) =>
        match introsort_loop comp depth_limit v1 cut last with
        | none => none
        | some v2 => introsort_loop comp depth_limit v2 first cut
    else some v

/-- `std::__unguarded_linear_insert` of the value `val` taken from position `last`: `none` when
the loop steps in front of the vector. -/
def unguarded_linear_insert (comp : α → α → Bool) (val : α) : Nat → List α → Option (List α)
  | 0, _ => none
  | next + 1, v =>
    match v[next]? with
    | none => none
    | some x =>
      if comp val x then unguarded_linear_insert comp val next (v.set (next + 1) x)
      else some (v.set (next + 1) val)

/-- The loop of `std::__insertion_sort` from position `i` on, `count` elements to go. -/
def insertion_sort_loop (comp : α → α → Bool) (first : Nat) :
    Nat → Nat → List α → Option (List α)
  | 0, _, v => some v
  | count + 1, i, v =>
    match v[i]?, v[first]? with
    | some val, some x =>
      if comp val x then
        insertion_sort_loop comp first count (i + 1)
          (v.take first ++ val :: (v.drop first).take (i - first) ++ v.drop (i + 1))
      else
        match unguarded_linear_insert comp val i v with
        | none => none
        | some v1 => insertion_sort_loop comp first count (i + 1) v1
    | _, _ => none

/-- `std::__insertion_sort`. -/
def insertion_sort (comp : α → α → Bool) (v : List α) (first last : Nat) : Option (List α) :=
  if first = last then some v
  else insertion_sort_loop comp first (last - (first + 1)) (first + 1) v

/-- The loop of `std::__unguarded_insertion_sort`. -/
def unguarded_insertion_sort_loop (comp : α → α → Bool) : Nat → Nat → List α → Option (List α)
  | 0, _, v => some v
  | count + 1, i, v =>
    match v[i]? with
    | none => none
    | some val =>
      match unguarded_linear_insert comp val i v with
      | none => none
      | some v1 => unguarded_insertion_sort_loop comp count (i + 1) v1

/-- `std::__unguarded_insertion_sort`. -/
def unguarded_insertion_sort (comp : α → α → Bool) (v : List α) (first last : Nat) :
    Option (List α) :=
  unguarded_insertion_sort_loop comp (last - first) first v

/-- `std::__final_insertion_sort`. -/
def final_insertion_sort (comp : α → α → Bool) (v : List α) (first last : Nat) :
    Option (List α) :=
  if last - first > 16 then
    match insertion_sort comp v first (first + 16) with
    | none => none
    | some v1 => unguarded_insertion_sort comp v1 (first + 16) last
  else insertion_sort comp v first last

/-- `std::sort(first, last, comp)` on the whole vector (`std::__sort`): `none` stands for
undefined behaviour, an access outside the vector. -/
def sort (comp : α → α → Bool) (v : List α) : Option (List α) :=
  if v.length = 0 then some v
  else
    match introsort_loop comp (lg v.length v.length * 2) v 0 v.length with
    | none => none
    | some v1 => final_insertion_sort comp v1 0 v.length

/-- The vector `v1` is the vector `v` with the positions from `a` up to `b` rearranged. -/
def Rearranged (v v1 : List α) (a b : Nat) : Prop :=
  v1.Perm v ∧ ∀ i, (i < a ∨ b ≤ i) → v1[i]? = v[i]?

/-- Every element from position `first + 16` up to `last` has an element in front of it, not
in front of `first`, that is not `comp`-after it: the loop of `std::__unguarded_linear_insert`
stops there. -/
def Guarded (comp : α → α → Bool) (v : List α) (first last : Nat) : Prop :=
  ∀ i x, first + 16 ≤ i → i < last → v[i]? = some x →
    ∃ y ∈ (v.drop first).take (i - first), comp x y = false

/-- The heap order of `std::make_heap` on the `len` positions from `first`, for the parents from
index `lo` on: no parent is `comp`-before a child of its. -/
def HeapFrom (comp : α → α → Bool) (v : List α) (first len lo : Nat) : Prop :=
  ∀ c x y, 1 ≤ c → c < len → lo ≤ (c - 1) / 2 → v[first + (c - 1) / 2]? = some x →
    v[first + c]? = some y → comp x y = false

/-- The indices of the heap below the index `top`, `top` included: the children of the index
`h` are `2 * h + 1` and `2 * h + 2`. -/
inductive Desc (top : Nat) : Nat → Prop where
  | refl : Desc top top
  | left (h : Nat) : Desc top h → Desc top (2 * h + 1)
  | right (h : Nat) : Desc top h → Desc top (2 * h + 2)

/-- The state of `std::__adjust_heap` while the hole is at index `h`: the vector `v` with the
value put into the hole is the vector `v0` of the call with the value at `top`, rearranged
inside the heap, and the heap order holds below `top`, and at `top` once the hole has left it. -/
structure HoleInv (comp : α → α → Bool) (S : α → Prop) (value : α) (v0 v : List α)
    (first len top h : Nat) : Prop where
  length : v.length = v0.length
  elems : ∀ x ∈ v, S x
  outside : ∀ i, (i < first ∨ first + len ≤ i) → v[i]? = v0[i]?
  perm : (v.set (first + h) value).Perm (v0.set (first + top) value)
  hole_lt : h < len
  desc : Desc top h
  heap : HeapFrom comp v first len (top + 1)
  heap_top : h ≠ top → HeapFrom comp v first len top

end Libstdcxx

namespace SearchServer

variable {F : Type} [LinearOrderedField F]

/-- `SearchServer::FindTopDocuments` with a predicate, the call of `sort` being the `std::sort` of
libstdc++ (`FindTopDocuments` above takes a stable insertion sort for it).  The source calls
`sort(policy, ...)`; under `std::execution::seq`, the policy of the overloads without a policy
argument, libstdc++ forwards that call to `std::sort`. -/
def FindTopDocumentsLibstdcxx (s : SearchServer F) (ln : F → F) (raw_query : List Char)
    (document_predicate : Int → DocumentStatus → Int → Bool) :
    Except Failure (List (Document F)) :=
  match s.ParseQuery raw_query with
  | .error e => .error e
  | .ok query =>
    match s.FindAllDocuments ln query document_predicate with
    | .error e => .error e
    | .ok matched_documents =>
      match Libstdcxx.sort documentBefore matched_documents with
      | none => .error .undefined_behaviour
      | some sorted =>
        .ok (if sorted.length > MAX_RESULT_DOCUMENT_COUNT then
          sorted.take MAX_RESULT_DOCUMENT_COUNT else sorted)

end SearchServer

/-- The server without stop words that holds the documents 1 to `n`, each with the text "x" and
the ratings `{1}`. -/
def tiedFixture (F : Type) [LinearOrderedField F] : Nat → SearchServer F
  | 0 => emptyServer F
  | n + 1 =>
    ((tiedFixture F n).AddDocument ((n : Int) + 1) (nearTieText 0) DocumentStatus.ACTUAL [1]).2

/-- Four documents that hold "x" once: document 1 among 631 words, rated 1; documents 2 and 4
among 633 words, rated 3; document 3 among 632 words, rated 2; and a fifth document without
"x". -/
def cycleFixture (F : Type) [LinearOrderedField F] : SearchServer F :=
  let s1 := ((emptyServer F).AddDocument 1 (nearTieText 630) DocumentStatus.ACTUAL [1]).2
  let s2 := (s1.AddDocument 2 (nearTieText 632) DocumentStatus.ACTUAL [3]).2
  let s3 := (s2.AddDocument 3 (nearTieText 631) DocumentStatus.ACTUAL [2]).2
  let s4 := (s3.AddDocument 4 (nearTieText 632) DocumentStatus.ACTUAL [3]).2
  (s4.AddDocument 5 "y".toList DocumentStatus.ACTUAL [1]).2

end SearchEngine

/-! ## Fixture for the truncation to five documents -/

namespace SearchEngine

/-- The near-tie fixture with four more documents: 5, 6 and 7 with the text "x", rated 5, and 8
with the text "y".  Six of the eight documents hold "x". -/
def topSixFixture (F : Type) [LinearOrderedField F] : SearchServer F :=
  let s5 := ((nearTieFixture F).AddDocument 5 (nearTieText 0) DocumentStatus.ACTUAL [5]).2
  let s6 := (s5.AddDocument 6 (nearTieText 0) DocumentStatus.ACTUAL [5]).2
  let s7 := (s6.AddDocument 7 (nearTieText 0) DocumentStatus.ACTUAL [5]).2
  (s7.AddDocument 8 "y".toList DocumentStatus.ACTUAL [1]).2

end SearchEngine

/-! ## Fixture with six matches, two of them tied in relevance -/

namespace SearchEngine

/-- Seven documents without stop words: the documents 1 to 6 hold "x" once among 3, 6, 1, 2, 5
and 3 words, document 7 is the text "a"; document 6 is rated 2, the others are rated 1. -/
def rankedFixture (F : Type) [LinearOrderedField F] : SearchServer F :=
  let s1 := ((emptyServer F).AddDocument 1 "x a a".toList DocumentStatus.ACTUAL [1]).2
  let s2 := (s1.AddDocument 2 "x a a a a a".toList DocumentStatus.ACTUAL [1]).2
  let s3 := (s2.AddDocument 3 "x".toList DocumentStatus.ACTUAL [1]).2
  let s4 := (s3.AddDocument 4 "x a".toList DocumentStatus.ACTUAL [1]).2
  let s5 := (s4.AddDocument 5 "x a a a a".toList DocumentStatus.ACTUAL [1]).2
  let s6 := (s5.AddDocument 6 "x a a".toList DocumentStatus.ACTUAL [2]).2
  (s6.AddDocument 7 "a".toList DocumentStatus.ACTUAL [1]).2

/-- The ranked fixture after its first 1 calls of `AddDocument`, written out. -/
def rankedState1 (F : Type) [LinearOrderedField F] : SearchServer F :=
  { all_words_ :=
      ["x".toList, "a".toList]
    stop_words_ := []
    word_to_document_freqs_ :=
      [("a".toList,
         [(1, 0 + 1 / ((3 : ℕ) : F) + 1 / ((3 : ℕ) : F))]),
       ("x".toList,
         [(1, 0 + 1 / ((3 : ℕ) : F))])]
    document_to_words_freqs_ :=
      [(1,
         [("a".toList, 0 + 1 / ((3 : ℕ) : F) + 1 / ((3 : ℕ) : F)),
          ("x".toList, 0 + 1 / ((3 : ℕ) : F))])]
    documents_ :=
      [(1, ⟨1, DocumentStatus.ACTUAL⟩)]
    document_ids_ := [1] }

/-- The ranked fixture after its first 2 calls of `AddDocument`, written out. -/
def rankedState2 (F : Type) [LinearOrderedField F] : SearchServer F :=
  { all_words_ :=
      ["x".toList, "a".toList]
    stop_words_ := []
    word_to_document_freqs_ :=
      [("a".toList,
         [(1, 0 + 1 / ((3 : ℕ) : F) + 1 / ((3 : ℕ) : F)),
          (2, 0 + 1 / ((6 : ℕ) : F) + 1 / ((6 : ℕ) : F) + 1 / ((6 : ℕ) : F) +
            1 / ((6 : ℕ) : F) + 1 / ((6 : ℕ) : F))]),
       ("x".toList,
         [(1, 0 + 1 / ((3 : ℕ) : F)), (2, 0 + 1 / ((6 : ℕ) : F))])]
    document_to_words_freqs_ :=
      [(1,
         [("a".toList, 0 + 1 / ((3 : ℕ) : F) + 1 / ((3 : ℕ) : F)),
          ("x".toList, 0 + 1 / ((3 : ℕ) : F))]),
       (2,
         [("a".toList, 0 + 1 / ((6 : ℕ) : F) + 1 / ((6 : ℕ) : F) + 1 / ((6 : ℕ) : F) +
            1 / ((6 : ℕ) : F) + 1 / ((6 : ℕ) : F)),
          ("x".toList, 0 + 1 / ((6 : ℕ) : F))])]
    documents_ :=
      [(1, ⟨1, DocumentStatus.ACTUAL⟩), (2, ⟨1, DocumentStatus.ACTUAL⟩)]
    document_ids_ := [1, 2] }

/-- The ranked fixture after its first 3 calls of `AddDocument`, written out. -/
def rankedState3 (F : Type) [LinearOrderedField F] : SearchServer F :=
  { all_words_ :=
      ["x".toList, "a".toList]
    stop_words_ := []
    word_to_document_freqs_ :=
      [("a".toList,
         [(1, 0 + 1 / ((3 : ℕ) : F) + 1 / ((3 : ℕ) : F)),
          (2, 0 + 1 / ((6 : ℕ) : F) + 1 / ((6 : ℕ) : F) + 1 / ((6 : ℕ) : F) +
            1 / ((6 : ℕ) : F) + 1 / ((6 : ℕ) : F))]),
       ("x".toList,
         [(1, 0 + 1 / ((3 : ℕ) : F)), (2, 0 + 1 / ((6 : ℕ) : F)), (3, 0 + 1 / ((1 : ℕ) : F))])]
    document_to_words_freqs_ :=
      [(1,
         [("a".toList, 0 + 1 / ((3 : ℕ) : F) + 1 / ((3 : ℕ) : F)),
          ("x".toList, 0 + 1 / ((3 : ℕ) : F))]),
       (2,
         [("a".toList, 0 + 1 / ((6 : ℕ) : F) + 1 / ((6 : ℕ) : F) + 1 / ((6 : ℕ) : F) +
            1 / ((6 : ℕ) : F) + 1 / ((6 : ℕ) : F)),
          ("x".toList, 0 + 1 / ((6 : ℕ) : F))]),
       (3,
         [("x".toList, 0 + 1 / ((1 : ℕ) : F))])]
    documents_ :=
      [(1, ⟨1, DocumentStatus.ACTUAL⟩), (2, ⟨1, DocumentStatus.ACTUAL⟩),
       (3, ⟨1, DocumentStatus.ACTUAL⟩)]
    document_ids_ := [1, 2, 3] }

/-- The ranked fixture after its first 4 calls of `AddDocument`, written out. -/
def rankedState4 (F : Type) [LinearOrderedField F] : SearchServer F :=
  { all_words_ :=
      ["x".toList, "a".toList]
    stop_words_ := []
    word_to_document_freqs_ :=
      [("a".toList,
         [(1, 0 + 1 / ((3 : ℕ) : F) + 1 / ((3 : ℕ) : F)),
          (2, 0 + 1 / ((6 : ℕ) : F) + 1 / ((6 : ℕ) : F) + 1 / ((6 : ℕ) : F) +
            1 / ((6 : ℕ) : F) + 1 / ((6 : ℕ) : F)),
          (4, 0 + 1 / ((2 : ℕ) : F))]),
       ("x".toList,
         [(1, 0 + 1 / ((3 : ℕ) : F)), (2, 0 + 1 / ((6 : ℕ) : F)), (3, 0 + 1 / ((1 : ℕ) : F)),
          (4, 0 + 1 / ((2 : ℕ) : F))])]
    document_to_words_freqs_ :=
      [(1,
         [("a".toList, 0 + 1 / ((3 : ℕ) : F) + 1 / ((3 : ℕ) : F)),
          ("x".toList, 0 + 1 / ((3 : ℕ) : F))]),
       (2,
         [("a".toList, 0 + 1 / ((6 : ℕ) : F) + 1 / ((6 : ℕ) : F) + 1 / ((6 : ℕ) : F) +
            1 / ((6 : ℕ) : F) + 1 / ((6 : ℕ) : F)),
          ("x".toList, 0 + 1 / ((6 : ℕ) : F))]),
       (3,
         [("x".toList, 0 + 1 / ((1 : ℕ) : F))]),
       (4,
         [("a".toList, 0 + 1 / ((2 : ℕ) : F)), ("x".toList, 0 + 1 / ((2 : ℕ) : F))])]
    documents_ :=
      [(1, ⟨1, DocumentStatus.ACTUAL⟩), (2, ⟨1, DocumentStatus.ACTUAL⟩),
       (3, ⟨1, DocumentStatus.ACTUAL⟩), (4, ⟨1, DocumentStatus.ACTUAL⟩)]
    document_ids_ := [1, 2, 3, 4] }

/-- The ranked fixture after its first 5 calls of `AddDocument`, written out. -/
def rankedState5 (F : Type) [LinearOrderedField F] : SearchServer F :=
  { all_words_ :=
      ["x".toList, "a".toList]
    stop_words_ := []
    word_to_document_freqs_ :=
      [("a".toList,
         [(1, 0 + 1 / ((3 : ℕ) : F) + 1 / ((3 : ℕ) : F)),
          (2, 0 + 1 / ((6 : ℕ) : F) + 1 / ((6 : ℕ) : F) + 1 / ((6 : ℕ) : F) +
            1 / ((6 : ℕ) : F) + 1 / ((6 : ℕ) : F)),
          (4, 0 + 1 / ((2 : ℕ) : F)),
          (5, 0 + 1 / ((5 : ℕ) : F) + 1 / ((5 : ℕ) : F) + 1 / ((5 : ℕ) : F) +
            1 / ((5 : ℕ) : F))]),
       ("x".toList,
         [(1, 0 + 1 / ((3 : ℕ) : F)), (2, 0 + 1 / ((6 : ℕ) : F)), (3, 0 + 1 / ((1 : ℕ) : F)),
          (4, 0 + 1 / ((2 : ℕ) : F)), (5, 0 + 1 / ((5 : ℕ) : F))])]
    document_to_words_freqs_ :=
      [(1,
         [("a".toList, 0 + 1 / ((3 : ℕ) : F) + 1 / ((3 : ℕ) : F)),
          ("x".toList, 0 + 1 / ((3 : ℕ) : F))]),
       (2,
         [("a".toList, 0 + 1 / ((6 : ℕ) : F) + 1 / ((6 : ℕ) : F) + 1 / ((6 : ℕ) : F) +
            1 / ((6 : ℕ) : F) + 1 / ((6 : ℕ) : F)),
          ("x".toList, 0 + 1 / ((6 : ℕ) : F))]),
       (3,
         [("x".toList, 0 + 1 / ((1 : ℕ) : F))]),
       (4,
         [("a".toList, 0 + 1 / ((2 : ℕ) : F)), ("x".toList, 0 + 1 / ((2 : ℕ) : F))]),
       (5,
         [("a".toList, 0 + 1 / ((5 : ℕ) : F) + 1 / ((5 : ℕ) : F) + 1 / ((5 : ℕ) : F) +
            1 / ((5 : ℕ) : F)),
          ("x".toList, 0 + 1 / ((5 : ℕ) : F))])]
    documents_ :=
      [(1, ⟨1, DocumentStatus.ACTUAL⟩), (2, ⟨1, DocumentStatus.ACTUAL⟩),
       (3, ⟨1, DocumentStatus.ACTUAL⟩), (4, ⟨1, DocumentStatus.ACTUAL⟩),
       (5, ⟨1, DocumentStatus.ACTUAL⟩)]
    document_ids_ := [1, 2, 3, 4, 5] }

/-- The ranked fixture after its first 6 calls of `AddDocument`, written out. -/
def rankedState6 (F : Type) [LinearOrderedField F] : SearchServer F :=
  { all_words_ :=
      ["x".toList, "a".toList]
    stop_words_ := []
    word_to_document_freqs_ :=
      [("a".toList,
         [(1, 0 + 1 / ((3 : ℕ) : F) + 1 / ((3 : ℕ) : F)),
          (2, 0 + 1 / ((6 : ℕ) : F) + 1 / ((6 : ℕ) : F) + 1 / ((6 : ℕ) : F) +
            1 / ((6 : ℕ) : F) + 1 / ((6 : ℕ) : F)),
          (4, 0 + 1 / ((2 : ℕ) : F)),
          (5, 0 + 1 / ((5 : ℕ) : F) + 1 / ((5 : ℕ) : F) + 1 / ((5 : ℕ) : F) +
            1 / ((5 : ℕ) : F)),
          (6, 0 + 1 / ((3 : ℕ) : F) + 1 / ((3 : ℕ) : F))]),
       ("x".toList,
         [(1, 0 + 1 / ((3 : ℕ) : F)), (2, 0 + 1 / ((6 : ℕ) : F)), (3, 0 + 1 / ((1 : ℕ) : F)),
          (4, 0 + 1 / ((2 : ℕ) : F)), (5, 0 + 1 / ((5 : ℕ) : F)), (6, 0 + 1 / ((3 : ℕ) : F))])]
    document_to_words_freqs_ :=
      [(1,
         [("a".toList, 0 + 1 / ((3 : ℕ) : F) + 1 / ((3 : ℕ) : F)),
          ("x".toList, 0 + 1 / ((3 : ℕ) : F))]),
       (2,
         [("a".toList, 0 + 1 / ((6 : ℕ) : F) + 1 / ((6 : ℕ) : F) + 1 / ((6 : ℕ) : F) +
            1 / ((6 : ℕ) : F) + 1 / ((6 : ℕ) : F)),
          ("x".toList, 0 + 1 / ((6 : ℕ) : F))]),
       (3,
         [("x".toList, 0 + 1 / ((1 : ℕ) : F))]),
       (4,
         [("a".toList, 0 + 1 / ((2 : ℕ) : F)), ("x".toList, 0 + 1 / ((2 : ℕ) : F))]),
       (5,
         [("a".toList, 0 + 1 / ((5 : ℕ) : F) + 1 / ((5 : ℕ) : F) + 1 / ((5 : ℕ) : F) +
            1 / ((5 : ℕ) : F)),
          ("x".toList, 0 + 1 / ((5 : ℕ) : F))]),
       (6,
         [("a".toList, 0 + 1 / ((3 : ℕ) : F) + 1 / ((3 : ℕ) : F)),
          ("x".toList, 0 + 1 / ((3 : ℕ) : F))])]
    documents_ :=
      [(1, ⟨1, DocumentStatus.ACTUAL⟩), (2, ⟨1, DocumentStatus.ACTUAL⟩),
       (3, ⟨1, DocumentStatus.ACTUAL⟩), (4, ⟨1, DocumentStatus.ACTUAL⟩),
       (5, ⟨1, DocumentStatus.ACTUAL⟩), (6, ⟨2, DocumentStatus.ACTUAL⟩)]
    document_ids_ := [1, 2, 3, 4, 5, 6] }

/-- The ranked fixture after its first 7 calls of `AddDocument`, written out. -/
def rankedState7 (F : Type) [LinearOrderedField F] : SearchServer F :=
  { all_words_ :=
      ["x".toList, "a".toList]
    stop_words_ := []
    word_to_document_freqs_ :=
      [("a".toList,
         [(1, 0 + 1 / ((3 : ℕ) : F) + 1 / ((3 : ℕ) : F)),
          (2, 0 + 1 / ((6 : ℕ) : F) + 1 / ((6 : ℕ) : F) + 1 / ((6 : ℕ) : F) +
            1 / ((6 : ℕ) : F) + 1 / ((6 : ℕ) : F)),
          (4, 0 + 1 / ((2 : ℕ) : F)),
          (5, 0 + 1 / ((5 : ℕ) : F) + 1 / ((5 : ℕ) : F) + 1 / ((5 : ℕ) : F) +
            1 / ((5 : ℕ) : F)),
          (6, 0 + 1 / ((3 : ℕ) : F) + 1 / ((3 : ℕ) : F)),
          (7, 0 + 1 / ((1 : ℕ) : F))]),
       ("x".toList,
         [(1, 0 + 1 / ((3 : ℕ) : F)), (2, 0 + 1 / ((6 : ℕ) : F)), (3, 0 + 1 / ((1 : ℕ) : F)),
          (4, 0 + 1 / ((2 : ℕ) : F)), (5, 0 + 1 / ((5 : ℕ) : F)), (6, 0 + 1 / ((3 : ℕ) : F))])]
    document_to_words_freqs_ :=
      [(1,
         [("a".toList, 0 + 1 / ((3 : ℕ) : F) + 1 / ((3 : ℕ) : F)),
          ("x".toList, 0 + 1 / ((3 : ℕ) : F))]),
       (2,
         [("a".toList, 0 + 1 / ((6 : ℕ) : F) + 1 / ((6 : ℕ) : F) + 1 / ((6 : ℕ) : F) +
            1 / ((6 : ℕ) : F) + 1 / ((6 : ℕ) : F)),
          ("x".toList, 0 + 1 / ((6 : ℕ) : F))]),
       (3,
         [("x".toList, 0 + 1 / ((1 : ℕ) : F))]),
       (4,
         [("a".toList, 0 + 1 / ((2 : ℕ) : F)), ("x".toList, 0 + 1 / ((2 : ℕ) : F))]),
       (5,
         [("a".toList, 0 + 1 / ((5 : ℕ) : F) + 1 / ((5 : ℕ) : F) + 1 / ((5 : ℕ) : F) +
            1 / ((5 : ℕ) : F)),
          ("x".toList, 0 + 1 / ((5 : ℕ) : F))]),
       (6,
         [("a".toList, 0 + 1 / ((3 : ℕ) : F) + 1 / ((3 : ℕ) : F)),
          ("x".toList, 0 + 1 / ((3 : ℕ) : F))]),
       (7,
         [("a".toList, 0 + 1 / ((1 : ℕ) : F))])]
    documents_ :=
      [(1, ⟨1, DocumentStatus.ACTUAL⟩), (2, ⟨1, DocumentStatus.ACTUAL⟩),
       (3, ⟨1, DocumentStatus.ACTUAL⟩), (4, ⟨1, DocumentStatus.ACTUAL⟩),
       (5, ⟨1, DocumentStatus.ACTUAL⟩), (6, ⟨2, DocumentStatus.ACTUAL⟩),
       (7, ⟨1, DocumentStatus.ACTUAL⟩)]
    document_ids_ := [1, 2, 3, 4, 5, 6, 7] }

end SearchEngine

/-! ## States without the parallel removal; dropping empty posting maps -/

namespace SearchEngine

namespace SearchServer

variable {F : Type}

/-- The states reached without the parallel `RemoveDocument`: constructed, then any successful
calls of `AddDocument` and of the sequential `RemoveDocument`. -/
inductive ReachableSeq [LinearOrderedField F] : SearchServer F → Prop where
  | init (stop_words : List Word) (s : SearchServer F) :
      SearchServer.new stop_words = .ok s → ReachableSeq s
  | add (s s1 : SearchServer F) (document_id : Int) (document : List Char)
      (status : DocumentStatus) (ratings : List Int) :
      ReachableSeq s → s.AddDocument document_id document status ratings = (.ok (), s1) →
      ReachableSeq s1
  | remove (s s1 : SearchServer F) (document_id : Int) :
      ReachableSeq s → s.RemoveDocument document_id = (.ok (), s1) → ReachableSeq s1

/-- The server with the words whose posting map is empty deleted from
`word_to_document_freqs_`. -/
def dropEmptyPostings (s : SearchServer F) : SearchServer F :=
  { s with
    word_to_document_freqs_ := s.word_to_document_freqs_.filter (fun e => !e.2.isEmpty) }

end SearchServer

end SearchEngine

/-! ## Runs of the sharded accumulator -/

namespace SearchEngine

namespace ConcurrentMap

variable {V : Type}

/-- The accumulator after the statements `map[k].ref_to_value += v` for the pairs `(k, v)` of
`updates`, in that order, on a fresh `ConcurrentMap` with `bucket_count` buckets. -/
def afterUpdates [Zero V] [Add V] (bucket_count : Nat) (updates : List (Int × V)) :
    ConcurrentMap V :=
  updates.foldl (fun cm u => cm.addAt u.1 u.2) (ConcurrentMap.new bucket_count)

/-- The value `0 + v1 + v2 + ...` of the updates of `key`, in the order of the sequence. -/
def sumOfUpdates [Zero V] [Add V] (key : Int) (updates : List (Int × V)) : V :=
  ((updates.filter (fun u => decide (u.1 = key))).map Prod.snd).foldl (fun acc v => acc + v) 0

end ConcurrentMap

end SearchEngine

/-! ## Invariant of the sharded accumulator -/

namespace SearchEngine

namespace ConcurrentMap

variable {V : Type}

/-- The value the accumulator holds for `key`: the entry of the bucket `key` is assigned to. -/
def get (cm : ConcurrentMap V) (key : Int) : Option V :=
  (cm.buckets_[castSizeT key % cm.buckets_.length]?).bind (OrdMap.lookup key)

/-- There is a bucket, every bucket is a well-formed map and holds only keys assigned to it. -/
structure CMInv (cm : ConcurrentMap V) : Prop where
  pos : 0 < cm.buckets_.length
  wf : ∀ (i : Nat) (b : OrdMap Int V), cm.buckets_[i]? = some b → OrdMap.WF b
  home : ∀ (i : Nat) (b : OrdMap Int V), cm.buckets_[i]? = some b →
    ∀ k ∈ OrdMap.keys b, castSizeT k % cm.buckets_.length = i

end ConcurrentMap

end SearchEngine

/-! ## Lemmas on the ordered containers -/

namespace SearchEngine
namespace OrdMap
variable {K V : Type} [LinearOrder K]

@[simp] theorem lookup_nil (k : K) : lookup k ([] : OrdMap K V) = none := rfl

@[simp] theorem lookup_cons (k k1 : K) (v : V) (rest : OrdMap K V) :
    lookup k ((k1, v) :: rest) = if k = k1 then some v else lookup k rest := rfl

theorem lookup_eq_none_iff (k : K) (m : OrdMap K V) : lookup k m = none ↔ k ∉ keys m := by
  induction m with
  | nil => simp [keys]
  | cons e rest ih =>
    obtain ⟨k1, v⟩ := e
    by_cases h : k = k1
    · simp [h, keys]
    · simp only [lookup_cons, h, if_false, ih]
      simp [keys, h]

theorem lookup_isSome_iff (k : K) (m : OrdMap K V) : (lookup k m).isSome ↔ k ∈ keys m := by
  rw [← not_iff_not, ← lookup_eq_none_iff]
  cases lookup k m <;> simp

theorem mem_of_lookup {k : K} {v : V} {m : OrdMap K V} (h : lookup k m = some v) : (k, v) ∈ m := by
  induction m with
  | nil => simp at h
  | cons e rest ih =>
    obtain ⟨k1, v1⟩ := e
    by_cases hk : k = k1
    · subst hk
      simp at h
      simp [h]
    · simp only [lookup_cons, hk, if_false] at h
      exact List.mem_cons_of_mem _ (ih h)

theorem WF_nil : WF ([] : OrdMap K V) := by simp [WF]

theorem WF_cons_iff (e : K × V) (m : OrdMap K V) :
    WF (e :: m) ↔ (∀ j ∈ keys m, e.1 < j) ∧ WF m := by
  simp [WF, keys, List.Sorted]

theorem WF.tail {e : K × V} {m : OrdMap K V} (h : WF (e :: m)) : WF m :=
  ((WF_cons_iff e m).1 h).2

theorem lookup_of_mem {k : K} {v : V} {m : OrdMap K V} (hm : WF m) (h : (k, v) ∈ m) :
    lookup k m = some v := by
  induction m with
  | nil => simp at h
  | cons e rest ih =>
    obtain ⟨k1, v1⟩ := e
    rw [WF_cons_iff] at hm
    rcases List.mem_cons.1 h with h1 | h1
    · cases h1
      simp
    · have hlt : k1 < k := hm.1 k (by simp only [keys]; exact List.mem_map_of_mem Prod.fst h1)
      simp only [lookup_cons, ne_of_gt hlt, if_false]
      exact ih hm.2 h1

theorem lookup_eq_some_iff {k : K} {v : V} {m : OrdMap K V} (hm : WF m) :
    lookup k m = some v ↔ (k, v) ∈ m :=
  ⟨mem_of_lookup, lookup_of_mem hm⟩

theorem count_eq_zero_iff (k : K) (m : OrdMap K V) : count k m = 0 ↔ lookup k m = none := by
  unfold count
  cases lookup k m <;> simp

theorem count_pos_iff (k : K) (m : OrdMap K V) : count k m > 0 ↔ k ∈ keys m := by
  rw [← lookup_isSome_iff]
  unfold count
  cases lookup k m <;> simp

theorem keys_upsert (k : K) (f : Option V → V) (m : OrdMap K V) :
    keys (upsert k f m) = setInsert k (keys m) := by
  induction m with
  | nil => rfl
  | cons e rest ih =>
    obtain ⟨k1, v1⟩ := e
    simp only [upsert, keys, List.map_cons, setInsert]
    split_ifs with h1 h2
    · rfl
    · simp [h2]
    · simp only [List.map_cons, List.cons.injEq, true_and]
      exact ih

theorem lookup_upsert_ne {j k : K} (h : j ≠ k) (f : Option V → V) (m : OrdMap K V) :
    lookup j (upsert k f m) = lookup j m := by
  induction m with
  | nil => simp [upsert, h]
  | cons e rest ih =>
    obtain ⟨k1, v1⟩ := e
    simp only [upsert]
    split_ifs with h1 h2
    · simp [h]
    · subst h2
      simp [h]
    · simp only [lookup_cons, ih]

theorem lookup_upsert_self (k : K) (f : Option V → V) {m : OrdMap K V} (hm : WF m) :
    lookup k (upsert k f m) = some (f (lookup k m)) := by
  induction m with
  | nil => simp [upsert]
  | cons e rest ih =>
    obtain ⟨k1, v1⟩ := e
    simp only [upsert]
    split_ifs with h1 h2
    · have : lookup k ((k1, v1) :: rest) = none := by
        rw [lookup_eq_none_iff]
        intro hmem
        rw [WF_cons_iff] at hm
        simp only [keys, List.map_cons, List.mem_cons] at hmem
        rcases hmem with h | h
        · exact absurd h (ne_of_lt h1)
        · exact absurd (lt_trans h1 (hm.1 k h)) (lt_irrefl _)
      simp [this]
    · subst h2
      simp
    · simp only [lookup_cons, h2, if_false]
      exact ih hm.tail

end OrdMap
end SearchEngine

/-! ## Ordered sets, erasing, and extensionality of maps -/

namespace SearchEngine

section SetLemmas
variable {K : Type} [LinearOrder K]

theorem mem_setInsert (j k : K) (l : List K) : j ∈ setInsert k l ↔ j = k ∨ j ∈ l := by
  induction l with
  | nil => simp [setInsert]
  | cons a rest ih =>
    simp only [setInsert]
    split_ifs with h1 h2
    · simp
    · subst h2
      simp
    · simp only [List.mem_cons, ih]
      tauto

theorem sorted_setInsert (k : K) {l : List K} (h : l.Sorted (· < ·)) :
    (setInsert k l).Sorted (· < ·) := by
  induction l with
  | nil => simp [setInsert]
  | cons a rest ih =>
    simp only [setInsert]
    have h' := List.sorted_cons.1 h
    split_ifs with h1 h2
    · refine List.sorted_cons.2 ⟨?_, h⟩
      intro b hb
      rcases List.mem_cons.1 hb with hb | hb
      · exact hb ▸ h1
      · exact lt_trans h1 (h'.1 b hb)
    · exact h
    · refine List.sorted_cons.2 ⟨?_, ih h'.2⟩
      intro b hb
      rcases (mem_setInsert b k rest).1 hb with hb | hb
      · subst hb
        exact lt_of_le_of_ne (not_lt.1 h1) (Ne.symm h2)
      · exact h'.1 b hb

theorem mem_setErase (j k : K) (l : List K) : j ∈ setErase k l ↔ j ≠ k ∧ j ∈ l := by
  simp [setErase, and_comm]

theorem sorted_setErase (k : K) {l : List K} (h : l.Sorted (· < ·)) :
    (setErase k l).Sorted (· < ·) :=
  List.Sorted.filter _ h

end SetLemmas

namespace OrdMap
variable {K V : Type} [LinearOrder K]

theorem WF.upsert (k : K) (f : Option V → V) {m : OrdMap K V} (hm : WF m) :
    WF (upsert k f m) := by
  unfold WF
  have := keys_upsert k f m
  unfold keys at this
  rw [this]
  exact sorted_setInsert k hm

theorem keys_erase (k : K) (m : OrdMap K V) : keys (erase k m) = setErase k (keys m) := by
  simp only [erase, keys, setErase, List.filter_map]
  rfl

theorem WF.erase (k : K) {m : OrdMap K V} (hm : WF m) : WF (erase k m) := by
  unfold WF
  have := keys_erase k m
  unfold keys at this
  rw [this]
  exact sorted_setErase k hm

theorem lookup_erase (j k : K) (m : OrdMap K V) :
    lookup j (erase k m) = if j = k then none else lookup j m := by
  induction m with
  | nil => simp [erase, lookup]
  | cons e rest ih =>
    obtain ⟨k1, v1⟩ := e
    simp only [erase, List.filter_cons] at ih ⊢
    by_cases h : k1 = k
    · subst h
      simp only [ne_eq, not_true_eq_false, decide_False, Bool.false_eq_true, if_false, ih]
      by_cases hj : j = k1 <;> simp [hj]
    · simp only [ne_eq, h, not_false_eq_true, decide_True, if_true, lookup_cons, ih]
      by_cases hj : j = k
      · subst hj
        simp [Ne.symm h]
      · simp [hj]

theorem lookup_modify_self (k : K) (dflt : V) (g : V → V) {m : OrdMap K V} (hm : WF m) :
    lookup k (modify k dflt g m) = some (g ((lookup k m).getD dflt)) :=
  lookup_upsert_self k _ hm

theorem lookup_modify_ne {j k : K} (h : j ≠ k) (dflt : V) (g : V → V) (m : OrdMap K V) :
    lookup j (modify k dflt g m) = lookup j m :=
  lookup_upsert_ne h _ m

theorem WF.modify (k : K) (dflt : V) (g : V → V) {m : OrdMap K V} (hm : WF m) :
    WF (modify k dflt g m) :=
  WF.upsert k _ hm

theorem lookup_emplace_self (k : K) (v : V) {m : OrdMap K V} (hm : WF m) :
    lookup k (emplace k v m) = some ((lookup k m).getD v) :=
  lookup_upsert_self k _ hm

theorem lookup_emplace_ne {j k : K} (h : j ≠ k) (v : V) (m : OrdMap K V) :
    lookup j (emplace k v m) = lookup j m :=
  lookup_upsert_ne h _ m

theorem WF.emplace (k : K) (v : V) {m : OrdMap K V} (hm : WF m) : WF (emplace k v m) :=
  WF.upsert k _ hm

theorem keys_nodup {m : OrdMap K V} (hm : WF m) : (keys m).Nodup :=
  List.Sorted.nodup hm

/-- Two well-formed maps with the same `lookup` are the same list. -/
theorem ext_lookup {m1 m2 : OrdMap K V} (h1 : WF m1) (h2 : WF m2)
    (h : ∀ k, lookup k m1 = lookup k m2) : m1 = m2 := by
  induction m1 generalizing m2 with
  | nil =>
    cases m2 with
    | nil => rfl
    | cons e rest =>
      have := h e.1
      obtain ⟨k, v⟩ := e
      simp at this
  | cons e1 rest1 ih =>
    obtain ⟨k1, v1⟩ := e1
    cases m2 with
    | nil =>
      have := h k1
      simp at this
    | cons e2 rest2 =>
      obtain ⟨k2, v2⟩ := e2
      rw [WF_cons_iff] at h1 h2
      have hk : k1 = k2 := by
        rcases lt_trichotomy k1 k2 with hlt | heq | hgt
        · have := h k1
          simp only [lookup_cons, if_true, ne_of_lt hlt, if_false] at this
          have hmem : k1 ∈ keys rest2 := by
            rw [← lookup_isSome_iff, ← this]; rfl
          exact absurd (lt_trans (h2.1 k1 hmem) hlt) (lt_irrefl _)
        · exact heq
        · have := h k2
          simp only [lookup_cons, if_true, ne_of_lt hgt, if_false] at this
          have hmem : k2 ∈ keys rest1 := by
            rw [← lookup_isSome_iff, this]; rfl
          exact absurd (lt_trans (h1.1 k2 hmem) hgt) (lt_irrefl _)
      subst hk
      have hv : v1 = v2 := by
        have := h k1
        simpa using this
      subst hv
      congr 1
      apply ih h1.2 h2.2
      intro k
      have := h k
      simp only [lookup_cons] at this
      by_cases hk : k = k1
      · subst hk
        have e1 : lookup k rest1 = none := by
          rw [lookup_eq_none_iff]; intro hm; exact lt_irrefl _ (h1.1 k hm)
        have e2 : lookup k rest2 = none := by
          rw [lookup_eq_none_iff]; intro hm; exact lt_irrefl _ (h2.1 k hm)
        rw [e1, e2]
      · simpa [hk] using this

end OrdMap
end SearchEngine

/-! ## Nested maps -/

namespace SearchEngine
namespace OrdMap
variable {K K2 V : Type} [LinearOrder K] [LinearOrder K2]

theorem lookup_modify (j k : K) (dflt : V) (g : V → V) {m : OrdMap K V} (hm : WF m) :
    lookup j (modify k dflt g m) =
      if j = k then some (g ((lookup k m).getD dflt)) else lookup j m := by
  by_cases h : j = k
  · subst h
    simp [lookup_modify_self _ _ _ hm]
  · simp [h, lookup_modify_ne h]

/-- Reading a nested map after `m[k1][k2] = g(m[k1][k2])`. -/
theorem lookup_nested_modify (j1 k1 : K) (j2 k2 : K2) (dflt : V) (g : V → V)
    {m : OrdMap K (OrdMap K2 V)} (hm : WF m) (hin : ∀ k p, lookup k m = some p → WF p) :
    (lookup j1 (modify k1 [] (modify k2 dflt g) m)).bind (lookup j2) =
      if j1 = k1 ∧ j2 = k2 then some (g (((lookup k1 m).bind (lookup k2)).getD dflt))
      else (lookup j1 m).bind (lookup j2) := by
  rw [lookup_modify _ _ _ _ hm]
  by_cases h1 : j1 = k1
  · subst h1
    have hp : WF ((lookup j1 m).getD []) := by
      cases hl : lookup j1 m with
      | none => exact WF_nil
      | some p => exact hin _ _ hl
    simp only [if_true, Option.some_bind, true_and]
    rw [lookup_modify _ _ _ _ hp]
    by_cases h2 : j2 = k2
    · subst h2
      cases hl : lookup j1 m <;> simp
    · cases hl : lookup j1 m <;> simp [h2]
  · simp [h1]

theorem WF_nested_modify (k1 : K) (k2 : K2) (dflt : V) (g : V → V)
    {m : OrdMap K (OrdMap K2 V)} (hm : WF m) (hin : ∀ k p, lookup k m = some p → WF p) :
    ∀ k p, lookup k (modify k1 [] (modify k2 dflt g) m) = some p → WF p := by
  intro k p hl
  rw [lookup_modify _ _ _ _ hm] at hl
  by_cases h1 : k = k1
  · subst h1
    simp only [if_true, Option.some.injEq] at hl
    subst hl
    apply WF.modify
    cases hl : lookup k m with
    | none => exact WF_nil
    | some p => exact hin _ _ hl
  · simp only [h1, if_false] at hl
    exact hin _ _ hl

/-- Reading a nested map after `m[k1].erase(k2)`. -/
theorem lookup_nested_erase (j1 k1 : K) (j2 k2 : K2)
    {m : OrdMap K (OrdMap K2 V)} (hm : WF m) :
    (lookup j1 (modify k1 [] (erase k2) m)).bind (lookup j2) =
      if j1 = k1 ∧ j2 = k2 then none else (lookup j1 m).bind (lookup j2) := by
  rw [lookup_modify _ _ _ _ hm]
  by_cases h1 : j1 = k1
  · subst h1
    simp only [if_true, Option.some_bind, true_and, lookup_erase]
    by_cases h2 : j2 = k2
    · simp [h2]
    · cases hl : lookup j1 m <;> simp [h2]
  · simp [h1]

theorem WF_nested_erase (k1 : K) (k2 : K2)
    {m : OrdMap K (OrdMap K2 V)} (hm : WF m) (hin : ∀ k p, lookup k m = some p → WF p) :
    ∀ k p, lookup k (modify k1 [] (erase k2) m) = some p → WF p := by
  intro k p hl
  rw [lookup_modify _ _ _ _ hm] at hl
  by_cases h1 : k = k1
  · subst h1
    simp only [if_true, Option.some.injEq] at hl
    subst hl
    apply WF.erase
    cases hl : lookup k m with
    | none => exact WF_nil
    | some p => exact hin _ _ hl
  · simp only [h1, if_false] at hl
    exact hin _ _ hl

theorem upsert_ne_nil (k : K) (f : Option V → V) (m : OrdMap K V) : upsert k f m ≠ [] := by
  cases m with
  | nil => simp [upsert]
  | cons e rest =>
    obtain ⟨k1, v1⟩ := e
    simp only [upsert]
    split_ifs <;> simp

theorem mem_keys_modify (j k : K) (dflt : V) (g : V → V) (m : OrdMap K V) :
    j ∈ keys (modify k dflt g m) ↔ j = k ∨ j ∈ keys m := by
  unfold modify
  rw [keys_upsert, mem_setInsert]

end OrdMap
end SearchEngine

/-! ## `AddDocument` keeps the invariant -/

namespace SearchEngine
namespace SearchServer
variable {F : Type} [LinearOrderedField F]

theorem tfW_addWord (s : SearchServer F) (hs : IndexInv s) (d : Int) (inv : F) (w0 w : Word)
    (d1 : Int) :
    (addWord d inv s w0).tfW w d1 =
      if w = w0 ∧ d1 = d then some ((s.tfW w0 d).getD 0 + inv) else s.tfW w d1 := by
  unfold tfW addWord
  rw [OrdMap.lookup_nested_modify w w0 d1 d 0 _ hs.w2d_wf hs.w2d_inner]
  split_ifs <;> rfl

theorem tfD_addWord (s : SearchServer F) (hs : IndexInv s) (d : Int) (inv : F) (w0 w : Word)
    (d1 : Int) :
    (addWord d inv s w0).tfD d1 w =
      if d1 = d ∧ w = w0 then some ((s.tfD d w0).getD 0 + inv) else s.tfD d1 w := by
  unfold tfD addWord
  rw [OrdMap.lookup_nested_modify d1 d w w0 0 _ hs.d2w_wf hs.d2w_inner]
  split_ifs <;> rfl

theorem IndexInv.addWord {s : SearchServer F} (hs : IndexInv s) (d : Int) (inv : F) (w0 : Word)
    (hw0 : w0 ∉ s.stop_words_) : IndexInv (addWord d inv s w0) where
  w2d_wf := OrdMap.WF.modify _ _ _ hs.w2d_wf
  w2d_inner := OrdMap.WF_nested_modify _ _ _ _ hs.w2d_wf hs.w2d_inner
  d2w_wf := OrdMap.WF.modify _ _ _ hs.d2w_wf
  d2w_inner := OrdMap.WF_nested_modify _ _ _ _ hs.d2w_wf hs.d2w_inner
  transpose := by
    intro w d1
    rw [tfW_addWord s hs, tfD_addWord s hs, hs.transpose w0 d, hs.transpose w d1]
    by_cases h : w = w0 ∧ d1 = d
    · simp [h.1, h.2]
    · have h2 : ¬ (d1 = d ∧ w = w0) := fun h2 => h ⟨h2.2, h2.1⟩
      simp [h, h2]
  no_stop := by
    intro d1 m hl w hw
    simp only [SearchServer.addWord] at hl ⊢
    rw [OrdMap.lookup_modify _ _ _ _ hs.d2w_wf] at hl
    by_cases h1 : d1 = d
    · subst h1
      simp only [if_true, Option.some.injEq] at hl
      subst hl
      rw [OrdMap.mem_keys_modify] at hw
      rcases hw with hw | hw
      · exact hw ▸ hw0
      · cases hl : OrdMap.lookup d1 s.document_to_words_freqs_ with
        | none => simp [hl, OrdMap.keys] at hw
        | some m0 =>
          simp only [hl, Option.getD_some] at hw
          exact hs.no_stop _ _ hl w hw
    · simp only [h1, if_false] at hl
      exact hs.no_stop _ _ hl w hw
  d2w_nonempty := by
    intro d1 m hl
    simp only [SearchServer.addWord] at hl
    rw [OrdMap.lookup_modify _ _ _ _ hs.d2w_wf] at hl
    by_cases h1 : d1 = d
    · subst h1
      simp only [if_true, Option.some.injEq] at hl
      subst hl
      exact OrdMap.upsert_ne_nil _ _ _
    · simp only [h1, if_false] at hl
      exact hs.d2w_nonempty _ _ hl

@[simp] theorem addWord_stop_words (s : SearchServer F) (d : Int) (inv : F) (w : Word) :
    (addWord d inv s w).stop_words_ = s.stop_words_ := rfl

@[simp] theorem addWord_documents (s : SearchServer F) (d : Int) (inv : F) (w : Word) :
    (addWord d inv s w).documents_ = s.documents_ := rfl

@[simp] theorem addWord_document_ids (s : SearchServer F) (d : Int) (inv : F) (w : Word) :
    (addWord d inv s w).document_ids_ = s.document_ids_ := rfl

theorem foldl_addWord_frame (d : Int) (inv : F) (words : List Word) (s : SearchServer F) :
    (words.foldl (addWord d inv) s).stop_words_ = s.stop_words_ ∧
    (words.foldl (addWord d inv) s).documents_ = s.documents_ ∧
    (words.foldl (addWord d inv) s).document_ids_ = s.document_ids_ := by
  induction words generalizing s with
  | nil => simp
  | cons w rest ih =>
    simp only [List.foldl_cons]
    have := ih (addWord d inv s w)
    simpa using this

theorem IndexInv.foldl_addWord (d : Int) (inv : F) (words : List Word) {s : SearchServer F}
    (hs : IndexInv s) (hw : ∀ w ∈ words, w ∉ s.stop_words_) :
    IndexInv (words.foldl (SearchServer.addWord d inv) s) := by
  induction words generalizing s with
  | nil => exact hs
  | cons w rest ih =>
    simp only [List.foldl_cons]
    apply ih (hs.addWord d inv w (hw w (List.mem_cons_self _ _)))
    intro w1 hw1
    exact hw w1 (List.mem_cons_of_mem _ hw1)

theorem foldl_addWord_d2w_keys (d : Int) (inv : F) (words : List Word) (s : SearchServer F)
    (d1 : Int) :
    d1 ∈ OrdMap.keys (words.foldl (addWord d inv) s).document_to_words_freqs_ →
      d1 = d ∨ d1 ∈ OrdMap.keys s.document_to_words_freqs_ := by
  induction words generalizing s with
  | nil => exact Or.inr
  | cons w rest ih =>
    simp only [List.foldl_cons]
    intro h
    rcases ih _ h with h | h
    · exact Or.inl h
    · simp only [addWord] at h
      exact (OrdMap.mem_keys_modify _ _ _ _ _).1 h

omit [LinearOrderedField F] in
/-- The tokens kept by `SplitIntoWordsNoStop`. -/
theorem splitNoStopLoop_eq (s : SearchServer F) (toks : List Word) :
    s.splitNoStopLoop toks =
      if toks.all IsValidWord then .ok (toks.filter (fun w => !s.IsStopWord w))
      else .error .invalid_argument := by
  induction toks with
  | nil => rfl
  | cons w rest ih =>
    simp only [splitNoStopLoop, ih]
    by_cases hv : IsValidWord w = true
    · by_cases hr : rest.all IsValidWord = true
      · by_cases hst : s.IsStopWord w = true <;> simp [hv, hr, hst, List.filter_cons]
      · simp [hv, hr]
    · simp [hv]

omit [LinearOrderedField F] in
theorem not_stop_of_splitNoStop {s : SearchServer F} {text : List Char} {words : List Word}
    (h : s.SplitIntoWordsNoStop text = .ok words) : ∀ w ∈ words, w ∉ s.stop_words_ := by
  unfold SplitIntoWordsNoStop at h
  rw [splitNoStopLoop_eq] at h
  split_ifs at h
  simp only [Except.ok.injEq] at h
  subst h
  intro w hw
  simpa [IsStopWord] using (List.mem_filter.1 hw).2

/-- What a call of `AddDocument` does, in one equation. -/
theorem AddDocument_eq (s : SearchServer F) (d : Int) (text : List Char)
    (st : DocumentStatus) (r : List Int) :
    s.AddDocument d text st r =
      if d < 0 ∨ OrdMap.count d s.documents_ > 0 then (.error .invalid_argument, s)
      else if (SplitIntoWords text).all IsValidWord then
        (.ok (),
          { (((SplitIntoWords text).filter (fun w => !s.IsStopWord w)).foldl
              (addWord d (1 / ((((SplitIntoWords text).filter
                (fun w => !s.IsStopWord w)).length : Nat) : F))) s) with
            document_ids_ := setInsert d s.document_ids_
            documents_ := OrdMap.emplace d ⟨ComputeAverageRating r, st⟩ s.documents_ })
      else (.error .invalid_argument, s) := by
  unfold AddDocument SplitIntoWordsNoStop
  rw [splitNoStopLoop_eq]
  by_cases h1 : d < 0 ∨ OrdMap.count d s.documents_ > 0
  · simp only [h1, if_true]
  · simp only [h1, if_false]
    by_cases h2 : (SplitIntoWords text).all IsValidWord = true
    · simp only [h2, if_true]
      have hf := foldl_addWord_frame d (1 / ((((SplitIntoWords text).filter
        (fun w => !s.IsStopWord w)).length : Nat) : F))
        ((SplitIntoWords text).filter (fun w => !s.IsStopWord w)) s
      rw [hf.2.1, hf.2.2]
    · simp only [h2]
      rfl

omit [LinearOrderedField F] in
theorem IndexInv.of_eq {s t : SearchServer F} (hs : IndexInv s)
    (h1 : t.word_to_document_freqs_ = s.word_to_document_freqs_)
    (h2 : t.document_to_words_freqs_ = s.document_to_words_freqs_)
    (h3 : t.stop_words_ = s.stop_words_) : IndexInv t := by
  obtain ⟨a1, a2, a3, a4, a5, a6, a7⟩ := hs
  refine ⟨?_, ?_, ?_, ?_, ?_, ?_, ?_⟩
  · rw [h1]; exact a1
  · rw [h1]; exact a2
  · rw [h2]; exact a3
  · rw [h2]; exact a4
  · intro w d
    have := a5 w d
    unfold tfW tfD at this ⊢
    rw [h1, h2]; exact this
  · rw [h2, h3]; exact a6
  · rw [h2]; exact a7

theorem Inv.AddDocument {s s1 : SearchServer F} (hs : Inv s) {d : Int} {text : List Char}
    {st : DocumentStatus} {r : List Int} (h : s.AddDocument d text st r = (.ok (), s1)) :
    Inv s1 := by
  rw [AddDocument_eq] at h
  split_ifs at h with h1 h2
  · simp at h
  swap
  · simp at h
  simp only [Prod.mk.injEq, true_and] at h
  subst h
  set words := (SplitIntoWords text).filter (fun w => !s.IsStopWord w) with hwords
  have hstop : ∀ w ∈ words, w ∉ s.stop_words_ := by
    intro w hw
    simpa [IsStopWord] using (List.mem_filter.1 hw).2
  have hidx := IndexInv.foldl_addWord d (1 / ((words.length : Nat) : F)) words hs.index hstop
  have hf := foldl_addWord_frame d (1 / ((words.length : Nat) : F)) words s
  refine ⟨hidx.of_eq rfl rfl rfl, ?_, ?_, ?_⟩
  · exact OrdMap.WF.emplace _ _ hs.docs_wf
  · show setInsert d s.document_ids_ = OrdMap.keys (OrdMap.emplace d _ s.documents_)
    unfold OrdMap.emplace
    rw [OrdMap.keys_upsert, hs.ids_eq]
  · intro d1 hd1
    show d1 ∈ OrdMap.keys (OrdMap.emplace d _ s.documents_)
    unfold OrdMap.emplace
    rw [OrdMap.keys_upsert, mem_setInsert]
    rcases foldl_addWord_d2w_keys d _ words s d1 hd1 with h | h
    · exact Or.inl h
    · exact Or.inr (hs.d2w_docs d1 h)

end SearchServer
end SearchEngine

/-! ## The loops of `RemoveDocument` -/

namespace SearchEngine
namespace OrdMap
variable {K V : Type} [LinearOrder K]

omit [LinearOrder K] in
@[simp] theorem keys_nil : keys ([] : OrdMap K V) = [] := rfl

omit [LinearOrder K] in
@[simp] theorem keys_cons (e : K × V) (m : OrdMap K V) : keys (e :: m) = e.1 :: keys m := rfl

end OrdMap

namespace SearchServer
variable {F : Type}

theorem lookup_singleton_other {p : OrdMap Int F} (hlen : p.length = 1) {d : Int}
    (hd : OrdMap.lookup d p ≠ none) (d1 : Int) (hne : d1 ≠ d) : OrdMap.lookup d1 p = none := by
  match p, hlen with
  | [(k, v)], _ =>
    simp only [OrdMap.lookup_cons, OrdMap.lookup_nil] at hd ⊢
    by_cases hk : d = k
    · subst hk
      simp [hne]
    · simp [hk] at hd

/-- The sequential removal loop never dereferences a missing word when every word of the document
has a posting for the document, and it erases exactly those postings. -/
theorem removeWordsLoop_spec (d : Int) (doc : List (Word × F)) :
    ∀ (w2d : OrdMap Word (OrdMap Int F)), OrdMap.WF w2d →
      (∀ w p, OrdMap.lookup w w2d = some p → OrdMap.WF p) →
      (OrdMap.keys doc).Nodup →
      (∀ e ∈ doc, (OrdMap.lookup e.1 w2d).bind (OrdMap.lookup d) ≠ none) →
      ∃ w2d1, removeWordsLoop d doc w2d = (.ok (), w2d1) ∧ OrdMap.WF w2d1 ∧
        (∀ w p, OrdMap.lookup w w2d1 = some p → OrdMap.WF p) ∧
        ∀ w d1, (OrdMap.lookup w w2d1).bind (OrdMap.lookup d1) =
          if d1 = d ∧ w ∈ OrdMap.keys doc then none
          else (OrdMap.lookup w w2d).bind (OrdMap.lookup d1) := by
  induction doc with
  | nil =>
    intro w2d hwf hin _ _
    exact ⟨w2d, rfl, hwf, hin, by simp⟩
  | cons e rest ih =>
    intro w2d hwf hin hnd hall
    have hnd1 : e.1 ∉ OrdMap.keys rest ∧ (OrdMap.keys rest).Nodup := by
      simpa using hnd
    have he := hall e (List.mem_cons_self _ _)
    cases hl : OrdMap.lookup e.1 w2d with
    | none => simp [hl] at he
    | some p =>
      simp only [hl, Option.some_bind] at he
      simp only [removeWordsLoop, hl]
      by_cases hlen : p.length = 1
      · simp only [hlen, if_true]
        have hwf1 : OrdMap.WF (OrdMap.erase e.1 w2d) := OrdMap.WF.erase _ hwf
        have hin1 : ∀ w q, OrdMap.lookup w (OrdMap.erase e.1 w2d) = some q → OrdMap.WF q := by
          intro w q hq
          rw [OrdMap.lookup_erase] at hq
          split_ifs at hq
          exact hin _ _ hq
        have hall1 : ∀ e1 ∈ rest,
            (OrdMap.lookup e1.1 (OrdMap.erase e.1 w2d)).bind (OrdMap.lookup d) ≠ none := by
          intro e1 he1
          have hne : e1.1 ≠ e.1 := by
            intro h
            exact hnd1.1 (h ▸ List.mem_map_of_mem Prod.fst he1)
          rw [OrdMap.lookup_erase, if_neg hne]
          exact hall e1 (List.mem_cons_of_mem _ he1)
        obtain ⟨w2d1, h1, h2, h3, h4⟩ := ih _ hwf1 hin1 hnd1.2 hall1
        refine ⟨w2d1, h1, h2, h3, ?_⟩
        intro w d1
        rw [h4, OrdMap.lookup_erase]
        by_cases hw : w = e.1
        · subst hw
          by_cases hd1 : d1 = d
          · simp [hd1]
          · simp [hd1, hl, lookup_singleton_other hlen he d1 hd1]
        · simp [hw]
      · simp only [hlen, if_false]
        have hwf1 : OrdMap.WF (OrdMap.modify e.1 [] (OrdMap.erase d) w2d) :=
          OrdMap.WF.modify _ _ _ hwf
        have hin1 := OrdMap.WF_nested_erase e.1 d hwf hin
        have hall1 : ∀ e1 ∈ rest,
            (OrdMap.lookup e1.1 (OrdMap.modify e.1 [] (OrdMap.erase d) w2d)).bind
              (OrdMap.lookup d) ≠ none := by
          intro e1 he1
          have hne : e1.1 ≠ e.1 := by
            intro h
            exact hnd1.1 (h ▸ List.mem_map_of_mem Prod.fst he1)
          rw [OrdMap.lookup_nested_erase _ _ _ _ hwf]
          simp only [hne, false_and, if_false]
          exact hall e1 (List.mem_cons_of_mem _ he1)
        obtain ⟨w2d1, h1, h2, h3, h4⟩ := ih _ hwf1 hin1 hnd1.2 hall1
        refine ⟨w2d1, h1, h2, h3, ?_⟩
        intro w d1
        rw [h4, OrdMap.lookup_nested_erase _ _ _ _ hwf]
        by_cases hw : w = e.1
        · subst hw
          by_cases hd1 : d1 = d
          · simp [hd1]
          · simp [hd1]
        · simp [hw]

/-- The loop of the parallel removal: same postings erased, no word entry dropped. -/
theorem removeWordsLoopPar_spec (d : Int) (doc : List (Word × F)) :
    ∀ (w2d : OrdMap Word (OrdMap Int F)), OrdMap.WF w2d →
      (∀ w p, OrdMap.lookup w w2d = some p → OrdMap.WF p) →
      (∀ e ∈ doc, OrdMap.lookup e.1 w2d ≠ none) →
      ∃ w2d1, removeWordsLoopPar d doc w2d = (.ok (), w2d1) ∧ OrdMap.WF w2d1 ∧
        (∀ w p, OrdMap.lookup w w2d1 = some p → OrdMap.WF p) ∧
        ∀ w d1, (OrdMap.lookup w w2d1).bind (OrdMap.lookup d1) =
          if d1 = d ∧ w ∈ OrdMap.keys doc then none
          else (OrdMap.lookup w w2d).bind (OrdMap.lookup d1) := by
  induction doc with
  | nil =>
    intro w2d hwf hin _
    exact ⟨w2d, rfl, hwf, hin, by simp⟩
  | cons e rest ih =>
    intro w2d hwf hin hall
    have he := hall e (List.mem_cons_self _ _)
    cases hl : OrdMap.lookup e.1 w2d with
    | none => exact absurd hl he
    | some p =>
      simp only [removeWordsLoopPar, hl]
      have hwf1 : OrdMap.WF (OrdMap.modify e.1 [] (OrdMap.erase d) w2d) :=
        OrdMap.WF.modify _ _ _ hwf
      have hin1 := OrdMap.WF_nested_erase e.1 d hwf hin
      have hall1 : ∀ e1 ∈ rest,
          OrdMap.lookup e1.1 (OrdMap.modify e.1 [] (OrdMap.erase d) w2d) ≠ none := by
        intro e1 he1
        rw [OrdMap.lookup_modify _ _ _ _ hwf]
        split_ifs
        · simp
        · exact hall e1 (List.mem_cons_of_mem _ he1)
      obtain ⟨w2d1, h1, h2, h3, h4⟩ := ih _ hwf1 hin1 hall1
      refine ⟨w2d1, h1, h2, h3, ?_⟩
      intro w d1
      rw [h4, OrdMap.lookup_nested_erase _ _ _ _ hwf]
      by_cases hw : w = e.1
      · subst hw
        by_cases hd1 : d1 = d
        · simp [hd1]
        · simp [hd1]
      · by_cases hd1 : d1 = d <;> simp [hw, hd1]

end SearchServer
end SearchEngine

/-! ## `RemoveDocument` and the constructor keep the invariant -/

namespace SearchEngine
namespace SearchServer
variable {F : Type}

theorem Inv.words_have_postings {s : SearchServer F} (hs : Inv s) {d : Int}
    {doc : OrdMap Word F} (hdoc : OrdMap.lookup d s.document_to_words_freqs_ = some doc) :
    ∀ e ∈ doc, (OrdMap.lookup e.1 s.word_to_document_freqs_).bind (OrdMap.lookup d) ≠ none := by
  intro e he
  have h := hs.index.transpose e.1 d
  unfold tfW tfD at h
  rw [h, hdoc, Option.some_bind,
    OrdMap.lookup_of_mem (hs.index.d2w_inner _ _ hdoc) (show (e.1, e.2) ∈ doc from he)]
  simp

/-- The state after a removal whose loop left `w2d1`, whatever the variant. -/
theorem Inv.after_remove {s : SearchServer F} (hs : Inv s) {d : Int} {doc : OrdMap Word F}
    (hdoc : OrdMap.lookup d s.document_to_words_freqs_ = some doc)
    {w2d1 : OrdMap Word (OrdMap Int F)} (hwf : OrdMap.WF w2d1)
    (hin : ∀ w p, OrdMap.lookup w w2d1 = some p → OrdMap.WF p)
    (hlk : ∀ w d1, (OrdMap.lookup w w2d1).bind (OrdMap.lookup d1) =
      if d1 = d ∧ w ∈ OrdMap.keys doc then none
      else (OrdMap.lookup w s.word_to_document_freqs_).bind (OrdMap.lookup d1))
    {t : SearchServer F} (h1 : t.word_to_document_freqs_ = w2d1)
    (h2 : t.document_to_words_freqs_ = OrdMap.erase d s.document_to_words_freqs_)
    (h3 : t.document_ids_ = setErase d s.document_ids_)
    (h4 : t.documents_ = OrdMap.erase d s.documents_)
    (h5 : t.stop_words_ = s.stop_words_) : Inv t := by
  have hsub : ∀ d1 m, OrdMap.lookup d1 t.document_to_words_freqs_ = some m →
      OrdMap.lookup d1 s.document_to_words_freqs_ = some m := by
    intro d1 m hl
    rw [h2, OrdMap.lookup_erase] at hl
    split_ifs at hl
    exact hl
  refine ⟨⟨?_, ?_, ?_, ?_, ?_, ?_, ?_⟩, ?_, ?_, ?_⟩
  · rw [h1]; exact hwf
  · rw [h1]; exact hin
  · rw [h2]; exact OrdMap.WF.erase _ hs.index.d2w_wf
  · intro d1 m hl
    exact hs.index.d2w_inner _ _ (hsub _ _ hl)
  · intro w d1
    have ht := hs.index.transpose w d1
    unfold tfW tfD at ht ⊢
    rw [h1, h2, hlk, OrdMap.lookup_erase]
    by_cases hd1 : d1 = d
    · subst hd1
      simp only [true_and, if_true, Option.none_bind]
      split_ifs with hw
      · rfl
      · rw [ht, hdoc, Option.some_bind, OrdMap.lookup_eq_none_iff]
        exact hw
    · simp only [hd1, false_and, if_false]
      exact ht
  · intro d1 m hl
    rw [h5]
    exact hs.index.no_stop _ _ (hsub _ _ hl)
  · intro d1 m hl
    exact hs.index.d2w_nonempty _ _ (hsub _ _ hl)
  · rw [h4]; exact OrdMap.WF.erase _ hs.docs_wf
  · rw [h3, h4, OrdMap.keys_erase, hs.ids_eq]
  · intro d1 hd1
    rw [h2, OrdMap.keys_erase, mem_setErase] at hd1
    rw [h4, OrdMap.keys_erase, mem_setErase]
    exact ⟨hd1.1, hs.d2w_docs _ hd1.2⟩

/-- In a state that satisfies the invariant the sequential `RemoveDocument` returns normally. -/
theorem Inv.RemoveDocument_ok {s : SearchServer F} (hs : Inv s) (d : Int) :
    (s.RemoveDocument d).1 = .ok () ∧ Inv (s.RemoveDocument d).2 := by
  unfold RemoveDocument
  cases hdoc : OrdMap.lookup d s.document_to_words_freqs_ with
  | none => exact ⟨rfl, hs⟩
  | some doc =>
    obtain ⟨w2d1, e1, e2, e3, e4⟩ := removeWordsLoop_spec d doc s.word_to_document_freqs_
      hs.index.w2d_wf hs.index.w2d_inner
      (OrdMap.keys_nodup (hs.index.d2w_inner _ _ hdoc)) (hs.words_have_postings hdoc)
    simp only [e1]
    exact ⟨trivial, hs.after_remove hdoc e2 e3 e4 rfl rfl rfl rfl rfl⟩

/-- In a state that satisfies the invariant the parallel `RemoveDocument` returns normally. -/
theorem Inv.RemoveDocumentPar_ok {s : SearchServer F} (hs : Inv s) (d : Int) :
    (s.RemoveDocumentPar d).1 = .ok () ∧ Inv (s.RemoveDocumentPar d).2 := by
  unfold RemoveDocumentPar
  cases hdoc : OrdMap.lookup d s.document_to_words_freqs_ with
  | none =>
    have : OrdMap.count d s.document_to_words_freqs_ = 0 :=
      (OrdMap.count_eq_zero_iff _ _).2 hdoc
    simp only [this, if_true]
    exact ⟨trivial, hs⟩
  | some doc =>
    have : OrdMap.count d s.document_to_words_freqs_ ≠ 0 := by
      rw [Ne, OrdMap.count_eq_zero_iff, hdoc]; simp
    simp only [this, if_false]
    obtain ⟨w2d1, e1, e2, e3, e4⟩ := removeWordsLoopPar_spec d doc s.word_to_document_freqs_
      hs.index.w2d_wf hs.index.w2d_inner
      (fun e he h => hs.words_have_postings hdoc e he (by rw [h]; rfl))
    simp only [e1]
    exact ⟨trivial, hs.after_remove hdoc e2 e3 e4 rfl rfl rfl rfl rfl⟩

theorem Inv.new {stop_words : List Word} {s : SearchServer F}
    (h : SearchServer.new stop_words = .ok s) : Inv s := by
  unfold SearchServer.new at h
  split_ifs at h
  simp only [Except.ok.injEq] at h
  subst h
  refine ⟨⟨OrdMap.WF_nil, ?_, OrdMap.WF_nil, ?_, ?_, ?_, ?_⟩, OrdMap.WF_nil, rfl, ?_⟩
  · intro w p h; simp at h
  · intro w p h; simp at h
  · intro w d; rfl
  · intro w p h; simp at h
  · intro w p h; simp at h
  · intro d h; simp at h

end SearchServer
end SearchEngine

/-! ## Reachable states; claims C1 and C2 -/

namespace SearchEngine
namespace SearchServer
variable {F : Type} [LinearOrderedField F]

/-- Every reachable state satisfies the invariant. -/
theorem Reachable.inv {s : SearchServer F} (h : Reachable s) : Inv s := by
  induction h with
  | init stop_words s h => exact Inv.new h
  | add s s1 d text st r _ h ih => exact ih.AddDocument h
  | remove s s1 d _ h ih =>
    have := (ih.RemoveDocument_ok d).2
    rw [h] at this
    exact this
  | removePar s s1 d _ h ih =>
    have := (ih.RemoveDocumentPar_ok d).2
    rw [h] at this
    exact this

omit [LinearOrderedField F] in
theorem Inv.mem_ids_iff {s : SearchServer F} (hs : Inv s) (d : Int) :
    d ∈ s.document_ids_ ↔ OrdMap.count d s.documents_ > 0 := by
  rw [hs.ids_eq, OrdMap.count_pos_iff]

omit [LinearOrderedField F] in
theorem isValidWord_eq_false_iff (word : Word) :
    IsValidWord word = false ↔ ∃ c ∈ word, c.toNat ≤ 0x1F := by
  unfold IsValidWord
  simp only [Bool.not_eq_false', List.any_eq_true, Bool.and_eq_true, decide_eq_true_eq]
  constructor
  · rintro ⟨c, hc, _, h⟩
    exact ⟨c, hc, by omega⟩
  · rintro ⟨c, hc, h⟩
    exact ⟨c, hc, Nat.zero_le _, by omega⟩

/-- C1: in every reachable state `AddDocument` throws `std::invalid_argument` exactly when the id
is negative, or is already in the index (the doc-id set, equivalently the metadata map), or some
space-separated token of the text, stop-word or not, has a character in 0x00..0x1F; in every other
case, a text without non-stop tokens included, it returns normally. -/
theorem C1_AddDocument_fails_iff (s : SearchServer F) (hs : Reachable s) (document_id : Int)
    (document : List Char) (status : DocumentStatus) (ratings : List Int) :
    ((s.AddDocument document_id document status ratings).1 = .error .invalid_argument ↔
      (document_id < 0 ∨ document_id ∈ s.document_ids_ ∨
        ∃ word ∈ SplitIntoWords document, ∃ c ∈ word, c.toNat ≤ 0x1F)) ∧
    (¬ (document_id < 0 ∨ document_id ∈ s.document_ids_ ∨
        ∃ word ∈ SplitIntoWords document, ∃ c ∈ word, c.toNat ≤ 0x1F) →
      (s.AddDocument document_id document status ratings).1 = .ok ()) := by
  have hall : (SplitIntoWords document).all IsValidWord = true ↔
      ¬ ∃ word ∈ SplitIntoWords document, ∃ c ∈ word, c.toNat ≤ 0x1F := by
    rw [List.all_eq_true]
    constructor
    · rintro h ⟨w, hw, hc⟩
      have := (isValidWord_eq_false_iff w).2 hc
      rw [h w hw] at this
      exact Bool.noConfusion this
    · intro h w hw
      by_contra hv
      exact h ⟨w, hw, (isValidWord_eq_false_iff w).1 (by simpa using hv)⟩
  rw [AddDocument_eq, hs.inv.mem_ids_iff]
  by_cases h1 : document_id < 0 ∨ OrdMap.count document_id s.documents_ > 0
  · have h1' : document_id < 0 ∨ OrdMap.count document_id s.documents_ > 0 ∨
        ∃ word ∈ SplitIntoWords document, ∃ c ∈ word, c.toNat ≤ 0x1F := by
      rcases h1 with h | h
      · exact Or.inl h
      · exact Or.inr (Or.inl h)
    rw [if_pos h1]
    exact ⟨⟨fun _ => h1', fun _ => rfl⟩, fun h => absurd h1' h⟩
  · rw [if_neg h1]
    by_cases h2 : (SplitIntoWords document).all IsValidWord = true
    · have h3 := hall.1 h2
      rw [if_pos h2]
      refine ⟨⟨fun h => (by cases h), fun h => ?_⟩, fun _ => rfl⟩
      rcases h with h | h | h
      · exact absurd (Or.inl h) h1
      · exact absurd (Or.inr h) h1
      · exact absurd h h3
    · have h3 : ∃ word ∈ SplitIntoWords document, ∃ c ∈ word, c.toNat ≤ 0x1F := by
        by_contra h; exact h2 (hall.2 h)
      rw [if_neg h2]
      exact ⟨⟨fun _ => Or.inr (Or.inr h3), fun _ => rfl⟩,
        fun h => absurd (Or.inr (Or.inr h3)) h⟩

/-- C2: whenever `AddDocument` fails, the whole server state (vocabulary, both index maps, the
metadata map, the doc-id set and the stop words) is the state before the call. -/
theorem C2_AddDocument_failure_keeps_state (s : SearchServer F) (document_id : Int)
    (document : List Char) (status : DocumentStatus) (ratings : List Int) (e : Failure)
    (h : (s.AddDocument document_id document status ratings).1 = .error e) :
    (s.AddDocument document_id document status ratings).2 = s := by
  rw [AddDocument_eq] at h ⊢
  split_ifs at h ⊢ with h1 h2
  all_goals rfl

end SearchServer
end SearchEngine

/-! ## Rejected queries -/

namespace SearchEngine
namespace SearchServer
variable {F : Type}

/-- The token left after removing at most one leading minus is empty, starts with a minus or
has a control character. -/
theorem ParseQueryWord_error_iff (s : SearchServer F) (token : Word) :
    s.ParseQueryWord token = .error .invalid_argument ↔
      ∃ rest, (token = '-' :: rest ∨ (token = rest ∧ token.head? ≠ some '-')) ∧
        (rest = [] ∨ rest.head? = some '-' ∨ ∃ c ∈ rest, c.toNat ≤ 0x1F) := by
  unfold ParseQueryWord
  cases token with
  | nil =>
    simp only [List.isEmpty_nil, if_true, true_iff]
    exact ⟨[], Or.inr ⟨rfl, by simp⟩, Or.inl rfl⟩
  | cons c cs =>
    by_cases hc : c = '-'
    · subst hc
      simp only [List.isEmpty_cons, Bool.false_eq_true, if_false, List.head?_cons, decide_True,
        if_true, List.drop_succ_cons, List.drop_zero, List.isEmpty_iff]
      constructor
      · intro h
        split_ifs at h with h1
        refine ⟨cs, Or.inl rfl, ?_⟩
        rcases h1 with h1 | h1 | h1
        · exact Or.inl h1
        · exact Or.inr (Or.inl h1)
        · exact Or.inr (Or.inr ((isValidWord_eq_false_iff cs).1 h1))
      · rintro ⟨rest, h1 | h1, h2⟩
        · simp only [List.cons.injEq, true_and] at h1
          subst h1
          have : cs = [] ∨ cs.head? = some '-' ∨ IsValidWord cs = false := by
            rcases h2 with h2 | h2 | h2
            · exact Or.inl h2
            · exact Or.inr (Or.inl h2)
            · exact Or.inr (Or.inr ((isValidWord_eq_false_iff cs).2 h2))
          rw [if_pos this]
        · exact absurd rfl h1.2
    · have hd : decide ((c :: cs).head? = some '-') = false := by simp [hc]
      simp only [List.isEmpty_cons, Bool.false_eq_true, if_false, hd, List.isEmpty_iff]
      constructor
      · intro h
        split_ifs at h with h1
        refine ⟨c :: cs, Or.inr ⟨rfl, by simp [hc]⟩, ?_⟩
        rcases h1 with h1 | h1 | h1
        · exact h1.elim
        · exact Or.inr (Or.inl h1)
        · exact Or.inr (Or.inr ((isValidWord_eq_false_iff _).1 h1))
      · rintro ⟨rest, h1 | h1, h2⟩
        · simp only [List.cons.injEq] at h1
          exact absurd h1.1 hc
        · have h3 := h1.1
          subst h3
          have : False ∨ (c :: cs).head? = some '-' ∨ IsValidWord (c :: cs) = false := by
            rcases h2 with h2 | h2 | h2
            · cases h2
            · exact Or.inr (Or.inl h2)
            · exact Or.inr (Or.inr ((isValidWord_eq_false_iff _).2 h2))
          rw [if_pos this]

theorem ParseQueryWord_ok_or_invalid (s : SearchServer F) (token : Word) :
    s.ParseQueryWord token = .error .invalid_argument ∨ ∃ qw, s.ParseQueryWord token = .ok qw := by
  simp only [ParseQueryWord]
  split_ifs
  · exact Or.inl rfl
  · exact Or.inl rfl
  · exact Or.inr ⟨_, rfl⟩
  · exact Or.inl rfl
  · exact Or.inr ⟨_, rfl⟩

theorem parseQueryLoop_error_iff (s : SearchServer F) (toks : List Word) :
    ∀ q, (s.parseQueryLoop toks q = .error .invalid_argument ↔
        ∃ tok ∈ toks, s.ParseQueryWord tok = .error .invalid_argument) ∧
      (s.parseQueryLoop toks q = .error .invalid_argument ∨
        ∃ q1, s.parseQueryLoop toks q = .ok q1) := by
  induction toks with
  | nil =>
    intro q
    simp [parseQueryLoop]
  | cons tok rest ih =>
    intro q
    rcases ParseQueryWord_ok_or_invalid s tok with h | ⟨qw, h⟩
    · simp [parseQueryLoop, h]
    · simp only [parseQueryLoop, h, List.mem_cons, exists_eq_or_imp, false_or]
      split_ifs
      · simpa using ih _
      · simpa using ih _
      · simpa using ih _

theorem ParseQuery_error_iff (s : SearchServer F) (raw_query : List Char) :
    s.ParseQuery raw_query = .error .invalid_argument ↔
      ∃ token ∈ SplitIntoWords raw_query, ∃ rest,
        (token = '-' :: rest ∨ (token = rest ∧ token.head? ≠ some '-')) ∧
        (rest = [] ∨ rest.head? = some '-' ∨ ∃ c ∈ rest, c.toNat ≤ 0x1F) := by
  unfold ParseQuery
  rw [(parseQueryLoop_error_iff s _ _).1]
  simp only [ParseQueryWord_error_iff]

theorem ParseQuery_ok_or_invalid (s : SearchServer F) (raw_query : List Char) :
    s.ParseQuery raw_query = .error .invalid_argument ∨ ∃ q, s.ParseQuery raw_query = .ok q :=
  (parseQueryLoop_error_iff s _ _).2

end SearchServer
end SearchEngine

/-! ## Failures of the search; claims C9 and C3 -/

namespace SearchEngine
namespace SearchServer
variable {F : Type} [LinearOrderedField F]

theorem scorePostings_error (s : SearchServer F) (P : Int → DocumentStatus → Int → Bool)
    (idf : F) (postings : List (Int × F)) :
    ∀ cm e, scorePostings s P idf postings cm = .error e → e = .out_of_range := by
  induction postings with
  | nil => intro cm e h; cases h
  | cons p rest ih =>
    intro cm e h
    simp only [scorePostings] at h
    split at h
    · cases h; rfl
    · split_ifs at h
      · exact ih _ _ h
      · exact ih _ _ h

theorem scorePlusWords_error (s : SearchServer F) (ln : F → F)
    (P : Int → DocumentStatus → Int → Bool) (words : List Word) :
    ∀ cm e, scorePlusWords s ln P words cm = .error e → e = .out_of_range := by
  induction words with
  | nil => intro cm e h; cases h
  | cons w rest ih =>
    intro cm e h
    simp only [scorePlusWords, ComputeWordInverseDocumentFreq] at h
    split at h
    · exact ih _ _ h
    · rename_i freqs hl
      simp only [hl] at h
      split at h
      · rename_i e1 he1
        have := scorePostings_error s P _ _ _ _ he1
        cases h; exact this
      · exact ih _ _ h

omit [LinearOrderedField F] in
theorem collectDocuments_error (s : SearchServer F) (l : List (Int × F)) :
    ∀ e, collectDocuments s l = .error e → e = .out_of_range := by
  induction l with
  | nil => intro e h; cases h
  | cons p rest ih =>
    intro e h
    simp only [collectDocuments] at h
    split at h
    · cases h; rfl
    · split at h
      · rename_i e1 he1
        cases h; exact ih _ he1
      · cases h

theorem FindAllDocuments_error (s : SearchServer F) (ln : F → F) (query : Query)
    (P : Int → DocumentStatus → Int → Bool) (e : Failure)
    (h : s.FindAllDocuments ln query P = .error e) : e = .out_of_range := by
  unfold FindAllDocuments at h
  split at h
  · rename_i e1 he1
    cases h; exact scorePlusWords_error s ln P _ _ _ he1
  · exact collectDocuments_error s _ _ h

omit [LinearOrderedField F] in
theorem statusAt_error (s : SearchServer F) (d : Int) (e : Failure)
    (h : s.statusAt d = .error e) : e = .out_of_range := by
  unfold statusAt at h
  split at h
  · cases h; rfl
  · cases h

theorem FindTopDocuments_invalid_iff (s : SearchServer F) (ln : F → F) (raw_query : List Char)
    (P : Int → DocumentStatus → Int → Bool) :
    s.FindTopDocuments ln raw_query P = .error .invalid_argument ↔
      s.ParseQuery raw_query = .error .invalid_argument := by
  unfold FindTopDocuments
  rcases ParseQuery_ok_or_invalid s raw_query with h | ⟨q, h⟩
  · simp [h]
  · simp only [h]
    cases hf : s.FindAllDocuments ln q P with
    | error e =>
      have := FindAllDocuments_error s ln q P e hf
      subst this
      simp
    | ok docs => simp

omit [LinearOrderedField F] in
theorem MatchDocument_invalid_iff (s : SearchServer F) (raw_query : List Char) (d : Int) :
    s.MatchDocument raw_query d = .error .invalid_argument ↔
      s.ParseQuery raw_query = .error .invalid_argument := by
  unfold MatchDocument
  rcases ParseQuery_ok_or_invalid s raw_query with h | ⟨q, h⟩
  · simp [h]
  · simp only [h]
    cases hf : s.statusAt d with
    | error e =>
      have := statusAt_error s d e hf
      subst this
      split_ifs <;> simp
    | ok st => split_ifs <;> simp

omit [LinearOrderedField F] in
theorem MatchDocumentPar_invalid_iff (s : SearchServer F) (raw_query : List Char) (d : Int) :
    s.MatchDocumentPar raw_query d = .error .invalid_argument ↔
      s.ParseQuery raw_query = .error .invalid_argument := by
  unfold MatchDocumentPar
  rcases ParseQuery_ok_or_invalid s raw_query with h | ⟨q, h⟩
  · simp [h]
  · simp only [h]
    cases hf : s.statusAt d with
    | error e =>
      have := statusAt_error s d e hf
      subst this
      split_ifs <;> simp
    | ok st => split_ifs <;> simp

/-- C9: for every server state and raw query, parsing the query throws `std::invalid_argument`
exactly when some space-separated token, after removing at most one leading minus, is empty, or
begins with a minus, or has a character in 0x00..0x1F; `FindTopDocuments` and `MatchDocument`
(both variants) throw `std::invalid_argument` in exactly the same case; and a query without such a
token parses, whatever the index contains. -/
theorem C9_query_rejected_iff (s : SearchServer F) (ln : F → F) (raw_query : List Char) :
    (s.ParseQuery raw_query = .error .invalid_argument ↔
      ∃ token ∈ SplitIntoWords raw_query, ∃ rest,
        (token = '-' :: rest ∨ (token = rest ∧ token.head? ≠ some '-')) ∧
        (rest = [] ∨ rest.head? = some '-' ∨ ∃ c ∈ rest, c.toNat ≤ 0x1F)) ∧
    ((¬ ∃ token ∈ SplitIntoWords raw_query, ∃ rest,
        (token = '-' :: rest ∨ (token = rest ∧ token.head? ≠ some '-')) ∧
        (rest = [] ∨ rest.head? = some '-' ∨ ∃ c ∈ rest, c.toNat ≤ 0x1F)) →
      ∃ query, s.ParseQuery raw_query = .ok query) ∧
    (∀ P, s.FindTopDocuments ln raw_query P = .error .invalid_argument ↔
      ∃ token ∈ SplitIntoWords raw_query, ∃ rest,
        (token = '-' :: rest ∨ (token = rest ∧ token.head? ≠ some '-')) ∧
        (rest = [] ∨ rest.head? = some '-' ∨ ∃ c ∈ rest, c.toNat ≤ 0x1F)) ∧
    (∀ document_id, s.MatchDocument raw_query document_id = .error .invalid_argument ↔
      ∃ token ∈ SplitIntoWords raw_query, ∃ rest,
        (token = '-' :: rest ∨ (token = rest ∧ token.head? ≠ some '-')) ∧
        (rest = [] ∨ rest.head? = some '-' ∨ ∃ c ∈ rest, c.toNat ≤ 0x1F)) ∧
    (∀ document_id, s.MatchDocumentPar raw_query document_id = .error .invalid_argument ↔
      ∃ token ∈ SplitIntoWords raw_query, ∃ rest,
        (token = '-' :: rest ∨ (token = rest ∧ token.head? ≠ some '-')) ∧
        (rest = [] ∨ rest.head? = some '-' ∨ ∃ c ∈ rest, c.toNat ≤ 0x1F)) := by
  refine ⟨ParseQuery_error_iff s raw_query, ?_, ?_, ?_, ?_⟩
  · intro h
    rcases ParseQuery_ok_or_invalid s raw_query with h1 | h1
    · exact absurd ((ParseQuery_error_iff s raw_query).1 h1) h
    · exact h1
  · intro P
    rw [FindTopDocuments_invalid_iff, ParseQuery_error_iff]
  · intro d
    rw [MatchDocument_invalid_iff, ParseQuery_error_iff]
  · intro d
    rw [MatchDocumentPar_invalid_iff, ParseQuery_error_iff]

omit [LinearOrderedField F] in
theorem lookup_GetWordFrequencies (s : SearchServer F) (d : Int) (w : Word) :
    OrdMap.lookup w (s.GetWordFrequencies d) = s.tfD d w := by
  unfold GetWordFrequencies tfD
  cases OrdMap.lookup d s.document_to_words_freqs_ <;> rfl

/-- The doc→word entries after the loop of `AddDocument`: every occurrence of a word adds
`inv`. -/
theorem tfD_foldl_addWord (d : Int) (inv : F) (words : List Word) :
    ∀ (s : SearchServer F), IndexInv s → (∀ w ∈ words, w ∉ s.stop_words_) → ∀ d1 w,
      (words.foldl (addWord d inv) s).tfD d1 w =
        if d1 = d ∧ w ∈ words then some ((s.tfD d w).getD 0 + (words.count w : F) * inv)
        else s.tfD d1 w := by
  induction words with
  | nil => intro s _ _ d1 w; simp
  | cons w0 rest ih =>
    intro s hs hstop d1 w
    simp only [List.foldl_cons]
    have hs1 := hs.addWord d inv w0 (hstop w0 (List.mem_cons_self _ _))
    rw [ih _ hs1 (fun w1 hw1 => hstop w1 (List.mem_cons_of_mem _ hw1)), tfD_addWord s hs,
      tfD_addWord s hs]
    by_cases hd : d1 = d
    · subst hd
      by_cases hw : w = w0
      · subst hw
        by_cases hr : w ∈ rest
        · simp only [hr, and_self, if_true, List.mem_cons, true_or, Option.getD_some,
            List.count_cons_self, Nat.cast_add, Nat.cast_one]
          congr 1
          ring
        · simp only [hr, and_false, if_false, and_self, if_true, List.mem_cons, true_or,
            List.count_cons_self, Nat.cast_add, Nat.cast_one, List.count_eq_zero_of_not_mem hr,
            Nat.cast_zero]
          congr 1
          ring
      · have hc : (w0 :: rest).count w = rest.count w := by
          rw [List.count_cons_of_ne hw]
        simp only [hw, and_false, if_false, List.mem_cons, false_or, hc, true_and]
    · simp [hd]

/-- C3: after a successful `AddDocument(d, text, ...)` in a reachable state, where the text has
`n` non-stop tokens, the keys of `GetWordFrequencies(d)` are exactly the distinct non-stop
tokens of the text, each such word `w` is mapped to (occurrences of `w` among the non-stop
tokens) / `n` in exact arithmetic, and the same value is stored at `word_to_doc[w][d]` (a word
`w` exists only when `n > 0`). -/
theorem C3_AddDocument_term_frequencies (s s1 : SearchServer F) (hs : Reachable s)
    (document_id : Int) (document : List Char) (status : DocumentStatus) (ratings : List Int)
    (hadd : s.AddDocument document_id document status ratings = (.ok (), s1)) :
    (OrdMap.keys (s1.GetWordFrequencies document_id)).Nodup ∧
    (∀ w, w ∈ OrdMap.keys (s1.GetWordFrequencies document_id) ↔
      w ∈ (SplitIntoWords document).filter (fun w => !s.IsStopWord w)) ∧
    (∀ w ∈ (SplitIntoWords document).filter (fun w => !s.IsStopWord w),
      OrdMap.lookup w (s1.GetWordFrequencies document_id) =
        some ((((SplitIntoWords document).filter (fun w => !s.IsStopWord w)).count w : F) /
          (((SplitIntoWords document).filter (fun w => !s.IsStopWord w)).length : F)) ∧
      (OrdMap.lookup w s1.word_to_document_freqs_).bind (OrdMap.lookup document_id) =
        some ((((SplitIntoWords document).filter (fun w => !s.IsStopWord w)).count w : F) /
          (((SplitIntoWords document).filter (fun w => !s.IsStopWord w)).length : F))) := by
  have hinv := hs.inv
  have hinv1 : Inv s1 := hinv.AddDocument hadd
  rw [AddDocument_eq] at hadd
  split_ifs at hadd with h1 h2
  · simp at hadd
  swap
  · simp at hadd
  simp only [Prod.mk.injEq, true_and] at hadd
  set words := (SplitIntoWords document).filter (fun w => !s.IsStopWord w) with hwords
  have hstop : ∀ w ∈ words, w ∉ s.stop_words_ := by
    intro w hw
    simpa [IsStopWord] using (List.mem_filter.1 hw).2
  -- the document is new: it has no entry in the doc→word map
  have hnew : ∀ w, s.tfD document_id w = none := by
    intro w
    have hd : OrdMap.lookup document_id s.document_to_words_freqs_ = none := by
      rw [OrdMap.lookup_eq_none_iff]
      intro hmem
      have := (OrdMap.count_pos_iff _ _).2 (hinv.d2w_docs _ hmem)
      exact h1 (Or.inr this)
    simp [tfD, hd]
  have htf : ∀ w, s1.tfD document_id w =
      if w ∈ words then some ((words.count w : F) / (words.length : F)) else none := by
    intro w
    have := tfD_foldl_addWord document_id (1 / ((words.length : Nat) : F)) words s hinv.index
      hstop document_id w
    rw [hnew w] at this
    rw [← hadd]
    simp only [tfD] at this ⊢
    rw [this]
    by_cases hw : w ∈ words
    · simp only [hw, and_self, if_true, Option.getD_none, zero_add, Option.some.injEq]
      rw [mul_one_div]
    · simp [hw]
  refine ⟨?_, ?_, ?_⟩
  · unfold GetWordFrequencies
    cases hl : OrdMap.lookup document_id s1.document_to_words_freqs_ with
    | none => simp
    | some doc => exact OrdMap.keys_nodup (hinv1.index.d2w_inner _ _ hl)
  · intro w
    rw [← OrdMap.lookup_isSome_iff, lookup_GetWordFrequencies, htf]
    by_cases hw : w ∈ words <;> simp [hw]
  · intro w hw
    have h3 := htf w
    rw [if_pos hw] at h3
    refine ⟨by rw [lookup_GetWordFrequencies, h3], ?_⟩
    have := hinv1.index.transpose w document_id
    unfold tfW at this
    rw [this, h3]

end SearchServer
end SearchEngine

/-! ## Lemmas on the sharded accumulator -/

namespace SearchEngine
namespace ConcurrentMap
variable {V : Type}

theorem CMInv_new (n : Nat) (hn : 0 < n) : CMInv (ConcurrentMap.new n : ConcurrentMap V) := by
  refine ⟨by simpa [ConcurrentMap.new] using hn, ?_, ?_⟩
  · intro i b h
    simp only [ConcurrentMap.new, List.getElem?_replicate] at h
    split_ifs at h
    cases h
    exact OrdMap.WF_nil
  · intro i b h k hk
    simp only [ConcurrentMap.new, List.getElem?_replicate] at h
    split_ifs at h
    cases h
    simp at hk

theorem get_new (n : Nat) (key : Int) : (ConcurrentMap.new n : ConcurrentMap V).get key = none := by
  simp only [get, ConcurrentMap.new, List.getElem?_replicate]
  split_ifs <;> simp

/-- The bucket update performed by `operator[]` followed by `+=`. -/
theorem lookup_bucketAdd [Zero V] [Add V] (j k : Int) (delta : V) {b : OrdMap Int V}
    (hb : OrdMap.WF b) :
    OrdMap.lookup j (bucketAdd k delta b) =
      if j = k then some ((OrdMap.lookup k b).getD 0 + delta) else OrdMap.lookup j b := by
  unfold bucketAdd
  by_cases hc : OrdMap.count k b = 0
  · have hl := (OrdMap.count_eq_zero_iff k b).1 hc
    rw [if_pos hc, OrdMap.lookup_modify _ _ _ _ (OrdMap.WF.emplace _ _ hb)]
    by_cases hj : j = k
    · simp [hj, OrdMap.lookup_emplace_self _ _ hb, hl]
    · simp [hj, OrdMap.lookup_emplace_ne hj]
  · rw [if_neg hc, OrdMap.lookup_modify _ _ _ _ hb]

theorem WF_bucketAdd [Zero V] [Add V] (k : Int) (delta : V) {b : OrdMap Int V}
    (hb : OrdMap.WF b) : OrdMap.WF (bucketAdd k delta b) := by
  unfold bucketAdd
  apply OrdMap.WF.modify
  split_ifs
  · exact OrdMap.WF.emplace _ _ hb
  · exact hb

theorem keys_bucketAdd [Zero V] [Add V] (j k : Int) (delta : V) (b : OrdMap Int V) :
    j ∈ OrdMap.keys (bucketAdd k delta b) ↔ j = k ∨ j ∈ OrdMap.keys b := by
  unfold bucketAdd
  rw [OrdMap.mem_keys_modify]
  split_ifs
  · unfold OrdMap.emplace
    rw [OrdMap.keys_upsert, mem_setInsert]
    tauto
  · rfl

theorem CMInv.addAt [Zero V] [Add V] {cm : ConcurrentMap V} (h : CMInv cm) (key : Int)
    (delta : V) : CMInv (cm.addAt key delta) := by
  refine ⟨by simpa [ConcurrentMap.addAt] using h.pos, ?_, ?_⟩
  · intro i b hb
    simp only [ConcurrentMap.addAt, List.getElem?_modify] at hb
    cases hb0 : cm.buckets_[i]? with
    | none => simp [hb0] at hb
    | some b0 =>
      simp only [hb0, Option.map_eq_map, Option.map_some', Option.some.injEq] at hb
      subst hb
      by_cases hi : castSizeT key % cm.buckets_.length = i
      · rw [if_pos hi]
        exact WF_bucketAdd key delta (h.wf _ _ hb0)
      · rw [if_neg hi]
        exact h.wf _ _ hb0
  · intro i b hb k hk
    simp only [ConcurrentMap.addAt, List.getElem?_modify, List.length_modify] at hb ⊢
    cases hb0 : cm.buckets_[i]? with
    | none => simp [hb0] at hb
    | some b0 =>
      simp only [hb0, Option.map_eq_map, Option.map_some', Option.some.injEq] at hb
      subst hb
      by_cases hi : castSizeT key % cm.buckets_.length = i
      · rw [if_pos hi] at hk
        rcases (keys_bucketAdd k key delta b0).1 hk with hk | hk
        · rw [hk]; exact hi
        · exact h.home _ _ hb0 k hk
      · rw [if_neg hi] at hk
        exact h.home _ _ hb0 k hk

theorem get_addAt [Zero V] [Add V] {cm : ConcurrentMap V} (h : CMInv cm) (key j : Int)
    (delta : V) :
    (cm.addAt key delta).get j =
      if j = key then some ((cm.get key).getD 0 + delta) else cm.get j := by
  have hlt : ∀ k : Int, castSizeT k % cm.buckets_.length < cm.buckets_.length :=
    fun k => Nat.mod_lt _ h.pos
  simp only [get, ConcurrentMap.addAt, List.getElem?_modify, List.length_modify]
  obtain ⟨bk, hbk⟩ : ∃ b, cm.buckets_[castSizeT key % cm.buckets_.length]? = some b :=
    ⟨_, List.getElem?_eq_getElem (hlt key)⟩
  obtain ⟨bj, hbj⟩ : ∃ b, cm.buckets_[castSizeT j % cm.buckets_.length]? = some b :=
    ⟨_, List.getElem?_eq_getElem (hlt j)⟩
  rw [hbj, hbk]
  simp only [Option.map_eq_map, Option.map_some', Option.some_bind]
  by_cases hj : j = key
  · subst hj
    rw [hbj] at hbk
    cases hbk
    simp only [if_true]
    rw [lookup_bucketAdd _ _ _ (h.wf _ _ hbj)]
    simp
  · simp only [hj, if_false]
    by_cases hi : castSizeT key % cm.buckets_.length = castSizeT j % cm.buckets_.length
    · rw [if_pos hi, lookup_bucketAdd _ _ _ (h.wf _ _ hbj)]
      simp [hj]
    · rw [if_neg hi]

theorem lookup_mergeInto (j : Int) (source : OrdMap Int V) :
    ∀ target : OrdMap Int V, OrdMap.WF target →
      OrdMap.WF (mergeInto target source) ∧
      OrdMap.lookup j (mergeInto target source) =
        (OrdMap.lookup j target).orElse (fun _ => OrdMap.lookup j source) := by
  induction source with
  | nil =>
    intro t ht
    refine ⟨ht, ?_⟩
    show OrdMap.lookup j t = (OrdMap.lookup j t).orElse _
    cases OrdMap.lookup j t <;> rfl
  | cons e rest ih =>
    intro t ht
    obtain ⟨k, v⟩ := e
    have ht1 : OrdMap.WF (OrdMap.emplace k v t) := OrdMap.WF.emplace _ _ ht
    have := ih _ ht1
    simp only [mergeInto, List.foldl_cons] at this ⊢
    refine ⟨this.1, ?_⟩
    rw [this.2]
    by_cases hj : j = k
    · subst hj
      rw [OrdMap.lookup_emplace_self _ _ ht]
      cases OrdMap.lookup j t <;> simp
    · rw [OrdMap.lookup_emplace_ne hj]
      simp [hj]

theorem lookup_foldl_mergeInto (j : Int) (bs : List (OrdMap Int V)) :
    ∀ (acc : OrdMap Int V) (n : Nat), OrdMap.WF acc →
      (∀ (i : Nat) (b : OrdMap Int V), bs[i]? = some b → j ∈ OrdMap.keys b → i = n) →
      OrdMap.WF (bs.foldl (fun result bucket_map => mergeInto result bucket_map) acc) ∧
      OrdMap.lookup j (bs.foldl (fun result bucket_map => mergeInto result bucket_map) acc) =
        (OrdMap.lookup j acc).orElse (fun _ => (bs[n]?).bind (OrdMap.lookup j)) := by
  induction bs with
  | nil =>
    intro acc n hacc _
    refine ⟨hacc, ?_⟩
    show OrdMap.lookup j acc = (OrdMap.lookup j acc).orElse _
    cases OrdMap.lookup j acc <;> rfl
  | cons b rest ih =>
    intro acc n hacc hhome
    have hm := lookup_mergeInto j b acc hacc
    simp only [List.foldl_cons]
    cases n with
    | zero =>
      have := ih (mergeInto acc b) rest.length hm.1 (by
        intro i b1 hb1 hj
        have := hhome (i + 1) b1 (by simpa using hb1) hj
        omega)
      refine ⟨this.1, ?_⟩
      rw [this.2, hm.2]
      have hnone : rest[rest.length]? = none := List.getElem?_eq_none (le_refl _)
      simp only [hnone, Option.none_bind, List.getElem?_cons_zero, Option.some_bind]
      cases OrdMap.lookup j acc <;> cases OrdMap.lookup j b <;> rfl
    | succ n =>
      have := ih (mergeInto acc b) n hm.1 (by
        intro i b1 hb1 hj
        have := hhome (i + 1) b1 (by simpa using hb1) hj
        omega)
      refine ⟨this.1, ?_⟩
      rw [this.2, hm.2]
      have hb : OrdMap.lookup j b = none := by
        rw [OrdMap.lookup_eq_none_iff]
        intro hj
        have := hhome 0 b (by simp) hj
        omega
      simp only [hb, List.getElem?_cons_succ]
      cases OrdMap.lookup j acc <;> rfl

/-- `BuildOrdinaryMap` returns a well-formed map that holds, for every key, the value of the
accumulator. -/
theorem lookup_BuildOrdinaryMap {cm : ConcurrentMap V} (h : CMInv cm) (j : Int) :
    OrdMap.WF cm.BuildOrdinaryMap ∧ OrdMap.lookup j cm.BuildOrdinaryMap = cm.get j := by
  have := lookup_foldl_mergeInto j cm.buckets_ [] (castSizeT j % cm.buckets_.length)
    OrdMap.WF_nil (by
      intro i b hb hj
      exact (h.home i b hb j hj).symm)
  refine ⟨this.1, ?_⟩
  unfold BuildOrdinaryMap get
  rw [this.2]
  rfl

end ConcurrentMap
end SearchEngine

/-! ## `FindAllDocuments` and `FindTopDocuments`; claims C4, C6, C5, C10, C8 -/

namespace SearchEngine
namespace SearchServer
variable {F : Type} [LinearOrderedField F]

/-- The inner loop of `FindAllDocuments` adds `tf * idf` for every posting whose document passes
the predicate. -/
theorem scorePostings_spec (s : SearchServer F) (P : Int → DocumentStatus → Int → Bool)
    (idf : F) (postings : List (Int × F)) :
    ∀ cm : ConcurrentMap F, cm.CMInv → OrdMap.WF postings →
      (∀ e ∈ postings, OrdMap.lookup e.1 s.documents_ ≠ none) →
      ∃ cm1, scorePostings s P idf postings cm = .ok cm1 ∧ cm1.CMInv ∧
        ∀ j, cm1.get j =
          if s.docPred P j = true ∧ OrdMap.lookup j postings ≠ none then
            some ((cm.get j).getD 0 + (OrdMap.lookup j postings).getD 0 * idf)
          else cm.get j := by
  induction postings with
  | nil =>
    intro cm hcm _ _
    exact ⟨cm, rfl, hcm, by simp⟩
  | cons e rest ih =>
    intro cm hcm hwf hdocs
    obtain ⟨d, tf⟩ := e
    have hwf' := (OrdMap.WF_cons_iff _ _).1 hwf
    have hrest : OrdMap.lookup d rest = none := by
      rw [OrdMap.lookup_eq_none_iff]
      intro hm
      exact lt_irrefl _ (hwf'.1 d hm)
    have hd := hdocs (d, tf) (List.mem_cons_self _ _)
    cases hl : OrdMap.lookup d s.documents_ with
    | none => exact absurd hl hd
    | some data =>
      simp only [scorePostings, hl]
      by_cases hp : P d data.status data.rating = true
      · simp only [hp, if_true]
        obtain ⟨cm1, h1, h2, h3⟩ := ih (cm.addAt d (tf * idf)) (hcm.addAt _ _) hwf'.2
          (fun e he => hdocs e (List.mem_cons_of_mem _ he))
        refine ⟨cm1, h1, h2, ?_⟩
        intro j
        rw [h3, ConcurrentMap.get_addAt hcm]
        by_cases hj : j = d
        · subst hj
          have hdp : s.docPred P j = true := by simp [docPred, hl, hp]
          simp [hrest, hdp]
        · simp [hj]
      · simp only [hp]
        obtain ⟨cm1, h1, h2, h3⟩ := ih cm hcm hwf'.2
          (fun e he => hdocs e (List.mem_cons_of_mem _ he))
        refine ⟨cm1, h1, h2, ?_⟩
        intro j
        rw [h3]
        by_cases hj : j = d
        · subst hj
          have hdp : s.docPred P j = false := by simp [docPred, hl, hp]
          simp [hrest, hdp]
        · simp [hj]

omit [LinearOrderedField F] in
theorem Inv.posting_docs {s : SearchServer F} (hs : Inv s) {w : Word} {postings : OrdMap Int F}
    (hw : OrdMap.lookup w s.word_to_document_freqs_ = some postings) :
    ∀ e ∈ postings, OrdMap.lookup e.1 s.documents_ ≠ none := by
  intro e he
  have h1 : s.tfW w e.1 = some e.2 := by
    simp only [tfW, hw, Option.some_bind]
    exact OrdMap.lookup_of_mem (hs.index.w2d_inner _ _ hw) he
  rw [hs.index.transpose] at h1
  have h2 : e.1 ∈ OrdMap.keys s.document_to_words_freqs_ := by
    rw [← OrdMap.lookup_isSome_iff]
    unfold tfD at h1
    cases hl : OrdMap.lookup e.1 s.document_to_words_freqs_ with
    | none => simp [hl] at h1
    | some m => rfl
  have h3 := hs.d2w_docs _ h2
  rw [← OrdMap.lookup_isSome_iff] at h3
  intro h4
  simp [h4] at h3

/-- The outer loop of `FindAllDocuments`: a document that passes the predicate and has one of
the words gets the sum of `tf * idf` over the words. -/
theorem scorePlusWords_spec (s : SearchServer F) (hs : Inv s) (ln : F → F)
    (P : Int → DocumentStatus → Int → Bool) (words : List Word) :
    ∀ cm : ConcurrentMap F, cm.CMInv →
      ∃ cm1, scorePlusWords s ln P words cm = .ok cm1 ∧ cm1.CMInv ∧
        ∀ j, cm1.get j =
          if s.docPred P j = true ∧ ∃ w ∈ words, s.tfW w j ≠ none then
            some ((cm.get j).getD 0 + s.relevanceOf ln words j)
          else cm.get j := by
  induction words with
  | nil =>
    intro cm hcm
    exact ⟨cm, rfl, hcm, by simp⟩
  | cons w rest ih =>
    intro cm hcm
    cases hl : OrdMap.lookup w s.word_to_document_freqs_ with
    | none =>
      simp only [scorePlusWords, hl]
      obtain ⟨cm1, h1, h2, h3⟩ := ih cm hcm
      refine ⟨cm1, h1, h2, ?_⟩
      intro j
      have htf : s.tfW w j = none := by simp [tfW, hl]
      rw [h3]
      simp [htf, relevanceOf]
    | some postings =>
      simp only [scorePlusWords, hl, ComputeWordInverseDocumentFreq]
      obtain ⟨cm1, h1, h2, h3⟩ := scorePostings_spec s P
        (ln ((s.GetDocumentCount : F) * 1 / ((postings.length : Nat) : F))) postings cm hcm
        (hs.index.w2d_inner _ _ hl) (hs.posting_docs hl)
      simp only [h1]
      obtain ⟨cm2, k1, k2, k3⟩ := ih cm1 h2
      refine ⟨cm2, k1, k2, ?_⟩
      intro j
      have htf : s.tfW w j = OrdMap.lookup j postings := by simp [tfW, hl]
      have hidf : s.idfOf ln w = ln ((s.GetDocumentCount : F) * 1 / ((postings.length : Nat) : F)) := by
        simp [idfOf, hl]
      rw [k3, h3]
      simp only [List.mem_cons, exists_eq_or_imp, htf, relevanceOf, List.map_cons, List.sum_cons,
        hidf]
      by_cases hp : s.docPred P j = true
      · by_cases h4 : OrdMap.lookup j postings = none
        · simp [hp, h4]
        · by_cases h5 : ∃ w1 ∈ rest, s.tfW w1 j ≠ none
          · simp only [hp, h4, h5, true_and, ne_eq, not_false_eq_true, if_true, or_true,
              Option.getD_some, Option.some.injEq]
            ring
          · simp only [hp, h4, h5, true_and, ne_eq, not_false_eq_true, if_true, or_false,
              and_false, if_false, Option.getD_some, Option.some.injEq]
            have hz : (rest.map (fun w1 => (s.tfW w1 j).getD 0 * s.idfOf ln w1)).sum = 0 := by
              apply List.sum_eq_zero
              intro x hx
              obtain ⟨w1, hw1, rfl⟩ := List.mem_map.1 hx
              have : s.tfW w1 j = none := by
                by_contra hne
                exact h5 ⟨w1, hw1, hne⟩
              simp [this]
            rw [hz]
            ring
      · simp [hp]

omit [LinearOrderedField F] in
theorem lookup_foldl_erase (j : Int) (postings : List (Int × F)) :
    ∀ m : OrdMap Int F, OrdMap.WF m →
      OrdMap.WF (postings.foldl (fun acc e => OrdMap.erase e.1 acc) m) ∧
      OrdMap.lookup j (postings.foldl (fun acc e => OrdMap.erase e.1 acc) m) =
        if j ∈ OrdMap.keys postings then none else OrdMap.lookup j m := by
  induction postings with
  | nil => intro m hm; exact ⟨hm, by simp⟩
  | cons e rest ih =>
    intro m hm
    have := ih (OrdMap.erase e.1 m) (OrdMap.WF.erase _ hm)
    simp only [List.foldl_cons]
    refine ⟨this.1, ?_⟩
    rw [this.2, OrdMap.lookup_erase]
    by_cases hj : j = e.1
    · simp [hj]
    · simp [hj]

/-- The minus-word loop of `FindAllDocuments` erases the documents that have a minus-word. -/
theorem eraseMinusWords_spec (s : SearchServer F) (j : Int) (words : List Word) :
    ∀ m : OrdMap Int F, OrdMap.WF m →
      OrdMap.WF (eraseMinusWords s words m) ∧
      OrdMap.lookup j (eraseMinusWords s words m) =
        if ∃ w ∈ words, s.tfW w j ≠ none then none else OrdMap.lookup j m := by
  induction words with
  | nil => intro m hm; exact ⟨hm, by simp [eraseMinusWords]⟩
  | cons w rest ih =>
    intro m hm
    cases hl : OrdMap.lookup w s.word_to_document_freqs_ with
    | none =>
      have htf : s.tfW w j = none := by simp [tfW, hl]
      simp only [eraseMinusWords, hl]
      refine ⟨(ih m hm).1, ?_⟩
      rw [(ih m hm).2]
      simp [htf]
    | some postings =>
      have htf : s.tfW w j = OrdMap.lookup j postings := by simp [tfW, hl]
      simp only [eraseMinusWords, hl]
      have h1 := lookup_foldl_erase j postings m hm
      have h2 := ih _ h1.1
      refine ⟨h2.1, ?_⟩
      rw [h2.2, h1.2]
      simp only [List.mem_cons, exists_eq_or_imp, htf]
      by_cases h3 : j ∈ OrdMap.keys postings
      · have : OrdMap.lookup j postings ≠ none := by
          rw [Ne, OrdMap.lookup_eq_none_iff]; exact fun h => h h3
        simp [h3, this]
      · have : OrdMap.lookup j postings = none := by
          rw [OrdMap.lookup_eq_none_iff]; exact h3
        simp [h3, this]

omit [LinearOrderedField F] in
theorem collectDocuments_spec (s : SearchServer F) (l : List (Int × F))
    (h : ∀ e ∈ l, OrdMap.lookup e.1 s.documents_ ≠ none) :
    collectDocuments s l = .ok (l.map (fun e => ⟨e.1, e.2, s.ratingOf e.1⟩)) := by
  induction l with
  | nil => rfl
  | cons e rest ih =>
    have he := h e (List.mem_cons_self _ _)
    cases hl : OrdMap.lookup e.1 s.documents_ with
    | none => exact absurd hl he
    | some data =>
      simp only [collectDocuments, hl, ih (fun e1 he1 => h e1 (List.mem_cons_of_mem _ he1)),
        List.map_cons, ratingOf]

/-- `FindAllDocuments` in a state that satisfies the invariant: it returns, in ascending id
order, the documents that pass the predicate, have a plus-word and have no minus-word, each with
its accumulated relevance and its stored rating. -/
theorem FindAllDocuments_spec (s : SearchServer F) (hs : Inv s) (ln : F → F) (query : Query)
    (P : Int → DocumentStatus → Int → Bool) :
    ∃ m : OrdMap Int F, OrdMap.WF m ∧
      s.FindAllDocuments ln query P = .ok (m.map (fun e => ⟨e.1, e.2, s.ratingOf e.1⟩)) ∧
      ∀ j, OrdMap.lookup j m =
        if s.docPred P j = true ∧ (∃ w ∈ query.plus_words, s.tfW w j ≠ none) ∧
            ¬ ∃ w ∈ query.minus_words, s.tfW w j ≠ none then
          some (s.relevanceOf ln query.plus_words j)
        else none := by
  obtain ⟨cm1, h1, h2, h3⟩ := scorePlusWords_spec s hs ln P query.plus_words
    (ConcurrentMap.new 6) (ConcurrentMap.CMInv_new 6 (by decide))
  have hb : ∀ j, OrdMap.WF cm1.BuildOrdinaryMap ∧
      OrdMap.lookup j cm1.BuildOrdinaryMap = cm1.get j :=
    fun j => ConcurrentMap.lookup_BuildOrdinaryMap h2 j
  have hm : ∀ j, OrdMap.lookup j (eraseMinusWords s query.minus_words cm1.BuildOrdinaryMap) =
      if s.docPred P j = true ∧ (∃ w ∈ query.plus_words, s.tfW w j ≠ none) ∧
          ¬ ∃ w ∈ query.minus_words, s.tfW w j ≠ none then
        some (s.relevanceOf ln query.plus_words j)
      else none := by
    intro j
    rw [(eraseMinusWords_spec s j query.minus_words _ (hb j).1).2, (hb j).2, h3,
      ConcurrentMap.get_new]
    by_cases hmn : ∃ w ∈ query.minus_words, s.tfW w j ≠ none
    · simp [hmn]
    · by_cases hp : s.docPred P j = true ∧ ∃ w ∈ query.plus_words, s.tfW w j ≠ none
      · simp [hmn, hp]
      · have : ¬ (s.docPred P j = true ∧ (∃ w ∈ query.plus_words, s.tfW w j ≠ none) ∧
            ¬ ∃ w ∈ query.minus_words, s.tfW w j ≠ none) := fun h => hp ⟨h.1, h.2.1⟩
        rw [if_neg hmn, if_neg hp, if_neg this]
  have hwf := (eraseMinusWords_spec s 0 query.minus_words _ (hb 0).1).1
  refine ⟨_, hwf, ?_, hm⟩
  unfold FindAllDocuments
  simp only [h1]
  apply collectDocuments_spec
  intro e he
  have := hm e.1
  rw [OrdMap.lookup_of_mem hwf (show (e.1, e.2) ∈ _ from he)] at this
  split_ifs at this with hc
  have hp := hc.1
  unfold docPred at hp
  intro hnone
  simp [hnone] at hp

omit [LinearOrderedField F] in
theorem Inv.mem_keys_GetWordFrequencies {s : SearchServer F} (hs : Inv s) (w : Word) (d : Int) :
    w ∈ OrdMap.keys (s.GetWordFrequencies d) ↔ s.tfW w d ≠ none := by
  rw [← OrdMap.lookup_isSome_iff, lookup_GetWordFrequencies, hs.index.transpose]
  cases s.tfD d w <;> simp

omit [LinearOrderedField F] in
theorem Inv.inMatchSet_iff {s : SearchServer F} (hs : Inv s) (query : Query)
    (P : Int → DocumentStatus → Int → Bool) (j : Int) :
    s.inMatchSet query P j = true ↔
      (s.docPred P j = true ∧ (∃ w ∈ query.plus_words, s.tfW w j ≠ none) ∧
        ¬ ∃ w ∈ query.minus_words, s.tfW w j ≠ none) := by
  simp only [inMatchSet, Bool.and_eq_true, List.any_eq_true, decide_eq_true_eq,
    Bool.not_eq_true', hs.mem_keys_GetWordFrequencies, and_assoc]
  constructor
  · rintro ⟨h1, h2, h3⟩
    refine ⟨h1, h2, ?_⟩
    rintro ⟨w, hw, hne⟩
    have : query.minus_words.any
        (fun w => decide (w ∈ OrdMap.keys (s.GetWordFrequencies j))) = true := by
      rw [List.any_eq_true]
      exact ⟨w, hw, by simpa [hs.mem_keys_GetWordFrequencies] using hne⟩
    rw [h3] at this
    exact Bool.noConfusion this
  · rintro ⟨h1, h2, h3⟩
    refine ⟨h1, h2, ?_⟩
    by_contra hne
    have ht : query.minus_words.any
        (fun w => decide (w ∈ OrdMap.keys (s.GetWordFrequencies j))) = true := by
      simpa using hne
    rw [List.any_eq_true] at ht
    obtain ⟨w, hw, hd⟩ := ht
    exact h3 ⟨w, hw, by simpa [hs.mem_keys_GetWordFrequencies] using hd⟩

omit [LinearOrderedField F] in
theorem docPred_mem_ids {s : SearchServer F} (hs : Inv s)
    {P : Int → DocumentStatus → Int → Bool} {j : Int} (h : s.docPred P j = true) :
    j ∈ s.document_ids_ := by
  rw [hs.ids_eq, ← OrdMap.lookup_isSome_iff]
  unfold docPred at h
  cases hl : OrdMap.lookup j s.documents_ with
  | none => simp [hl] at h
  | some data => rfl

omit [LinearOrderedField F] in
/-- The keys of a well-formed map whose entries are exactly the matching documents are the
matching ids in the order of the doc-id set. -/
theorem keys_eq_filter_ids {s : SearchServer F} (hs : Inv s) (query : Query)
    (P : Int → DocumentStatus → Int → Bool) {m : OrdMap Int F} (hm : OrdMap.WF m)
    (hl : ∀ j, OrdMap.lookup j m ≠ none ↔ s.inMatchSet query P j = true) :
    OrdMap.keys m = s.document_ids_.filter (s.inMatchSet query P) := by
  have hsorted : (s.document_ids_.filter (s.inMatchSet query P)).Sorted (· < ·) := by
    apply List.Sorted.filter
    rw [hs.ids_eq]
    exact hs.docs_wf
  apply List.eq_of_perm_of_sorted ?_ hm hsorted
  apply (List.perm_ext_iff_of_nodup (OrdMap.keys_nodup hm) hsorted.nodup).2
  intro j
  rw [List.mem_filter, ← OrdMap.lookup_isSome_iff]
  constructor
  · intro h
    have h1 : OrdMap.lookup j m ≠ none := by
      intro h2; simp [h2] at h
    have h2 := (hl j).1 h1
    exact ⟨docPred_mem_ids hs ((hs.inMatchSet_iff query P j).1 h2).1, h2⟩
  · rintro ⟨_, h⟩
    have := (hl j).2 h
    cases hx : OrdMap.lookup j m with
    | none => exact absurd hx this
    | some v => rfl

theorem perm_stdSort {α : Type} (comp : α → α → Bool) (l : List α) :
    (stdSort comp l).Perm l :=
  List.perm_insertionSort _ l

/-- `FindTopDocuments` in a state that satisfies the invariant, for a query that parses. -/
theorem FindTopDocuments_spec (s : SearchServer F) (hs : Inv s) (ln : F → F)
    (raw_query : List Char) (P : Int → DocumentStatus → Int → Bool) (query : Query)
    (hq : s.ParseQuery raw_query = .ok query) :
    ∃ m : OrdMap Int F, OrdMap.WF m ∧
      s.FindTopDocuments ln raw_query P =
        .ok ((stdSort documentBefore
          (m.map (fun e => (⟨e.1, e.2, s.ratingOf e.1⟩ : Document F)))).take 5) ∧
      (∀ j, OrdMap.lookup j m =
        if s.inMatchSet query P j = true then some (s.relevanceOf ln query.plus_words j)
        else none) ∧
      OrdMap.keys m = s.document_ids_.filter (s.inMatchSet query P) := by
  obtain ⟨m, h1, h2, h3⟩ := FindAllDocuments_spec s hs ln query P
  have h4 : ∀ j, OrdMap.lookup j m =
      if s.inMatchSet query P j = true then some (s.relevanceOf ln query.plus_words j)
      else none := by
    intro j
    rw [h3]
    by_cases hc : s.inMatchSet query P j = true
    · rw [if_pos hc, if_pos ((hs.inMatchSet_iff query P j).1 hc)]
    · rw [if_neg hc, if_neg (fun h => hc ((hs.inMatchSet_iff query P j).2 h))]
  refine ⟨m, h1, ?_, h4, ?_⟩
  · unfold FindTopDocuments
    simp only [hq, h2, MAX_RESULT_DOCUMENT_COUNT]
    split_ifs with hlen
    · rfl
    · rw [List.take_of_length_le (by omega)]
  · apply keys_eq_filter_ids hs query P h1
    intro j
    rw [h4]
    by_cases hc : s.inMatchSet query P j = true <;> simp [hc]

/-- What is known of a document returned by `FindTopDocuments`. -/
theorem mem_result_iff (s : SearchServer F) {m : OrdMap Int F} (hm : OrdMap.WF m)
    (doc : Document F) :
    doc ∈ stdSort documentBefore
        (m.map (fun e => (⟨e.1, e.2, s.ratingOf e.1⟩ : Document F))) ↔
      OrdMap.lookup doc.id m = some doc.relevance ∧ doc.rating = s.ratingOf doc.id := by
  rw [(perm_stdSort _ _).mem_iff, List.mem_map]
  constructor
  · rintro ⟨e, he, rfl⟩
    exact ⟨OrdMap.lookup_of_mem hm he, rfl⟩
  · rintro ⟨h1, h2⟩
    refine ⟨(doc.id, doc.relevance), OrdMap.mem_of_lookup h1, ?_⟩
    cases doc
    simp only at h2
    simp [h2]

theorem ids_result (s : SearchServer F) (m : OrdMap Int F) :
    ((stdSort documentBefore
        (m.map (fun e => (⟨e.1, e.2, s.ratingOf e.1⟩ : Document F)))).map
          (fun doc => doc.id)).Perm (OrdMap.keys m) := by
  have h := (perm_stdSort documentBefore
    (m.map (fun e => (⟨e.1, e.2, s.ratingOf e.1⟩ : Document F)))).map (fun doc => doc.id)
  refine h.trans ?_
  rw [List.map_map]
  exact List.Perm.refl _

/-- C4: in every reachable state, for a query that parses and every predicate `P`, let `M` be
the present documents `d` for which `P(d, status(d), rating(d))` holds, that contain a plus-word
of the query and contain no minus-word of the query.  `FindTopDocuments` returns documents with
pairwise distinct ids, all in `M`, exactly `min(5, |M|)` of them; when `|M| ≤ 5` every document
of `M` is returned, whatever its relevance. -/
theorem C4_FindTopDocuments_match_set (s : SearchServer F) (hs : Reachable s) (ln : F → F)
    (raw_query : List Char) (P : Int → DocumentStatus → Int → Bool) (query : Query)
    (hq : s.ParseQuery raw_query = .ok query) :
    ∃ docs, s.FindTopDocuments ln raw_query P = .ok docs ∧
      (docs.map (fun doc => doc.id)).Nodup ∧
      (∀ doc ∈ docs, doc.id ∈ s.document_ids_ ∧ s.inMatchSet query P doc.id = true) ∧
      docs.length = min 5 (s.document_ids_.filter (s.inMatchSet query P)).length ∧
      ((s.document_ids_.filter (s.inMatchSet query P)).length ≤ 5 →
        ∀ d ∈ s.document_ids_, s.inMatchSet query P d = true →
          d ∈ docs.map (fun doc => doc.id)) := by
  obtain ⟨m, hm, hres, hl, hk⟩ := FindTopDocuments_spec s hs.inv ln raw_query P query hq
  refine ⟨_, hres, ?_, ?_, ?_, ?_⟩
  · have hnd : ((stdSort documentBefore
        (m.map (fun e => (⟨e.1, e.2, s.ratingOf e.1⟩ : Document F)))).map
          (fun doc => doc.id)).Nodup :=
      (ids_result s m).nodup_iff.2 (OrdMap.keys_nodup hm)
    exact hnd.sublist ((List.take_sublist _ _).map _)
  · intro doc hdoc
    have h1 := (mem_result_iff s hm doc).1 (List.mem_of_mem_take hdoc)
    have h2 := hl doc.id
    rw [h1.1] at h2
    split_ifs at h2 with hc
    exact ⟨docPred_mem_ids hs.inv ((hs.inv.inMatchSet_iff query P _).1 hc).1, hc⟩
  · rw [List.length_take, (perm_stdSort _ _).length_eq, List.length_map, ← hk]
    simp [OrdMap.keys]
  · intro hle d hd hin
    rw [← hk] at hle
    have hlen : (stdSort documentBefore
        (m.map (fun e => (⟨e.1, e.2, s.ratingOf e.1⟩ : Document F)))).length ≤ 5 := by
      rw [(perm_stdSort _ _).length_eq, List.length_map]
      simpa [OrdMap.keys] using hle
    rw [List.take_of_length_le hlen, (ids_result s m).mem_iff, hk, List.mem_filter]
    exact ⟨hd, hin⟩

/-- C6: in every reachable state, every document returned by `FindTopDocuments(query, P)` has
an id present in the index, carries the rating stored for that id and satisfies `P(id, stored
status, stored rating)`; `FindTopDocuments(query, S)` for a status `S` returns only documents
whose stored status is `S`; and `FindTopDocuments(query)` is `FindTopDocuments(query, ACTUAL)`. -/
theorem C6_FindTopDocuments_metadata (s : SearchServer F) (hs : Reachable s) (ln : F → F)
    (raw_query : List Char) :
    (∀ (P : Int → DocumentStatus → Int → Bool) docs,
      s.FindTopDocuments ln raw_query P = .ok docs → ∀ doc ∈ docs,
        doc.id ∈ s.document_ids_ ∧
        ∃ data, OrdMap.lookup doc.id s.documents_ = some data ∧ doc.rating = data.rating ∧
          P doc.id data.status data.rating = true) ∧
    (∀ (status : DocumentStatus) docs,
      s.FindTopDocumentsStatus ln raw_query status = .ok docs → ∀ doc ∈ docs,
        ∃ data, OrdMap.lookup doc.id s.documents_ = some data ∧ data.status = status) ∧
    s.FindTopDocumentsDefault ln raw_query =
      s.FindTopDocumentsStatus ln raw_query DocumentStatus.ACTUAL := by
  have key : ∀ (P : Int → DocumentStatus → Int → Bool) docs,
      s.FindTopDocuments ln raw_query P = .ok docs → ∀ doc ∈ docs,
        doc.id ∈ s.document_ids_ ∧
        ∃ data, OrdMap.lookup doc.id s.documents_ = some data ∧ doc.rating = data.rating ∧
          P doc.id data.status data.rating = true := by
    intro P docs hdocs doc hdoc
    rcases ParseQuery_ok_or_invalid s raw_query with hq | ⟨query, hq⟩
    · simp [FindTopDocuments, hq] at hdocs
    · obtain ⟨m, hm, hres, hl, hk⟩ := FindTopDocuments_spec s hs.inv ln raw_query P query hq
      rw [hres] at hdocs
      cases hdocs
      have h1 := (mem_result_iff s hm doc).1 (List.mem_of_mem_take hdoc)
      have h2 := hl doc.id
      rw [h1.1] at h2
      split_ifs at h2 with hc
      have hp := ((hs.inv.inMatchSet_iff query P _).1 hc).1
      refine ⟨docPred_mem_ids hs.inv hp, ?_⟩
      have hr := h1.2
      unfold docPred at hp
      unfold ratingOf at hr
      cases hd : OrdMap.lookup doc.id s.documents_ with
      | none => simp [hd] at hp
      | some data =>
        simp only [hd] at hp hr
        exact ⟨data, rfl, hr, hr ▸ hp⟩
  refine ⟨key, ?_, rfl⟩
  intro status docs hdocs doc hdoc
  obtain ⟨_, data, h1, _, h3⟩ := key (GetStatusPredicate status) docs hdocs doc hdoc
  exact ⟨data, h1, by simpa [GetStatusPredicate] using h3⟩

omit [LinearOrderedField F] in
/-- The two sets built by the loop of `ParseQuery`. -/
theorem parseQueryLoop_ok (s : SearchServer F) (toks : List Word) :
    ∀ q0 q, s.parseQueryLoop toks q0 = .ok q →
      (∀ w, w ∈ q.plus_words ↔ w ∈ q0.plus_words ∨ ∃ tok ∈ toks, ∃ qw,
        s.ParseQueryWord tok = .ok qw ∧ qw.is_stop = false ∧ qw.is_minus = false ∧
          qw.data = w) ∧
      (∀ w, w ∈ q.minus_words ↔ w ∈ q0.minus_words ∨ ∃ tok ∈ toks, ∃ qw,
        s.ParseQueryWord tok = .ok qw ∧ qw.is_stop = false ∧ qw.is_minus = true ∧
          qw.data = w) ∧
      (q0.plus_words.Sorted (· < ·) → q.plus_words.Sorted (· < ·)) ∧
      (q0.minus_words.Sorted (· < ·) → q.minus_words.Sorted (· < ·)) := by
  induction toks with
  | nil =>
    intro q0 q h
    simp only [parseQueryLoop, Except.ok.injEq] at h
    subst h
    simp
  | cons tok rest ih =>
    intro q0 q h
    simp only [parseQueryLoop] at h
    cases hp : s.ParseQueryWord tok with
    | error e => simp [hp] at h
    | ok qw =>
      simp only [hp] at h
      by_cases hstop : qw.is_stop = true
      · simp only [hstop, Bool.not_true, Bool.false_eq_true, if_false] at h
        obtain ⟨h1, h2, h3, h4⟩ := ih _ _ h
        refine ⟨?_, ?_, h3, h4⟩
        · intro w
          rw [h1]
          simp only [List.mem_cons, exists_eq_or_imp, hp, Except.ok.injEq, exists_eq_left']
          simp [hstop]
        · intro w
          rw [h2]
          simp only [List.mem_cons, exists_eq_or_imp, hp, Except.ok.injEq, exists_eq_left']
          simp [hstop]
      · have hstop' : qw.is_stop = false := by simpa using hstop
        simp only [hstop', Bool.not_false, if_true] at h
        by_cases hminus : qw.is_minus = true
        · simp only [hminus, if_true] at h
          obtain ⟨h1, h2, h3, h4⟩ := ih _ _ h
          refine ⟨?_, ?_, h3, fun hs0 => h4 (sorted_setInsert _ hs0)⟩
          · intro w
            rw [h1]
            simp only [List.mem_cons, exists_eq_or_imp, hp, Except.ok.injEq, exists_eq_left']
            simp [hminus]
          · intro w
            rw [h2]
            simp only [List.mem_cons, exists_eq_or_imp, hp, Except.ok.injEq, exists_eq_left',
              mem_setInsert]
            simp only [hstop', hminus, true_and]
            constructor
            · rintro ((h | h) | h)
              · exact Or.inr (Or.inl h.symm)
              · exact Or.inl h
              · exact Or.inr (Or.inr h)
            · rintro (h | h | h)
              · exact Or.inl (Or.inr h)
              · exact Or.inl (Or.inl h.symm)
              · exact Or.inr h
        · have hminus' : qw.is_minus = false := by simpa using hminus
          simp only [hminus', Bool.false_eq_true, if_false] at h
          obtain ⟨h1, h2, h3, h4⟩ := ih _ _ h
          refine ⟨?_, ?_, fun hs0 => h3 (sorted_setInsert _ hs0), h4⟩
          · intro w
            rw [h1]
            simp only [List.mem_cons, exists_eq_or_imp, hp, Except.ok.injEq, exists_eq_left',
              mem_setInsert]
            simp only [hstop', hminus', true_and]
            constructor
            · rintro ((h | h) | h)
              · exact Or.inr (Or.inl h.symm)
              · exact Or.inl h
              · exact Or.inr (Or.inr h)
            · rintro (h | h | h)
              · exact Or.inl (Or.inr h)
              · exact Or.inl (Or.inl h.symm)
              · exact Or.inr h
          · intro w
            rw [h2]
            simp only [List.mem_cons, exists_eq_or_imp, hp, Except.ok.injEq, exists_eq_left']
            simp [hminus']

omit [LinearOrderedField F] in
theorem ParseQueryWord_minus (s : SearchServer F) (w : Word) (qw : QueryWord)
    (h : s.ParseQueryWord ('-' :: w) = .ok qw) : qw = ⟨w, true, s.IsStopWord w⟩ := by
  simp only [ParseQueryWord, List.isEmpty_cons, Bool.false_eq_true, if_false, List.head?_cons,
    decide_True, if_true, List.drop_succ_cons, List.drop_zero] at h
  split_ifs at h
  cases h
  rfl

omit [LinearOrderedField F] in
/-- A token `-w` of a query that parses puts `w` among the minus-words, unless `w` is a
stop-word. -/
theorem minus_token_mem (s : SearchServer F) (raw_query : List Char) (query : Query)
    (hq : s.ParseQuery raw_query = .ok query) (w : Word)
    (hw : ('-' :: w) ∈ SplitIntoWords raw_query) :
    w ∈ query.minus_words ∨ w ∈ s.stop_words_ := by
  unfold ParseQuery at hq
  have h2 := (parseQueryLoop_ok s _ _ _ hq).2.1 w
  rcases ParseQueryWord_ok_or_invalid s ('-' :: w) with herr | ⟨qw, hqw⟩
  · have := (parseQueryLoop_error_iff s (SplitIntoWords raw_query) ⟨[], []⟩).1.2
      ⟨_, hw, herr⟩
    rw [hq] at this
    cases this
  · have hqw' := ParseQueryWord_minus s w qw hqw
    by_cases hst : s.IsStopWord w = true
    · right
      simpa [IsStopWord] using hst
    · left
      rw [h2]
      right
      refine ⟨_, hw, qw, hqw, ?_, ?_, ?_⟩
      · rw [hqw']; simpa using hst
      · rw [hqw']
      · rw [hqw']

/-- C5: in every reachable state, for every query that parses and contains a token `-w`, no
document returned by `FindTopDocuments` has `w` among the keys of
`GetWordFrequencies(result.id)`; in particular, when every document that has a plus-word of the
query also has a minus-word, the result is the empty list. -/
theorem C5_minus_words_excluded (s : SearchServer F) (hs : Reachable s) (ln : F → F)
    (raw_query : List Char) (P : Int → DocumentStatus → Int → Bool) (query : Query)
    (hq : s.ParseQuery raw_query = .ok query) :
    ∃ docs, s.FindTopDocuments ln raw_query P = .ok docs ∧
      (∀ w, ('-' :: w) ∈ SplitIntoWords raw_query → ∀ doc ∈ docs,
        w ∉ OrdMap.keys (s.GetWordFrequencies doc.id)) ∧
      ((∀ d, (∃ w ∈ query.plus_words, w ∈ OrdMap.keys (s.GetWordFrequencies d)) →
          ∃ w ∈ query.minus_words, w ∈ OrdMap.keys (s.GetWordFrequencies d)) →
        docs = []) := by
  obtain ⟨m, hm, hres, hl, hk⟩ := FindTopDocuments_spec s hs.inv ln raw_query P query hq
  have hmem : ∀ doc ∈ (stdSort documentBefore
      (m.map (fun e => (⟨e.1, e.2, s.ratingOf e.1⟩ : Document F)))).take 5,
      s.inMatchSet query P doc.id = true := by
    intro doc hdoc
    have h1 := (mem_result_iff s hm doc).1 (List.mem_of_mem_take hdoc)
    have h2 := hl doc.id
    rw [h1.1] at h2
    split_ifs at h2 with hc
    exact hc
  refine ⟨_, hres, ?_, ?_⟩
  · intro w hw doc hdoc hkey
    have hc := (hs.inv.inMatchSet_iff query P _).1 (hmem doc hdoc)
    rcases minus_token_mem s raw_query query hq w hw with h | h
    · exact hc.2.2 ⟨w, h, (hs.inv.mem_keys_GetWordFrequencies w doc.id).1 hkey⟩
    · unfold GetWordFrequencies at hkey
      cases hd : OrdMap.lookup doc.id s.document_to_words_freqs_ with
      | none => simp [hd] at hkey
      | some words =>
        simp only [hd] at hkey
        exact hs.inv.index.no_stop _ _ hd w hkey h
  · intro hall
    rw [List.eq_nil_iff_forall_not_mem]
    intro doc hdoc
    have hc := (hs.inv.inMatchSet_iff query P _).1 (hmem doc hdoc)
    obtain ⟨w, hw, hne⟩ := hc.2.1
    obtain ⟨w1, hw1, hk1⟩ := hall doc.id
      ⟨w, hw, (hs.inv.mem_keys_GetWordFrequencies w doc.id).2 hne⟩
    exact hc.2.2 ⟨w1, hw1, (hs.inv.mem_keys_GetWordFrequencies w1 doc.id).1 hk1⟩

omit [LinearOrderedField F] in
theorem IsWordFound_iff (s : SearchServer F) (w : Word) (d : Int) :
    s.IsWordFound w d = true ↔ s.tfW w d ≠ none := by
  unfold IsWordFound tfW
  cases hl : OrdMap.lookup w s.word_to_document_freqs_ with
  | none => simp
  | some freqs =>
    simp only [Option.some_bind, decide_eq_true_eq, ne_eq, OrdMap.count_eq_zero_iff]

theorem reachable_emptyServer : Reachable (emptyServer F) :=
  Reachable.init [] _ rfl

theorem reachable_matchFixture : Reachable (matchFixture F) :=
  Reachable.add (emptyServer F) _ 1 "cat in the city. cat is full and happy".toList
    DocumentStatus.ACTUAL [1] reachable_emptyServer rfl

/-- C10: in every reachable state, for a query that parses and a present document `d`, the
sequential `MatchDocument(query, d)` returns `(W, status(d))`, where `W` is empty if some
minus-word of the query occurs in `d`, and otherwise `W` lists exactly the plus-words of the
query that occur in `d`, each once, in ascending lexicographic order; the query "happy cat" on
the document of the unit test yields `["cat", "happy"]`. -/
theorem C10_MatchDocument_words :
    (∀ (F : Type) [LinearOrderedField F] (s : SearchServer F), Reachable s →
      ∀ (raw_query : List Char) (query : Query), s.ParseQuery raw_query = .ok query →
      ∀ document_id ∈ s.document_ids_,
      ∃ W data, s.MatchDocument raw_query document_id = .ok (W, data.status) ∧
        OrdMap.lookup document_id s.documents_ = some data ∧
        ((∃ w ∈ query.minus_words, w ∈ OrdMap.keys (s.GetWordFrequencies document_id)) →
          W = []) ∧
        ((¬ ∃ w ∈ query.minus_words, w ∈ OrdMap.keys (s.GetWordFrequencies document_id)) →
          W.Sorted (· < ·) ∧
          ∀ w, w ∈ W ↔
            w ∈ query.plus_words ∧ w ∈ OrdMap.keys (s.GetWordFrequencies document_id))) ∧
    (matchFixture ℚ).MatchDocument "happy cat".toList 1 =
      .ok (["cat".toList, "happy".toList], DocumentStatus.ACTUAL) := by
  refine ⟨?_, rfl⟩
  intro F _ s hs raw_query query hq d hd
  have hinv := hs.inv
  obtain ⟨data, hdata⟩ : ∃ data, OrdMap.lookup d s.documents_ = some data := by
    rw [hinv.ids_eq, ← OrdMap.lookup_isSome_iff] at hd
    cases hl : OrdMap.lookup d s.documents_ with
    | none => simp [hl] at hd
    | some data => exact ⟨data, rfl⟩
  have hfound : ∀ w, s.IsWordFound w d = true ↔ w ∈ OrdMap.keys (s.GetWordFrequencies d) := by
    intro w
    rw [IsWordFound_iff, hinv.mem_keys_GetWordFrequencies]
  have hsorted : query.plus_words.Sorted (· < ·) := by
    unfold ParseQuery at hq
    exact (parseQueryLoop_ok s _ _ _ hq).2.2.1 (List.sorted_nil)
  by_cases hminus : ∃ w ∈ query.minus_words, w ∈ OrdMap.keys (s.GetWordFrequencies d)
  · refine ⟨[], data, ?_, hdata, fun _ => rfl, fun h => absurd hminus h⟩
    have hany : query.minus_words.any (fun word => s.IsWordFound word d) = true := by
      rw [List.any_eq_true]
      obtain ⟨w, hw, hk⟩ := hminus
      exact ⟨w, hw, (hfound w).2 hk⟩
    simp only [MatchDocument, hq, hany, if_true, statusAt, hdata]
  · refine ⟨query.plus_words.filter (fun word => s.IsWordFound word d), data, ?_, hdata,
      fun h => absurd h hminus, fun _ => ⟨hsorted.filter _, ?_⟩⟩
    · have hany : ¬ query.minus_words.any (fun word => s.IsWordFound word d) = true := by
        rw [List.any_eq_true]
        rintro ⟨w, hw, hk⟩
        exact hminus ⟨w, hw, (hfound w).1 hk⟩
      simp [MatchDocument, hq, hany, statusAt, hdata]
    · intro w
      rw [List.mem_filter, hfound]

/-- The accumulated relevance, written as a sum over the words that occur in the document. -/
theorem relevanceOf_eq_sum_occurring (s : SearchServer F) (hs : Inv s) (ln : F → F)
    (words : List Word) (d : Int) :
    s.relevanceOf ln words d =
      ((words.filter (fun w => decide (w ∈ OrdMap.keys (s.GetWordFrequencies d)))).map
        (fun w => (OrdMap.lookup w (s.GetWordFrequencies d)).getD 0 *
          ln ((s.GetDocumentCount : F) /
            ((((OrdMap.lookup w s.word_to_document_freqs_).getD []).length : Nat) : F)))).sum := by
  unfold relevanceOf
  induction words with
  | nil => rfl
  | cons w rest ih =>
    have htf : OrdMap.lookup w (s.GetWordFrequencies d) = s.tfW w d := by
      rw [lookup_GetWordFrequencies, hs.index.transpose]
    simp only [List.map_cons, List.sum_cons, List.filter_cons, ih]
    by_cases hw : w ∈ OrdMap.keys (s.GetWordFrequencies d)
    · simp only [hw, decide_True, if_true, List.map_cons, List.sum_cons, htf, idfOf, mul_one]
    · have hnone : s.tfW w d = none := by
        by_contra hne
        exact hw ((hs.mem_keys_GetWordFrequencies w d).2 hne)
      simp [hw, hnone]

theorem testFixture_step1 :
    (emptyServer F).AddDocument 0 "dog in the cat cat happy".toList DocumentStatus.ACTUAL [1] =
      (.ok (), testState1 F) := rfl

theorem testFixture_step2 :
    (testState1 F).AddDocument 10 "cat and cat and happy cat".toList DocumentStatus.ACTUAL [5] =
      (.ok (), testState2 F) := rfl

theorem testFixture_step3 :
    (testState2 F).AddDocument 24 "dog the city dog is full happy".toList
      DocumentStatus.ACTUAL [1] = (.ok (), testState3 F) := rfl

theorem testFixture_step4 :
    (testState3 F).AddDocument 13 "cat and cat and cat cat".toList DocumentStatus.ACTUAL [1] =
      (.ok (), testState4 F) := rfl

theorem testFixture_step5 :
    (testState4 F).AddDocument 43 "cat in cat and happy cat".toList DocumentStatus.ACTUAL [1] =
      (.ok (), testState5 F) := rfl

theorem testFixture_eq : testFixture F = testState5 F := by
  unfold testFixture
  simp only [testFixture_step1, testFixture_step2, testFixture_step3, testFixture_step4,
    testFixture_step5]

theorem reachable_testFixture : Reachable (testFixture F) := by
  rw [testFixture_eq]
  exact Reachable.add _ _ _ _ _ _ (Reachable.add _ _ _ _ _ _ (Reachable.add _ _ _ _ _ _
    (Reachable.add _ _ _ _ _ _ (Reachable.add _ _ _ _ _ _ reachable_emptyServer
      testFixture_step1) testFixture_step2) testFixture_step3) testFixture_step4)
    testFixture_step5

omit [LinearOrderedField F] in
/-- A well-formed map whose values are determined by the keys is the image of its key list. -/
theorem map_eq_of_lookup {m : OrdMap Int F} (hm : OrdMap.WF m) (c : Int → Prop)
    [DecidablePred c] (f : Int → F)
    (h : ∀ j, OrdMap.lookup j m = if c j then some (f j) else none) :
    m = (OrdMap.keys m).map (fun d => (d, f d)) := by
  unfold OrdMap.keys
  rw [List.map_map]
  conv_lhs => rw [← List.map_id m]
  apply List.map_congr_left
  intro e he
  have h1 := OrdMap.lookup_of_mem hm (show (e.1, e.2) ∈ m from he)
  rw [h] at h1
  split_ifs at h1
  simp only [Option.some.injEq] at h1
  exact Prod.ext rfl h1.symm

theorem documentBefore_of_gt (a b : Document F)
    (h : 1 / 1000000 ≤ a.relevance - b.relevance) : documentBefore a b = true := by
  unfold documentBefore
  have h1 : ¬ |a.relevance - b.relevance| < 1 / 1000000 := by
    rw [not_lt]
    exact le_trans h (le_abs_self _)
  rw [if_neg h1]
  have : (0 : F) < 1 / 1000000 := by norm_num
  simp only [gt_iff_lt, decide_eq_true_eq]
  linarith

theorem documentBefore_of_lt (a b : Document F)
    (h : 1 / 1000000 ≤ b.relevance - a.relevance) : documentBefore a b = false := by
  unfold documentBefore
  have h1 : ¬ |a.relevance - b.relevance| < 1 / 1000000 := by
    rw [not_lt, abs_sub_comm]
    exact le_trans h (le_abs_self _)
  rw [if_neg h1]
  have : (0 : F) < 1 / 1000000 := by norm_num
  simp only [gt_iff_lt, decide_eq_false_iff_not, not_lt]
  linarith

theorem documentBefore_of_near (a b : Document F)
    (h : |a.relevance - b.relevance| < 1 / 1000000) :
    documentBefore a b = decide (a.rating > b.rating) := by
  unfold documentBefore
  rw [if_pos h]

end SearchServer
end SearchEngine

/-! ## The five-document fixture over the reals; witnesses -/

namespace SearchEngine
namespace SearchServer

theorem log_five_fourths_ge : (1 : ℝ) / 5 ≤ Real.log (5 / 4) := by
  have := Real.one_sub_inv_le_log_of_pos (show (0 : ℝ) < 5 / 4 by norm_num)
  norm_num at this
  linarith

/-- The result of `TestRelevance`: the query "cat" on the five-document fixture, in exact real
arithmetic. -/
theorem testFixture_cat_result :
    (testFixture ℝ).FindTopDocumentsDefault Real.log "cat".toList =
      .ok [⟨13, Real.log (5 / 4) * (4 / 6), 1⟩, ⟨10, Real.log (5 / 4) * (3 / 6), 5⟩,
        ⟨43, Real.log (5 / 4) * (3 / 6), 1⟩, ⟨0, Real.log (5 / 4) * (2 / 6), 1⟩] := by
  have hL := log_five_fourths_ge
  rw [testFixture_eq]
  have hq : (testState5 ℝ).ParseQuery "cat".toList = .ok ⟨["cat".toList], []⟩ := rfl
  have hreach : Reachable (testState5 ℝ) := testFixture_eq (F := ℝ) ▸ reachable_testFixture
  obtain ⟨m, hm, hres, hl, hk⟩ := FindTopDocuments_spec (testState5 ℝ) hreach.inv Real.log
    "cat".toList (GetStatusPredicate DocumentStatus.ACTUAL) _ hq
  have hkeys : OrdMap.keys m = [0, 10, 13, 43] := by
    rw [hk]; rfl
  have hm2 := map_eq_of_lookup hm _ _ hl
  rw [hkeys] at hm2
  unfold FindTopDocumentsDefault FindTopDocumentsStatus
  rw [hres, hm2]
  have r0 : (testState5 ℝ).relevanceOf Real.log ["cat".toList] 0 = Real.log (5 / 4) * (2 / 6) := by
    simp [relevanceOf, tfW, idfOf, testState5, OrdMap.lookup, GetDocumentCount]
    ring
  have r10 : (testState5 ℝ).relevanceOf Real.log ["cat".toList] 10 = Real.log (5 / 4) * (3 / 6) := by
    simp [relevanceOf, tfW, idfOf, testState5, OrdMap.lookup, GetDocumentCount]
    ring
  have r13 : (testState5 ℝ).relevanceOf Real.log ["cat".toList] 13 = Real.log (5 / 4) * (4 / 6) := by
    simp [relevanceOf, tfW, idfOf, testState5, OrdMap.lookup, GetDocumentCount]
    ring
  have r43 : (testState5 ℝ).relevanceOf Real.log ["cat".toList] 43 = Real.log (5 / 4) * (3 / 6) := by
    simp [relevanceOf, tfW, idfOf, testState5, OrdMap.lookup, GetDocumentCount]
    ring
  have t0 : (testState5 ℝ).ratingOf 0 = 1 := rfl
  have t10 : (testState5 ℝ).ratingOf 10 = 5 := rfl
  have t13 : (testState5 ℝ).ratingOf 13 = 1 := rfl
  have t43 : (testState5 ℝ).ratingOf 43 = 1 := rfl
  simp only [List.map_cons, List.map_nil, r0, r10, r13, r43, t0, t10, t13, t43]
  have c1 : documentBefore (⟨43, Real.log (5 / 4) * (3 / 6), 1⟩ : Document ℝ)
      ⟨13, Real.log (5 / 4) * (4 / 6), 1⟩ = false :=
    documentBefore_of_lt _ _ (by simp only; linarith)
  have c2 : documentBefore (⟨13, Real.log (5 / 4) * (4 / 6), 1⟩ : Document ℝ)
      ⟨10, Real.log (5 / 4) * (3 / 6), 5⟩ = true :=
    documentBefore_of_gt _ _ (by simp only; linarith)
  have c3 : documentBefore (⟨43, Real.log (5 / 4) * (3 / 6), 1⟩ : Document ℝ)
      ⟨10, Real.log (5 / 4) * (3 / 6), 5⟩ = false := by
    rw [documentBefore_of_near _ _ (by simp)]
    rfl
  have c4 : documentBefore (⟨13, Real.log (5 / 4) * (4 / 6), 1⟩ : Document ℝ)
      ⟨0, Real.log (5 / 4) * (2 / 6), 1⟩ = true :=
    documentBefore_of_gt _ _ (by simp only; linarith)
  have c5 : documentBefore (⟨10, Real.log (5 / 4) * (3 / 6), 5⟩ : Document ℝ)
      ⟨0, Real.log (5 / 4) * (2 / 6), 1⟩ = true :=
    documentBefore_of_gt _ _ (by simp only; linarith)
  have c6 : documentBefore (⟨43, Real.log (5 / 4) * (3 / 6), 1⟩ : Document ℝ)
      ⟨0, Real.log (5 / 4) * (2 / 6), 1⟩ = true :=
    documentBefore_of_gt _ _ (by simp only; linarith)
  simp only [stdSort, List.insertionSort, List.orderedInsert, c1, c2, c3, c4, c5, c6,
    if_true, if_false, Bool.true_eq_false, List.take]

/-- C8: in every reachable state, for every document returned by `FindTopDocuments`, the
relevance equals the sum, over the plus-words `w` of the query that occur in the document, of
`tf(w, d) * ln(N / df(w))`, where `N = GetDocumentCount()` and `df(w)` is the number of postings
of `w` (exact arithmetic); for the five-document fixture (ids 0, 10, 24, 13, 43) and the query
"cat" the result is the documents 13, 10, 43, 0 with the relevances `ln(5/4) * 4/6`,
`ln(5/4) * 3/6`, `ln(5/4) * 3/6`, `ln(5/4) * 2/6`. -/
theorem C8_relevance_is_tf_idf :
    (∀ (F : Type) [LinearOrderedField F] (s : SearchServer F), Reachable s →
      ∀ (ln : F → F) (raw_query : List Char) (P : Int → DocumentStatus → Int → Bool)
        (query : Query), s.ParseQuery raw_query = .ok query →
      ∀ docs, s.FindTopDocuments ln raw_query P = .ok docs → ∀ doc ∈ docs,
        doc.relevance =
          ((query.plus_words.filter
              (fun w => decide (w ∈ OrdMap.keys (s.GetWordFrequencies doc.id)))).map
            (fun w => (OrdMap.lookup w (s.GetWordFrequencies doc.id)).getD 0 *
              ln ((s.GetDocumentCount : F) /
                ((((OrdMap.lookup w s.word_to_document_freqs_).getD []).length : Nat) :
                  F)))).sum) ∧
    (testFixture ℝ).FindTopDocumentsDefault Real.log "cat".toList =
      .ok [⟨13, Real.log (5 / 4) * (4 / 6), 1⟩, ⟨10, Real.log (5 / 4) * (3 / 6), 5⟩,
        ⟨43, Real.log (5 / 4) * (3 / 6), 1⟩, ⟨0, Real.log (5 / 4) * (2 / 6), 1⟩] := by
  refine ⟨?_, testFixture_cat_result⟩
  intro F _ s hs ln raw_query P query hq docs hdocs doc hdoc
  obtain ⟨m, hm, hres, hl, hk⟩ := FindTopDocuments_spec s hs.inv ln raw_query P query hq
  rw [hres] at hdocs
  cases hdocs
  have h1 := (mem_result_iff s hm doc).1 (List.mem_of_mem_take hdoc)
  have h2 := hl doc.id
  rw [h1.1] at h2
  split_ifs at h2 with hc
  simp only [Option.some.injEq] at h2
  rw [h2]
  exact relevanceOf_eq_sum_occurring s hs.inv ln query.plus_words doc.id

/-- Witness of C1: a negative id is rejected by the empty server. -/
theorem C1_AddDocument_fails_iff_witness :
    Reachable (emptyServer ℚ) ∧
      ((emptyServer ℚ).AddDocument (-1) "cat in the city".toList DocumentStatus.ACTUAL [1]).1 =
        .error .invalid_argument :=
  ⟨reachable_emptyServer,
    (C1_AddDocument_fails_iff (emptyServer ℚ) reachable_emptyServer (-1)
      "cat in the city".toList DocumentStatus.ACTUAL [1]).1.2 (Or.inl (by decide))⟩

/-- Witness of C2: the rejected call with a negative id leaves the empty server as it was. -/
theorem C2_AddDocument_failure_keeps_state_witness :
    ((emptyServer ℚ).AddDocument (-1) "cat in the city".toList DocumentStatus.ACTUAL [1]).1 =
        .error .invalid_argument ∧
      ((emptyServer ℚ).AddDocument (-1) "cat in the city".toList DocumentStatus.ACTUAL [1]).2 =
        emptyServer ℚ :=
  ⟨rfl, C2_AddDocument_failure_keeps_state (emptyServer ℚ) (-1) "cat in the city".toList
    DocumentStatus.ACTUAL [1] .invalid_argument rfl⟩

/-- Witness of C3: the document of `TestMatchDocumentNormalQuery` added to the empty server. -/
theorem C3_AddDocument_term_frequencies_witness :
    Reachable (emptyServer ℚ) ∧
      (emptyServer ℚ).AddDocument 1 "cat in the city. cat is full and happy".toList
        DocumentStatus.ACTUAL [1] = (.ok (), matchFixture ℚ) ∧
      (OrdMap.keys ((matchFixture ℚ).GetWordFrequencies 1)).Nodup :=
  ⟨reachable_emptyServer, rfl,
    (C3_AddDocument_term_frequencies (emptyServer ℚ) (matchFixture ℚ) reachable_emptyServer 1
      "cat in the city. cat is full and happy".toList DocumentStatus.ACTUAL [1] rfl).1⟩

/-- Witness of C4: the query "cat" on the one-document fixture. -/
theorem C4_FindTopDocuments_match_set_witness :
    Reachable (matchFixture ℚ) ∧
      (matchFixture ℚ).ParseQuery "cat".toList = .ok ⟨["cat".toList], []⟩ ∧
      ∃ docs, (matchFixture ℚ).FindTopDocuments (fun x => x - 1) "cat".toList
          (fun _ _ _ => true) = .ok docs ∧ (docs.map (fun doc => doc.id)).Nodup :=
  ⟨reachable_matchFixture, rfl,
    (C4_FindTopDocuments_match_set (matchFixture ℚ) reachable_matchFixture (fun x => x - 1)
      "cat".toList (fun _ _ _ => true) ⟨["cat".toList], []⟩ rfl).imp
      (fun _ h => ⟨h.1, h.2.1⟩)⟩

/-- Witness of C5: the query "cat -happy" on the one-document fixture. -/
theorem C5_minus_words_excluded_witness :
    Reachable (matchFixture ℚ) ∧
      (matchFixture ℚ).ParseQuery "cat -happy".toList =
        .ok ⟨["cat".toList], ["happy".toList]⟩ ∧
      ∃ docs, (matchFixture ℚ).FindTopDocuments (fun x => x - 1) "cat -happy".toList
          (fun _ _ _ => true) = .ok docs ∧
        ∀ doc ∈ docs,
          "happy".toList ∉ OrdMap.keys ((matchFixture ℚ).GetWordFrequencies doc.id) :=
  ⟨reachable_matchFixture, rfl,
    (C5_minus_words_excluded (matchFixture ℚ) reachable_matchFixture (fun x => x - 1)
      "cat -happy".toList (fun _ _ _ => true) ⟨["cat".toList], ["happy".toList]⟩ rfl).imp
      (fun _ h => ⟨h.1, h.2.1 "happy".toList (by decide)⟩)⟩

/-- Witness of C6: the default search on the one-document fixture. -/
theorem C6_FindTopDocuments_metadata_witness :
    Reachable (matchFixture ℚ) ∧
      (matchFixture ℚ).FindTopDocumentsDefault (fun x => x - 1) "cat".toList =
        (matchFixture ℚ).FindTopDocumentsStatus (fun x => x - 1) "cat".toList
          DocumentStatus.ACTUAL :=
  ⟨reachable_matchFixture,
    (C6_FindTopDocuments_metadata (matchFixture ℚ) reachable_matchFixture (fun x => x - 1)
      "cat".toList).2.2⟩

/-- Witness of C10: the query "happy cat" and the document 1 of the one-document fixture. -/
theorem C10_MatchDocument_words_witness :
    Reachable (matchFixture ℚ) ∧
      (matchFixture ℚ).ParseQuery "happy cat".toList =
        .ok ⟨["cat".toList, "happy".toList], []⟩ ∧
      (1 : Int) ∈ (matchFixture ℚ).document_ids_ ∧
      ∃ W data, (matchFixture ℚ).MatchDocument "happy cat".toList 1 = .ok (W, data.status) ∧
        OrdMap.lookup 1 (matchFixture ℚ).documents_ = some data :=
  ⟨reachable_matchFixture, rfl, by decide,
    (C10_MatchDocument_words.1 ℚ (matchFixture ℚ) reachable_matchFixture "happy cat".toList
      ⟨["cat".toList, "happy".toList], []⟩ rfl 1 (by decide)).imp
      (fun _ h => h.imp (fun _ h1 => ⟨h1.1, h1.2.1⟩))⟩

/-- Witness of C8: the query "cat" on the one-document fixture (the general statement), besides
the closed result on the five-document fixture. -/
theorem C8_relevance_is_tf_idf_witness :
    Reachable (matchFixture ℚ) ∧
      (matchFixture ℚ).ParseQuery "cat".toList = .ok ⟨["cat".toList], []⟩ ∧
      ∃ docs, (matchFixture ℚ).FindTopDocuments (fun x => x - 1) "cat".toList
          (fun _ _ _ => true) = .ok docs ∧
        ∀ doc ∈ docs, doc.relevance =
          ((["cat".toList].filter
              (fun w => decide (w ∈ OrdMap.keys ((matchFixture ℚ).GetWordFrequencies doc.id)))).map
            (fun w => (OrdMap.lookup w ((matchFixture ℚ).GetWordFrequencies doc.id)).getD 0 *
              (((matchFixture ℚ).GetDocumentCount : ℚ) /
                ((((OrdMap.lookup w (matchFixture ℚ).word_to_document_freqs_).getD []).length :
                  Nat) : ℚ) - 1))).sum :=
  ⟨reachable_matchFixture, rfl,
    (FindTopDocuments_spec (matchFixture ℚ) reachable_matchFixture.inv (fun x => x - 1)
      "cat".toList (fun _ _ _ => true) ⟨["cat".toList], []⟩ rfl).elim
      (fun _ h => ⟨_, h.2.1,
        C8_relevance_is_tf_idf.1 ℚ (matchFixture ℚ) reachable_matchFixture (fun x => x - 1)
          "cat".toList (fun _ _ _ => true) ⟨["cat".toList], []⟩ rfl _ h.2.1⟩)⟩

end SearchServer
end SearchEngine

/-! ## Sorting by a relation that is an order on the list -/

namespace SearchEngine

section SortLemmas
variable {α : Type}

theorem sorted_orderedInsert_of {r : α → α → Prop} [DecidableRel r] (a : α) :
    ∀ l : List α, l.Sorted r → (∀ x ∈ l, r a x ∨ r x a) →
      (∀ x ∈ l, ∀ y ∈ l, r a x → r x y → r a y) →
      (l.orderedInsert r a).Sorted r := by
  intro l
  induction l with
  | nil => intro _ _ _; simp
  | cons b l ih =>
    intro hs htot htrans
    have hs' := List.sorted_cons.1 hs
    simp only [List.orderedInsert]
    split_ifs with hab
    · refine List.sorted_cons.2 ⟨?_, hs⟩
      intro x hx
      rcases List.mem_cons.1 hx with hx | hx
      · exact hx ▸ hab
      · exact htrans b (List.mem_cons_self _ _) x (List.mem_cons_of_mem _ hx) hab (hs'.1 x hx)
    · refine List.sorted_cons.2 ⟨?_, ih hs'.2 (fun x hx => htot x (List.mem_cons_of_mem _ hx))
        (fun x hx y hy => htrans x (List.mem_cons_of_mem _ hx) y (List.mem_cons_of_mem _ hy))⟩
      intro x hx
      rcases (List.mem_orderedInsert r).1 hx with hx | hx
      · rcases htot b (List.mem_cons_self _ _) with h | h
        · exact absurd h hab
        · exact hx ▸ h
      · exact hs'.1 x hx

/-- Insertion sort orders a list by a relation that is total and transitive on the elements of
the list. -/
theorem sorted_insertionSort_of {r : α → α → Prop} [DecidableRel r] :
    ∀ l : List α, (∀ x ∈ l, ∀ y ∈ l, r x y ∨ r y x) →
      (∀ x ∈ l, ∀ y ∈ l, ∀ z ∈ l, r x y → r y z → r x z) →
      (l.insertionSort r).Sorted r := by
  intro l
  induction l with
  | nil => intro _ _; simp
  | cons a l ih =>
    intro htot htrans
    simp only [List.insertionSort]
    have hmem : ∀ x, x ∈ l.insertionSort r → x ∈ a :: l := fun x hx =>
      List.mem_cons_of_mem _ ((List.perm_insertionSort r l).mem_iff.1 hx)
    apply sorted_orderedInsert_of a _
      (ih (fun x hx y hy => htot x (List.mem_cons_of_mem _ hx) y (List.mem_cons_of_mem _ hy))
        (fun x hx y hy z hz =>
          htrans x (List.mem_cons_of_mem _ hx) y (List.mem_cons_of_mem _ hy) z
            (List.mem_cons_of_mem _ hz)))
    · intro x hx
      exact htot a (List.mem_cons_self _ _) x (hmem x hx)
    · intro x hx y hy
      exact htrans a (List.mem_cons_self _ _) x (hmem x hx) y (hmem y hy)

end SortLemmas

section Comparator
variable {F : Type} [LinearOrderedField F]

/-- The comparator does not put `b` before `a` exactly when `a` is at least `1e-6` more relevant,
or the relevances are within `1e-6` and `a` is rated at least as high. -/
theorem documentBefore_eq_false_iff (a b : Document F) :
    documentBefore b a = false ↔
      (1 / 1000000 ≤ a.relevance - b.relevance ∨
        (|a.relevance - b.relevance| < 1 / 1000000 ∧ b.rating ≤ a.rating)) := by
  unfold documentBefore
  by_cases h : |b.relevance - a.relevance| < 1 / 1000000
  · rw [if_pos h]
    have h' : |a.relevance - b.relevance| < 1 / 1000000 := by rwa [abs_sub_comm]
    have h2 : ¬ (1 / 1000000 ≤ a.relevance - b.relevance) := by
      intro h3
      exact absurd (lt_of_le_of_lt (le_trans h3 (le_abs_self _)) h') (lt_irrefl _)
    simp only [gt_iff_lt, decide_eq_false_iff_not, not_lt, h2, h', true_and, false_or]
  · rw [if_neg h]
    have h' : ¬ |a.relevance - b.relevance| < 1 / 1000000 := by rwa [abs_sub_comm]
    simp only [gt_iff_lt, decide_eq_false_iff_not, not_lt, h', false_and, or_false]
    rw [not_lt] at h'
    constructor
    · intro hle
      have : |a.relevance - b.relevance| = a.relevance - b.relevance :=
        abs_of_nonneg (by linarith)
      rw [this] at h'
      exact h'
    · intro hge
      have : (0 : F) < 1 / 1000000 := by norm_num
      linarith

end Comparator
end SearchEngine

/-! ## The comparator -/

namespace SearchEngine
section Comparator
variable {F : Type} [LinearOrderedField F]

theorem documentBefore_total (a b : Document F) :
    documentBefore b a = false ∨ documentBefore a b = false := by
  rw [documentBefore_eq_false_iff, documentBefore_eq_false_iff]
  by_cases h : |a.relevance - b.relevance| < 1 / 1000000
  · have h' : |b.relevance - a.relevance| < 1 / 1000000 := by rwa [abs_sub_comm]
    rcases le_total b.rating a.rating with hr | hr
    · exact Or.inl (Or.inr ⟨h, hr⟩)
    · exact Or.inr (Or.inr ⟨h', hr⟩)
  · rw [not_lt] at h
    rcases le_total 0 (a.relevance - b.relevance) with hs | hs
    · rw [abs_of_nonneg hs] at h
      exact Or.inl (Or.inl h)
    · rw [abs_of_nonpos hs] at h
      exact Or.inr (Or.inl (by linarith))

/-- The order of the comparator is transitive on three documents among which near-equality of
the relevance is transitive. -/
theorem documentBefore_trans (a b c : Document F)
    (hnear : |a.relevance - c.relevance| < 1 / 1000000 →
      |c.relevance - b.relevance| < 1 / 1000000 → |a.relevance - b.relevance| < 1 / 1000000)
    (hnear2 : |b.relevance - a.relevance| < 1 / 1000000 →
      |a.relevance - c.relevance| < 1 / 1000000 → |b.relevance - c.relevance| < 1 / 1000000)
    (hnear3 : |a.relevance - b.relevance| < 1 / 1000000 →
      |b.relevance - c.relevance| < 1 / 1000000 → |a.relevance - c.relevance| < 1 / 1000000)
    (hab : documentBefore b a = false) (hbc : documentBefore c b = false) :
    documentBefore c a = false := by
  rw [documentBefore_eq_false_iff] at hab hbc ⊢
  have heps : (0 : F) < 1 / 1000000 := by norm_num
  rcases hab with hab | ⟨hab, rab⟩
  · rcases hbc with hbc | ⟨hbc, rbc⟩
    · left; linarith
    · -- a is clearly above b, and b is near c
      by_cases hac : |a.relevance - c.relevance| < 1 / 1000000
      · have hcb : |c.relevance - b.relevance| < 1 / 1000000 := by rwa [abs_sub_comm]
        have := hnear hac hcb
        exact absurd (lt_of_le_of_lt (le_trans hab (le_abs_self _)) this) (lt_irrefl _)
      · rw [not_lt] at hac
        left
        rcases le_total 0 (a.relevance - c.relevance) with hs | hs
        · rwa [abs_of_nonneg hs] at hac
        · rw [abs_of_nonpos hs] at hac
          have h1 := (abs_lt.1 hbc).1
          linarith
  · rcases hbc with hbc | ⟨hbc, rbc⟩
    · by_cases hac : |a.relevance - c.relevance| < 1 / 1000000
      · have hba : |b.relevance - a.relevance| < 1 / 1000000 := by rwa [abs_sub_comm]
        have := hnear2 hba hac
        exact absurd (lt_of_le_of_lt (le_trans hbc (le_abs_self _)) this) (lt_irrefl _)
      · rw [not_lt] at hac
        left
        rcases le_total 0 (a.relevance - c.relevance) with hs | hs
        · rwa [abs_of_nonneg hs] at hac
        · rw [abs_of_nonpos hs] at hac
          have h1 := (abs_lt.1 hab).1
          linarith
    · exact Or.inr ⟨hnear3 hab hbc, le_trans rbc rab⟩

end Comparator

end SearchEngine

/-! ## What `AddDocument` does to the index -/

namespace SearchEngine
namespace SearchServer
variable {F : Type} [LinearOrderedField F]

/-- What a call of `AddDocument` with a fresh non-negative id and valid tokens does: it returns
normally, keeps the invariant, records the id and the metadata, gives the new document the term
frequencies `count / n` and leaves the entries of the other documents as they were. -/
theorem AddDocument_effect (s : SearchServer F) (hs : Inv s) (d : Int) (text : List Char)
    (st : DocumentStatus) (r : List Int) (h1 : 0 ≤ d)
    (h2 : OrdMap.lookup d s.documents_ = none)
    (h3 : (SplitIntoWords text).all IsValidWord = true) :
    (s.AddDocument d text st r).1 = .ok () ∧
    Inv (s.AddDocument d text st r).2 ∧
    (s.AddDocument d text st r).2.stop_words_ = s.stop_words_ ∧
    (s.AddDocument d text st r).2.document_ids_ = setInsert d s.document_ids_ ∧
    (s.AddDocument d text st r).2.documents_ =
      OrdMap.emplace d ⟨ComputeAverageRating r, st⟩ s.documents_ ∧
    ∀ w d1, (s.AddDocument d text st r).2.tfW w d1 =
      if d1 = d then
        (if w ∈ (SplitIntoWords text).filter (fun w => !s.IsStopWord w) then
          some ((((SplitIntoWords text).filter (fun w => !s.IsStopWord w)).count w : F) /
            (((SplitIntoWords text).filter (fun w => !s.IsStopWord w)).length : F))
        else none)
      else s.tfW w d1 := by
  have hc : ¬ (d < 0 ∨ OrdMap.count d s.documents_ > 0) := by
    rintro (h | h)
    · omega
    · rw [(OrdMap.count_eq_zero_iff d s.documents_).2 h2] at h
      exact absurd h (lt_irrefl _)
  have heq := AddDocument_eq s d text st r
  rw [if_neg hc, if_pos h3] at heq
  have hinv1 : Inv (s.AddDocument d text st r).2 :=
    hs.AddDocument
      (show s.AddDocument d text st r = (.ok (), (s.AddDocument d text st r).2) by rw [heq])
  set words := (SplitIntoWords text).filter (fun w => !s.IsStopWord w) with hwords
  have hstop : ∀ w ∈ words, w ∉ s.stop_words_ := by
    intro w hw
    simpa [IsStopWord] using (List.mem_filter.1 hw).2
  have hf := foldl_addWord_frame d (1 / ((words.length : Nat) : F)) words s
  refine ⟨by rw [heq], hinv1, ?_, ?_, ?_, ?_⟩
  · rw [heq]; exact hf.1
  · rw [heq]
  · rw [heq]
  · intro w d1
    rw [hinv1.index.transpose]
    have := tfD_foldl_addWord d (1 / ((words.length : Nat) : F)) words s hs.index hstop d1 w
    have hnew : s.tfD d w = none := by
      have hd : OrdMap.lookup d s.document_to_words_freqs_ = none := by
        rw [OrdMap.lookup_eq_none_iff]
        intro hmem
        have := hs.d2w_docs _ hmem
        rw [← OrdMap.lookup_isSome_iff, h2] at this
        exact Bool.noConfusion this
      simp [tfD, hd]
    rw [hnew] at this
    rw [heq]
    show (List.foldl (addWord d (1 / ((words.length : Nat) : F))) s words).tfD d1 w = _
    rw [this]
    by_cases hd1 : d1 = d
    · by_cases hw : w ∈ words
      · simp only [hd1, hw, and_self, if_true, Option.getD_none, zero_add, Option.some.injEq]
        rw [mul_one_div]
      · simp only [hd1, hw, and_false, if_false, if_true]
        exact hnew
    · simp only [hd1, false_and, if_false]
      exact (hs.index.transpose w d1).symm

omit [LinearOrderedField F] in
/-- Parsing a query reads nothing of the server but its stop words. -/
theorem ParseQuery_congr (s t : SearchServer F) (h : s.stop_words_ = t.stop_words_)
    (raw_query : List Char) : s.ParseQuery raw_query = t.ParseQuery raw_query := by
  have hw : ∀ tok, s.ParseQueryWord tok = t.ParseQueryWord tok := by
    intro tok
    simp only [ParseQueryWord, IsStopWord, h]
  have hl : ∀ toks q, s.parseQueryLoop toks q = t.parseQueryLoop toks q := by
    intro toks
    induction toks with
    | nil => intro q; rfl
    | cons tok rest ih =>
      intro q
      simp only [parseQueryLoop, hw, ih]
  exact hl _ _

end SearchServer
end SearchEngine

/-! ## The near-tie fixture -/

namespace SearchEngine

theorem splitFrom_fillerText (n : Nat) :
    splitFrom (fillerText n) = ([], List.replicate n ['c']) := by
  induction n with
  | zero => rfl
  | succ n ih =>
    simp only [fillerText, splitFrom, ih]
    rfl

theorem SplitIntoWords_nearTieText (n : Nat) :
    SplitIntoWords (nearTieText n) = ['x'] :: List.replicate n ['c'] := by
  simp only [SplitIntoWords, nearTieText, splitFrom, splitFrom_fillerText]
  rfl

namespace SearchServer
variable {F : Type} [LinearOrderedField F]

/-- Adding the text "x c ... c" (`n` words "c") under a fresh id to a server without stop
words. -/
theorem AddDocument_nearTieText (s : SearchServer F) (hs : Inv s) (hstop : s.stop_words_ = [])
    (d : Int) (n : Nat) (st : DocumentStatus) (r : List Int) (h1 : 0 ≤ d)
    (h2 : OrdMap.lookup d s.documents_ = none) :
    Inv (s.AddDocument d (nearTieText n) st r).2 ∧
    (s.AddDocument d (nearTieText n) st r).2.stop_words_ = [] ∧
    (s.AddDocument d (nearTieText n) st r).2.document_ids_ = setInsert d s.document_ids_ ∧
    (s.AddDocument d (nearTieText n) st r).2.documents_ =
      OrdMap.emplace d ⟨ComputeAverageRating r, st⟩ s.documents_ ∧
    ∀ d1, (s.AddDocument d (nearTieText n) st r).2.tfW ['x'] d1 =
      if d1 = d then some (1 / ((n : F) + 1)) else s.tfW ['x'] d1 := by
  have hvalid : (SplitIntoWords (nearTieText n)).all IsValidWord = true := by
    rw [SplitIntoWords_nearTieText, List.all_eq_true]
    intro w hw
    rcases List.mem_cons.1 hw with hw | hw
    · subst hw; decide
    · rw [List.eq_of_mem_replicate hw]; decide
  have hfilter : (SplitIntoWords (nearTieText n)).filter (fun w => !s.IsStopWord w) =
      ['x'] :: List.replicate n ['c'] := by
    rw [SplitIntoWords_nearTieText, List.filter_eq_self]
    intro w _
    simp [IsStopWord, hstop]
  obtain ⟨_, e2, e3, e4, e5, e6⟩ := AddDocument_effect s hs d (nearTieText n) st r h1 h2 hvalid
  refine ⟨e2, by rw [e3, hstop], e4, e5, ?_⟩
  intro d1
  rw [e6, hfilter]
  by_cases hd : d1 = d
  · have hcount : (['x'] :: List.replicate n ['c']).count ['x'] = 1 := by
      rw [List.count_cons_self, List.count_replicate]
      simp
    simp only [hd, if_true, List.mem_cons, true_or, hcount, List.length_cons,
      List.length_replicate, Nat.cast_one, Nat.cast_add]
  · simp only [hd, if_false]

end SearchServer
end SearchEngine

namespace SearchEngine
namespace SearchServer
variable {F : Type} [LinearOrderedField F]

theorem nearTieFixture_eq :
    nearTieFixture F =
      (((((emptyServer F).AddDocument 1 (nearTieText 632) DocumentStatus.ACTUAL
        [3]).2.AddDocument 2 (nearTieText 631) DocumentStatus.ACTUAL [2]).2.AddDocument 3
          (nearTieText 630) DocumentStatus.ACTUAL [1]).2.AddDocument 4 "y".toList
            DocumentStatus.ACTUAL [1]).2 := by
  unfold nearTieFixture
  rfl

/-- The state of the near-tie fixture, as far as the query "x" reads it. -/
theorem nearTieFixture_facts :
    Inv (nearTieFixture F) ∧
    (nearTieFixture F).stop_words_ = [] ∧
    (nearTieFixture F).document_ids_ = [1, 2, 3, 4] ∧
    (nearTieFixture F).documents_ =
      [(1, ⟨3, DocumentStatus.ACTUAL⟩), (2, ⟨2, DocumentStatus.ACTUAL⟩),
        (3, ⟨1, DocumentStatus.ACTUAL⟩), (4, ⟨1, DocumentStatus.ACTUAL⟩)] ∧
    ∀ d1, (nearTieFixture F).tfW ['x'] d1 =
      if d1 = 4 then none
      else if d1 = 3 then some (1 / (((630 : Nat) : F) + 1))
      else if d1 = 2 then some (1 / (((631 : Nat) : F) + 1))
      else if d1 = 1 then some (1 / (((632 : Nat) : F) + 1))
      else none := by
  have a0 : Inv (emptyServer F) := reachable_emptyServer.inv
  obtain ⟨a1, b1, c1, d1, e1⟩ := AddDocument_nearTieText (emptyServer F) a0 rfl 1 632
    DocumentStatus.ACTUAL [3] (by decide) rfl
  obtain ⟨a2, b2, c2, d2, e2⟩ := AddDocument_nearTieText _ a1 b1 2 631
    DocumentStatus.ACTUAL [2] (by decide) (by rw [d1]; rfl)
  obtain ⟨a3, b3, c3, d3, e3⟩ := AddDocument_nearTieText _ a2 b2 3 630
    DocumentStatus.ACTUAL [1] (by decide) (by rw [d2, d1]; rfl)
  obtain ⟨_, a4, b4, c4, d4, e4⟩ := AddDocument_effect _ a3 4 "y".toList
    DocumentStatus.ACTUAL [1] (by decide) (by rw [d3, d2, d1]; rfl) (by decide)
  rw [nearTieFixture_eq]
  refine ⟨a4, ?_, ?_, ?_, ?_⟩
  · exact b4.trans b3
  · refine c4.trans ?_
    rw [c3, c2, c1]
    rfl
  · refine d4.trans ?_
    rw [d3, d2, d1]
    rfl
  · intro j
    refine (e4 ['x'] j).trans ?_
    rw [e3, e2, e1]
    have hx : ['x'] ∉ (SplitIntoWords "y".toList).filter
        (fun w => !((((emptyServer F).AddDocument 1 (nearTieText 632) DocumentStatus.ACTUAL
          [3]).2.AddDocument 2 (nearTieText 631) DocumentStatus.ACTUAL [2]).2.AddDocument 3
            (nearTieText 630) DocumentStatus.ACTUAL [1]).2.IsStopWord w) := by
      intro h
      have := (List.mem_filter.1 h).1
      revert this
      decide
    rw [if_neg hx]
    have he : (emptyServer F).tfW ['x'] j = none := rfl
    rw [he]

end SearchServer
end SearchEngine

/-! ## Bounds on the logarithm of 4/3 -/

namespace SearchEngine
namespace SearchServer

theorem log_four_thirds_bounds : (1 : ℝ) / 4 ≤ Real.log (4 / 3) ∧ Real.log (4 / 3) ≤ 1 / 3 := by
  have h1 := Real.one_sub_inv_le_log_of_pos (show (0 : ℝ) < 4 / 3 by norm_num)
  have h2 := Real.log_le_sub_one_of_pos (show (0 : ℝ) < 4 / 3 by norm_num)
  norm_num at h1 h2
  constructor <;> linarith

end SearchServer
end SearchEngine

/-! ## Claims C11, C13 and C14: removal and the invariants of the index -/

namespace SearchEngine
namespace SearchServer
variable {F : Type} [LinearOrderedField F]

theorem reachable_emptyDocFixture : Reachable (emptyDocFixture F) :=
  Reachable.add _ _ 1 [] DocumentStatus.ACTUAL [] reachable_emptyServer rfl

theorem reachable_oneWordFixture : Reachable (oneWordFixture F) :=
  Reachable.add _ _ 1 "a".toList DocumentStatus.ACTUAL [] reachable_emptyServer rfl

/-- C11, evaluated at a document added with an empty text: the state is reachable, and both
variants of `RemoveDocument` return at once and leave the server as it was, so that document 1
is still in the doc-id set and in the metadata map and `GetDocumentCount` is still 1. -/
theorem C11_RemoveDocument_keeps_document_without_words :
    Reachable (emptyDocFixture ℚ) ∧
    (emptyDocFixture ℚ).RemoveDocument 1 = (.ok (), emptyDocFixture ℚ) ∧
    (emptyDocFixture ℚ).RemoveDocumentPar 1 = (.ok (), emptyDocFixture ℚ) ∧
    (1 : Int) ∈ (emptyDocFixture ℚ).document_ids_ ∧
    OrdMap.lookup 1 (emptyDocFixture ℚ).documents_ = some ⟨0, DocumentStatus.ACTUAL⟩ ∧
    (emptyDocFixture ℚ).GetDocumentCount = 1 :=
  ⟨reachable_emptyDocFixture, rfl, rfl, by decide, rfl, rfl⟩

/-- C13: in every reachable state the two index maps are transposes of each other, every word of
a document has an entry in `word_to_document_freqs_` that contains the document, and neither
the unchecked `find(...)->second` of the sequential `RemoveDocument` nor the `at(...)` of the
parallel one misses: both calls return normally for every id. -/
theorem C13_index_maps_are_transposes (s : SearchServer F) (hs : Reachable s) :
    (∀ (w : Word) (d : Int) (tf : F),
      (OrdMap.lookup w s.word_to_document_freqs_).bind (OrdMap.lookup d) = some tf ↔
        (OrdMap.lookup d s.document_to_words_freqs_).bind (OrdMap.lookup w) = some tf) ∧
    (∀ (d : Int) (doc : OrdMap Word F), OrdMap.lookup d s.document_to_words_freqs_ = some doc →
      ∀ w ∈ OrdMap.keys doc, ∃ postings,
        OrdMap.lookup w s.word_to_document_freqs_ = some postings ∧
          d ∈ OrdMap.keys postings) ∧
    (∀ d, (s.RemoveDocument d).1 = .ok () ∧ (s.RemoveDocumentPar d).1 = .ok ()) := by
  have hinv := hs.inv
  refine ⟨?_, ?_, ?_⟩
  · intro w d tf
    have h := hinv.index.transpose w d
    unfold tfW tfD at h
    rw [h]
  · intro d doc hdoc w hw
    obtain ⟨e, he, rfl⟩ := List.mem_map.1 hw
    have h := hinv.words_have_postings hdoc e he
    cases hl : OrdMap.lookup e.1 s.word_to_document_freqs_ with
    | none => simp [hl] at h
    | some postings =>
      refine ⟨postings, rfl, ?_⟩
      rw [hl, Option.some_bind] at h
      rw [← OrdMap.lookup_isSome_iff]
      exact Option.ne_none_iff_isSome.1 h
  · intro d
    exact ⟨(hinv.RemoveDocument_ok d).1, (hinv.RemoveDocumentPar_ok d).1⟩

/-- C14, evaluated at a document added with an empty text: the state is reachable and document 1
is in the doc-id set and has a metadata entry, but `document_to_words_freqs_` has no entry for
it. -/
theorem C14_document_without_words_has_no_entry :
    Reachable (emptyDocFixture ℚ) ∧
    (1 : Int) ∈ (emptyDocFixture ℚ).document_ids_ ∧
    OrdMap.lookup 1 (emptyDocFixture ℚ).documents_ = some ⟨0, DocumentStatus.ACTUAL⟩ ∧
    OrdMap.lookup 1 (emptyDocFixture ℚ).document_to_words_freqs_ = none ∧
    OrdMap.count 1 (emptyDocFixture ℚ).document_to_words_freqs_ = 0 :=
  ⟨reachable_emptyDocFixture, by decide, rfl, rfl, rfl⟩

/-- Witness of C13: the one-document fixture. -/
theorem C13_index_maps_are_transposes_witness :
    Reachable (matchFixture ℚ) ∧
      ((matchFixture ℚ).RemoveDocument 1).1 = .ok () ∧
      ((matchFixture ℚ).RemoveDocumentPar 1).1 = .ok () :=
  ⟨reachable_matchFixture,
    (C13_index_maps_are_transposes (matchFixture ℚ) reachable_matchFixture).2.2 1⟩

end SearchServer
end SearchEngine

/-! ## Claims C19, C20 and C17: parsed queries and `MatchDocument` -/

namespace SearchEngine
namespace SearchServer
variable {F : Type}

/-- What `ParseQueryWord` returns for a token it accepts. -/
theorem ParseQueryWord_ok_iff (s : SearchServer F) (tok : Word) (qw : QueryWord) :
    s.ParseQueryWord tok = .ok qw ↔
      qw.data ≠ [] ∧ qw.data.head? ≠ some '-' ∧ IsValidWord qw.data = true ∧
        qw.is_stop = s.IsStopWord qw.data ∧
        ((qw.is_minus = true ∧ tok = '-' :: qw.data) ∨
          (qw.is_minus = false ∧ tok = qw.data)) := by
  obtain ⟨data, is_minus, is_stop⟩ := qw
  unfold ParseQueryWord
  cases tok with
  | nil =>
    simp only [List.isEmpty_nil, if_true]
    constructor
    · intro h; cases h
    · rintro ⟨h1, _, _, _, h | h⟩
      · cases h.2
      · exact absurd h.2.symm h1
  | cons c cs =>
    by_cases hc : c = '-'
    · subst hc
      simp only [List.isEmpty_cons, Bool.false_eq_true, if_false, List.head?_cons, decide_True,
        if_true, List.drop_succ_cons, List.drop_zero, List.isEmpty_iff]
      constructor
      · intro h
        split_ifs at h with h1
        simp only [Except.ok.injEq, QueryWord.mk.injEq] at h
        obtain ⟨rfl, rfl, rfl⟩ := h
        simp only [not_or] at h1
        exact ⟨h1.1, h1.2.1, by simpa using h1.2.2, rfl, Or.inl ⟨rfl, rfl⟩⟩
      · rintro ⟨h1, h2, h3, h4, h | h⟩
        · obtain ⟨rfl, h5⟩ := h
          simp only [List.cons.injEq, true_and] at h5
          subst h5
          have : ¬ (cs = [] ∨ cs.head? = some '-' ∨ IsValidWord cs = false) := by
            simp [h1, h2, h3]
          rw [if_neg this]
          rw [show is_stop = s.IsStopWord cs from h4]
        · exfalso
          obtain ⟨_, h5⟩ := h
          have h6 : data = '-' :: cs := h5.symm
          rw [h6] at h2
          simp at h2
    · have hd : decide ((c :: cs).head? = some '-') = false := by simp [hc]
      simp only [List.isEmpty_cons, Bool.false_eq_true, if_false, hd, List.isEmpty_iff]
      constructor
      · intro h
        split_ifs at h with h1
        simp only [Except.ok.injEq, QueryWord.mk.injEq] at h
        obtain ⟨rfl, rfl, rfl⟩ := h
        simp only [not_or] at h1
        exact ⟨by simp, h1.2.1, by simpa using h1.2.2, rfl, Or.inr ⟨rfl, rfl⟩⟩
      · rintro ⟨h1, h2, h3, h4, h | h⟩
        · exfalso
          obtain ⟨_, h5⟩ := h
          simp only [List.cons.injEq] at h5
          exact hc h5.1
        · obtain ⟨rfl, h5⟩ := h
          have h6 : data = c :: cs := h5.symm
          subst h6
          have : ¬ (False ∨ (c :: cs).head? = some '-' ∨ IsValidWord (c :: cs) = false) := by
            simp only [false_or, not_or]
            exact ⟨h2, by simp [h3]⟩
          rw [if_neg this, show is_stop = s.IsStopWord (c :: cs) from h4]

/-- The plus-words and the minus-words of a query that parses, in terms of its tokens. -/
theorem ParseQuery_ok_words (s : SearchServer F) (raw_query : List Char) (query : Query)
    (hq : s.ParseQuery raw_query = .ok query) :
    (∀ w, w ∈ query.plus_words ↔
      w ∈ SplitIntoWords raw_query ∧ w.head? ≠ some '-' ∧ w ∉ s.stop_words_) ∧
    (∀ w, w ∈ query.minus_words ↔
      ('-' :: w) ∈ SplitIntoWords raw_query ∧ w ∉ s.stop_words_) := by
  unfold ParseQuery at hq
  obtain ⟨h1, h2, _, _⟩ := parseQueryLoop_ok s _ _ _ hq
  have hall : ∀ tok ∈ SplitIntoWords raw_query, ∃ qw, s.ParseQueryWord tok = .ok qw := by
    intro tok htok
    rcases ParseQueryWord_ok_or_invalid s tok with herr | h
    · have := (parseQueryLoop_error_iff s (SplitIntoWords raw_query) ⟨[], []⟩).1.2
        ⟨_, htok, herr⟩
      rw [hq] at this
      cases this
    · exact h
  constructor
  · intro w
    rw [h1]
    simp only [List.not_mem_nil, false_or]
    constructor
    · rintro ⟨tok, htok, qw, hqw, hstop, hminus, rfl⟩
      obtain ⟨_, a2, _, a4, a5 | a5⟩ := (ParseQueryWord_ok_iff s tok qw).1 hqw
      · rw [hminus] at a5
        cases a5.1
      · rw [a5.2] at htok
        refine ⟨htok, a2, ?_⟩
        rw [hstop] at a4
        simpa [IsStopWord] using a4.symm
    · rintro ⟨htok, hhead, hstop⟩
      obtain ⟨qw, hqw⟩ := hall w htok
      obtain ⟨_, _, _, a4, a5 | a5⟩ := (ParseQueryWord_ok_iff s w qw).1 hqw
      · rw [a5.2] at hhead
        simp at hhead
      · refine ⟨w, htok, qw, hqw, ?_, a5.1, a5.2.symm⟩
        rw [a4, ← a5.2]
        simpa [IsStopWord] using hstop
  · intro w
    rw [h2]
    simp only [List.not_mem_nil, false_or]
    constructor
    · rintro ⟨tok, htok, qw, hqw, hstop, hminus, rfl⟩
      obtain ⟨_, a2, _, a4, a5 | a5⟩ := (ParseQueryWord_ok_iff s tok qw).1 hqw
      · rw [← a5.2]
        refine ⟨htok, ?_⟩
        rw [hstop] at a4
        simpa [IsStopWord] using a4.symm
      · rw [hminus] at a5
        cases a5.1
    · rintro ⟨htok, hstop⟩
      obtain ⟨qw, hqw⟩ := hall _ htok
      have hqw1 := ParseQueryWord_minus s w qw hqw
      refine ⟨_, htok, qw, hqw, ?_, ?_, ?_⟩
      · rw [hqw1]
        simpa [IsStopWord] using hstop
      · rw [hqw1]
      · rw [hqw1]

/-- C19, the counterexample: the query "cat -cat" parses on a server without stop words, and
"cat" is both a plus-word and a minus-word of the parsed query. -/
theorem C19_counterexample :
    (emptyServer ℚ).ParseQuery "cat -cat".toList = .ok ⟨["cat".toList], ["cat".toList]⟩ ∧
    ¬ (∀ (query : Query), (emptyServer ℚ).ParseQuery "cat -cat".toList = .ok query →
      ∀ w ∈ query.plus_words, w ∉ query.minus_words) := by
  refine ⟨rfl, ?_⟩
  intro h
  exact h ⟨["cat".toList], ["cat".toList]⟩ rfl "cat".toList (by decide) (by decide)

/-- C19 as amended: for every server and every raw query that parses, neither the plus-words nor
the minus-words contain a stop word or the empty word; a word is a plus-word and a minus-word
at once exactly when it is not a stop word and the query has both the token `w` and the token
`-w`. -/
theorem C19_parsed_words_not_stop_not_empty (s : SearchServer F) (raw_query : List Char)
    (query : Query) (hq : s.ParseQuery raw_query = .ok query) :
    (∀ w ∈ query.plus_words, w ∉ s.stop_words_ ∧ w ≠ []) ∧
    (∀ w ∈ query.minus_words, w ∉ s.stop_words_ ∧ w ≠ []) ∧
    (∀ w, (w ∈ query.plus_words ∧ w ∈ query.minus_words) ↔
      (w ∉ s.stop_words_ ∧ w.head? ≠ some '-' ∧ w ∈ SplitIntoWords raw_query ∧
        ('-' :: w) ∈ SplitIntoWords raw_query)) := by
  obtain ⟨hp, hm⟩ := ParseQuery_ok_words s raw_query query hq
  have hdata : ∀ w, (∃ tok ∈ SplitIntoWords raw_query, ∃ qw,
      s.ParseQueryWord tok = .ok qw ∧ qw.data = w) → w ≠ [] := by
    rintro w ⟨tok, _, qw, hqw, rfl⟩
    exact ((ParseQueryWord_ok_iff s tok qw).1 hqw).1
  unfold ParseQuery at hq
  obtain ⟨h1, h2, _, _⟩ := parseQueryLoop_ok s _ _ _ hq
  refine ⟨?_, ?_, ?_⟩
  · intro w hw
    refine ⟨((hp w).1 hw).2.2, ?_⟩
    rcases (h1 w).1 hw with h | ⟨tok, htok, qw, hqw, _, _, hd⟩
    · cases h
    · exact hdata w ⟨tok, htok, qw, hqw, hd⟩
  · intro w hw
    refine ⟨((hm w).1 hw).2, ?_⟩
    rcases (h2 w).1 hw with h | ⟨tok, htok, qw, hqw, _, _, hd⟩
    · cases h
    · exact hdata w ⟨tok, htok, qw, hqw, hd⟩
  · intro w
    rw [hp, hm]
    constructor
    · rintro ⟨⟨a1, a2, a3⟩, b1, _⟩
      exact ⟨a3, a2, a1, b1⟩
    · rintro ⟨a1, a2, a3, a4⟩
      exact ⟨⟨a3, a2, a1⟩, a4, a1⟩

/-- Witness of C19 as amended: the query "cat -cat" on a server without stop words. -/
theorem C19_parsed_words_not_stop_not_empty_witness :
    (emptyServer ℚ).ParseQuery "cat -cat".toList = .ok ⟨["cat".toList], ["cat".toList]⟩ ∧
      ∀ w ∈ ["cat".toList], w ∉ (emptyServer ℚ).stop_words_ ∧ w ≠ [] :=
  ⟨rfl, (C19_parsed_words_not_stop_not_empty (emptyServer ℚ) "cat -cat".toList
    ⟨["cat".toList], ["cat".toList]⟩ rfl).1⟩

/-- C20, the counterexample: on the one-document fixture the query "happy cat" parses and the id
7 is not in the index, and both variants of `MatchDocument` throw `std::out_of_range`. -/
theorem C20_counterexample :
    Reachable (matchFixture ℚ) ∧
    (matchFixture ℚ).ParseQuery "happy cat".toList =
      .ok ⟨["cat".toList, "happy".toList], []⟩ ∧
    (7 : Int) ∉ (matchFixture ℚ).document_ids_ ∧
    (matchFixture ℚ).MatchDocument "happy cat".toList 7 = .error .out_of_range ∧
    (matchFixture ℚ).MatchDocumentPar "happy cat".toList 7 = .error .out_of_range :=
  ⟨reachable_matchFixture, rfl, by decide, rfl, rfl⟩

/-- C20 as amended: in every reachable state, for every query that parses and every document id
that is not in the index, both variants of `MatchDocument` throw `std::out_of_range` (from
`documents_.at`) and return nothing. -/
theorem C20_MatchDocument_absent_id_out_of_range [LinearOrderedField F] (s : SearchServer F)
    (hs : Reachable s)
    (raw_query : List Char) (query : Query) (hq : s.ParseQuery raw_query = .ok query)
    (document_id : Int) (hd : document_id ∉ s.document_ids_) :
    s.MatchDocument raw_query document_id = .error .out_of_range ∧
    s.MatchDocumentPar raw_query document_id = .error .out_of_range := by
  have hl : OrdMap.lookup document_id s.documents_ = none := by
    rw [OrdMap.lookup_eq_none_iff, ← hs.inv.ids_eq]
    exact hd
  have hst : s.statusAt document_id = .error .out_of_range := by
    simp [statusAt, hl]
  constructor
  · simp only [MatchDocument, hq, hst]
    split_ifs <;> rfl
  · simp only [MatchDocumentPar, hq, hst]
    split_ifs <;> rfl

/-- Witness of C20 as amended: the id 7 on the one-document fixture. -/
theorem C20_MatchDocument_absent_id_out_of_range_witness :
    Reachable (matchFixture ℚ) ∧
      (matchFixture ℚ).ParseQuery "happy cat".toList =
        .ok ⟨["cat".toList, "happy".toList], []⟩ ∧
      (7 : Int) ∉ (matchFixture ℚ).document_ids_ ∧
      (matchFixture ℚ).MatchDocument "happy cat".toList 7 = .error .out_of_range ∧
      (matchFixture ℚ).MatchDocumentPar "happy cat".toList 7 = .error .out_of_range :=
  ⟨reachable_matchFixture, rfl, by decide,
    C20_MatchDocument_absent_id_out_of_range (matchFixture ℚ) reachable_matchFixture
      "happy cat".toList ⟨["cat".toList, "happy".toList], []⟩ rfl 7 (by decide)⟩

/-- C17, evaluated on the one-document fixture with the query "happy dog": the state is
reachable, the query parses and document 1 is present; the sequential `MatchDocument` returns
the one word "happy", the parallel one returns "happy" followed by an empty string (the element
of the pre-sized vector that `copy_if` did not overwrite), so the two sets of words differ. -/
theorem C17_MatchDocumentPar_returns_empty_strings :
    Reachable (matchFixture ℚ) ∧
    (matchFixture ℚ).ParseQuery "happy dog".toList =
      .ok ⟨["dog".toList, "happy".toList], []⟩ ∧
    (1 : Int) ∈ (matchFixture ℚ).document_ids_ ∧
    (matchFixture ℚ).MatchDocument "happy dog".toList 1 =
      .ok (["happy".toList], DocumentStatus.ACTUAL) ∧
    (matchFixture ℚ).MatchDocumentPar "happy dog".toList 1 =
      .ok (["happy".toList, []], DocumentStatus.ACTUAL) ∧
    ([] : Word) ∉ ["happy".toList] ∧ ([] : Word) ∈ ["happy".toList, []] :=
  ⟨reachable_matchFixture, rfl, by decide, rfl, rfl, by decide, by decide⟩

end SearchServer
end SearchEngine

/-! ## The entries of `word_to_document_freqs_` after a removal -/

namespace SearchEngine
namespace SearchServer
variable {F : Type}

/-- The entries left by the sequential removal loop: the entry of a word of the document is
dropped when it held one posting, and loses the posting of the document otherwise. -/
theorem removeWordsLoop_lookup (d : Int) (doc : List (Word × F)) :
    ∀ (w2d : OrdMap Word (OrdMap Int F)), OrdMap.WF w2d → (OrdMap.keys doc).Nodup →
      (∀ e ∈ doc, OrdMap.lookup e.1 w2d ≠ none) →
      ∀ w, OrdMap.lookup w (removeWordsLoop d doc w2d).2 =
        if w ∈ OrdMap.keys doc then
          (OrdMap.lookup w w2d).bind
            (fun p => if p.length = 1 then none else some (OrdMap.erase d p))
        else OrdMap.lookup w w2d := by
  induction doc with
  | nil => intro w2d _ _ _ w; simp [removeWordsLoop]
  | cons e rest ih =>
    intro w2d hwf hnd hall w
    have hnd1 : e.1 ∉ OrdMap.keys rest ∧ (OrdMap.keys rest).Nodup := by
      simpa using hnd
    have hne : ∀ e1 ∈ rest, e1.1 ≠ e.1 := by
      intro e1 he1 h
      exact hnd1.1 (h ▸ List.mem_map_of_mem Prod.fst he1)
    cases hl : OrdMap.lookup e.1 w2d with
    | none => exact absurd hl (hall e (List.mem_cons_self _ _))
    | some p =>
      simp only [removeWordsLoop, hl]
      by_cases hlen : p.length = 1
      · simp only [hlen, if_true]
        have hall1 : ∀ e1 ∈ rest, OrdMap.lookup e1.1 (OrdMap.erase e.1 w2d) ≠ none := by
          intro e1 he1
          rw [OrdMap.lookup_erase, if_neg (hne e1 he1)]
          exact hall e1 (List.mem_cons_of_mem _ he1)
        rw [ih _ (OrdMap.WF.erase _ hwf) hnd1.2 hall1, OrdMap.lookup_erase]
        by_cases hw : w = e.1
        · subst hw
          simp [hnd1.1, hl, hlen]
        · simp [hw]
      · simp only [hlen, if_false]
        have hall1 : ∀ e1 ∈ rest,
            OrdMap.lookup e1.1 (OrdMap.modify e.1 [] (OrdMap.erase d) w2d) ≠ none := by
          intro e1 he1
          rw [OrdMap.lookup_modify _ _ _ _ hwf, if_neg (hne e1 he1)]
          exact hall e1 (List.mem_cons_of_mem _ he1)
        rw [ih _ (OrdMap.WF.modify _ _ _ hwf) hnd1.2 hall1, OrdMap.lookup_modify _ _ _ _ hwf]
        by_cases hw : w = e.1
        · subst hw
          simp [hnd1.1, hl, hlen]
        · simp [hw]

/-- The entries left by the loop of the parallel removal: the entry of every word of the
document loses the posting of the document, and no entry is dropped. -/
theorem removeWordsLoopPar_lookup (d : Int) (doc : List (Word × F)) :
    ∀ (w2d : OrdMap Word (OrdMap Int F)), OrdMap.WF w2d → (OrdMap.keys doc).Nodup →
      (∀ e ∈ doc, OrdMap.lookup e.1 w2d ≠ none) →
      ∀ w, OrdMap.lookup w (removeWordsLoopPar d doc w2d).2 =
        if w ∈ OrdMap.keys doc then (OrdMap.lookup w w2d).map (OrdMap.erase d)
        else OrdMap.lookup w w2d := by
  induction doc with
  | nil => intro w2d _ _ _ w; simp [removeWordsLoopPar]
  | cons e rest ih =>
    intro w2d hwf hnd hall w
    have hnd1 : e.1 ∉ OrdMap.keys rest ∧ (OrdMap.keys rest).Nodup := by
      simpa using hnd
    have hne : ∀ e1 ∈ rest, e1.1 ≠ e.1 := by
      intro e1 he1 h
      exact hnd1.1 (h ▸ List.mem_map_of_mem Prod.fst he1)
    cases hl : OrdMap.lookup e.1 w2d with
    | none => exact absurd hl (hall e (List.mem_cons_self _ _))
    | some p =>
      simp only [removeWordsLoopPar, hl]
      have hall1 : ∀ e1 ∈ rest,
          OrdMap.lookup e1.1 (OrdMap.modify e.1 [] (OrdMap.erase d) w2d) ≠ none := by
        intro e1 he1
        rw [OrdMap.lookup_modify _ _ _ _ hwf, if_neg (hne e1 he1)]
        exact hall e1 (List.mem_cons_of_mem _ he1)
      rw [ih _ (OrdMap.WF.modify _ _ _ hwf) hnd1.2 hall1, OrdMap.lookup_modify _ _ _ _ hwf]
      by_cases hw : w = e.1
      · subst hw
        simp [hnd1.1, hl]
      · simp [hw]

/-- The words of a document have entries in `word_to_document_freqs_`. -/
theorem Inv.words_have_entries {s : SearchServer F} (hs : Inv s) {d : Int}
    {doc : OrdMap Word F} (hdoc : OrdMap.lookup d s.document_to_words_freqs_ = some doc) :
    ∀ e ∈ doc, OrdMap.lookup e.1 s.word_to_document_freqs_ ≠ none :=
  fun e he h => hs.words_have_postings hdoc e he (by rw [h]; rfl)

/-- The sequential `RemoveDocument` of a document that has an entry in
`document_to_words_freqs_`. -/
theorem Inv.RemoveDocument_eq {s : SearchServer F} (hs : Inv s) {d : Int}
    {doc : OrdMap Word F} (hdoc : OrdMap.lookup d s.document_to_words_freqs_ = some doc) :
    s.RemoveDocument d =
      (.ok (),
        { s with
          word_to_document_freqs_ := (removeWordsLoop d doc s.word_to_document_freqs_).2
          document_to_words_freqs_ := OrdMap.erase d s.document_to_words_freqs_
          document_ids_ := setErase d s.document_ids_
          documents_ := OrdMap.erase d s.documents_ }) := by
  obtain ⟨w2d1, e1, _⟩ := removeWordsLoop_spec d doc s.word_to_document_freqs_
    hs.index.w2d_wf hs.index.w2d_inner
    (OrdMap.keys_nodup (hs.index.d2w_inner _ _ hdoc)) (hs.words_have_postings hdoc)
  simp only [RemoveDocument, hdoc, e1]

/-- The parallel `RemoveDocument` of a document that has an entry in
`document_to_words_freqs_`. -/
theorem Inv.RemoveDocumentPar_eq {s : SearchServer F} (hs : Inv s) {d : Int}
    {doc : OrdMap Word F} (hdoc : OrdMap.lookup d s.document_to_words_freqs_ = some doc) :
    s.RemoveDocumentPar d =
      (.ok (),
        { s with
          word_to_document_freqs_ := (removeWordsLoopPar d doc s.word_to_document_freqs_).2
          document_ids_ := setErase d s.document_ids_
          documents_ := OrdMap.erase d s.documents_
          document_to_words_freqs_ := OrdMap.erase d s.document_to_words_freqs_ }) := by
  obtain ⟨w2d1, e1, _⟩ := removeWordsLoopPar_spec d doc s.word_to_document_freqs_
    hs.index.w2d_wf hs.index.w2d_inner (hs.words_have_entries hdoc)
  have : OrdMap.count d s.document_to_words_freqs_ ≠ 0 := by
    rw [Ne, OrdMap.count_eq_zero_iff, hdoc]; simp
  simp only [RemoveDocumentPar, this, if_false, hdoc, e1]

/-- A document without an entry in `document_to_words_freqs_` is left alone by both variants. -/
theorem RemoveDocument_of_no_entry (s : SearchServer F) (d : Int)
    (hdoc : OrdMap.lookup d s.document_to_words_freqs_ = none) :
    s.RemoveDocument d = (.ok (), s) ∧ s.RemoveDocumentPar d = (.ok (), s) := by
  have : OrdMap.count d s.document_to_words_freqs_ = 0 :=
    (OrdMap.count_eq_zero_iff _ _).2 hdoc
  constructor
  · simp only [RemoveDocument, hdoc]
  · simp only [RemoveDocumentPar, this, if_true]

/-- A well-formed map that holds the key `d` has one entry exactly when erasing `d` leaves
nothing. -/
theorem length_eq_one_iff_erase {V : Type} {p : OrdMap Int V} (hp : OrdMap.WF p) {d : Int}
    (hd : d ∈ OrdMap.keys p) : p.length = 1 ↔ OrdMap.erase d p = [] := by
  constructor
  · intro hlen
    match p, hlen with
    | [(k, v)], _ =>
      simp only [OrdMap.keys_cons, OrdMap.keys_nil, List.mem_singleton] at hd
      subst hd
      simp [OrdMap.erase]
  · intro he
    have hall : ∀ e ∈ p, e.1 = d := by
      intro e hep
      by_contra hne
      have : e ∈ OrdMap.erase d p := by
        unfold OrdMap.erase
        exact List.mem_filter.2 ⟨hep, by simpa using hne⟩
      rw [he] at this
      cases this
    match p, hp, hd, hall with
    | [], _, hd, _ => cases hd
    | [_], _, _, _ => rfl
    | e1 :: e2 :: rest, hp, _, hall =>
      exfalso
      have h1 := hall e1 (by simp)
      have h2 := hall e2 (by simp)
      have hnd := OrdMap.keys_nodup hp
      simp only [OrdMap.keys_cons, List.nodup_cons, List.mem_cons, not_or] at hnd
      exact hnd.1.1 (h1.trans h2.symm)

end SearchServer
end SearchEngine

/-! ## Claim C18: the parallel removal against the sequential one -/

namespace SearchEngine
namespace SearchServer
variable {F : Type} [LinearOrderedField F]

/-- C18, the counterexample: in the reachable state that holds the one document 1 with the text
"a", the sequential `RemoveDocument` erases the entry of "a" from `word_to_document_freqs_` and
the parallel one keeps it with an empty posting map, so the two final states differ. -/
theorem C18_counterexample :
    Reachable (oneWordFixture ℚ) ∧
    ((oneWordFixture ℚ).RemoveDocument 1).2.word_to_document_freqs_ = [] ∧
    ((oneWordFixture ℚ).RemoveDocumentPar 1).2.word_to_document_freqs_ = [("a".toList, [])] ∧
    ((oneWordFixture ℚ).RemoveDocumentPar 1).2.word_to_document_freqs_ ≠
      ((oneWordFixture ℚ).RemoveDocument 1).2.word_to_document_freqs_ := by
  refine ⟨reachable_oneWordFixture, rfl, rfl, ?_⟩
  intro h
  have h1 : ((oneWordFixture ℚ).RemoveDocumentPar 1).2.word_to_document_freqs_ =
      [("a".toList, [])] := rfl
  have h2 : ((oneWordFixture ℚ).RemoveDocument 1).2.word_to_document_freqs_ = [] := rfl
  rw [h1, h2] at h
  cases h

/-- C18 as amended: in every reachable state and for every id, both variants of `RemoveDocument`
return normally and leave the same `document_to_words_freqs_`, metadata map, doc-id set,
vocabulary and stop words; the two `word_to_document_freqs_` have the same entry for every word
except the words whose one posting was the removed document: the sequential variant erases the
entry of such a word and the parallel variant keeps it with an empty posting map. -/
theorem C18_RemoveDocumentPar_same_up_to_empty_postings (s : SearchServer F)
    (hs : Reachable s) (document_id : Int) :
    (s.RemoveDocument document_id).1 = .ok () ∧
    (s.RemoveDocumentPar document_id).1 = .ok () ∧
    (s.RemoveDocumentPar document_id).2.document_to_words_freqs_ =
      (s.RemoveDocument document_id).2.document_to_words_freqs_ ∧
    (s.RemoveDocumentPar document_id).2.documents_ =
      (s.RemoveDocument document_id).2.documents_ ∧
    (s.RemoveDocumentPar document_id).2.document_ids_ =
      (s.RemoveDocument document_id).2.document_ids_ ∧
    (s.RemoveDocumentPar document_id).2.all_words_ =
      (s.RemoveDocument document_id).2.all_words_ ∧
    (s.RemoveDocumentPar document_id).2.stop_words_ =
      (s.RemoveDocument document_id).2.stop_words_ ∧
    (∀ w, (∀ tf, OrdMap.lookup w s.word_to_document_freqs_ ≠ some [(document_id, tf)]) →
      OrdMap.lookup w (s.RemoveDocumentPar document_id).2.word_to_document_freqs_ =
        OrdMap.lookup w (s.RemoveDocument document_id).2.word_to_document_freqs_) ∧
    (∀ w tf, OrdMap.lookup w s.word_to_document_freqs_ = some [(document_id, tf)] →
      OrdMap.lookup w (s.RemoveDocumentPar document_id).2.word_to_document_freqs_ = some [] ∧
      OrdMap.lookup w (s.RemoveDocument document_id).2.word_to_document_freqs_ = none) := by
  have hinv := hs.inv
  cases hdoc : OrdMap.lookup document_id s.document_to_words_freqs_ with
  | none =>
    obtain ⟨h1, h2⟩ := RemoveDocument_of_no_entry s document_id hdoc
    rw [h1, h2]
    refine ⟨rfl, rfl, rfl, rfl, rfl, rfl, rfl, fun _ _ => rfl, ?_⟩
    intro w tf hw
    exfalso
    have ht := hinv.index.transpose w document_id
    unfold tfW tfD at ht
    rw [hw, hdoc] at ht
    simp at ht
  | some doc =>
    rw [hinv.RemoveDocument_eq hdoc, hinv.RemoveDocumentPar_eq hdoc]
    have hnd := OrdMap.keys_nodup (hinv.index.d2w_inner _ _ hdoc)
    have hent := hinv.words_have_entries hdoc
    have hseq := removeWordsLoop_lookup document_id doc _ hinv.index.w2d_wf hnd hent
    have hpar := removeWordsLoopPar_lookup document_id doc _ hinv.index.w2d_wf hnd hent
    -- a word of the document has a posting map that holds the document
    have hmem : ∀ w ∈ OrdMap.keys doc, ∃ p,
        OrdMap.lookup w s.word_to_document_freqs_ = some p ∧
        OrdMap.WF p ∧ document_id ∈ OrdMap.keys p := by
      intro w hw
      obtain ⟨e, he, rfl⟩ := List.mem_map.1 hw
      have h := hinv.words_have_postings hdoc e he
      cases hl : OrdMap.lookup e.1 s.word_to_document_freqs_ with
      | none => simp [hl] at h
      | some p =>
        refine ⟨p, rfl, hinv.index.w2d_inner _ _ hl, ?_⟩
        rw [hl, Option.some_bind] at h
        rw [← OrdMap.lookup_isSome_iff]
        exact Option.ne_none_iff_isSome.1 h
    refine ⟨rfl, rfl, rfl, rfl, rfl, rfl, rfl, ?_, ?_⟩
    · intro w hw
      show OrdMap.lookup w (removeWordsLoopPar document_id doc s.word_to_document_freqs_).2 =
        OrdMap.lookup w (removeWordsLoop document_id doc s.word_to_document_freqs_).2
      rw [hseq, hpar]
      by_cases hk : w ∈ OrdMap.keys doc
      · obtain ⟨p, hp, hpwf, hpd⟩ := hmem w hk
        simp only [hk, if_true, hp, Option.map_some', Option.some_bind]
        have hlen : p.length ≠ 1 := by
          intro hlen
          match p, hlen with
          | [(k, v)], _ =>
            simp only [OrdMap.keys_cons, OrdMap.keys_nil, List.mem_singleton] at hpd
            subst hpd
            exact hw v hp
        rw [if_neg hlen]
      · simp only [hk, if_false]
    · intro w tf hw
      have hk : w ∈ OrdMap.keys doc := by
        have ht := hinv.index.transpose w document_id
        unfold tfW tfD at ht
        rw [hw, hdoc] at ht
        simp only [Option.some_bind, OrdMap.lookup_cons, if_true, OrdMap.lookup_nil] at ht
        rw [← OrdMap.lookup_isSome_iff, ← ht]
        rfl
      constructor
      · show OrdMap.lookup w (removeWordsLoopPar document_id doc s.word_to_document_freqs_).2 = _
        rw [hpar, if_pos hk, hw]
        simp [OrdMap.erase]
      · show OrdMap.lookup w (removeWordsLoop document_id doc s.word_to_document_freqs_).2 = _
        rw [hseq, if_pos hk, hw]
        simp

/-- Witness of C18 as amended: the removal of document 1 from the one-document fixture. -/
theorem C18_RemoveDocumentPar_same_up_to_empty_postings_witness :
    Reachable (matchFixture ℚ) ∧
      ((matchFixture ℚ).RemoveDocumentPar 1).2.document_to_words_freqs_ =
        ((matchFixture ℚ).RemoveDocument 1).2.document_to_words_freqs_ :=
  ⟨reachable_matchFixture,
    (C18_RemoveDocumentPar_same_up_to_empty_postings (matchFixture ℚ) reachable_matchFixture
      1).2.2.1⟩

end SearchServer
end SearchEngine

/-! ## Adding a document and removing it again; claim C12 -/

namespace SearchEngine
namespace OrdMap
variable {K V : Type} [LinearOrder K]

theorem WF.filter (p : K × V → Bool) {m : OrdMap K V} (hm : WF m) : WF (m.filter p) := by
  unfold WF at hm ⊢
  exact hm.sublist ((List.filter_sublist m).map Prod.fst)

/-- Reading a map from which the entries that fail `p` were dropped. -/
theorem lookup_filter (p : K × V → Bool) {m : OrdMap K V} (hm : WF m) (k : K) :
    lookup k (m.filter p) = (lookup k m).bind (fun v => if p (k, v) then some v else none) := by
  induction m with
  | nil => rfl
  | cons e rest ih =>
    obtain ⟨k1, v1⟩ := e
    have hwf := (WF_cons_iff _ _).1 hm
    have ih1 := ih hwf.2
    by_cases hk : k = k1
    · subst hk
      have hrest : lookup k rest = none := by
        rw [lookup_eq_none_iff]
        intro hmem
        exact lt_irrefl _ (hwf.1 _ hmem)
      by_cases hp : p (k, v1) = true
      · simp [List.filter_cons, hp]
      · simp only [List.filter_cons, hp, Bool.false_eq_true, if_false, ih1, hrest, lookup_cons,
          if_true, Option.some_bind, Option.none_bind]
    · by_cases hp : p (k1, v1) = true
      · simp [List.filter_cons, hp, hk, ih1]
      · simp [List.filter_cons, hp, hk, ih1]

/-- Erasing a key right after it was emplaced into a map that did not have it. -/
theorem erase_emplace (k : K) (v : V) {m : OrdMap K V} (hm : WF m) (hk : lookup k m = none) :
    erase k (emplace k v m) = m := by
  apply ext_lookup (WF.erase _ (WF.emplace _ _ hm)) hm
  intro j
  rw [lookup_erase]
  by_cases hj : j = k
  · subst hj
    simp [hk]
  · simp [hj, lookup_emplace_ne hj]

end OrdMap

namespace SearchServer
variable {F : Type} [LinearOrderedField F]

/-- The loop of `AddDocument` leaves the entries of the other documents and of the other words
as they are, and keeps the vocabulary. -/
theorem foldl_addWord_outer (d : Int) (inv : F) (words : List Word) :
    ∀ (s : SearchServer F),
      (∀ d1, d1 ≠ d →
        OrdMap.lookup d1 (words.foldl (addWord d inv) s).document_to_words_freqs_ =
          OrdMap.lookup d1 s.document_to_words_freqs_) ∧
      (∀ w, w ∉ words →
        OrdMap.lookup w (words.foldl (addWord d inv) s).word_to_document_freqs_ =
          OrdMap.lookup w s.word_to_document_freqs_) ∧
      (∀ w ∈ s.all_words_, w ∈ (words.foldl (addWord d inv) s).all_words_) := by
  induction words with
  | nil => intro s; simp
  | cons w0 rest ih =>
    intro s
    simp only [List.foldl_cons]
    obtain ⟨h1, h2, h3⟩ := ih (addWord d inv s w0)
    refine ⟨?_, ?_, ?_⟩
    · intro d1 hd1
      rw [h1 d1 hd1]
      exact OrdMap.lookup_modify_ne hd1 _ _ _
    · intro w hw
      simp only [List.mem_cons, not_or] at hw
      rw [h2 w hw.2]
      exact OrdMap.lookup_modify_ne hw.1 _ _ _
    · intro w hw
      apply h3
      simp only [addWord, internWord]
      split_ifs
      · exact hw
      · exact List.mem_append_left _ hw

/-- What a successful `AddDocument` tells about its arguments and about the parts of the state
it does not touch. -/
theorem AddDocument_ok_frame {s s1 : SearchServer F} {d : Int} {text : List Char}
    {st : DocumentStatus} {r : List Int} (hadd : s.AddDocument d text st r = (.ok (), s1)) :
    0 ≤ d ∧ OrdMap.lookup d s.documents_ = none ∧
    (SplitIntoWords text).all IsValidWord = true ∧
    (∀ d1, d1 ≠ d → OrdMap.lookup d1 s1.document_to_words_freqs_ =
      OrdMap.lookup d1 s.document_to_words_freqs_) ∧
    (∀ w, w ∉ (SplitIntoWords text).filter (fun w => !s.IsStopWord w) →
      OrdMap.lookup w s1.word_to_document_freqs_ = OrdMap.lookup w s.word_to_document_freqs_) ∧
    (∀ w ∈ s.all_words_, w ∈ s1.all_words_) := by
  rw [AddDocument_eq] at hadd
  split_ifs at hadd with h1 h2
  · simp at hadd
  swap
  · simp at hadd
  simp only [Prod.mk.injEq, true_and] at hadd
  subst hadd
  simp only [not_or, not_lt] at h1
  obtain ⟨a1, a2, a3⟩ := foldl_addWord_outer d
    (1 / ((((SplitIntoWords text).filter (fun w => !s.IsStopWord w)).length : Nat) : F))
    ((SplitIntoWords text).filter (fun w => !s.IsStopWord w)) s
  refine ⟨h1.1, ?_, h2, a1, a2, a3⟩
  rw [← OrdMap.count_eq_zero_iff]
  omega

/-- C12 as amended: in every reachable state `s`, after a successful `AddDocument(d, text, ...)`
whose text has at least one non-stop token, `RemoveDocument(d)` returns normally and yields a
state whose `document_to_words_freqs_`, metadata map, doc-id set and stop words are those of `s`
and whose vocabulary contains that of `s`; its `word_to_document_freqs_` is that of `s` without
the entries that had an empty posting map and whose word is a non-stop token of the text, hence
equal to that of `s` when `s` has no such entry. -/
theorem C12_add_then_remove_restores_index (s s1 : SearchServer F) (hs : Reachable s)
    (document_id : Int) (document : List Char) (status : DocumentStatus) (ratings : List Int)
    (hadd : s.AddDocument document_id document status ratings = (.ok (), s1))
    (hn : (SplitIntoWords document).filter (fun w => !s.IsStopWord w) ≠ []) :
    ∃ s2, s1.RemoveDocument document_id = (.ok (), s2) ∧
      s2.document_to_words_freqs_ = s.document_to_words_freqs_ ∧
      s2.documents_ = s.documents_ ∧
      s2.document_ids_ = s.document_ids_ ∧
      s2.stop_words_ = s.stop_words_ ∧
      (∀ w ∈ s.all_words_, w ∈ s2.all_words_) ∧
      s2.word_to_document_freqs_ =
        s.word_to_document_freqs_.filter (fun e =>
          !(decide (e.1 ∈ (SplitIntoWords document).filter (fun w => !s.IsStopWord w)) &&
            e.2.isEmpty)) ∧
      ((∀ w ∈ (SplitIntoWords document).filter (fun w => !s.IsStopWord w),
          OrdMap.lookup w s.word_to_document_freqs_ ≠ some []) →
        s2.word_to_document_freqs_ = s.word_to_document_freqs_) := by
  have hinv := hs.inv
  have hinv1 : Inv s1 := hinv.AddDocument hadd
  obtain ⟨h0, hfresh, hvalid, hd2w, hw2d, hall⟩ := AddDocument_ok_frame hadd
  obtain ⟨_, _, hstop, hids, hdocs, htf⟩ :=
    AddDocument_effect s hinv document_id document status ratings h0 hfresh hvalid
  rw [hadd] at hstop hids hdocs htf
  simp only at hstop hids hdocs htf
  set words := (SplitIntoWords document).filter (fun w => !s.IsStopWord w) with hwords
  -- the document is new in `s`
  have hnew : OrdMap.lookup document_id s.document_to_words_freqs_ = none := by
    rw [OrdMap.lookup_eq_none_iff]
    intro hmem
    have := hinv.d2w_docs _ hmem
    rw [← OrdMap.lookup_isSome_iff, hfresh] at this
    exact Bool.noConfusion this
  have hnewW : ∀ w, s.tfW w document_id = none := by
    intro w
    rw [hinv.index.transpose]
    simp [tfD, hnew]
  -- it has an entry in `s1`, whose keys are the words
  obtain ⟨w0, hw0⟩ := List.exists_mem_of_ne_nil _ hn
  have htfD : ∀ w, s1.tfD document_id w =
      if w ∈ words then some ((words.count w : F) / (words.length : F)) else none := by
    intro w
    rw [← hinv1.index.transpose, htf]
    simp
  obtain ⟨doc, hdoc⟩ :
      ∃ doc, OrdMap.lookup document_id s1.document_to_words_freqs_ = some doc := by
    cases hl : OrdMap.lookup document_id s1.document_to_words_freqs_ with
    | none =>
      have := htfD w0
      simp [tfD, hl, hw0] at this
    | some doc => exact ⟨doc, rfl⟩
  have hkeys : ∀ w, w ∈ OrdMap.keys doc ↔ w ∈ words := by
    intro w
    have := htfD w
    simp only [tfD, hdoc, Option.some_bind] at this
    rw [← OrdMap.lookup_isSome_iff, this]
    by_cases hw : w ∈ words <;> simp [hw]
  have hnd := OrdMap.keys_nodup (hinv1.index.d2w_inner _ _ hdoc)
  have hent := hinv1.words_have_entries hdoc
  have hseq := removeWordsLoop_lookup document_id doc _ hinv1.index.w2d_wf hnd hent
  obtain ⟨w2d1, e1, e2, _, _⟩ := removeWordsLoop_spec document_id doc s1.word_to_document_freqs_
    hinv1.index.w2d_wf hinv1.index.w2d_inner hnd (hinv1.words_have_postings hdoc)
  have hloopwf : OrdMap.WF (removeWordsLoop document_id doc s1.word_to_document_freqs_).2 := by
    rw [e1]; exact e2
  -- the posting map of a word of the document, before and after
  have hpost : ∀ w ∈ words, ∃ p1, OrdMap.lookup w s1.word_to_document_freqs_ = some p1 ∧
      (p1.length = 1 ↔ (OrdMap.lookup w s.word_to_document_freqs_).getD [] = []) ∧
      OrdMap.erase document_id p1 = (OrdMap.lookup w s.word_to_document_freqs_).getD [] := by
    intro w hw
    have h1 := htf w document_id
    simp only [if_true, hw] at h1
    cases hl : OrdMap.lookup w s1.word_to_document_freqs_ with
    | none => simp [tfW, hl] at h1
    | some p1 =>
      have hp1 := hinv1.index.w2d_inner _ _ hl
      have hd : document_id ∈ OrdMap.keys p1 := by
        rw [← OrdMap.lookup_isSome_iff]
        simp only [tfW, hl, Option.some_bind] at h1
        rw [h1]
        rfl
      have hp0 : OrdMap.WF ((OrdMap.lookup w s.word_to_document_freqs_).getD []) := by
        cases hl0 : OrdMap.lookup w s.word_to_document_freqs_ with
        | none => exact OrdMap.WF_nil
        | some p0 => exact hinv.index.w2d_inner _ _ hl0
      have heq : OrdMap.erase document_id p1 =
          (OrdMap.lookup w s.word_to_document_freqs_).getD [] := by
        apply OrdMap.ext_lookup (OrdMap.WF.erase _ hp1) hp0
        intro d1
        rw [OrdMap.lookup_erase]
        have h2 := htf w d1
        have h3 : s.tfW w d1 =
            OrdMap.lookup d1 ((OrdMap.lookup w s.word_to_document_freqs_).getD []) := by
          unfold tfW
          cases OrdMap.lookup w s.word_to_document_freqs_ <;> rfl
        by_cases hd1 : d1 = document_id
        · subst hd1
          rw [if_pos rfl, ← h3, hnewW]
        · rw [if_neg hd1]
          simp only [tfW, hl, Option.some_bind, hd1, if_false] at h2
          rw [h2, ← h3]
          rfl
      exact ⟨p1, rfl, by rw [length_eq_one_iff_erase hp1 hd, heq], heq⟩
  have hlook : ∀ w,
      OrdMap.lookup w (removeWordsLoop document_id doc s1.word_to_document_freqs_).2 =
      (OrdMap.lookup w s.word_to_document_freqs_).bind
        (fun v => if (!(decide (w ∈ words) && v.isEmpty)) = true then some v else none) := by
    intro w
    rw [hseq]
    by_cases hw : w ∈ words
    · obtain ⟨p1, hp1, hlen, herase⟩ := hpost w hw
      rw [if_pos ((hkeys w).2 hw), hp1, Option.some_bind, herase]
      cases hl0 : OrdMap.lookup w s.word_to_document_freqs_ with
      | none =>
        rw [hl0] at hlen
        simp only [Option.getD_none, iff_true] at hlen
        simp [hlen]
      | some p0 =>
        rw [hl0] at hlen
        simp only [Option.getD_some] at hlen
        by_cases hp0 : p0 = []
        · simp [hlen.2 hp0, hp0, hw]
        · have : ¬ p1.length = 1 := fun h => hp0 (hlen.1 h)
          simp [this, hw, hp0]
    · rw [if_neg (fun h => hw ((hkeys w).1 h)), hw2d w hw]
      cases OrdMap.lookup w s.word_to_document_freqs_ <;> simp [hw]
  have hw2dEq : (removeWordsLoop document_id doc s1.word_to_document_freqs_).2 =
      s.word_to_document_freqs_.filter (fun e => !(decide (e.1 ∈ words) && e.2.isEmpty)) := by
    apply OrdMap.ext_lookup hloopwf (OrdMap.WF.filter _ hinv.index.w2d_wf)
    intro w
    rw [hlook, OrdMap.lookup_filter _ hinv.index.w2d_wf]
  have hdocsEq : OrdMap.erase document_id s1.documents_ = s.documents_ := by
    rw [hdocs]
    exact OrdMap.erase_emplace _ _ hinv.docs_wf hfresh
  refine ⟨_, hinv1.RemoveDocument_eq hdoc, ?_, hdocsEq, ?_, hstop, hall, hw2dEq, ?_⟩
  · show OrdMap.erase document_id s1.document_to_words_freqs_ = s.document_to_words_freqs_
    apply OrdMap.ext_lookup (OrdMap.WF.erase _ hinv1.index.d2w_wf) hinv.index.d2w_wf
    intro d1
    rw [OrdMap.lookup_erase]
    by_cases hd1 : d1 = document_id
    · rw [if_pos hd1, hd1, hnew]
    · rw [if_neg hd1, hd2w d1 hd1]
  · show setErase document_id s1.document_ids_ = s.document_ids_
    rw [hinv1.ids_eq, ← OrdMap.keys_erase, hdocsEq, hinv.ids_eq]
  · intro hne
    show (removeWordsLoop document_id doc s1.word_to_document_freqs_).2 = _
    apply OrdMap.ext_lookup hloopwf hinv.index.w2d_wf
    intro w
    rw [hlook]
    cases hl0 : OrdMap.lookup w s.word_to_document_freqs_ with
    | none => rfl
    | some p0 =>
      by_cases hw : w ∈ words
      · have : p0 ≠ [] := by
          intro h
          exact hne w hw (by rw [hl0, h])
        simp [hw, this]
      · simp [hw]

theorem reachable_afterParRemovalFixture : Reachable (afterParRemovalFixture F) :=
  Reachable.removePar _ _ 1 reachable_oneWordFixture rfl

/-- C12, the counterexample: the state left by the parallel removal of the one document with the
text "a" is reachable and has the entry of "a" with an empty posting map; adding document 2
with the text "a" succeeds, and the sequential `RemoveDocument(2)` that follows erases the entry
of "a", so `word_to_document_freqs_` is not the one before the call of `AddDocument`. -/
theorem C12_counterexample :
    Reachable (afterParRemovalFixture ℚ) ∧
    (afterParRemovalFixture ℚ).word_to_document_freqs_ = [("a".toList, [])] ∧
    ((afterParRemovalFixture ℚ).AddDocument 2 "a".toList DocumentStatus.ACTUAL []).1 = .ok () ∧
    ((((afterParRemovalFixture ℚ).AddDocument 2 "a".toList DocumentStatus.ACTUAL []).2
      ).RemoveDocument 2).2.word_to_document_freqs_ = [] ∧
    ((((afterParRemovalFixture ℚ).AddDocument 2 "a".toList DocumentStatus.ACTUAL []).2
      ).RemoveDocument 2).2.word_to_document_freqs_ ≠
        (afterParRemovalFixture ℚ).word_to_document_freqs_ := by
  have h1 : (afterParRemovalFixture ℚ).word_to_document_freqs_ = [("a".toList, [])] := rfl
  have h2 : ((((afterParRemovalFixture ℚ).AddDocument 2 "a".toList DocumentStatus.ACTUAL []).2
      ).RemoveDocument 2).2.word_to_document_freqs_ = [] := rfl
  refine ⟨reachable_afterParRemovalFixture, h1, rfl, h2, ?_⟩
  rw [h1, h2]
  intro h
  cases h

/-- Witness of C12 as amended: the document of the one-document fixture, added to the empty
server and removed again. -/
theorem C12_add_then_remove_restores_index_witness :
    Reachable (emptyServer ℚ) ∧
      (emptyServer ℚ).AddDocument 1 "cat in the city. cat is full and happy".toList
        DocumentStatus.ACTUAL [1] = (.ok (), matchFixture ℚ) ∧
      ∃ s2, (matchFixture ℚ).RemoveDocument 1 = (.ok (), s2) ∧
        s2.document_to_words_freqs_ = (emptyServer ℚ).document_to_words_freqs_ ∧
        s2.documents_ = (emptyServer ℚ).documents_ ∧
        s2.document_ids_ = (emptyServer ℚ).document_ids_ :=
  ⟨reachable_emptyServer, rfl,
    (C12_add_then_remove_restores_index (emptyServer ℚ) (matchFixture ℚ) reachable_emptyServer 1
      "cat in the city. cat is full and happy".toList DocumentStatus.ACTUAL [1] rfl
      (by decide)).imp (fun _ h => ⟨h.1, h.2.1, h.2.2.1, h.2.2.2.1⟩)⟩

end SearchServer
end SearchEngine

/-! ## `RemoveDuplicates`; claims C15 and C16 -/

namespace SearchEngine

section WordSets
variable {K V : Type} [LinearOrder K]

theorem setInsert_append_last (a : K) (l : List K) (h : ∀ x ∈ l, x < a) :
    setInsert a l = l ++ [a] := by
  induction l with
  | nil => rfl
  | cons b rest ih =>
    have hb : b < a := h b (List.mem_cons_self _ _)
    simp only [setInsert, not_lt.2 hb.le, if_false, ne_of_gt hb, List.cons_append]
    rw [ih (fun x hx => h x (List.mem_cons_of_mem _ hx))]

/-- Inserting the keys of a map into an empty set, in iteration order, gives the list of the
keys. -/
theorem foldl_setInsert_keys (m : OrdMap K V) (hm : OrdMap.WF m) :
    m.foldl (fun acc pair => setInsert pair.1 acc) [] = OrdMap.keys m := by
  induction m using List.reverseRecOn with
  | nil => rfl
  | append_singleton l a ih =>
    unfold OrdMap.WF at hm
    rw [List.map_append, List.Sorted, List.pairwise_append] at hm
    rw [List.foldl_append, List.foldl_cons, List.foldl_nil, ih hm.1]
    have : ∀ x ∈ OrdMap.keys l, x < a.1 := by
      intro x hx
      exact hm.2.2 x hx a.1 (by simp)
    rw [setInsert_append_last _ _ this]
    simp [OrdMap.keys]

/-- Two ascending lists with the same members are the same list. -/
theorem sorted_eq_of_mem_iff {l1 l2 : List K} (h1 : l1.Sorted (· < ·)) (h2 : l2.Sorted (· < ·))
    (h : ∀ x, x ∈ l1 ↔ x ∈ l2) : l1 = l2 :=
  List.eq_of_perm_of_sorted ((List.perm_ext_iff_of_nodup h1.nodup h2.nodup).2 h) h1 h2

end WordSets

namespace SearchServer
variable {F : Type}

theorem Inv.WF_GetWordFrequencies {s : SearchServer F} (hs : Inv s) (d : Int) :
    OrdMap.WF (s.GetWordFrequencies d) := by
  unfold GetWordFrequencies
  cases hl : OrdMap.lookup d s.document_to_words_freqs_ with
  | none => exact OrdMap.WF_nil
  | some doc => exact hs.index.d2w_inner _ _ hl

/-- What the sequential `RemoveDocument` leaves of the other documents. -/
theorem Inv.RemoveDocument_other {s : SearchServer F} (hs : Inv s) (id d : Int) (hd : d ≠ id) :
    (s.RemoveDocument id).2.GetWordFrequencies d = s.GetWordFrequencies d ∧
    OrdMap.lookup d (s.RemoveDocument id).2.documents_ = OrdMap.lookup d s.documents_ ∧
    (d ∈ (s.RemoveDocument id).2.document_ids_ ↔ d ∈ s.document_ids_) := by
  cases hdoc : OrdMap.lookup id s.document_to_words_freqs_ with
  | none =>
    rw [(RemoveDocument_of_no_entry s id hdoc).1]
    exact ⟨rfl, rfl, Iff.rfl⟩
  | some doc =>
    rw [hs.RemoveDocument_eq hdoc]
    refine ⟨?_, ?_, ?_⟩
    · simp only [GetWordFrequencies, OrdMap.lookup_erase, hd, if_false]
    · simp only [OrdMap.lookup_erase, hd, if_false]
    · simp only [mem_setErase, ne_eq, hd, not_false_eq_true, true_and]

/-- One step of the loop of `RemoveDuplicates`, with the set of words written as the list of
keys. -/
theorem removeDuplicatesLoop_cons {t : SearchServer F} (ht : Inv t) (id : Int)
    (rest : List Int) (U : List (List Word)) (R : List Int) :
    removeDuplicatesLoop (id :: rest) U t R =
      if OrdMap.keys (t.GetWordFrequencies id) ∈ U then
        removeDuplicatesLoop rest U (t.RemoveDocument id).2 (R ++ [id])
      else removeDuplicatesLoop rest (OrdMap.keys (t.GetWordFrequencies id) :: U) t R := by
  have hrm : t.RemoveDocument id = (.ok (), (t.RemoveDocument id).2) := by
    rw [← (ht.RemoveDocument_ok id).1]
  rw [removeDuplicatesLoop]
  simp only [foldl_setInsert_keys _ (ht.WF_GetWordFrequencies id)]
  split_ifs with h
  · rw [hrm]
  · rfl

/-- The loop of `RemoveDuplicates` over ascending ids returns normally, keeps the invariant, and
leaves alone every document that it does not visit, and every document it visits whose set of
words is new and is not the set of a smaller id still to be visited. -/
theorem removeDuplicatesLoop_keeps (rest : List Int) :
    ∀ (U : List (List Word)) (t : SearchServer F) (R : List Int), Inv t →
      rest.Sorted (· < ·) →
      (removeDuplicatesLoop rest U t R).1 = .ok () ∧
      Inv (removeDuplicatesLoop rest U t R).2.1 ∧
      ∀ d, (d ∈ rest → OrdMap.keys (t.GetWordFrequencies d) ∉ U ∧
          ∀ d1 ∈ rest, d1 < d →
            OrdMap.keys (t.GetWordFrequencies d1) ≠ OrdMap.keys (t.GetWordFrequencies d)) →
        (removeDuplicatesLoop rest U t R).2.1.GetWordFrequencies d = t.GetWordFrequencies d ∧
        OrdMap.lookup d (removeDuplicatesLoop rest U t R).2.1.documents_ =
          OrdMap.lookup d t.documents_ ∧
        (d ∈ (removeDuplicatesLoop rest U t R).2.1.document_ids_ ↔ d ∈ t.document_ids_) ∧
        (d ∈ (removeDuplicatesLoop rest U t R).2.2 ↔ d ∈ R) := by
  induction rest with
  | nil =>
    intro U t R ht _
    exact ⟨rfl, ht, fun d _ => ⟨rfl, rfl, Iff.rfl, Iff.rfl⟩⟩
  | cons id rest ih =>
    intro U t R ht hsorted
    have hs2 := List.sorted_cons.1 hsorted
    rw [removeDuplicatesLoop_cons ht]
    by_cases hU : OrdMap.keys (t.GetWordFrequencies id) ∈ U
    · rw [if_pos hU]
      have ht1 := (ht.RemoveDocument_ok id).2
      obtain ⟨a1, a2, a3⟩ := ih U (t.RemoveDocument id).2 (R ++ [id]) ht1 hs2.2
      refine ⟨a1, a2, ?_⟩
      intro d hd
      have hne : d ≠ id := by
        rintro rfl
        exact (hd (List.mem_cons_self _ _)).1 hU
      obtain ⟨b1, b2, b3⟩ := ht.RemoveDocument_other id d hne
      have hcond : d ∈ rest →
          OrdMap.keys ((t.RemoveDocument id).2.GetWordFrequencies d) ∉ U ∧
          ∀ d1 ∈ rest, d1 < d →
            OrdMap.keys ((t.RemoveDocument id).2.GetWordFrequencies d1) ≠
              OrdMap.keys ((t.RemoveDocument id).2.GetWordFrequencies d) := by
        intro hdr
        obtain ⟨c1, c2⟩ := hd (List.mem_cons_of_mem _ hdr)
        rw [b1]
        refine ⟨c1, ?_⟩
        intro d1 hd1 hlt
        have hne1 : d1 ≠ id := fun h => absurd (hs2.1 d1 hd1) (by rw [h]; exact lt_irrefl _)
        rw [(ht.RemoveDocument_other id d1 hne1).1]
        exact c2 d1 (List.mem_cons_of_mem _ hd1) hlt
      obtain ⟨e1, e2, e3, e4⟩ := a3 d hcond
      refine ⟨e1.trans b1, e2.trans b2, e3.trans b3, ?_⟩
      rw [e4]
      simp [hne]
    · rw [if_neg hU]
      obtain ⟨a1, a2, a3⟩ :=
        ih (OrdMap.keys (t.GetWordFrequencies id) :: U) t R ht hs2.2
      refine ⟨a1, a2, ?_⟩
      intro d hd
      apply a3 d
      intro hdr
      obtain ⟨c1, c2⟩ := hd (List.mem_cons_of_mem _ hdr)
      refine ⟨?_, fun d1 hd1 hlt => c2 d1 (List.mem_cons_of_mem _ hd1) hlt⟩
      simp only [List.mem_cons, not_or]
      exact ⟨(c2 id (List.mem_cons_self _ _) (hs2.1 d hdr)).symm, c1⟩

/-- The sequential `RemoveDocument` of a document that has indexed words takes it out of the
doc-id set, the metadata map and `document_to_words_freqs_`. -/
theorem Inv.RemoveDocument_self {s : SearchServer F} (hs : Inv s) (id : Int)
    (hw : s.GetWordFrequencies id ≠ []) :
    id ∉ (s.RemoveDocument id).2.document_ids_ ∧
    OrdMap.lookup id (s.RemoveDocument id).2.documents_ = none ∧
    (s.RemoveDocument id).2.GetWordFrequencies id = [] := by
  cases hdoc : OrdMap.lookup id s.document_to_words_freqs_ with
  | none => simp [GetWordFrequencies, hdoc] at hw
  | some doc =>
    rw [hs.RemoveDocument_eq hdoc]
    refine ⟨?_, ?_, ?_⟩
    · simp [mem_setErase]
    · simp [OrdMap.lookup_erase]
    · simp [GetWordFrequencies, OrdMap.lookup_erase]

/-- The loop of `RemoveDuplicates` over ascending ids removes and reports every document it
visits that has indexed words and whose set of words was seen before or is the set of a smaller
id still to be visited. -/
theorem removeDuplicatesLoop_removes (rest : List Int) :
    ∀ (U : List (List Word)) (t : SearchServer F) (R : List Int), Inv t →
      rest.Sorted (· < ·) → ∀ d ∈ rest, t.GetWordFrequencies d ≠ [] →
        (OrdMap.keys (t.GetWordFrequencies d) ∈ U ∨ ∃ d1 ∈ rest, d1 < d ∧
          OrdMap.keys (t.GetWordFrequencies d1) = OrdMap.keys (t.GetWordFrequencies d)) →
        d ∉ (removeDuplicatesLoop rest U t R).2.1.document_ids_ ∧
        OrdMap.lookup d (removeDuplicatesLoop rest U t R).2.1.documents_ = none ∧
        (removeDuplicatesLoop rest U t R).2.1.GetWordFrequencies d = [] ∧
        d ∈ (removeDuplicatesLoop rest U t R).2.2 := by
  induction rest with
  | nil => intro U t R _ _ d hd; cases hd
  | cons id rest ih =>
    intro U t R ht hsorted d hd hw hdup
    have hs2 := List.sorted_cons.1 hsorted
    rw [removeDuplicatesLoop_cons ht]
    rcases List.mem_cons.1 hd with rfl | hdr
    · -- the document visited now
      have hU : OrdMap.keys (t.GetWordFrequencies d) ∈ U := by
        rcases hdup with h | ⟨d1, hd1, hlt, _⟩
        · exact h
        · exfalso
          rcases List.mem_cons.1 hd1 with rfl | h1
          · exact lt_irrefl _ hlt
          · exact lt_asymm hlt (hs2.1 d1 h1)
      rw [if_pos hU]
      have ht1 := (ht.RemoveDocument_ok d).2
      obtain ⟨b1, b2, b3⟩ := ht.RemoveDocument_self d hw
      have hnot : d ∉ rest := fun h => lt_irrefl _ (hs2.1 d h)
      obtain ⟨_, _, a3⟩ :=
        removeDuplicatesLoop_keeps rest U (t.RemoveDocument d).2 (R ++ [d]) ht1 hs2.2
      obtain ⟨e1, e2, e3, e4⟩ := a3 d (fun h => absurd h hnot)
      exact ⟨fun h => b1 (e3.1 h), e2.trans b2, e1.trans b3, e4.2 (by simp)⟩
    · have hlt : id < d := hs2.1 d hdr
      have hne : d ≠ id := ne_of_gt hlt
      by_cases hU : OrdMap.keys (t.GetWordFrequencies id) ∈ U
      · rw [if_pos hU]
        have ht1 := (ht.RemoveDocument_ok id).2
        have hother := fun d1 (h : d1 ≠ id) => (ht.RemoveDocument_other id d1 h).1
        apply ih U (t.RemoveDocument id).2 (R ++ [id]) ht1 hs2.2 d hdr
        · rw [hother d hne]; exact hw
        · rw [hother d hne]
          rcases hdup with h | ⟨d1, hd1, hlt1, heq⟩
          · exact Or.inl h
          · rcases List.mem_cons.1 hd1 with rfl | h1
            · left
              rw [← heq]
              exact hU
            · right
              refine ⟨d1, h1, hlt1, ?_⟩
              rw [hother d1 (ne_of_gt (hs2.1 d1 h1))]
              exact heq
      · rw [if_neg hU]
        apply ih (OrdMap.keys (t.GetWordFrequencies id) :: U) t R ht hs2.2 d hdr hw
        rcases hdup with h | ⟨d1, hd1, hlt1, heq⟩
        · exact Or.inl (List.mem_cons_of_mem _ h)
        · rcases List.mem_cons.1 hd1 with rfl | h1
          · left
            rw [← heq]
            exact List.mem_cons_self _ _
          · exact Or.inr ⟨d1, h1, hlt1, heq⟩

/-- In a state that satisfies the invariant `RemoveDuplicates` removes and reports every document
that has indexed words and shares its set of words with a document of a smaller id. -/
theorem Inv.RemoveDuplicates_removes {s : SearchServer F} (hs : Inv s) (d : Int)
    (hd : d ∈ s.document_ids_) (hw : s.GetWordFrequencies d ≠ [])
    (hdup : ∃ d1 ∈ s.document_ids_, d1 < d ∧
      ∀ w, w ∈ OrdMap.keys (s.GetWordFrequencies d1) ↔
        w ∈ OrdMap.keys (s.GetWordFrequencies d)) :
    d ∉ (RemoveDuplicates s).2.1.document_ids_ ∧
    OrdMap.lookup d (RemoveDuplicates s).2.1.documents_ = none ∧
    (RemoveDuplicates s).2.1.GetWordFrequencies d = [] ∧
    d ∈ (RemoveDuplicates s).2.2 := by
  have hsorted : s.document_ids_.Sorted (· < ·) := by
    rw [hs.ids_eq]
    exact hs.docs_wf
  obtain ⟨d1, hd1, hlt, hsame⟩ := hdup
  exact removeDuplicatesLoop_removes s.document_ids_ [] s [] hs hsorted d hd hw
    (Or.inr ⟨d1, hd1, hlt,
      sorted_eq_of_mem_iff (hs.WF_GetWordFrequencies _) (hs.WF_GetWordFrequencies _) hsame⟩)

/-- C15: in every reachable state `RemoveDuplicates` returns normally, and every document that
has the smallest id among the documents with its set of indexed words is still present
afterwards, is not reported as a duplicate, and has its word frequencies (in both index maps),
its rating and its status unchanged; hence every set of words that a document had before is the
set of words of a document that is still present. -/
theorem C15_RemoveDuplicates_keeps_smallest_id [LinearOrderedField F] (s : SearchServer F)
    (hs : Reachable s) :
    (RemoveDuplicates s).1 = .ok () ∧
    (∀ d ∈ s.document_ids_,
      (∀ d1 ∈ s.document_ids_,
        (∀ w, w ∈ OrdMap.keys (s.GetWordFrequencies d1) ↔
          w ∈ OrdMap.keys (s.GetWordFrequencies d)) → d ≤ d1) →
      d ∈ (RemoveDuplicates s).2.1.document_ids_ ∧
      d ∉ (RemoveDuplicates s).2.2 ∧
      (RemoveDuplicates s).2.1.GetWordFrequencies d = s.GetWordFrequencies d ∧
      OrdMap.lookup d (RemoveDuplicates s).2.1.documents_ = OrdMap.lookup d s.documents_ ∧
      (∀ w, (OrdMap.lookup w (RemoveDuplicates s).2.1.word_to_document_freqs_).bind
          (OrdMap.lookup d) =
        (OrdMap.lookup w s.word_to_document_freqs_).bind (OrdMap.lookup d))) ∧
    (∀ d ∈ s.document_ids_, ∃ d1 ∈ (RemoveDuplicates s).2.1.document_ids_,
      ∀ w, w ∈ OrdMap.keys ((RemoveDuplicates s).2.1.GetWordFrequencies d1) ↔
        w ∈ OrdMap.keys (s.GetWordFrequencies d)) := by
  have hinv := hs.inv
  have hsorted : s.document_ids_.Sorted (· < ·) := by
    rw [hinv.ids_eq]
    exact hinv.docs_wf
  obtain ⟨a1, a2, a3⟩ := removeDuplicatesLoop_keeps s.document_ids_ [] s [] hinv hsorted
  have hmin : ∀ d ∈ s.document_ids_,
      (∀ d1 ∈ s.document_ids_,
        (∀ w, w ∈ OrdMap.keys (s.GetWordFrequencies d1) ↔
          w ∈ OrdMap.keys (s.GetWordFrequencies d)) → d ≤ d1) →
      d ∈ (RemoveDuplicates s).2.1.document_ids_ ∧
      d ∉ (RemoveDuplicates s).2.2 ∧
      (RemoveDuplicates s).2.1.GetWordFrequencies d = s.GetWordFrequencies d ∧
      OrdMap.lookup d (RemoveDuplicates s).2.1.documents_ = OrdMap.lookup d s.documents_ ∧
      (∀ w, (OrdMap.lookup w (RemoveDuplicates s).2.1.word_to_document_freqs_).bind
          (OrdMap.lookup d) =
        (OrdMap.lookup w s.word_to_document_freqs_).bind (OrdMap.lookup d)) := by
    intro d hd hsmall
    obtain ⟨b1, b2, b3, b4⟩ := a3 d (fun _ => ⟨by simp, fun d1 hd1 hlt heq =>
      absurd (hsmall d1 hd1 (fun w => by rw [heq])) (not_le.2 hlt)⟩)
    refine ⟨b3.2 hd, fun h => by simpa using b4.1 h, b1, b2, ?_⟩
    intro w
    have h1 := a2.index.transpose w d
    have h2 := hinv.index.transpose w d
    unfold tfW at h1 h2
    rw [h2, ← lookup_GetWordFrequencies, ← b1, lookup_GetWordFrequencies]
    exact h1
  refine ⟨a1, hmin, ?_⟩
  intro d hd
  -- the smallest id among the documents with the words of `d`
  have hne : ((s.document_ids_.filter (fun d1 => decide
      (OrdMap.keys (s.GetWordFrequencies d1) = OrdMap.keys (s.GetWordFrequencies d)))
      ).toFinset).Nonempty :=
    ⟨d, by simp [hd]⟩
  have hmem := Finset.min'_mem _ hne
  simp only [List.mem_toFinset, List.mem_filter, decide_eq_true_eq] at hmem
  obtain ⟨c1, _, c3, _, _⟩ := hmin _ hmem.1 (by
    intro d1 hd1 hsame
    apply Finset.min'_le
    simp only [List.mem_toFinset, List.mem_filter, decide_eq_true_eq]
    refine ⟨hd1, ?_⟩
    rw [← hmem.2]
    exact sorted_eq_of_mem_iff (hinv.WF_GetWordFrequencies _) (hinv.WF_GetWordFrequencies _)
      hsame)
  refine ⟨_, c1, ?_⟩
  intro w
  rw [c3, hmem.2]

theorem Reachable.add_of_ok [LinearOrderedField F] {s : SearchServer F} (hs : Reachable s)
    (d : Int) (text : List Char) (st : DocumentStatus) (r : List Int)
    (h : (s.AddDocument d text st r).1 = .ok ()) : Reachable (s.AddDocument d text st r).2 :=
  Reachable.add s _ d text st r hs (by rw [← h])

/-- The constructor from the text "and with" gives the server with these two stop words. -/
theorem ofText_and_with :
    (SearchServer.ofText "and with".toList : Except Failure (SearchServer F)) =
      .ok (stopWordsServer F) := rfl

theorem reachable_stopWordsServer [LinearOrderedField F] : Reachable (stopWordsServer F) :=
  Reachable.init ["and".toList, "with".toList] _ rfl

theorem reachable_duplicatesFixture : Reachable (duplicatesFixture ℚ) := by
  unfold duplicatesFixture
  iterate 9 refine Reachable.add_of_ok ?_ _ _ _ _ rfl
  exact reachable_stopWordsServer

theorem reachable_twoEmptyDocsFixture : Reachable (twoEmptyDocsFixture ℚ) :=
  reachable_emptyDocFixture.add_of_ok 2 [] DocumentStatus.ACTUAL [] rfl

/-- Witness of C15: the nine documents of `TestRemoveDuplicates`; the words of document 3 are
still the words of a document after `RemoveDuplicates`. -/
theorem C15_RemoveDuplicates_keeps_smallest_id_witness :
    Reachable (duplicatesFixture ℚ) ∧ (RemoveDuplicates (duplicatesFixture ℚ)).1 = .ok () ∧
      ∃ d1 ∈ (RemoveDuplicates (duplicatesFixture ℚ)).2.1.document_ids_,
        ∀ w, w ∈ OrdMap.keys
            ((RemoveDuplicates (duplicatesFixture ℚ)).2.1.GetWordFrequencies d1) ↔
          w ∈ OrdMap.keys ((duplicatesFixture ℚ).GetWordFrequencies 3) :=
  ⟨reachable_duplicatesFixture,
    (C15_RemoveDuplicates_keeps_smallest_id (duplicatesFixture ℚ)
      reachable_duplicatesFixture).1,
    (C15_RemoveDuplicates_keeps_smallest_id (duplicatesFixture ℚ)
      reachable_duplicatesFixture).2.2 3 (by decide)⟩

/-- C16, evaluated at two documents added with an empty text: the state is reachable, documents
1 and 2 have the same (empty) set of indexed words, and `RemoveDuplicates` reports document 2 as
a duplicate but leaves the server as it was, with document 2 still in the doc-id set and
`GetDocumentCount` still 2.  On the nine documents of `TestRemoveDuplicates`, which all have
indexed words, the documents 3, 4, 5 and 7 are reported and the ids 1, 2, 6, 8 and 9 are
left. -/
theorem C16_RemoveDuplicates_keeps_duplicate_without_words :
    Reachable (twoEmptyDocsFixture ℚ) ∧
    (twoEmptyDocsFixture ℚ).document_ids_ = [1, 2] ∧
    (twoEmptyDocsFixture ℚ).GetWordFrequencies 1 = [] ∧
    (twoEmptyDocsFixture ℚ).GetWordFrequencies 2 = [] ∧
    RemoveDuplicates (twoEmptyDocsFixture ℚ) = (.ok (), twoEmptyDocsFixture ℚ, [2]) ∧
    (2 : Int) ∈ (RemoveDuplicates (twoEmptyDocsFixture ℚ)).2.1.document_ids_ ∧
    (RemoveDuplicates (twoEmptyDocsFixture ℚ)).2.1.GetDocumentCount = 2 ∧
    Reachable (duplicatesFixture ℚ) ∧
    (duplicatesFixture ℚ).GetDocumentCount = 9 ∧
    (RemoveDuplicates (duplicatesFixture ℚ)).1 = .ok () ∧
    (RemoveDuplicates (duplicatesFixture ℚ)).2.2 = [3, 4, 5, 7] ∧
    (RemoveDuplicates (duplicatesFixture ℚ)).2.1.document_ids_ = [1, 2, 6, 8, 9] ∧
    (RemoveDuplicates (duplicatesFixture ℚ)).2.1.GetDocumentCount = 5 :=
  ⟨reachable_twoEmptyDocsFixture, rfl, rfl, rfl, rfl, by decide, rfl,
    reachable_duplicatesFixture, rfl, rfl, rfl, rfl, rfl⟩

end SearchServer
end SearchEngine

/-! ## Claims C29 and C25: absent ids and the doc-id set -/

namespace SearchEngine
namespace SearchServer
variable {F : Type} [LinearOrderedField F]

/-- C29: in every reachable state, for every id that is not in the index, both variants of
`RemoveDocument` return normally and leave the whole server state as it was. -/
theorem C29_RemoveDocument_absent_id_is_noop (s : SearchServer F) (hs : Reachable s)
    (document_id : Int) (hd : document_id ∉ s.document_ids_) :
    s.RemoveDocument document_id = (.ok (), s) ∧
    s.RemoveDocumentPar document_id = (.ok (), s) := by
  apply RemoveDocument_of_no_entry
  rw [OrdMap.lookup_eq_none_iff]
  intro hmem
  apply hd
  rw [hs.inv.ids_eq]
  exact hs.inv.d2w_docs _ hmem

/-- Witness of C29: the id 7 on the one-document fixture. -/
theorem C29_RemoveDocument_absent_id_is_noop_witness :
    Reachable (matchFixture ℚ) ∧ (7 : Int) ∉ (matchFixture ℚ).document_ids_ ∧
      (matchFixture ℚ).RemoveDocument 7 = (.ok (), matchFixture ℚ) ∧
      (matchFixture ℚ).RemoveDocumentPar 7 = (.ok (), matchFixture ℚ) :=
  ⟨reachable_matchFixture, by decide,
    C29_RemoveDocument_absent_id_is_noop (matchFixture ℚ) reachable_matchFixture 7
      (by decide)⟩

/-- C25: in every reachable state the doc-id set that `begin()`/`end()` iterate is the key set of
the metadata map, so `GetDocumentCount` is the number of iterated ids; and for every id of that
set and every query that parses, the metadata lookup of `MatchDocument` succeeds: both variants
return normally, with the stored status of the document. -/
theorem C25_doc_ids_are_metadata_keys (s : SearchServer F) (hs : Reachable s) :
    s.document_ids_ = OrdMap.keys s.documents_ ∧
    s.GetDocumentCount = (s.document_ids_.length : Int) ∧
    ∀ (raw_query : List Char) (query : Query), s.ParseQuery raw_query = .ok query →
      ∀ document_id ∈ s.document_ids_, ∃ data,
        OrdMap.lookup document_id s.documents_ = some data ∧
        s.statusAt document_id = .ok data.status ∧
        (∃ W, s.MatchDocument raw_query document_id = .ok (W, data.status)) ∧
        (∃ W, s.MatchDocumentPar raw_query document_id = .ok (W, data.status)) := by
  have hinv := hs.inv
  refine ⟨hinv.ids_eq, ?_, ?_⟩
  · rw [hinv.ids_eq]
    simp [GetDocumentCount, OrdMap.keys]
  · intro raw_query query hq d hd
    rw [hinv.ids_eq, ← OrdMap.lookup_isSome_iff] at hd
    obtain ⟨data, hdata⟩ := Option.isSome_iff_exists.1 hd
    have hst : s.statusAt d = .ok data.status := by simp [statusAt, hdata]
    refine ⟨data, hdata, hst, ?_, ?_⟩
    · simp only [MatchDocument, hq, hst]
      split_ifs
      · exact ⟨_, rfl⟩
      · exact ⟨_, rfl⟩
    · simp only [MatchDocumentPar, hq, hst]
      split_ifs
      · exact ⟨_, rfl⟩
      · exact ⟨_, rfl⟩

/-- Witness of C25: the one-document fixture. -/
theorem C25_doc_ids_are_metadata_keys_witness :
    Reachable (matchFixture ℚ) ∧
      (matchFixture ℚ).document_ids_ = OrdMap.keys (matchFixture ℚ).documents_ ∧
      (matchFixture ℚ).GetDocumentCount = ((matchFixture ℚ).document_ids_.length : Int) :=
  ⟨reachable_matchFixture,
    (C25_doc_ids_are_metadata_keys (matchFixture ℚ) reachable_matchFixture).1,
    (C25_doc_ids_are_metadata_keys (matchFixture ℚ) reachable_matchFixture).2.1⟩

end SearchServer
end SearchEngine

/-! ## Claims C21 and C22: the average rating -/

namespace SearchEngine
namespace SearchServer

theorem wrapInt32_of_range (x : Int) (h : -2147483648 ≤ x ∧ x < 2147483648) :
    wrapInt32 x = x := by
  unfold wrapInt32
  rw [Int.emod_eq_of_lt (by omega) (by omega)]
  omega

/-- The `int` accumulation of `ComputeAverageRating` is the exact sum as long as every partial
sum is a 32-bit value. -/
theorem foldl_wrap_add_eq_sum (ratings : List Int) :
    ∀ acc : Int, (∀ k ≤ ratings.length, -2147483648 ≤ acc + (ratings.take k).sum ∧
        acc + (ratings.take k).sum < 2147483648) →
      ratings.foldl (fun acc rating => wrapInt32 (acc + rating)) acc = acc + ratings.sum := by
  induction ratings with
  | nil => intro acc _; simp
  | cons r rest ih =>
    intro acc h
    have h1 := h 1 (by simp)
    simp only [List.take_succ_cons, List.take_zero, List.sum_cons, List.sum_nil, add_zero] at h1
    rw [List.foldl_cons, wrapInt32_of_range _ h1, ih, List.sum_cons, add_assoc]
    intro k hk
    have h2 := h (k + 1) (by simpa using hk)
    simp only [List.take_succ_cons, List.sum_cons] at h2
    rw [add_assoc]
    exact h2

/-- `ComputeAverageRating` of ratings whose partial sums are 32-bit values. -/
theorem ComputeAverageRating_of_range (ratings : List Int)
    (hlen : ratings.length < 2147483648)
    (hpart : ∀ k ≤ ratings.length, -2147483648 ≤ (ratings.take k).sum ∧
      (ratings.take k).sum < 2147483648) :
    ComputeAverageRating ratings =
      if ratings = [] then 0 else Int.tdiv ratings.sum (ratings.length : Int) := by
  unfold ComputeAverageRating
  cases ratings with
  | nil => rfl
  | cons r rest =>
    simp only [List.isEmpty_cons, Bool.false_eq_true, if_false, reduceCtorEq]
    rw [foldl_wrap_add_eq_sum _ 0 (by simpa using hpart), zero_add,
      wrapInt32_of_range _ (by constructor <;> omega)]

/-- C21, the counterexample: for the ratings `[INT_MAX, 1]`, both 32-bit values, the exact sum is
`2^31` and the exact mean truncated toward zero is 1073741824, but the `int` accumulator
overflows and `ComputeAverageRating` gives -1073741824, which is the rating `AddDocument`
stores. -/
theorem C21_counterexample :
    (∀ r ∈ [(2147483647 : Int), 1], -2147483648 ≤ r ∧ r < 2147483648) ∧
    Int.tdiv ([(2147483647 : Int), 1].sum) 2 = 1073741824 ∧
    ComputeAverageRating [2147483647, 1] = -1073741824 ∧
    ((emptyServer ℚ).AddDocument 1 "cat".toList DocumentStatus.ACTUAL [2147483647, 1]).1 =
      .ok () ∧
    OrdMap.lookup 1 ((emptyServer ℚ).AddDocument 1 "cat".toList DocumentStatus.ACTUAL
      [2147483647, 1]).2.documents_ = some ⟨-1073741824, DocumentStatus.ACTUAL⟩ :=
  ⟨by decide, by decide, by decide, rfl, rfl⟩

/-- C21 as amended: for fewer than `2^31` ratings whose partial sums, taken in order, all stay in
the 32-bit signed range, the rating that a successful `AddDocument` stores is 0 for the empty
vector and otherwise the exact sum of the ratings divided by their count, truncated toward
zero. -/
theorem C21_rating_is_exact_mean_without_overflow {F : Type} [LinearOrderedField F]
    (s s1 : SearchServer F) (hs : Reachable s) (document_id : Int) (document : List Char)
    (status : DocumentStatus) (ratings : List Int)
    (hlen : ratings.length < 2147483648)
    (hpart : ∀ k ≤ ratings.length, -2147483648 ≤ (ratings.take k).sum ∧
      (ratings.take k).sum < 2147483648)
    (hadd : s.AddDocument document_id document status ratings = (.ok (), s1)) :
    ComputeAverageRating ratings =
      (if ratings = [] then 0 else Int.tdiv ratings.sum (ratings.length : Int)) ∧
    OrdMap.lookup document_id s1.documents_ =
      some ⟨if ratings = [] then 0 else Int.tdiv ratings.sum (ratings.length : Int), status⟩ ∧
    s1.ratingOf document_id =
      (if ratings = [] then 0 else Int.tdiv ratings.sum (ratings.length : Int)) := by
  have hinv := hs.inv
  obtain ⟨h0, hfresh, hvalid, _⟩ := AddDocument_ok_frame hadd
  obtain ⟨_, _, _, _, hdocs, _⟩ :=
    AddDocument_effect s hinv document_id document status ratings h0 hfresh hvalid
  rw [hadd] at hdocs
  simp only at hdocs
  have hr := ComputeAverageRating_of_range ratings hlen hpart
  have hl : OrdMap.lookup document_id s1.documents_ =
      some ⟨ComputeAverageRating ratings, status⟩ := by
    rw [hdocs, OrdMap.lookup_emplace_self _ _ hinv.docs_wf, hfresh]
    rfl
  refine ⟨hr, ?_, ?_⟩
  · rw [hl, hr]
  · simp only [ratingOf, hl, hr]

/-- Witness of C21 as amended: the ratings `[1, 2, 3]` given with a document added to the empty
server. -/
theorem C21_rating_is_exact_mean_without_overflow_witness :
    Reachable (emptyServer ℚ) ∧
      ((emptyServer ℚ).AddDocument 42 "cat in the city".toList DocumentStatus.ACTUAL
        [1, 2, 3]).2.ratingOf 42 = 2 :=
  ⟨reachable_emptyServer,
    (C21_rating_is_exact_mean_without_overflow (emptyServer ℚ) _ reachable_emptyServer 42
      "cat in the city".toList DocumentStatus.ACTUAL [1, 2, 3] (by decide) (by decide)
      rfl).2.2⟩

/-- C22: with 32-bit `int`, `ComputeAverageRating([INT_MAX - 50, 20, 20, 10])` is
`INT_MAX / 4 = 536870911` and `ComputeAverageRating([INT_MIN + 5, -2, -3])` is
`INT_MIN / 3 = -715827882`, and every partial sum of either computation is a 32-bit value (the
sums end at `INT_MAX` and at `INT_MIN`), so no addition wraps around. -/
theorem C22_ratings_near_the_limits :
    ComputeAverageRating [2147483647 - 50, 20, 20, 10] = 536870911 ∧
    Int.tdiv 2147483647 4 = 536870911 ∧
    ComputeAverageRating [-2147483648 + 5, -2, -3] = -715827882 ∧
    Int.tdiv (-2147483648) 3 = -715827882 ∧
    (∀ k ≤ 4, -2147483648 ≤ (([2147483647 - 50, 20, 20, 10] : List Int).take k).sum ∧
      (([2147483647 - 50, 20, 20, 10] : List Int).take k).sum ≤ 2147483647) ∧
    ([2147483647 - 50, 20, 20, 10] : List Int).sum = 2147483647 ∧
    (∀ k ≤ 3, -2147483648 ≤ (([-2147483648 + 5, -2, -3] : List Int).take k).sum ∧
      (([-2147483648 + 5, -2, -3] : List Int).take k).sum ≤ 2147483647) ∧
    ([-2147483648 + 5, -2, -3] : List Int).sum = -2147483648 ∧
    ([2147483647 - 50, 20, 20, 10] : List Int).foldl (fun acc rating => acc + rating) 0 =
      ([2147483647 - 50, 20, 20, 10] : List Int).foldl
        (fun acc rating => wrapInt32 (acc + rating)) 0 ∧
    ([-2147483648 + 5, -2, -3] : List Int).foldl (fun acc rating => acc + rating) 0 =
      ([-2147483648 + 5, -2, -3] : List Int).foldl
        (fun acc rating => wrapInt32 (acc + rating)) 0 := by
  refine ⟨by decide, by decide, by decide, by decide, by decide, by decide, by decide,
    by decide, by decide, by decide⟩

end SearchServer
end SearchEngine

/-! ## Claim C30: the comparator as an order -/

namespace SearchEngine
section ComparatorOrder
variable {F : Type} [LinearOrderedField F]

/-- The comparator, as the relation of the specification. -/
theorem documentBefore_iff (a b : Document F) :
    documentBefore a b = true ↔
      (|a.relevance - b.relevance| < 1 / 1000000 ∧ a.rating > b.rating) ∨
      (|a.relevance - b.relevance| ≥ 1 / 1000000 ∧ a.relevance > b.relevance) := by
  unfold documentBefore
  by_cases h : |a.relevance - b.relevance| < 1 / 1000000
  · simp only [h, if_true, decide_eq_true_eq, true_and, ge_iff_le, not_le.2 h, false_and,
      or_false]
  · simp only [h, if_false, decide_eq_true_eq, false_and, false_or, ge_iff_le, not_lt.1 h,
      true_and]

theorem documentBefore_irrefl (a : Document F) : documentBefore a a = false := by
  simp [documentBefore]

theorem documentBefore_asymm (a b : Document F) (h : documentBefore a b = true) :
    documentBefore b a = false := by
  rcases documentBefore_total a b with h1 | h1
  · exact h1
  · rw [h1] at h
    cases h

/-- C30, the counterexample: three documents with relevances 0, 0.6e-6 and 1.2e-6.  With ratings
3, 2, 1 the first is before the second and the second before the third, but the first is not
before the third (the third is before the first): the relation is not transitive.  With equal
ratings the first and the second are incomparable, and so are the second and the third, but the
third is before the first: incomparability is not transitive. -/
theorem C30_counterexample :
    (documentBefore (⟨1, 0, 3⟩ : Document ℝ) ⟨2, 6 / 10000000, 2⟩ = true ∧
      documentBefore (⟨2, 6 / 10000000, 2⟩ : Document ℝ) ⟨3, 12 / 10000000, 1⟩ = true ∧
      documentBefore (⟨1, 0, 3⟩ : Document ℝ) ⟨3, 12 / 10000000, 1⟩ = false ∧
      documentBefore (⟨3, 12 / 10000000, 1⟩ : Document ℝ) ⟨1, 0, 3⟩ = true) ∧
    (documentBefore (⟨1, 0, 1⟩ : Document ℝ) ⟨2, 6 / 10000000, 1⟩ = false ∧
      documentBefore (⟨2, 6 / 10000000, 1⟩ : Document ℝ) ⟨1, 0, 1⟩ = false ∧
      documentBefore (⟨2, 6 / 10000000, 1⟩ : Document ℝ) ⟨3, 12 / 10000000, 1⟩ = false ∧
      documentBefore (⟨3, 12 / 10000000, 1⟩ : Document ℝ) ⟨2, 6 / 10000000, 1⟩ = false ∧
      documentBefore (⟨3, 12 / 10000000, 1⟩ : Document ℝ) ⟨1, 0, 1⟩ = true) := by
  have e1 : |(0 : ℝ) - 6 / 10000000| = 6 / 10000000 := by
    rw [abs_sub_comm, sub_zero, abs_of_pos (by norm_num)]
  have e2 : |(6 / 10000000 : ℝ) - 12 / 10000000| = 6 / 10000000 := by
    rw [abs_sub_comm, abs_of_pos (by norm_num)]; norm_num
  have e3 : |(0 : ℝ) - 12 / 10000000| = 12 / 10000000 := by
    rw [abs_sub_comm, sub_zero, abs_of_pos (by norm_num)]
  have e4 : |(12 / 10000000 : ℝ) - 0| = 12 / 10000000 := by
    rw [sub_zero, abs_of_pos (by norm_num)]
  have e5 : |(6 / 10000000 : ℝ) - 0| = 6 / 10000000 := by
    rw [sub_zero, abs_of_pos (by norm_num)]
  have e6 : |(12 / 10000000 : ℝ) - 6 / 10000000| = 6 / 10000000 := by
    rw [abs_of_pos (by norm_num)]; norm_num
  refine ⟨⟨?_, ?_, ?_, ?_⟩, ?_, ?_, ?_, ?_, ?_⟩ <;>
    simp only [documentBefore, e1, e2, e3, e4, e5, e6] <;> norm_num

/-- C30 as amended: the comparator is the relation `a ≺ b` iff (`|a.rel - b.rel| < 1e-6` and
`a.rating > b.rating`) or (`|a.rel - b.rel| ≥ 1e-6` and `a.rel > b.rel`); on all `Document`
values it is irreflexive and asymmetric; on every collection of documents among which
near-equality of the relevance (a difference below `1e-6`) is transitive, it is transitive and
its incomparability relation is transitive, so that it is a strict weak order there. -/
theorem C30_comparator_strict_weak_order_when_near_equality_transitive
    (docs : List (Document F))
    (hnear : ∀ x ∈ docs, ∀ y ∈ docs, ∀ z ∈ docs,
      |x.relevance - y.relevance| < 1 / 1000000 → |y.relevance - z.relevance| < 1 / 1000000 →
        |x.relevance - z.relevance| < 1 / 1000000) :
    (∀ a b : Document F, documentBefore a b = true ↔
      (|a.relevance - b.relevance| < 1 / 1000000 ∧ a.rating > b.rating) ∨
      (|a.relevance - b.relevance| ≥ 1 / 1000000 ∧ a.relevance > b.relevance)) ∧
    (∀ a : Document F, documentBefore a a = false) ∧
    (∀ a b : Document F, documentBefore a b = true → documentBefore b a = false) ∧
    (∀ a ∈ docs, ∀ b ∈ docs, ∀ c ∈ docs,
      documentBefore a b = true → documentBefore b c = true → documentBefore a c = true) ∧
    (∀ a ∈ docs, ∀ b ∈ docs, ∀ c ∈ docs,
      (documentBefore a b = false ∧ documentBefore b a = false) →
      (documentBefore b c = false ∧ documentBefore c b = false) →
      (documentBefore a c = false ∧ documentBefore c a = false)) := by
  have sym : ∀ x y : Document F, |x.relevance - y.relevance| < 1 / 1000000 →
      |y.relevance - x.relevance| < 1 / 1000000 := fun x y h => by rwa [abs_sub_comm]
  -- transitivity of "not after" on the collection
  have tr : ∀ a ∈ docs, ∀ b ∈ docs, ∀ c ∈ docs,
      documentBefore b a = false → documentBefore c b = false → documentBefore c a = false := by
    intro a ha b hb c hc
    exact documentBefore_trans a b c
      (fun h1 h2 => hnear a ha c hc b hb h1 h2)
      (fun h1 h2 => hnear b hb a ha c hc h1 h2)
      (fun h1 h2 => hnear a ha b hb c hc h1 h2)
  refine ⟨documentBefore_iff, documentBefore_irrefl, documentBefore_asymm, ?_, ?_⟩
  · intro a ha b hb c hc hab hbc
    by_contra hac
    have hac' : documentBefore a c = false := by simpa using hac
    -- c is not after a, a is not after b, hence c is not after b
    have := tr c hc a ha b hb hac' (documentBefore_asymm a b hab)
    rw [hbc] at this
    cases this
  · intro a ha b hb c hc hab hbc
    exact ⟨tr c hc b hb a ha hbc.1 hab.1, tr a ha b hb c hc hab.2 hbc.2⟩

/-- Witness of C30 as amended: three documents of relevance 0 with the ratings 3, 2 and 1. -/
theorem C30_comparator_strict_weak_order_when_near_equality_transitive_witness :
    documentBefore (⟨1, 0, 3⟩ : Document ℚ) ⟨2, 0, 2⟩ = true ∧
      documentBefore (⟨2, 0, 2⟩ : Document ℚ) ⟨3, 0, 1⟩ = true ∧
      documentBefore (⟨1, 0, 3⟩ : Document ℚ) ⟨3, 0, 1⟩ = true :=
  have h12 : documentBefore (⟨1, 0, 3⟩ : Document ℚ) ⟨2, 0, 2⟩ = true := by
    simp [documentBefore]
  have h23 : documentBefore (⟨2, 0, 2⟩ : Document ℚ) ⟨3, 0, 1⟩ = true := by
    simp [documentBefore]
  ⟨h12, h23,
    (C30_comparator_strict_weak_order_when_near_equality_transitive
      [(⟨1, 0, 3⟩ : Document ℚ), ⟨2, 0, 2⟩, ⟨3, 0, 1⟩]
      (by
        intro x hx y hy z hz _ _
        simp only [List.mem_cons, List.mem_singleton, List.not_mem_nil, or_false] at hx hz
        rcases hx with rfl | rfl | rfl <;> rcases hz with rfl | rfl | rfl <;> norm_num)).2.2.2.1
      _ (by simp) _ (by simp) _ (by simp) h12 h23⟩

end ComparatorOrder
end SearchEngine

/-! ## Claim C23: the constructor and the stop words -/

namespace SearchEngine

theorem mem_foldl_setInsert_nonempty (strings : List Word) :
    ∀ (acc : List Word) (w : Word),
      w ∈ strings.foldl (fun acc str => if str.isEmpty then acc else setInsert str acc) acc ↔
        w ∈ acc ∨ (w ∈ strings ∧ w ≠ []) := by
  induction strings with
  | nil => intro acc w; simp
  | cons str rest ih =>
    intro acc w
    rw [List.foldl_cons, ih]
    by_cases he : str = []
    · subst he
      simp only [List.isEmpty_nil, if_true, List.mem_cons]
      constructor
      · rintro (h | h)
        · exact Or.inl h
        · exact Or.inr ⟨Or.inr h.1, h.2⟩
      · rintro (h | ⟨h1 | h1, h2⟩)
        · exact Or.inl h
        · exact absurd h1 h2
        · exact Or.inr ⟨h1, h2⟩
    · have : str.isEmpty = false := by simpa using he
      simp only [this, Bool.false_eq_true, if_false, mem_setInsert, List.mem_cons]
      constructor
      · rintro ((h | h) | h)
        · exact Or.inr ⟨Or.inl h, h ▸ he⟩
        · exact Or.inl h
        · exact Or.inr ⟨Or.inr h.1, h.2⟩
      · rintro (h | ⟨h1 | h1, h2⟩)
        · exact Or.inl (Or.inr h)
        · exact Or.inl (Or.inl h1)
        · exact Or.inr ⟨h1, h2⟩

theorem sorted_foldl_setInsert_nonempty (strings : List Word) :
    ∀ (acc : List Word), acc.Sorted (· < ·) →
      (strings.foldl (fun acc str => if str.isEmpty then acc else setInsert str acc)
        acc).Sorted (· < ·) := by
  induction strings with
  | nil => intro acc h; exact h
  | cons str rest ih =>
    intro acc h
    rw [List.foldl_cons]
    apply ih
    split_ifs
    · exact h
    · exact sorted_setInsert _ h

/-- The strings kept by `MakeUniqueNonEmptyStrings`: the non-empty ones, each once. -/
theorem mem_MakeUniqueNonEmptyStrings (strings : List Word) (w : Word) :
    w ∈ MakeUniqueNonEmptyStrings strings ↔ w ∈ strings ∧ w ≠ [] := by
  unfold MakeUniqueNonEmptyStrings
  rw [mem_foldl_setInsert_nonempty]
  simp

theorem sorted_MakeUniqueNonEmptyStrings (strings : List Word) :
    (MakeUniqueNonEmptyStrings strings).Sorted (· < ·) :=
  sorted_foldl_setInsert_nonempty strings [] List.sorted_nil

namespace SearchServer
variable {F : Type}

/-- The constructor throws exactly when a stop word has a control character. -/
theorem new_error_iff (stop_words : List Word) :
    (SearchServer.new stop_words : Except Failure (SearchServer F)) = .error .invalid_argument ↔
      ∃ w ∈ stop_words, ∃ c ∈ w, c.toNat ≤ 0x1F := by
  unfold SearchServer.new
  have hany : (stop_words.any (fun word => !IsValidWord word)) = true ↔
      ∃ w ∈ stop_words, ∃ c ∈ w, c.toNat ≤ 0x1F := by
    rw [List.any_eq_true]
    constructor
    · rintro ⟨w, hw, h⟩
      exact ⟨w, hw, (isValidWord_eq_false_iff w).1 (by simpa using h)⟩
    · rintro ⟨w, hw, h⟩
      exact ⟨w, hw, by simpa using (isValidWord_eq_false_iff w).2 h⟩
  rw [← hany]
  split_ifs with h
  · simp [h]
  · simp [h]

/-- C23: constructing a `SearchServer` from a collection of stop words fails with
`std::invalid_argument` exactly when some stop word has a character in 0x00..0x1F, and so does
the construction from a text, whose stop words are the space-separated tokens; `IsValidWord` is
false exactly for the words with such a character, so the empty string and the words of bytes
from 0x80 on are accepted; on success the index is empty and the stop-word set holds the
distinct non-empty words of the collection, in ascending order. -/
theorem C23_constructor_fails_iff :
    (∀ stop_words : List Word,
      ((SearchServer.new stop_words : Except Failure (SearchServer F)) =
          .error .invalid_argument ↔
        ∃ w ∈ stop_words, ∃ c ∈ w, c.toNat ≤ 0x1F) ∧
      ((¬ ∃ w ∈ stop_words, ∃ c ∈ w, c.toNat ≤ 0x1F) →
        ∃ s : SearchServer F, SearchServer.new stop_words = .ok s ∧
          (∀ w, w ∈ s.stop_words_ ↔ w ∈ stop_words ∧ w ≠ []) ∧
          s.stop_words_.Sorted (· < ·) ∧
          s.all_words_ = [] ∧ s.word_to_document_freqs_ = [] ∧
          s.document_to_words_freqs_ = [] ∧ s.documents_ = [] ∧ s.document_ids_ = [])) ∧
    (∀ text : List Char,
      (SearchServer.ofText text : Except Failure (SearchServer F)) =
        SearchServer.new (SplitIntoWords text)) ∧
    (∀ w : Word, IsValidWord w = false ↔ ∃ c ∈ w, c.toNat ≤ 0x1F) ∧
    IsValidWord [] = true ∧
    (∀ w : Word, (∀ c ∈ w, 0x80 ≤ c.toNat) → IsValidWord w = true) := by
  refine ⟨fun stop_words => ⟨new_error_iff stop_words, ?_⟩, fun _ => rfl,
    isValidWord_eq_false_iff, rfl, ?_⟩
  · intro hvalid
    have hany : (stop_words.any (fun word => !IsValidWord word)) = false := by
      rw [Bool.eq_false_iff]
      intro h
      rw [List.any_eq_true] at h
      obtain ⟨w, hw, h⟩ := h
      exact hvalid ⟨w, hw, (isValidWord_eq_false_iff w).1 (by simpa using h)⟩
    refine ⟨⟨[], MakeUniqueNonEmptyStrings stop_words, [], [], [], []⟩, ?_, ?_, ?_,
      rfl, rfl, rfl, rfl, rfl⟩
    · simp [SearchServer.new, hany]
    · exact mem_MakeUniqueNonEmptyStrings stop_words
    · exact sorted_MakeUniqueNonEmptyStrings stop_words
  · intro w hw
    by_contra h
    have h1 : IsValidWord w = false := by simpa using h
    obtain ⟨c, hc, hle⟩ := (isValidWord_eq_false_iff w).1 h1
    have := hw c hc
    omega

/-- Witness of C23: the collections of `TestStopWordVectorConstructor` and of
`TestVectorConstructorWithSpecialCharacters`. -/
theorem C23_constructor_fails_iff_witness :
    (∃ s : SearchServer ℚ,
      SearchServer.new ["in".toList, "a".toList, "the".toList, [] ] = .ok s ∧
        ∀ w, w ∈ s.stop_words_ ↔
          w ∈ ["in".toList, "a".toList, "the".toList, [] ] ∧ w ≠ []) ∧
    (SearchServer.new [[], "in".toList, ['t', 'h', 'e', Char.ofNat 0x12] ] :
      Except Failure (SearchServer ℚ)) = .error .invalid_argument :=
  ⟨((C23_constructor_fails_iff.1 ["in".toList, "a".toList, "the".toList, [] ]).2
      (by decide)).imp (fun _ h => ⟨h.1, h.2.1⟩),
    ((C23_constructor_fails_iff.1 [[], "in".toList, ['t', 'h', 'e', Char.ofNat 0x12] ]).1).2
      (by decide)⟩

end SearchServer
end SearchEngine

/-! ## Claim C24: stop words are never indexed -/

namespace SearchEngine

theorem splitFrom_no_space (w : List Char) (h : ' ' ∉ w) : splitFrom w = (w, []) := by
  induction w with
  | nil => rfl
  | cons c cs ih =>
    simp only [List.mem_cons, not_or] at h
    have hc : c ≠ ' ' := fun e => h.1 e.symm
    simp only [splitFrom, ih h.2, hc, if_false]

/-- A non-empty text without a space is one token. -/
theorem SplitIntoWords_no_space (w : List Char) (h : ' ' ∉ w) (hne : w ≠ []) :
    SplitIntoWords w = [w] := by
  unfold SplitIntoWords
  rw [splitFrom_no_space w h]
  have : w.isEmpty = false := by simpa using hne
  simp [this]

/-- The tokens that `splitFrom` delivers are non-empty and hold no space. -/
theorem splitFrom_tokens (text : List Char) :
    ' ' ∉ (splitFrom text).1 ∧ ∀ t ∈ (splitFrom text).2, t ≠ [] ∧ ' ' ∉ t := by
  induction text with
  | nil => exact ⟨by simp [splitFrom], by simp [splitFrom]⟩
  | cons c cs ih =>
    by_cases hc : c = ' '
    · simp only [splitFrom, hc, if_true]
      refine ⟨by simp, ?_⟩
      intro t ht
      split_ifs at ht with he
      · exact ih.2 t ht
      · rcases List.mem_cons.1 ht with h | h
        · subst h
          exact ⟨by simpa using he, ih.1⟩
        · exact ih.2 t h
    · simp only [splitFrom, hc, if_false]
      refine ⟨?_, ih.2⟩
      simp only [List.mem_cons, not_or]
      exact ⟨fun e => hc e.symm, ih.1⟩

/-- The tokens of `SplitIntoWords` are non-empty and hold no space. -/
theorem SplitIntoWords_tokens (text : List Char) :
    ∀ t ∈ SplitIntoWords text, t ≠ [] ∧ ' ' ∉ t := by
  intro t ht
  unfold SplitIntoWords at ht
  simp only at ht
  split_ifs at ht with he
  · exact (splitFrom_tokens text).2 t ht
  · rcases List.mem_cons.1 ht with h | h
    · subst h
      exact ⟨by simpa using he, (splitFrom_tokens text).1⟩
    · exact (splitFrom_tokens text).2 t h

namespace SearchServer
variable {F : Type} [LinearOrderedField F]

theorem foldl_addWord_w2d_keys (d : Int) (inv : F) (words : List Word) (s : SearchServer F)
    (w : Word) :
    w ∈ OrdMap.keys (words.foldl (addWord d inv) s).word_to_document_freqs_ →
      w ∈ words ∨ w ∈ OrdMap.keys s.word_to_document_freqs_ := by
  induction words generalizing s with
  | nil => exact Or.inr
  | cons w0 rest ih =>
    simp only [List.foldl_cons]
    intro h
    rcases ih _ h with h | h
    · exact Or.inl (List.mem_cons_of_mem _ h)
    · simp only [addWord] at h
      rcases (OrdMap.mem_keys_modify _ _ _ _ _).1 h with h | h
      · exact Or.inl (h ▸ List.mem_cons_self _ _)
      · exact Or.inr h

/-- In every reachable state no stop word is a key of `word_to_document_freqs_`, and every stop
word is a non-empty valid word. -/
theorem Reachable.stop_words {s : SearchServer F} (h : Reachable s) :
    (∀ w ∈ OrdMap.keys s.word_to_document_freqs_, w ∉ s.stop_words_) ∧
    (∀ w ∈ s.stop_words_, IsValidWord w = true ∧ w ≠ []) := by
  induction h with
  | init stop_words s h =>
    unfold SearchServer.new at h
    split_ifs at h with hany
    simp only [Except.ok.injEq] at h
    subst h
    refine ⟨fun w hw => (by cases hw), ?_⟩
    intro w hw
    obtain ⟨h1, h2⟩ := (mem_MakeUniqueNonEmptyStrings stop_words w).1 hw
    refine ⟨?_, h2⟩
    by_contra hv
    exact hany (List.any_eq_true.2 ⟨w, h1, by simpa using hv⟩)
  | add s s1 d text st r hs hadd ih =>
    rw [AddDocument_eq] at hadd
    split_ifs at hadd with h1 h2
    · simp at hadd
    swap
    · simp at hadd
    simp only [Prod.mk.injEq, true_and] at hadd
    subst hadd
    have hf := foldl_addWord_frame d (1 / ((((SplitIntoWords text).filter
      (fun w => !s.IsStopWord w)).length : Nat) : F))
      ((SplitIntoWords text).filter (fun w => !s.IsStopWord w)) s
    refine ⟨?_, ?_⟩
    · intro w hw
      show w ∉ (List.foldl _ s _).stop_words_
      rw [hf.1]
      rcases foldl_addWord_w2d_keys _ _ _ _ w hw with h | h
      · simpa [IsStopWord] using (List.mem_filter.1 h).2
      · exact ih.1 w h
    · intro w hw
      apply ih.2 w
      rw [← hf.1]
      exact hw
  | remove s s1 d hs hrm ih =>
    have hinv := hs.inv
    cases hdoc : OrdMap.lookup d s.document_to_words_freqs_ with
    | none =>
      rw [(RemoveDocument_of_no_entry s d hdoc).1] at hrm
      cases hrm
      exact ih
    | some doc =>
      rw [hinv.RemoveDocument_eq hdoc] at hrm
      simp only [Prod.mk.injEq, true_and] at hrm
      subst hrm
      refine ⟨?_, ih.2⟩
      intro w hw
      apply ih.1 w
      rw [← OrdMap.lookup_isSome_iff] at hw ⊢
      have hl := removeWordsLoop_lookup d doc _ hinv.index.w2d_wf
        (OrdMap.keys_nodup (hinv.index.d2w_inner _ _ hdoc)) (hinv.words_have_entries hdoc) w
      simp only at hw
      rw [hl] at hw
      split_ifs at hw
      · cases hl0 : OrdMap.lookup w s.word_to_document_freqs_ with
        | none => simp [hl0] at hw
        | some p => rfl
      · exact hw
  | removePar s s1 d hs hrm ih =>
    have hinv := hs.inv
    cases hdoc : OrdMap.lookup d s.document_to_words_freqs_ with
    | none =>
      rw [(RemoveDocument_of_no_entry s d hdoc).2] at hrm
      cases hrm
      exact ih
    | some doc =>
      rw [hinv.RemoveDocumentPar_eq hdoc] at hrm
      simp only [Prod.mk.injEq, true_and] at hrm
      subst hrm
      refine ⟨?_, ih.2⟩
      intro w hw
      apply ih.1 w
      rw [← OrdMap.lookup_isSome_iff] at hw ⊢
      have hl := removeWordsLoopPar_lookup d doc _ hinv.index.w2d_wf
        (OrdMap.keys_nodup (hinv.index.d2w_inner _ _ hdoc)) (hinv.words_have_entries hdoc) w
      simp only at hw
      rw [hl] at hw
      split_ifs at hw
      · cases hl0 : OrdMap.lookup w s.word_to_document_freqs_ with
        | none => simp [hl0] at hw
        | some p => rfl
      · exact hw

omit [LinearOrderedField F] in
/-- A query that is one stop word without a space or a leading minus parses to the empty
query. -/
theorem ParseQuery_stop_word (s : SearchServer F) (w : Word) (hstop : w ∈ s.stop_words_)
    (hvalid : IsValidWord w = true) (hne : w ≠ []) (hsp : ' ' ∉ w)
    (hminus : w.head? ≠ some '-') : s.ParseQuery w = .ok ⟨[], []⟩ := by
  have hqw : s.ParseQueryWord w = .ok ⟨w, false, true⟩ :=
    (ParseQueryWord_ok_iff s w ⟨w, false, true⟩).2
      ⟨hne, hminus, hvalid, by simp [IsStopWord, hstop], Or.inr ⟨rfl, rfl⟩⟩
  unfold ParseQuery
  rw [SplitIntoWords_no_space w hsp hne]
  simp [parseQueryLoop, hqw]

omit [LinearOrderedField F] in
/-- A query that is one valid word, not a stop word, without a space or a leading minus, parses
to that plus-word. -/
theorem ParseQuery_plain_word (s : SearchServer F) (w : Word) (hstop : w ∉ s.stop_words_)
    (hvalid : IsValidWord w = true) (hne : w ≠ []) (hsp : ' ' ∉ w)
    (hminus : w.head? ≠ some '-') : s.ParseQuery w = .ok ⟨[w], []⟩ := by
  have hqw : s.ParseQueryWord w = .ok ⟨w, false, false⟩ :=
    (ParseQueryWord_ok_iff s w ⟨w, false, false⟩).2
      ⟨hne, hminus, hvalid, by simp [IsStopWord, hstop], Or.inr ⟨rfl, rfl⟩⟩
  unfold ParseQuery
  rw [SplitIntoWords_no_space w hsp hne]
  simp [parseQueryLoop, hqw, setInsert]

/-- The search for the empty query finds nothing, in every state. -/
theorem FindTopDocuments_of_empty_query (s : SearchServer F) (ln : F → F)
    (raw_query : List Char) (P : Int → DocumentStatus → Int → Bool)
    (hq : s.ParseQuery raw_query = .ok ⟨[], []⟩) :
    s.FindTopDocuments ln raw_query P = .ok [] := by
  unfold FindTopDocuments
  simp only [hq]
  rfl

/-- In every reachable state the keys of `word_to_document_freqs_` are tokens of documents:
non-empty valid words without a space. -/
theorem Reachable.indexed_words {s : SearchServer F} (h : Reachable s) :
    ∀ w ∈ OrdMap.keys s.word_to_document_freqs_,
      w ≠ [] ∧ ' ' ∉ w ∧ IsValidWord w = true := by
  induction h with
  | init stop_words s h =>
    unfold SearchServer.new at h
    split_ifs at h with hany
    simp only [Except.ok.injEq] at h
    subst h
    intro w hw
    cases hw
  | add s s1 d text st r hs hadd ih =>
    rw [AddDocument_eq] at hadd
    split_ifs at hadd with h1 h2
    · simp at hadd
    swap
    · simp at hadd
    simp only [Prod.mk.injEq, true_and] at hadd
    subst hadd
    intro w hw
    rcases foldl_addWord_w2d_keys _ _ _ _ w hw with h | h
    · have hmem := (List.mem_filter.1 h).1
      obtain ⟨hne, hsp⟩ := SplitIntoWords_tokens text w hmem
      exact ⟨hne, hsp, List.all_eq_true.1 h2 w hmem⟩
    · exact ih w h
  | remove s s1 d hs hrm ih =>
    have hinv := hs.inv
    cases hdoc : OrdMap.lookup d s.document_to_words_freqs_ with
    | none =>
      rw [(RemoveDocument_of_no_entry s d hdoc).1] at hrm
      cases hrm
      exact ih
    | some doc =>
      rw [hinv.RemoveDocument_eq hdoc] at hrm
      simp only [Prod.mk.injEq, true_and] at hrm
      subst hrm
      intro w hw
      apply ih w
      rw [← OrdMap.lookup_isSome_iff] at hw ⊢
      have hl := removeWordsLoop_lookup d doc _ hinv.index.w2d_wf
        (OrdMap.keys_nodup (hinv.index.d2w_inner _ _ hdoc)) (hinv.words_have_entries hdoc) w
      simp only at hw
      rw [hl] at hw
      split_ifs at hw
      · cases hl0 : OrdMap.lookup w s.word_to_document_freqs_ with
        | none => simp [hl0] at hw
        | some p => rfl
      · exact hw
  | removePar s s1 d hs hrm ih =>
    have hinv := hs.inv
    cases hdoc : OrdMap.lookup d s.document_to_words_freqs_ with
    | none =>
      rw [(RemoveDocument_of_no_entry s d hdoc).2] at hrm
      cases hrm
      exact ih
    | some doc =>
      rw [hinv.RemoveDocumentPar_eq hdoc] at hrm
      simp only [Prod.mk.injEq, true_and] at hrm
      subst hrm
      intro w hw
      apply ih w
      rw [← OrdMap.lookup_isSome_iff] at hw ⊢
      have hl := removeWordsLoopPar_lookup d doc _ hinv.index.w2d_wf
        (OrdMap.keys_nodup (hinv.index.d2w_inner _ _ hdoc)) (hinv.words_have_entries hdoc) w
      simp only at hw
      rw [hl] at hw
      split_ifs at hw
      · cases hl0 : OrdMap.lookup w s.word_to_document_freqs_ with
        | none => simp [hl0] at hw
        | some p => rfl
      · exact hw

omit [LinearOrderedField F] in
/-- A word of a document is a key of `word_to_document_freqs_`. -/
theorem mem_keys_of_mem_GetWordFrequencies (s : SearchServer F) (hs : IndexInv s) (d : Int)
    (w : Word) (h : w ∈ OrdMap.keys (s.GetWordFrequencies d)) :
    w ∈ OrdMap.keys s.word_to_document_freqs_ := by
  rw [← OrdMap.lookup_isSome_iff] at h ⊢
  rw [lookup_GetWordFrequencies, ← hs.transpose] at h
  unfold tfW at h
  cases hl : OrdMap.lookup w s.word_to_document_freqs_ with
  | none => simp [hl] at h
  | some p => rfl

omit [LinearOrderedField F] in
/-- A query that is one token `-t`, with `t` a non-empty valid word without a leading minus,
parses to a query without plus-words. -/
theorem ParseQuery_minus_token (s : SearchServer F) (t : Word) (hne : t ≠ [])
    (hminus : t.head? ≠ some '-') (hvalid : IsValidWord t = true) (hsp : ' ' ∉ t) :
    ∃ q, s.ParseQuery ('-' :: t) = .ok q ∧ q.plus_words = [] := by
  have hqw : s.ParseQueryWord ('-' :: t) = .ok ⟨t, true, s.IsStopWord t⟩ :=
    (ParseQueryWord_ok_iff s ('-' :: t) ⟨t, true, s.IsStopWord t⟩).2
      ⟨hne, hminus, hvalid, rfl, Or.inl ⟨rfl, rfl⟩⟩
  have hsp1 : ' ' ∉ '-' :: t := by
    simp only [List.mem_cons, not_or]
    exact ⟨by decide, hsp⟩
  unfold ParseQuery
  rw [SplitIntoWords_no_space _ hsp1 (by simp)]
  cases hst : s.IsStopWord t with
  | true => exact ⟨⟨[], []⟩, by simp [parseQueryLoop, hqw, hst], rfl⟩
  | false => exact ⟨⟨[], setInsert t []⟩, by simp [parseQueryLoop, hqw, hst], rfl⟩

/-- The search for a query without plus-words finds nothing. -/
theorem FindTopDocuments_of_no_plus_words (s : SearchServer F) (hs : Inv s) (ln : F → F)
    (raw_query : List Char) (P : Int → DocumentStatus → Int → Bool) (q : Query)
    (hq : s.ParseQuery raw_query = .ok q) (hplus : q.plus_words = []) :
    s.FindTopDocuments ln raw_query P = .ok [] := by
  obtain ⟨m, _, hres, _, hk⟩ := FindTopDocuments_spec s hs ln raw_query P q hq
  have hnil : m = [] := by
    have hk0 : OrdMap.keys m = [] := by
      rw [hk, List.filter_eq_nil_iff]
      intro j _
      simp [inMatchSet, hplus]
    cases m with
    | nil => rfl
    | cons e rest => simp [OrdMap.keys] at hk0
  rw [hres, hnil]
  rfl

omit [LinearOrderedField F] in
theorem IsValidWord_tail (c : Char) (t : Word) (h : IsValidWord (c :: t) = true) :
    IsValidWord t = true := by
  unfold IsValidWord at h ⊢
  simp only [List.any_cons, Bool.not_or, Bool.and_eq_true] at h
  exact h.2

/-- The search for a query that is one stop word without a space: `std::invalid_argument` when
the word is "-" or begins with "--", the empty list otherwise. -/
theorem FindTopDocuments_stop_word (s : SearchServer F) (hs : Reachable s) (ln : F → F)
    (P : Int → DocumentStatus → Int → Bool) (w : Word) (hw : w ∈ s.stop_words_)
    (hsp : ' ' ∉ w) :
    ((w = ['-'] ∨ ∃ t, w = '-' :: '-' :: t) →
      s.FindTopDocuments ln w P = .error .invalid_argument) ∧
    (¬ (w = ['-'] ∨ ∃ t, w = '-' :: '-' :: t) → s.FindTopDocuments ln w P = .ok []) := by
  obtain ⟨hvalid, hne⟩ := hs.stop_words.2 w hw
  constructor
  · intro h
    rw [FindTopDocuments_invalid_iff, ParseQuery_error_iff]
    rw [SplitIntoWords_no_space w hsp hne]
    rcases h with h | ⟨t, h⟩
    · exact ⟨w, List.mem_singleton.2 rfl, [], Or.inl h, Or.inl rfl⟩
    · exact ⟨w, List.mem_singleton.2 rfl, '-' :: t, Or.inl h, Or.inr (Or.inl rfl)⟩
  · intro h
    by_cases hminus : w.head? = some '-'
    · cases w with
      | nil => cases hminus
      | cons c t =>
        simp only [List.head?_cons, Option.some.injEq] at hminus
        subst hminus
        have hsp1 : ' ' ∉ t := fun hc => hsp (List.mem_cons_of_mem _ hc)
        have hne1 : t ≠ [] := fun e => h (Or.inl (by rw [e]))
        have hm1 : t.head? ≠ some '-' := by
          intro e
          cases t with
          | nil => cases e
          | cons c1 t1 =>
            simp only [List.head?_cons, Option.some.injEq] at e
            exact h (Or.inr ⟨t1, by rw [e]⟩)
        obtain ⟨q, hq, hplus⟩ :=
          ParseQuery_minus_token s t hne1 hm1 (IsValidWord_tail _ _ hvalid) hsp1
        exact FindTopDocuments_of_no_plus_words s hs.inv ln _ P q hq hplus
    · exact FindTopDocuments_of_empty_query s ln w P
        (ParseQuery_stop_word s w hw hvalid hne hsp hminus)

theorem reachable_cityFixture : Reachable (cityFixture ℚ) :=
  reachable_emptyServer.add_of_ok 42 _ DocumentStatus.ACTUAL [1, 2, 3] rfl

theorem reachable_inTheServer : Reachable (inTheServer F) :=
  Reachable.init ["in".toList, "the".toList] _ rfl

theorem reachable_cityStopFixture : Reachable (cityStopFixture ℚ) :=
  reachable_inTheServer.add_of_ok 42 _ DocumentStatus.ACTUAL [1, 2, 3] rfl

theorem reachable_dashStopServer : Reachable (dashStopServer F) :=
  Reachable.init ["-".toList] _ rfl

theorem reachable_phraseStopFixture : Reachable (phraseStopFixture ℚ) :=
  (Reachable.init ["in the".toList] (phraseStopServer ℚ) rfl).add_of_ok 42 _
    DocumentStatus.ACTUAL [1, 2, 3] rfl

theorem reachable_minusStopFixture : Reachable (minusStopFixture ℚ) :=
  (Reachable.init ["-in".toList] (minusStopServer ℚ) rfl).add_of_ok 42 _
    DocumentStatus.ACTUAL [1, 2, 3] rfl

theorem reachable_doubleDashStopServer : Reachable (doubleDashStopServer F) :=
  Reachable.init ["--in".toList] _ rfl

theorem reachable_minusWordFixture : Reachable (minusWordFixture ℚ) :=
  reachable_emptyServer.add_of_ok 42 _ DocumentStatus.ACTUAL [1, 2, 3] rfl

/-- C24, the counterexample: the server constructed from the text "-" is reachable and has the
stop word "-", and `FindTopDocuments("-")` throws `std::invalid_argument` instead of returning
the empty list, and so does `FindTopDocuments("--in")` on the server constructed from the text
"--in"; the server constructed from the collection with the one string "in the" and holding the
document "cat in the city" has the stop word "in the", and `FindTopDocuments("in the")` returns
the document; on the server without stop words that holds the document "cat -in the city" the
word "-in" of the document is not found: `FindTopDocuments("-in")` returns the empty list. -/
theorem C24_counterexample :
    (SearchServer.ofText "-".toList : Except Failure (SearchServer ℚ)) =
      .ok (dashStopServer ℚ) ∧
    Reachable (dashStopServer ℚ) ∧
    "-".toList ∈ (dashStopServer ℚ).stop_words_ ∧
    (dashStopServer ℚ).FindTopDocumentsDefault (fun x => x - 1) "-".toList =
      .error .invalid_argument ∧
    (SearchServer.ofText "--in".toList : Except Failure (SearchServer ℚ)) =
      .ok (doubleDashStopServer ℚ) ∧
    Reachable (doubleDashStopServer ℚ) ∧
    "--in".toList ∈ (doubleDashStopServer ℚ).stop_words_ ∧
    (doubleDashStopServer ℚ).FindTopDocumentsDefault (fun x => x - 1) "--in".toList =
      .error .invalid_argument ∧
    (SearchServer.new ["in the".toList] : Except Failure (SearchServer ℚ)) =
      .ok (phraseStopServer ℚ) ∧
    Reachable (phraseStopFixture ℚ) ∧
    "in the".toList ∈ (phraseStopFixture ℚ).stop_words_ ∧
    ((phraseStopFixture ℚ).FindTopDocumentsDefault (fun x => x - 1) "in the".toList).map
      (fun docs => docs.map (fun doc => doc.id)) = .ok [42] ∧
    Reachable (minusWordFixture ℚ) ∧
    "-in".toList ∉ (minusWordFixture ℚ).stop_words_ ∧
    42 ∈ (minusWordFixture ℚ).document_ids_ ∧
    (minusWordFixture ℚ).docPred (GetStatusPredicate DocumentStatus.ACTUAL) 42 = true ∧
    "-in".toList ∈ OrdMap.keys ((minusWordFixture ℚ).GetWordFrequencies 42) ∧
    (minusWordFixture ℚ).FindTopDocumentsDefault (fun x => x - 1) "-in".toList = .ok [] :=
  ⟨rfl, reachable_dashStopServer, by decide, rfl,
    rfl, reachable_doubleDashStopServer, by decide, rfl,
    rfl, reachable_phraseStopFixture, by decide, rfl,
    reachable_minusWordFixture, by decide, by decide, rfl, by decide, rfl⟩

/-- C24 as amended: in every reachable state no stop word is a key of `word_to_document_freqs_`
or of an entry of `document_to_words_freqs_`, and the term frequencies of a document that is
added have the number of its non-stop tokens as denominator; `FindTopDocuments` for a query
that is one stop word without a space throws `std::invalid_argument` when the word is "-" or
begins with "--" and returns the empty list otherwise; for a word without a leading minus that
is not a stop word and occurs in a document that satisfies the predicate, it returns a
non-empty list of documents that contain the word. -/
theorem C24_stop_words_never_indexed (s : SearchServer F) (hs : Reachable s) :
    (∀ w ∈ s.stop_words_, w ∉ OrdMap.keys s.word_to_document_freqs_ ∧
      (∀ d doc, OrdMap.lookup d s.document_to_words_freqs_ = some doc →
        w ∉ OrdMap.keys doc) ∧
      ∀ d, w ∉ OrdMap.keys (s.GetWordFrequencies d)) ∧
    (∀ (d : Int) (text : List Char) (st : DocumentStatus) (r : List Int),
      (s.AddDocument d text st r).1 = .ok () → ∀ w,
        OrdMap.lookup w ((s.AddDocument d text st r).2.GetWordFrequencies d) =
          if w ∈ (SplitIntoWords text).filter (fun w => !s.IsStopWord w) then
            some ((((SplitIntoWords text).filter (fun w => !s.IsStopWord w)).count w : F) /
              (((SplitIntoWords text).filter (fun w => !s.IsStopWord w)).length : F))
          else none) ∧
    (∀ (ln : F → F) (P : Int → DocumentStatus → Int → Bool) (w : Word),
      w ∈ s.stop_words_ → ' ' ∉ w →
        ((w = ['-'] ∨ ∃ t, w = '-' :: '-' :: t) →
          s.FindTopDocuments ln w P = .error .invalid_argument) ∧
        (¬ (w = ['-'] ∨ ∃ t, w = '-' :: '-' :: t) →
          s.FindTopDocuments ln w P = .ok [])) ∧
    (∀ (ln : F → F) (P : Int → DocumentStatus → Int → Bool) (w : Word),
      w ∉ s.stop_words_ → w.head? ≠ some '-' →
      (∃ d ∈ s.document_ids_, s.docPred P d = true ∧
        w ∈ OrdMap.keys (s.GetWordFrequencies d)) →
      ∃ docs, s.FindTopDocuments ln w P = .ok docs ∧ docs ≠ [] ∧
        ∀ doc ∈ docs, w ∈ OrdMap.keys (s.GetWordFrequencies doc.id)) := by
  have hinv := hs.inv
  obtain ⟨hkeys, hvalid⟩ := hs.stop_words
  refine ⟨?_, ?_, ?_, ?_⟩
  · intro w hw
    refine ⟨fun h => hkeys w h hw, fun d doc hdoc h => hinv.index.no_stop d doc hdoc w h hw, ?_⟩
    intro d h
    unfold GetWordFrequencies at h
    cases hdoc : OrdMap.lookup d s.document_to_words_freqs_ with
    | none => simp [hdoc] at h
    | some doc =>
      simp only [hdoc] at h
      exact hinv.index.no_stop d doc hdoc w h hw
  · intro d text st r hok w
    have hadd : s.AddDocument d text st r = (.ok (), (s.AddDocument d text st r).2) := by
      rw [← hok]
    obtain ⟨h0, hfresh, hv, _⟩ := AddDocument_ok_frame hadd
    obtain ⟨_, hinv1, _, _, _, htf⟩ := AddDocument_effect s hinv d text st r h0 hfresh hv
    rw [lookup_GetWordFrequencies, ← hinv1.index.transpose, htf]
    simp
  · intro ln P w hw hsp
    exact FindTopDocuments_stop_word s hs ln P w hw hsp
  · rintro ln P w hw hminus ⟨d, hd, hP, hwd⟩
    obtain ⟨hne, hsp, hv⟩ :=
      hs.indexed_words w (mem_keys_of_mem_GetWordFrequencies s hinv.index d w hwd)
    have hq := ParseQuery_plain_word s w hw hv hne hsp hminus
    obtain ⟨m, hm, hres, _, hk⟩ := FindTopDocuments_spec s hinv ln w P ⟨[w], []⟩ hq
    have hin : ∀ j, s.inMatchSet ⟨[w], []⟩ P j = true ↔
        s.docPred P j = true ∧ w ∈ OrdMap.keys (s.GetWordFrequencies j) := by
      intro j
      simp [inMatchSet]
    have hdm : d ∈ OrdMap.keys m := by
      rw [hk]
      exact List.mem_filter.2 ⟨hd, (hin d).2 ⟨hP, hwd⟩⟩
    refine ⟨_, hres, ?_, ?_⟩
    · have hlen : (stdSort documentBefore
          (m.map (fun e => (⟨e.1, e.2, s.ratingOf e.1⟩ : Document F)))).length = m.length := by
        rw [(perm_stdSort _ _).length_eq, List.length_map]
      have hpos : 0 < m.length := by
        cases m with
        | nil => cases hdm
        | cons e rest => simp
      intro h
      have := congrArg List.length h
      simp only [List.length_take, hlen, List.length_nil] at this
      omega
    · intro doc hdoc
      have h1 := (mem_result_iff s hm doc).1 (List.mem_of_mem_take hdoc)
      have h2 : doc.id ∈ OrdMap.keys m := by
        rw [← OrdMap.lookup_isSome_iff, h1.1]
        rfl
      rw [hk] at h2
      exact ((hin doc.id).1 (List.mem_filter.1 h2).2).2

/-- Witness of C24 as amended: the two servers of `TestStopWordStringConstructor`; with the
stop words "in the" the query "in" finds nothing, without stop words it finds document 42;
with the stop word "-in" the query "-in" finds nothing, and with the stop word "-" the query
"-" throws. -/
theorem C24_stop_words_never_indexed_witness :
    Reachable (cityStopFixture ℚ) ∧
    (cityStopFixture ℚ).FindTopDocuments (fun x => x - 1) "in".toList
      (GetStatusPredicate DocumentStatus.ACTUAL) = .ok [] ∧
    Reachable (minusStopFixture ℚ) ∧
    (minusStopFixture ℚ).FindTopDocuments (fun x => x - 1) "-in".toList
      (GetStatusPredicate DocumentStatus.ACTUAL) = .ok [] ∧
    Reachable (dashStopServer ℚ) ∧
    (dashStopServer ℚ).FindTopDocuments (fun x => x - 1) "-".toList
      (GetStatusPredicate DocumentStatus.ACTUAL) = .error .invalid_argument ∧
    Reachable (cityFixture ℚ) ∧
    (∃ docs, (cityFixture ℚ).FindTopDocuments (fun x => x - 1) "in".toList
        (GetStatusPredicate DocumentStatus.ACTUAL) = .ok docs ∧ docs ≠ [] ∧
      ∀ doc ∈ docs,
        "in".toList ∈ OrdMap.keys ((cityFixture ℚ).GetWordFrequencies doc.id)) ∧
    ((cityFixture ℚ).FindTopDocumentsDefault (fun x => x - 1) "in".toList).map
      (fun docs => docs.map (fun doc => doc.id)) = .ok [42] :=
  ⟨reachable_cityStopFixture,
    ((C24_stop_words_never_indexed (cityStopFixture ℚ) reachable_cityStopFixture).2.2.1
      (fun x => x - 1) (GetStatusPredicate DocumentStatus.ACTUAL) "in".toList
      (by decide) (by decide)).2
      (by
        rintro (h | ⟨t, h⟩)
        · exact absurd h (by decide)
        · exact absurd (show (some 'i' : Option Char) = some '-' from congrArg List.head? h)
            (by decide)),
    reachable_minusStopFixture,
    ((C24_stop_words_never_indexed (minusStopFixture ℚ) reachable_minusStopFixture).2.2.1
      (fun x => x - 1) (GetStatusPredicate DocumentStatus.ACTUAL) "-in".toList
      (by decide) (by decide)).2
      (by
        rintro (h | ⟨t, h⟩)
        · exact absurd h (by decide)
        · exact absurd (show (some 'i' : Option Char) = some '-' from
            congrArg (fun l => (l.drop 1).head?) h) (by decide)),
    reachable_dashStopServer,
    ((C24_stop_words_never_indexed (dashStopServer ℚ) reachable_dashStopServer).2.2.1
      (fun x => x - 1) (GetStatusPredicate DocumentStatus.ACTUAL) "-".toList
      (by decide) (by decide)).1 (Or.inl rfl),
    reachable_cityFixture,
    (C24_stop_words_never_indexed (cityFixture ℚ) reachable_cityFixture).2.2.2
      (fun x => x - 1) (GetStatusPredicate DocumentStatus.ACTUAL) "in".toList
      (by decide) (by decide) ⟨42, by decide, rfl, by decide⟩,
    rfl⟩

end SearchServer
end SearchEngine

/-! ## Claim C28: the term frequencies of a document sum to one -/

namespace SearchEngine
namespace OrdMap
variable {K : Type} [LinearOrder K] {F : Type} [LinearOrderedField F]

/-- Adding `inv` to the value under a key, created as 0 when missing, adds `inv` to the sum of
the values. -/
theorem sum_values_modify_add (k : K) (inv : F) (m : OrdMap K F) :
    ((modify k 0 (fun v => v + inv) m).map Prod.snd).sum = (m.map Prod.snd).sum + inv := by
  unfold modify
  induction m with
  | nil => simp [upsert]
  | cons e rest ih =>
    obtain ⟨k1, v1⟩ := e
    simp only [upsert]
    split_ifs with h1 h2
    · simp only [List.map_cons, List.sum_cons, Option.getD_none]
      ring
    · simp only [List.map_cons, List.sum_cons, Option.getD_some]
      ring
    · simp only [List.map_cons, List.sum_cons, ih]
      ring

end OrdMap

namespace SearchServer
variable {F : Type} [LinearOrderedField F]

/-- The sum of the term frequencies that `GetWordFrequencies` returns for a document. -/
theorem sum_GetWordFrequencies_addWord (s : SearchServer F)
    (hwf : OrdMap.WF s.document_to_words_freqs_) (d : Int) (inv : F) (w0 : Word) :
    (((addWord d inv s w0).GetWordFrequencies d).map Prod.snd).sum =
      ((s.GetWordFrequencies d).map Prod.snd).sum + inv := by
  have h : (addWord d inv s w0).GetWordFrequencies d =
      OrdMap.modify w0 0 (fun v => v + inv) (s.GetWordFrequencies d) := by
    simp only [GetWordFrequencies, addWord, OrdMap.lookup_modify_self _ _ _ hwf]
    cases OrdMap.lookup d s.document_to_words_freqs_ <;> rfl
  rw [h, OrdMap.sum_values_modify_add]

theorem sum_GetWordFrequencies_foldl (d : Int) (inv : F) (words : List Word) :
    ∀ s : SearchServer F, OrdMap.WF s.document_to_words_freqs_ →
      (((words.foldl (addWord d inv) s).GetWordFrequencies d).map Prod.snd).sum =
        ((s.GetWordFrequencies d).map Prod.snd).sum + (words.length : F) * inv := by
  induction words with
  | nil => intro s _; simp
  | cons w0 rest ih =>
    intro s hwf
    rw [List.foldl_cons, ih _ (OrdMap.WF.modify _ _ _ hwf), sum_GetWordFrequencies_addWord s hwf]
    simp only [List.length_cons, Nat.cast_add, Nat.cast_one]
    ring

/-- In every reachable state the term frequencies of every entry of `document_to_words_freqs_`
sum to 1. -/
theorem Reachable.tf_sum {s : SearchServer F} (h : Reachable s) :
    ∀ d doc, OrdMap.lookup d s.document_to_words_freqs_ = some doc →
      (doc.map Prod.snd).sum = 1 := by
  induction h with
  | init stop_words s h =>
    unfold SearchServer.new at h
    split_ifs at h
    simp only [Except.ok.injEq] at h
    subst h
    intro d doc hdoc
    simp at hdoc
  | add s s1 d text st r hs hadd ih =>
    have hinv := hs.inv
    obtain ⟨_, hfresh, _, hd2w, _, _⟩ := AddDocument_ok_frame hadd
    rw [AddDocument_eq] at hadd
    split_ifs at hadd with h1
    · simp at hadd
    simp only [Prod.mk.injEq, true_and] at hadd
    intro d1 doc hdoc
    by_cases hd1 : d1 = d
    · subst hd1
      set words := (SplitIntoWords text).filter (fun w => !s.IsStopWord w) with hwords
      have hnew : OrdMap.lookup d1 s.document_to_words_freqs_ = none := by
        rw [OrdMap.lookup_eq_none_iff]
        intro hmem
        have := hinv.d2w_docs _ hmem
        rw [← OrdMap.lookup_isSome_iff, hfresh] at this
        exact Bool.noConfusion this
      have hsum := sum_GetWordFrequencies_foldl d1 (1 / ((words.length : Nat) : F)) words s
        hinv.index.d2w_wf
      have hg1 : (words.foldl (addWord d1 (1 / ((words.length : Nat) : F))) s
          ).GetWordFrequencies d1 = doc := by
        rw [← hadd] at hdoc
        simp only [GetWordFrequencies]
        simp only at hdoc
        rw [hdoc]
      have hg0 : s.GetWordFrequencies d1 = [] := by
        simp [GetWordFrequencies, hnew]
      rw [hg1, hg0] at hsum
      rw [hsum]
      have hpos : words ≠ [] := by
        intro he
        rw [he] at hg1
        simp only [List.foldl_nil] at hg1
        rw [hg0] at hg1
        rw [← hadd] at hdoc
        simp only [he, List.foldl_nil] at hdoc
        rw [hnew] at hdoc
        cases hdoc
      have hn : ((words.length : Nat) : F) ≠ 0 := by
        rw [Nat.cast_ne_zero]
        exact fun h => hpos (List.length_eq_zero.1 h)
      simp only [List.map_nil, List.sum_nil, zero_add]
      field_simp
    · rw [hd2w d1 hd1] at hdoc
      exact ih d1 doc hdoc
  | remove s s1 d hs hrm ih =>
    have hinv := hs.inv
    cases hdoc : OrdMap.lookup d s.document_to_words_freqs_ with
    | none =>
      rw [(RemoveDocument_of_no_entry s d hdoc).1] at hrm
      cases hrm
      exact ih
    | some doc =>
      rw [hinv.RemoveDocument_eq hdoc] at hrm
      simp only [Prod.mk.injEq, true_and] at hrm
      subst hrm
      intro d1 doc1 h1
      simp only [OrdMap.lookup_erase] at h1
      split_ifs at h1
      exact ih d1 doc1 h1
  | removePar s s1 d hs hrm ih =>
    have hinv := hs.inv
    cases hdoc : OrdMap.lookup d s.document_to_words_freqs_ with
    | none =>
      rw [(RemoveDocument_of_no_entry s d hdoc).2] at hrm
      cases hrm
      exact ih
    | some doc =>
      rw [hinv.RemoveDocumentPar_eq hdoc] at hrm
      simp only [Prod.mk.injEq, true_and] at hrm
      subst hrm
      intro d1 doc1 h1
      simp only [OrdMap.lookup_erase] at h1
      split_ifs at h1
      exact ih d1 doc1 h1

/-- C28: in every reachable state the term frequencies of every entry of
`document_to_words_freqs_`, that is of every present document with indexed words, sum to 1 in
exact arithmetic; a document added with `n > 0` non-stop tokens has such an entry, so its term
frequencies sum to 1 from the call of `AddDocument` on. -/
theorem C28_term_frequencies_sum_to_one (s : SearchServer F) (hs : Reachable s) :
    (∀ d doc, OrdMap.lookup d s.document_to_words_freqs_ = some doc →
      (doc.map Prod.snd).sum = 1) ∧
    (∀ d, s.GetWordFrequencies d ≠ [] →
      ((s.GetWordFrequencies d).map Prod.snd).sum = 1) ∧
    (∀ (d : Int) (text : List Char) (st : DocumentStatus) (r : List Int) (s1 : SearchServer F),
      s.AddDocument d text st r = (.ok (), s1) →
      (SplitIntoWords text).filter (fun w => !s.IsStopWord w) ≠ [] →
        s1.GetWordFrequencies d ≠ [] ∧ ((s1.GetWordFrequencies d).map Prod.snd).sum = 1) := by
  have key : ∀ {t : SearchServer F}, Reachable t → ∀ d, t.GetWordFrequencies d ≠ [] →
      ((t.GetWordFrequencies d).map Prod.snd).sum = 1 := by
    intro t ht d hne
    unfold GetWordFrequencies at hne ⊢
    cases hdoc : OrdMap.lookup d t.document_to_words_freqs_ with
    | none => simp [hdoc] at hne
    | some doc => exact ht.tf_sum d doc hdoc
  refine ⟨hs.tf_sum, key hs, ?_⟩
  intro d text st r s1 hadd hn
  have hinv := hs.inv
  obtain ⟨h0, hfresh, hv, _⟩ := AddDocument_ok_frame hadd
  obtain ⟨_, hinv1, _, _, _, htf⟩ := AddDocument_effect s hinv d text st r h0 hfresh hv
  rw [hadd] at hinv1 htf
  simp only at hinv1 htf
  obtain ⟨w0, hw0⟩ := List.exists_mem_of_ne_nil _ hn
  have hne : s1.GetWordFrequencies d ≠ [] := by
    intro he
    have h1 : OrdMap.lookup w0 (s1.GetWordFrequencies d) ≠ none := by
      rw [lookup_GetWordFrequencies, ← hinv1.index.transpose, htf]
      simp [hw0]
    rw [he] at h1
    exact h1 rfl
  exact ⟨hne, key (Reachable.add s s1 d text st r hs hadd) d hne⟩

/-- Witness of C28: the document of the one-document fixture, 9 tokens of which "cat" occurs
twice. -/
theorem C28_term_frequencies_sum_to_one_witness :
    Reachable (matchFixture ℚ) ∧ (matchFixture ℚ).GetWordFrequencies 1 ≠ [] ∧
      (((matchFixture ℚ).GetWordFrequencies 1).map Prod.snd).sum = 1 :=
  ⟨reachable_matchFixture, by decide,
    (C28_term_frequencies_sum_to_one (matchFixture ℚ) reachable_matchFixture).2.1 1
      (by decide)⟩

end SearchServer
end SearchEngine

/-! ## Claim C27: batches of queries -/

namespace SearchEngine
variable {F : Type} [LinearOrderedField F]

/-- `FindTopDocuments` never returns more than `MAX_RESULT_DOCUMENT_COUNT` documents. -/
theorem SearchServer.FindTopDocuments_length_le (s : SearchServer F) (ln : F → F)
    (raw_query : List Char) (P : Int → DocumentStatus → Int → Bool) (docs : List (Document F))
    (h : s.FindTopDocuments ln raw_query P = .ok docs) : docs.length ≤ 5 := by
  unfold SearchServer.FindTopDocuments at h
  cases hq : s.ParseQuery raw_query with
  | error e => simp [hq] at h
  | ok query =>
    simp only [hq] at h
    cases hall : s.FindAllDocuments ln query P with
    | error e => simp [hall] at h
    | ok matched =>
      simp only [hall, Except.ok.injEq, MAX_RESULT_DOCUMENT_COUNT] at h
      subst h
      split_ifs with hlen
      · simp
      · omega

/-- `ProcessQueries` when every search returns normally: the results, in the order of the
queries. -/
theorem ProcessQueries_ok (s : SearchServer F) (ln : F → F) (queries : List (List Char))
    (h : ∀ q ∈ queries, ∃ docs, s.FindTopDocumentsDefault ln q = .ok docs) :
    ∃ R, ProcessQueries s ln queries = .ok R ∧
      queries.map (fun q => s.FindTopDocumentsDefault ln q) = R.map Except.ok := by
  induction queries with
  | nil => exact ⟨[], rfl, rfl⟩
  | cons q rest ih =>
    obtain ⟨docs, hdocs⟩ := h q (List.mem_cons_self _ _)
    obtain ⟨R, hR, hmap⟩ := ih (fun q1 hq1 => h q1 (List.mem_cons_of_mem _ hq1))
    refine ⟨docs :: R, ?_, ?_⟩
    · simp only [ProcessQueries, hdocs, hR]
    · simp only [List.map_cons, hdocs, hmap]

omit [LinearOrderedField F] in
theorem length_flatten_le (R : List (List (Document F))) (h : ∀ r ∈ R, r.length ≤ 5) :
    R.flatten.length ≤ 5 * R.length := by
  induction R with
  | nil => simp
  | cons r rest ih =>
    have h1 := h r (List.mem_cons_self _ _)
    have h2 := ih (fun r1 hr1 => h r1 (List.mem_cons_of_mem _ hr1))
    simp only [List.flatten_cons, List.length_append, List.length_cons]
    omega

/-- C27: in every reachable state, for every list `Q` of queries that parse, `ProcessQueries`
returns a list `R` of the length of `Q` whose element at every position `i` is the result of
`FindTopDocuments(Q[i])`, and `ProcessQueriesJoined` returns the concatenation of the elements
of `R` in that order, at most `5 * |Q|` documents. -/
theorem C27_ProcessQueries_in_order (s : SearchServer F) (hs : SearchServer.Reachable s)
    (ln : F → F) (queries : List (List Char))
    (hq : ∀ q ∈ queries, ∃ query, s.ParseQuery q = .ok query) :
    ∃ R, ProcessQueries s ln queries = .ok R ∧
      R.length = queries.length ∧
      (∀ (i : Nat) (q : List Char), queries[i]? = some q →
        ∃ docs, R[i]? = some docs ∧ s.FindTopDocumentsDefault ln q = .ok docs) ∧
      queries.map (fun q => s.FindTopDocumentsDefault ln q) = R.map Except.ok ∧
      ProcessQueriesJoined s ln queries = .ok R.flatten ∧
      R.flatten.length ≤ 5 * queries.length := by
  have hfind : ∀ q ∈ queries, ∃ docs, s.FindTopDocumentsDefault ln q = .ok docs := by
    intro q hmem
    obtain ⟨query, hquery⟩ := hq q hmem
    obtain ⟨m, _, hres, _⟩ := SearchServer.FindTopDocuments_spec s hs.inv ln q
      (SearchServer.GetStatusPredicate DocumentStatus.ACTUAL) query hquery
    exact ⟨_, hres⟩
  obtain ⟨R, hR, hmap⟩ := ProcessQueries_ok s ln queries hfind
  have hlen : R.length = queries.length := by
    have := congrArg List.length hmap
    simpa using this.symm
  have hpoint : ∀ (i : Nat) (q : List Char), queries[i]? = some q →
      ∃ docs, R[i]? = some docs ∧ s.FindTopDocumentsDefault ln q = .ok docs := by
    intro i q hi
    have h1 : (queries.map (fun q => s.FindTopDocumentsDefault ln q))[i]? =
        some (s.FindTopDocumentsDefault ln q) := by
      rw [List.getElem?_map, hi]
      rfl
    rw [hmap, List.getElem?_map] at h1
    cases hr : R[i]? with
    | none => simp [hr] at h1
    | some docs =>
      simp only [hr, Option.map_some', Option.some.injEq] at h1
      exact ⟨docs, rfl, h1.symm⟩
  refine ⟨R, hR, hlen, hpoint, hmap, ?_, ?_⟩
  · simp only [ProcessQueriesJoined, hR]
  · rw [← hlen]
    apply length_flatten_le
    intro r hr
    obtain ⟨i, hi, rfl⟩ := List.getElem_of_mem hr
    have hiq : i < queries.length := by omega
    obtain ⟨docs, hd1, hd2⟩ := hpoint i queries[i] (List.getElem?_eq_getElem hiq)
    rw [List.getElem?_eq_getElem hi] at hd1
    simp only [Option.some.injEq] at hd1
    rw [hd1]
    exact SearchServer.FindTopDocuments_length_le s ln _ _ docs hd2

theorem SearchServer.reachable_queriesFixture :
    SearchServer.Reachable (queriesFixture ℚ) := by
  unfold queriesFixture
  iterate 5 refine SearchServer.Reachable.add_of_ok ?_ _ _ _ _ rfl
  exact SearchServer.reachable_stopWordsServer

/-- Witness of C27: the server and the three queries of `TestProcessQueries`. -/
theorem C27_ProcessQueries_in_order_witness :
    SearchServer.Reachable (queriesFixture ℚ) ∧
      (∀ q ∈ queriesOfTest, ∃ query, (queriesFixture ℚ).ParseQuery q = .ok query) ∧
      ∃ R, ProcessQueries (queriesFixture ℚ) (fun x => x - 1) queriesOfTest = .ok R ∧
        R.length = 3 ∧
        ProcessQueriesJoined (queriesFixture ℚ) (fun x => x - 1) queriesOfTest =
          .ok R.flatten ∧
        R.flatten.length ≤ 15 :=
  have hq : ∀ q ∈ queriesOfTest, ∃ query, (queriesFixture ℚ).ParseQuery q = .ok query := by
    intro q hq
    simp only [queriesOfTest, List.mem_cons, List.mem_singleton, List.not_mem_nil,
      or_false] at hq
    rcases hq with rfl | rfl | rfl
    · exact ⟨_, rfl⟩
    · exact ⟨_, rfl⟩
    · exact ⟨_, rfl⟩
  ⟨SearchServer.reachable_queriesFixture, hq,
    (C27_ProcessQueries_in_order (queriesFixture ℚ) SearchServer.reachable_queriesFixture
      (fun x => x - 1) queriesOfTest hq).imp
      (fun _ h => ⟨h.1, h.2.1, h.2.2.2.2.1, h.2.2.2.2.2⟩)⟩

end SearchEngine

/-! ## Claim C26: the request queue -/

namespace SearchEngine
namespace RequestQueue
variable {F : Type} [LinearOrderedField F]

/-- What a returning call of `AddFindRequest` does to the deque. -/
theorem AddFindRequest_ok (rq rq1 : RequestQueue) (search_server : SearchServer F)
    (ln : F → F) (raw_query : List Char) (P : Int → DocumentStatus → Int → Bool)
    (docs : List (Document F))
    (h : rq.AddFindRequest search_server ln raw_query P = (.ok docs, rq1)) :
    search_server.FindTopDocuments ln raw_query P = .ok docs ∧
    ((rq.requests_ = [] ∧
        rq1.requests_ = [⟨raw_query, docs.isEmpty, if docs.isEmpty then 1 else 0⟩]) ∨
      (∃ front others back, rq.requests_ = front :: others ∧
        rq.requests_.getLast? = some back ∧
        ((1440 ≤ rq.requests_.length ∧ rq1.requests_ = others ++
            [⟨raw_query, docs.isEmpty,
              ((back.no_results_Count + (if docs.isEmpty then 1 else 0)) %
                  18446744073709551616 + 18446744073709551616 -
                (if front.no_result_status then 1 else 0)) % 18446744073709551616⟩]) ∨
          (rq.requests_.length < 1440 ∧ rq1.requests_ = rq.requests_ ++
            [⟨raw_query, docs.isEmpty,
              (back.no_results_Count + (if docs.isEmpty then 1 else 0)) %
                18446744073709551616⟩])))) := by
  unfold AddFindRequest at h
  cases hf : search_server.FindTopDocuments ln raw_query P with
  | error e => simp [hf] at h
  | ok content =>
    simp only [hf] at h
    cases hl : rq.requests_ with
    | nil =>
      simp only [hl, List.getLast?_nil, Prod.mk.injEq, Except.ok.injEq] at h
      obtain ⟨rfl, rfl⟩ := h
      exact ⟨rfl, Or.inl ⟨rfl, rfl⟩⟩
    | cons front others =>
      have hne : (front :: others).getLast? = some ((front :: others).getLast (by simp)) :=
        List.getLast?_eq_getLast _ _
      simp only [hl, hne, sec_in_day_] at h
      by_cases hlen : (front :: others).length ≥ 1440
      · rw [if_pos hlen] at h
        simp only [Prod.mk.injEq, Except.ok.injEq] at h
        obtain ⟨rfl, rfl⟩ := h
        exact ⟨rfl, Or.inr ⟨front, others, _, rfl, hne, Or.inl ⟨hlen, rfl⟩⟩⟩
      · rw [if_neg hlen] at h
        simp only [Prod.mk.injEq, Except.ok.injEq] at h
        obtain ⟨rfl, rfl⟩ := h
        exact ⟨rfl, Or.inr ⟨front, others, _, rfl, hne, Or.inr ⟨by omega, rfl⟩⟩⟩

omit [LinearOrderedField F] in
theorem count_flag (b : Bool) : [b].count true = if b then 1 else 0 := by
  cases b <;> rfl

theorem AddFindRequest_fst (rq : RequestQueue) (search_server : SearchServer F)
    (ln : F → F) (raw_query : List Char) (P : Int → DocumentStatus → Int → Bool) :
    (rq.AddFindRequest search_server ln raw_query P).1 =
      search_server.FindTopDocuments ln raw_query P := by
  unfold AddFindRequest
  cases hf : search_server.FindTopDocuments ln raw_query P with
  | error e => rfl
  | ok content =>
    cases hl : rq.requests_ with
    | nil => rfl
    | cons front others =>
      have hne : (front :: others).getLast? = some ((front :: others).getLast (by simp)) :=
        List.getLast?_eq_getLast _ _
      simp only [hne]
      by_cases hlen : (front :: others).length ≥ sec_in_day_
      · rw [if_pos hlen]
      · rw [if_neg hlen]

/-- A call of `AddFindRequest` whose search throws leaves the deque as it was. -/
theorem AddFindRequest_error (rq rq1 : RequestQueue) (search_server : SearchServer F)
    (ln : F → F) (raw_query : List Char) (P : Int → DocumentStatus → Int → Bool) (e : Failure)
    (h : rq.AddFindRequest search_server ln raw_query P = (.error e, rq1)) :
    rq1 = rq ∧ search_server.FindTopDocuments ln raw_query P = .error e := by
  have hfst := AddFindRequest_fst rq search_server ln raw_query P
  rw [h] at hfst
  refine ⟨?_, hfst.symm⟩
  unfold AddFindRequest at h
  rw [← hfst] at h
  exact (congrArg Prod.snd h).symm

/-- The deque holds the emptiness flags of the last 1440 returning calls, oldest first, and its
last element holds the number of the flags that are set. -/
theorem Served.window {flags : List Bool} {rq : RequestQueue} (h : Served F flags rq) :
    rq.requests_.map (fun r => r.no_result_status) = flags.drop (flags.length - 1440) ∧
    ∀ back, rq.requests_.getLast? = some back →
      back.no_results_Count = (rq.requests_.map (fun r => r.no_result_status)).count true := by
  induction h with
  | new => exact ⟨rfl, fun back hb => by cases hb⟩
  | call flags rq rq1 srv ln raw P docs _ hcall ih =>
    obtain ⟨ih1, ih2⟩ := ih
    have hlenW : rq.requests_.length = flags.length - (flags.length - 1440) := by
      have := congrArg List.length ih1
      simpa using this
    obtain ⟨_, hcase⟩ := AddFindRequest_ok rq rq1 srv ln raw P docs hcall
    rcases hcase with ⟨hnil, h1⟩ | ⟨front, others, back, hcons, hback, h1 | h1⟩
    · -- the first call
      have hflags : flags = [] := by
        rw [hnil] at hlenW
        simp only [List.length_nil] at hlenW
        exact List.length_eq_zero.1 (by omega)
      subst hflags
      rw [h1]
      refine ⟨by simp, ?_⟩
      intro back hb
      simp only [List.getLast?_singleton, Option.some.injEq] at hb
      subst hb
      simp only [List.map_cons, List.map_nil]
      rw [count_flag]
    · -- the deque is full: the oldest request leaves
      obtain ⟨hfull, h1⟩ := h1
      have hn : 1440 ≤ flags.length := by omega
      have hW : front.no_result_status :: others.map (fun r => r.no_result_status) =
          flags.drop (flags.length - 1440) := by
        rw [← ih1, hcons]
        rfl
      have hbc := ih2 back hback
      rw [hcons, List.map_cons] at hbc
      have hcount : (front.no_result_status :: others.map (fun r => r.no_result_status)).count
          true = (if front.no_result_status then 1 else 0) +
            (others.map (fun r => r.no_result_status)).count true := by
        cases front.no_result_status <;> simp [add_comm]
      have hbound : (others.map (fun r => r.no_result_status)).count true ≤ 1440 := by
        have h2 := List.count_le_length true (others.map (fun r => r.no_result_status))
        have h3 : others.length + 1 = rq.requests_.length := by rw [hcons]; rfl
        simp only [List.length_map] at h2
        omega
      rw [h1]
      refine ⟨?_, ?_⟩
      · rw [List.map_append, List.map_cons, List.map_nil]
        have htail : others.map (fun r => r.no_result_status) =
            flags.drop (flags.length - 1440 + 1) := by
          rw [← List.tail_drop, ← hW]
          rfl
        rw [htail, List.length_append, List.length_singleton]
        have : flags.length + 1 - 1440 = flags.length - 1440 + 1 := by omega
        rw [this, List.drop_append_of_le_length (by omega)]
      · intro back1 hb1
        rw [List.getLast?_concat, Option.some.injEq] at hb1
        subst hb1
        rw [List.map_append, List.count_append, List.map_cons, List.map_nil, count_flag]
        simp only
        rw [hbc, hcount]
        split_ifs <;> omega
    · -- the deque is not full yet
      obtain ⟨hlt, h1⟩ := h1
      have hn : flags.length < 1440 := by omega
      have hz : flags.length - 1440 = 0 := by omega
      have hbc := ih2 back hback
      have hbound : (rq.requests_.map (fun r => r.no_result_status)).count true ≤ 1440 := by
        have h2 := List.count_le_length true (rq.requests_.map (fun r => r.no_result_status))
        simp only [List.length_map] at h2
        omega
      rw [h1]
      refine ⟨?_, ?_⟩
      · rw [List.map_append, ih1, hz, List.length_append, List.length_singleton]
        have : flags.length + 1 - 1440 = 0 := by omega
        rw [this]
        rfl
      · intro back1 hb1
        rw [List.getLast?_concat, Option.some.injEq] at hb1
        subst hb1
        rw [List.map_append, List.count_append, List.map_cons, List.map_nil, count_flag]
        simp only
        rw [hbc]
        split_ifs <;> omega
  | throwing flags rq rq1 srv ln raw P e _ hcall ih =>
    rw [(AddFindRequest_error rq rq1 srv ln raw P e hcall).1]
    exact ih

/-- C26 as amended: after every sequence of calls of `AddFindRequest` on a new `RequestQueue`,
of which `n` return (those that throw leave the deque as it was and are not counted), the deque
holds `min(n, 1440)` entries, never more than 1440, and when `n ≥ 1` `GetNoResultRequests`
returns the number of the calls among the last `min(n, 1440)` returning ones whose result was
empty. -/
theorem C26_GetNoResultRequests_counts_window (flags : List Bool) (rq : RequestQueue)
    (h : Served F flags rq) :
    rq.requests_.length = min flags.length 1440 ∧
    rq.requests_.length ≤ 1440 ∧
    rq.requests_.map (fun r => r.no_result_status) =
      flags.drop (flags.length - min flags.length 1440) ∧
    (flags ≠ [] → rq.GetNoResultRequests =
      .ok (((flags.drop (flags.length - min flags.length 1440)).count true : Nat) : Int)) := by
  obtain ⟨h1, h2⟩ := h.window
  have hdrop : flags.length - min flags.length 1440 = flags.length - 1440 := by omega
  have hlen : rq.requests_.length = flags.length - (flags.length - 1440) := by
    have := congrArg List.length h1
    simpa using this
  rw [hdrop]
  refine ⟨by omega, by omega, h1, ?_⟩
  intro hn
  have hpos : 0 < flags.length := List.length_pos.2 hn
  cases hl : rq.requests_.getLast? with
  | none =>
    rw [List.getLast?_eq_none_iff] at hl
    rw [hl] at hlen
    simp only [List.length_nil] at hlen
    omega
  | some back =>
    have hb := h2 back hl
    rw [h1] at hb
    have hbound : (flags.drop (flags.length - 1440)).count true ≤ 1440 := by
      have := List.count_le_length true (flags.drop (flags.length - 1440))
      simp only [List.length_drop] at this
      omega
    simp only [GetNoResultRequests, hl, hb]
    rw [SearchServer.wrapInt32_of_range _ (by constructor <;> omega)]

/-- A call whose search throws returns the failure and the deque as it was. -/
theorem AddFindRequest_of_error (rq : RequestQueue) (search_server : SearchServer F)
    (ln : F → F) (raw_query : List Char) (P : Int → DocumentStatus → Int → Bool) (e : Failure)
    (hf : search_server.FindTopDocuments ln raw_query P = .error e) :
    rq.AddFindRequest search_server ln raw_query P = (.error e, rq) := by
  unfold AddFindRequest
  rw [hf]

/-- A returning call extends the record of a served queue. -/
theorem Served.step {flags : List Bool} {rq : RequestQueue} (h : Served F flags rq)
    (search_server : SearchServer F) (ln : F → F) (raw_query : List Char)
    (P : Int → DocumentStatus → Int → Bool) (docs : List (Document F))
    (hf : search_server.FindTopDocuments ln raw_query P = .ok docs) :
    Served F (flags ++ [docs.isEmpty]) (rq.AddFindRequest search_server ln raw_query P).2 :=
  Served.call flags rq _ search_server ln raw_query P docs h
    (by rw [← hf, ← AddFindRequest_fst rq search_server ln raw_query P])

/-- A run of `n` requests without results: the query "x" on the server without documents. -/
theorem served_empty_requests (n : Nat) : ∃ rq, Served ℚ (List.replicate n true) rq := by
  induction n with
  | zero => exact ⟨_, Served.new⟩
  | succ n ih =>
    obtain ⟨rq, hrq⟩ := ih
    have := hrq.step (emptyServer ℚ) (fun x => x - 1) "x".toList (fun _ _ _ => true) [] rfl
    rw [List.replicate_succ']
    exact ⟨_, this⟩

/-- Witness of C26 as amended: a run of 1439 requests without results, a request that throws
(the query "--") and 3 requests with results; `GetNoResultRequests` returns 1437. -/
theorem C26_GetNoResultRequests_counts_window_witness :
    ∃ rq, Served ℚ (List.replicate 1439 true ++ [false, false, false]) rq ∧
      rq.GetNoResultRequests = .ok 1437 ∧ rq.requests_.length = 1440 := by
  obtain ⟨rq0, h00⟩ := served_empty_requests 1439
  have h0 := Served.throwing _ rq0 rq0 (emptyServer ℚ) (fun x => x - 1) "--".toList
    (fun _ _ _ => true) Failure.invalid_argument h00
    (AddFindRequest_of_error rq0 (emptyServer ℚ) (fun x => x - 1) "--".toList
      (fun _ _ _ => true) Failure.invalid_argument rfl)
  have hfind : ∃ docs, (cityFixture ℚ).FindTopDocuments (fun x => x - 1) "in".toList
      (fun _ _ _ => true) = .ok docs ∧ docs.isEmpty = false := by
    have h : ((cityFixture ℚ).FindTopDocuments (fun x => x - 1) "in".toList
        (fun _ _ _ => true)).map List.isEmpty = .ok false := rfl
    cases hres : (cityFixture ℚ).FindTopDocuments (fun x => x - 1) "in".toList
        (fun _ _ _ => true) with
    | error e => rw [hres] at h; cases h
    | ok docs =>
      rw [hres] at h
      exact ⟨docs, rfl, by simpa [Except.map] using h⟩
  obtain ⟨docs, hdocs, hempty⟩ := hfind
  have h1 := h0.step (cityFixture ℚ) (fun x => x - 1) "in".toList (fun _ _ _ => true) docs hdocs
  have h2 := h1.step (cityFixture ℚ) (fun x => x - 1) "in".toList (fun _ _ _ => true) docs hdocs
  have h3 := h2.step (cityFixture ℚ) (fun x => x - 1) "in".toList (fun _ _ _ => true) docs hdocs
  rw [hempty] at h1 h2 h3
  have hflags : List.replicate 1439 true ++ [false] ++ [false] ++ [false] =
      List.replicate 1439 true ++ [false, false, false] := by
    rw [List.append_assoc, List.append_assoc]
    rfl
  rw [hflags] at h3
  have hc := C26_GetNoResultRequests_counts_window _ _ h3
  have hne : List.replicate 1439 true ++ [false, false, false] ≠ [] :=
    List.append_ne_nil_of_right_ne_nil _ (List.cons_ne_nil _ _)
  have hl : (List.replicate 1439 true ++ [false, false, false]).length = 1442 := by
    rw [List.length_append, List.length_replicate]
    rfl
  have hd : (List.replicate 1439 true ++ [false, false, false]).drop 2 =
      List.replicate 1437 true ++ [false, false, false] := by
    rw [List.drop_append_of_le_length (by rw [List.length_replicate]; omega),
      List.drop_replicate]
  have hcount : ((List.replicate 1439 true ++ [false, false, false]).drop
      ((List.replicate 1439 true ++ [false, false, false]).length -
        min (List.replicate 1439 true ++ [false, false, false]).length 1440)).count true =
      1437 := by
    rw [hl, show 1442 - min 1442 1440 = 2 from rfl, hd, List.count_append,
      List.count_replicate_self]
    rfl
  rw [hcount, hl] at hc
  exact ⟨_, h3, hc.2.2.2 hne, hc.1⟩

/-- C26, the counterexample: one call of `AddFindRequest` on a new `RequestQueue`, with the query
"--" that `FindTopDocuments` rejects.  The call throws `std::invalid_argument` before it touches
the deque, so after this sequence of one call the deque is empty and `GetNoResultRequests` is
`back()` of an empty deque, undefined behaviour, and not the number 0 of calls with an empty
result. -/
theorem C26_counterexample :
    (emptyServer ℚ).FindTopDocuments (fun x => x - 1) "--".toList
      (SearchServer.GetStatusPredicate DocumentStatus.ACTUAL) = .error .invalid_argument ∧
    (⟨[]⟩ : RequestQueue).AddFindRequestDefault (emptyServer ℚ) (fun x => x - 1) "--".toList =
      (.error .invalid_argument, ⟨[]⟩) ∧
    ((⟨[]⟩ : RequestQueue).AddFindRequestDefault (emptyServer ℚ) (fun x => x - 1)
      "--".toList).2.GetNoResultRequests = .error .undefined_behaviour :=
  ⟨rfl, rfl, rfl⟩

end RequestQueue
end SearchEngine

/-! ## Claim C36: what a call leaves of the other documents -/

namespace SearchEngine
namespace OrdMap
variable {K V : Type} [LinearOrder K]

/-- Inserting under a key that is absent adds one entry. -/
theorem length_upsert_of_lookup_none (k : K) (f : Option V → V) :
    ∀ m : OrdMap K V, lookup k m = none → (upsert k f m).length = m.length + 1 := by
  intro m
  induction m with
  | nil => intro _; rfl
  | cons e rest ih =>
    obtain ⟨k1, v⟩ := e
    intro h
    simp only [lookup] at h
    split_ifs at h with hk
    simp only [upsert]
    split_ifs with h1
    · rfl
    · simp only [List.length_cons, ih h]

/-- Erasing a key that is present in a well-formed map removes one entry. -/
theorem length_erase_of_mem {m : OrdMap K V} (hm : WF m) {k : K} (hk : k ∈ keys m) :
    (erase k m).length + 1 = m.length := by
  induction m with
  | nil => cases hk
  | cons e rest ih =>
    obtain ⟨k1, v⟩ := e
    have hwf := (WF_cons_iff _ _).1 hm
    by_cases h : k1 = k
    · subst h
      have hnot : ∀ e ∈ rest, e.1 ≠ k1 := by
        intro e he heq
        have := hwf.1 e.1 (List.mem_map_of_mem Prod.fst he)
        rw [heq] at this
        exact lt_irrefl _ this
      have : erase k1 ((k1, v) :: rest) = rest := by
        unfold erase
        rw [List.filter_cons_of_neg (by simp)]
        exact List.filter_eq_self.2 (fun e he => by simpa using hnot e he)
      rw [this]
      rfl
    · have hk1 : k ∈ keys rest := by
        simp only [keys_cons, List.mem_cons] at hk
        rcases hk with hk | hk
        · exact absurd hk.symm h
        · exact hk
      have : erase k ((k1, v) :: rest) = (k1, v) :: erase k rest := by
        unfold erase
        rw [List.filter_cons_of_pos (by simpa using h)]
      rw [this, List.length_cons, ih hwf.2 hk1, List.length_cons]

end OrdMap
end SearchEngine

namespace SearchEngine
namespace SearchServer
variable {F : Type} [LinearOrderedField F]

/-- What `AddDocument` leaves of a document other than the one it is called for. -/
theorem Inv.AddDocument_other {s : SearchServer F} (hs : Inv s) (d : Int) (text : List Char)
    (st : DocumentStatus) (r : List Int) (e : Int) (he : e ≠ d) :
    (s.AddDocument d text st r).2.GetWordFrequencies e = s.GetWordFrequencies e ∧
    (∀ w, (s.AddDocument d text st r).2.tfW w e = s.tfW w e) ∧
    OrdMap.lookup e (s.AddDocument d text st r).2.documents_ = OrdMap.lookup e s.documents_ := by
  cases hres : (s.AddDocument d text st r).1 with
  | error f =>
    have hsame : (s.AddDocument d text st r).2 = s := by
      rw [AddDocument_eq] at hres ⊢
      split_ifs at hres ⊢
      all_goals rfl
    rw [hsame]
    exact ⟨rfl, fun _ => rfl, rfl⟩
  | ok u =>
    have hadd : s.AddDocument d text st r = (.ok (), (s.AddDocument d text st r).2) := by
      rw [← hres]
    obtain ⟨a1, a2, a3, a4, _, _⟩ := AddDocument_ok_frame hadd
    obtain ⟨_, _, _, _, b5, b6⟩ := AddDocument_effect s hs d text st r a1 a2 a3
    refine ⟨?_, ?_, ?_⟩
    · simp only [GetWordFrequencies, a4 e he]
    · intro w
      rw [b6 w e, if_neg he]
    · rw [b5, OrdMap.lookup_emplace_ne he]

end SearchServer
end SearchEngine

namespace SearchEngine
namespace SearchServer
variable {F : Type} [LinearOrderedField F]

omit [LinearOrderedField F] in
/-- What both variants of `RemoveDocument` leave of a document other than the one they are called
for. -/
theorem Inv.RemoveDocument_frame {s : SearchServer F} (hs : Inv s) (d e : Int) (he : e ≠ d) :
    ((s.RemoveDocument d).2.GetWordFrequencies e = s.GetWordFrequencies e ∧
      (∀ w, (s.RemoveDocument d).2.tfW w e = s.tfW w e) ∧
      OrdMap.lookup e (s.RemoveDocument d).2.documents_ = OrdMap.lookup e s.documents_) ∧
    ((s.RemoveDocumentPar d).2.GetWordFrequencies e = s.GetWordFrequencies e ∧
      (∀ w, (s.RemoveDocumentPar d).2.tfW w e = s.tfW w e) ∧
      OrdMap.lookup e (s.RemoveDocumentPar d).2.documents_ = OrdMap.lookup e s.documents_) := by
  cases hdoc : OrdMap.lookup d s.document_to_words_freqs_ with
  | none =>
    rw [(RemoveDocument_of_no_entry s d hdoc).1, (RemoveDocument_of_no_entry s d hdoc).2]
    exact ⟨⟨rfl, fun _ => rfl, rfl⟩, rfl, fun _ => rfl, rfl⟩
  | some doc =>
    obtain ⟨w2d1, e1, _, _, e4⟩ := removeWordsLoop_spec d doc s.word_to_document_freqs_
      hs.index.w2d_wf hs.index.w2d_inner
      (OrdMap.keys_nodup (hs.index.d2w_inner _ _ hdoc)) (hs.words_have_postings hdoc)
    obtain ⟨w2d2, f1, _, _, f4⟩ := removeWordsLoopPar_spec d doc s.word_to_document_freqs_
      hs.index.w2d_wf hs.index.w2d_inner (hs.words_have_entries hdoc)
    rw [hs.RemoveDocument_eq hdoc, hs.RemoveDocumentPar_eq hdoc, e1, f1]
    refine ⟨⟨?_, ?_, ?_⟩, ?_, ?_, ?_⟩
    · simp only [GetWordFrequencies, OrdMap.lookup_erase, he, if_false]
    · intro w
      show (OrdMap.lookup w w2d1).bind (OrdMap.lookup e) = _
      rw [e4 w e]
      simp only [he, false_and, if_false]
      rfl
    · simp only [OrdMap.lookup_erase, he, if_false]
    · simp only [GetWordFrequencies, OrdMap.lookup_erase, he, if_false]
    · intro w
      show (OrdMap.lookup w w2d2).bind (OrdMap.lookup e) = _
      rw [f4 w e]
      simp only [he, false_and, if_false]
      rfl
    · simp only [OrdMap.lookup_erase, he, if_false]

/-- C36: in every reachable state `AddDocument(d, ...)` and both variants of `RemoveDocument(d)`
touch only document `d`: for every other id `e`, `GetWordFrequencies(e)`, the posting
`word_to_doc[w][e]` of every word `w`, and the rating and status stored for `e` are the same
before and after the call; a successful `AddDocument` raises `GetDocumentCount` by exactly 1, and
a `RemoveDocument` of a present document with at least one indexed word lowers it by exactly
1. -/
theorem C36_calls_touch_only_their_document (s : SearchServer F) (hs : Reachable s) (d : Int)
    (text : List Char) (st : DocumentStatus) (r : List Int) :
    (∀ e, e ≠ d →
      ((s.AddDocument d text st r).2.GetWordFrequencies e = s.GetWordFrequencies e ∧
        (∀ w, (s.AddDocument d text st r).2.tfW w e = s.tfW w e) ∧
        OrdMap.lookup e (s.AddDocument d text st r).2.documents_ =
          OrdMap.lookup e s.documents_) ∧
      ((s.RemoveDocument d).2.GetWordFrequencies e = s.GetWordFrequencies e ∧
        (∀ w, (s.RemoveDocument d).2.tfW w e = s.tfW w e) ∧
        OrdMap.lookup e (s.RemoveDocument d).2.documents_ = OrdMap.lookup e s.documents_) ∧
      ((s.RemoveDocumentPar d).2.GetWordFrequencies e = s.GetWordFrequencies e ∧
        (∀ w, (s.RemoveDocumentPar d).2.tfW w e = s.tfW w e) ∧
        OrdMap.lookup e (s.RemoveDocumentPar d).2.documents_ =
          OrdMap.lookup e s.documents_)) ∧
    ((s.AddDocument d text st r).1 = .ok () →
      (s.AddDocument d text st r).2.GetDocumentCount = s.GetDocumentCount + 1) ∧
    (d ∈ s.document_ids_ → s.GetWordFrequencies d ≠ [] →
      (s.RemoveDocument d).2.GetDocumentCount = s.GetDocumentCount - 1 ∧
      (s.RemoveDocumentPar d).2.GetDocumentCount = s.GetDocumentCount - 1) := by
  have hinv := hs.inv
  refine ⟨fun e he => ⟨hinv.AddDocument_other d text st r e he,
    (hinv.RemoveDocument_frame d e he).1, (hinv.RemoveDocument_frame d e he).2⟩, ?_, ?_⟩
  · intro hres
    have hadd : s.AddDocument d text st r = (.ok (), (s.AddDocument d text st r).2) := by
      rw [← hres]
    obtain ⟨a1, a2, a3, _⟩ := AddDocument_ok_frame hadd
    obtain ⟨_, _, _, _, b5, _⟩ := AddDocument_effect s hinv d text st r a1 a2 a3
    simp only [GetDocumentCount, b5, OrdMap.emplace]
    rw [OrdMap.length_upsert_of_lookup_none _ _ _ a2]
    push_cast
    rfl
  · intro hd hne
    cases hdoc : OrdMap.lookup d s.document_to_words_freqs_ with
    | none => simp [GetWordFrequencies, hdoc] at hne
    | some doc =>
      rw [hinv.ids_eq] at hd
      have hlen := OrdMap.length_erase_of_mem hinv.docs_wf hd
      rw [hinv.RemoveDocument_eq hdoc, hinv.RemoveDocumentPar_eq hdoc]
      simp only [GetDocumentCount]
      constructor <;> omega

/-- Witness of C36: the id 10 on the five-document fixture of the unit tests. -/
theorem C36_calls_touch_only_their_document_witness :
    Reachable (testFixture ℚ) ∧
      (∀ e : Int, e ≠ 10 → ∀ w,
        ((testFixture ℚ).RemoveDocument 10).2.tfW w e = (testFixture ℚ).tfW w e) ∧
      ((testFixture ℚ).RemoveDocument 10).2.GetDocumentCount =
        (testFixture ℚ).GetDocumentCount - 1 ∧
      ((testFixture ℚ).AddDocument 7 "cat".toList DocumentStatus.ACTUAL [1]).2.GetDocumentCount =
        (testFixture ℚ).GetDocumentCount + 1 :=
  ⟨reachable_testFixture,
    fun e he =>
      ((C36_calls_touch_only_their_document (testFixture ℚ) reachable_testFixture 10 []
        DocumentStatus.ACTUAL []).1 e he).2.1.2.1,
    ((C36_calls_touch_only_their_document (testFixture ℚ) reachable_testFixture 10 []
      DocumentStatus.ACTUAL []).2.2 (by decide) (by decide)).1,
    (C36_calls_touch_only_their_document (testFixture ℚ) reachable_testFixture 7 "cat".toList
      DocumentStatus.ACTUAL [1]).2.1 rfl⟩

end SearchServer
end SearchEngine

/-! ## Claim C33: the sharded accumulator after a run of updates -/

namespace SearchEngine
namespace ConcurrentMap
variable {V : Type}

theorem length_addAt [Zero V] [Add V] (cm : ConcurrentMap V) (key : Int) (delta : V) :
    (cm.addAt key delta).buckets_.length = cm.buckets_.length := by
  simp [addAt]

/-- A run of updates keeps the invariant and the number of buckets, and leaves under every key
the value before the run increased by the updates of that key, in their order. -/
theorem foldl_addAt [Zero V] [Add V] (updates : List (Int × V)) :
    ∀ cm : ConcurrentMap V, CMInv cm →
      CMInv (updates.foldl (fun cm u => cm.addAt u.1 u.2) cm) ∧
      (updates.foldl (fun cm u => cm.addAt u.1 u.2) cm).buckets_.length = cm.buckets_.length ∧
      ∀ j, (updates.foldl (fun cm u => cm.addAt u.1 u.2) cm).get j =
        if j ∈ updates.map Prod.fst then
          some (((updates.filter (fun u => decide (u.1 = j))).map Prod.snd).foldl
            (fun acc v => acc + v) ((cm.get j).getD 0))
        else cm.get j := by
  induction updates with
  | nil => intro cm h; exact ⟨h, rfl, fun j => by simp⟩
  | cons u rest ih =>
    intro cm h
    obtain ⟨a1, a2, a3⟩ := ih (cm.addAt u.1 u.2) (h.addAt u.1 u.2)
    refine ⟨a1, ?_, ?_⟩
    · rw [List.foldl_cons, a2, length_addAt]
    · intro j
      rw [List.foldl_cons, a3 j, get_addAt h]
      by_cases hj : j = u.1
      · subst hj
        simp only [List.map_cons, List.mem_cons, true_or, if_true, decide_True,
          List.filter_cons_of_pos, List.foldl_cons, Option.getD_some]
        split_ifs with hmem
        · rfl
        · have hnil : rest.filter (fun v => decide (v.1 = u.1)) = [] := by
            rw [List.filter_eq_nil_iff]
            intro v hv hv1
            exact hmem (List.mem_map.2 ⟨v, hv, by simpa using hv1⟩)
          rw [hnil]
          rfl
      · have hne : ¬ u.1 = j := fun h => hj h.symm
        simp only [List.map_cons, List.mem_cons, hj, false_or, if_false]
        rw [List.filter_cons_of_neg (by simpa using hne)]

/-- C33: for every bucket count `B > 0` and every finite sequence of updates
`map[k].ref_to_value += v` (negative keys included), `BuildOrdinaryMap` returns a well-formed
ordered map whose key set is exactly the set of updated keys, each mapped to the sum of its
updates starting from 0; the result is the same for every other bucket count `B2 > 0`; and every
updated key lives in exactly one bucket, the bucket `static_cast<size_t>(k) % B`. -/
theorem C33_BuildOrdinaryMap_sums_updates [Zero V] [Add V] (bucket_count : Nat)
    (hB : 0 < bucket_count) (updates : List (Int × V)) :
    OrdMap.WF (afterUpdates bucket_count updates).BuildOrdinaryMap ∧
    (∀ k, k ∈ OrdMap.keys (afterUpdates bucket_count updates).BuildOrdinaryMap ↔
      k ∈ updates.map Prod.fst) ∧
    (∀ k ∈ updates.map Prod.fst,
      OrdMap.lookup k (afterUpdates bucket_count updates).BuildOrdinaryMap =
        some (sumOfUpdates k updates)) ∧
    (∀ B2, 0 < B2 →
      (afterUpdates B2 updates).BuildOrdinaryMap =
        (afterUpdates bucket_count updates).BuildOrdinaryMap) ∧
    (∀ k ∈ updates.map Prod.fst, ∀ (i : Nat) (b : OrdMap Int V),
      (afterUpdates bucket_count updates).buckets_[i]? = some b →
        (k ∈ OrdMap.keys b ↔ i = castSizeT k % bucket_count)) := by
  have hget : ∀ B, 0 < B → ∀ j,
      OrdMap.WF (afterUpdates B updates : ConcurrentMap V).BuildOrdinaryMap ∧
      OrdMap.lookup j (afterUpdates B updates : ConcurrentMap V).BuildOrdinaryMap =
        if j ∈ updates.map Prod.fst then some (sumOfUpdates j updates) else none := by
    intro B hB j
    obtain ⟨a1, _, a3⟩ := foldl_addAt updates (ConcurrentMap.new B) (CMInv_new B hB)
    have hb := lookup_BuildOrdinaryMap
      (show CMInv (afterUpdates B updates : ConcurrentMap V) from a1) j
    refine ⟨hb.1, ?_⟩
    rw [hb.2]
    show (updates.foldl (fun cm u => cm.addAt u.1 u.2) (ConcurrentMap.new B)).get j = _
    rw [a3 j, get_new]
    rfl
  obtain ⟨a1, a2, a3⟩ := foldl_addAt updates (ConcurrentMap.new bucket_count : ConcurrentMap V)
    (CMInv_new bucket_count hB)
  have hlen : (afterUpdates bucket_count updates : ConcurrentMap V).buckets_.length =
      bucket_count := by
    unfold afterUpdates
    rw [a2]
    simp [ConcurrentMap.new]
  refine ⟨(hget bucket_count hB 0).1, ?_, ?_, ?_, ?_⟩
  · intro k
    rw [← OrdMap.lookup_isSome_iff, (hget bucket_count hB k).2]
    split_ifs with h <;> simp [h]
  · intro k hk
    rw [(hget bucket_count hB k).2, if_pos hk]
  · intro B2 hB2
    apply OrdMap.ext_lookup (hget B2 hB2 0).1 (hget bucket_count hB 0).1
    intro j
    rw [(hget B2 hB2 j).2, (hget bucket_count hB j).2]
  · intro k hk i b hb
    constructor
    · intro hkb
      have := (show CMInv (afterUpdates bucket_count updates : ConcurrentMap V) from a1).home
        i b hb k hkb
      rw [hlen] at this
      exact this.symm
    · intro hi
      have hg := a3 k
      rw [if_pos hk] at hg
      have hg2 : (afterUpdates bucket_count updates : ConcurrentMap V).get k ≠ none := by
        show (updates.foldl (fun cm u => cm.addAt u.1 u.2)
          (ConcurrentMap.new bucket_count)).get k ≠ none
        rw [hg]
        simp
      unfold ConcurrentMap.get at hg2
      rw [hlen, ← hi, hb, Option.some_bind] at hg2
      rw [← OrdMap.lookup_isSome_iff]
      exact Option.ne_none_iff_isSome.1 hg2

/-- Witness of C33: three updates, two of them of the key -1, with 3 buckets and with 100. -/
theorem C33_BuildOrdinaryMap_sums_updates_witness :
    0 < 3 ∧
      (afterUpdates 3 [(-1, 2), (4, 1), (-1, 5)] : ConcurrentMap Int).BuildOrdinaryMap =
        [(-1, 7), (4, 1)] ∧
      OrdMap.lookup (-1)
          (afterUpdates 3 [(-1, 2), (4, 1), (-1, 5)] : ConcurrentMap Int).BuildOrdinaryMap =
        some (sumOfUpdates (-1) [(-1, 2), (4, 1), (-1, 5)]) ∧
      (afterUpdates 100 [(-1, 2), (4, 1), (-1, 5)] : ConcurrentMap Int).BuildOrdinaryMap =
        (afterUpdates 3 [(-1, 2), (4, 1), (-1, 5)] : ConcurrentMap Int).BuildOrdinaryMap :=
  ⟨by decide, by decide,
    (C33_BuildOrdinaryMap_sums_updates 3 (by decide) [(-1, 2), (4, 1), (-1, 5)]).2.2.1 (-1)
      (by decide),
    (C33_BuildOrdinaryMap_sums_updates 3 (by decide) [(-1, 2), (4, 1), (-1, 5)]).2.2.2.1 100
      (by decide)⟩

end ConcurrentMap
end SearchEngine

/-! ## Claim C34: the posting map of a word whose inverse document frequency is computed -/

namespace SearchEngine
namespace SearchServer
variable {F : Type} [LinearOrderedField F]

/-- A state reached without the parallel removal is reachable. -/
theorem ReachableSeq.reachable {s : SearchServer F} (h : ReachableSeq s) : Reachable s := by
  induction h with
  | init stop_words s h => exact Reachable.init stop_words s h
  | add s s1 d text st r _ h ih => exact Reachable.add s s1 d text st r ih h
  | remove s s1 d _ h ih => exact Reachable.remove s s1 d ih h

/-- A successful `AddDocument` creates no empty posting map. -/
theorem AddDocument_no_empty_postings {s s1 : SearchServer F} (hs : Inv s) {d : Int}
    {text : List Char} {st : DocumentStatus} {r : List Int}
    (hadd : s.AddDocument d text st r = (.ok (), s1))
    (h : ∀ w p, OrdMap.lookup w s.word_to_document_freqs_ = some p → p ≠ []) :
    ∀ w p, OrdMap.lookup w s1.word_to_document_freqs_ = some p → p ≠ [] := by
  intro w p hp
  obtain ⟨a1, a2, a3, _, a5, _⟩ := AddDocument_ok_frame hadd
  obtain ⟨_, _, _, _, _, b6⟩ := AddDocument_effect s hs d text st r a1 a2 a3
  rw [hadd] at b6
  by_cases hw : w ∈ (SplitIntoWords text).filter (fun w => !s.IsStopWord w)
  · have := b6 w d
    rw [if_pos rfl, if_pos hw] at this
    unfold tfW at this
    rw [hp, Option.some_bind] at this
    intro hnil
    rw [hnil] at this
    cases this
  · rw [a5 w hw] at hp
    exact h w p hp

omit [LinearOrderedField F] in
/-- The sequential `RemoveDocument` leaves no empty posting map. -/
theorem Inv.RemoveDocument_no_empty_postings {s : SearchServer F} (hs : Inv s) (d : Int)
    (h : ∀ w p, OrdMap.lookup w s.word_to_document_freqs_ = some p → p ≠ []) :
    ∀ w p, OrdMap.lookup w (s.RemoveDocument d).2.word_to_document_freqs_ = some p → p ≠ [] := by
  intro w p hp
  cases hdoc : OrdMap.lookup d s.document_to_words_freqs_ with
  | none =>
    rw [(RemoveDocument_of_no_entry s d hdoc).1] at hp
    exact h w p hp
  | some doc =>
    rw [hs.RemoveDocument_eq hdoc] at hp
    have hseq := removeWordsLoop_lookup d doc _ hs.index.w2d_wf
      (OrdMap.keys_nodup (hs.index.d2w_inner _ _ hdoc)) (hs.words_have_entries hdoc) w
    replace hp : OrdMap.lookup w (removeWordsLoop d doc s.word_to_document_freqs_).2 = some p :=
      hp
    rw [hseq] at hp
    by_cases hk : w ∈ OrdMap.keys doc
    · rw [if_pos hk] at hp
      cases hq : OrdMap.lookup w s.word_to_document_freqs_ with
      | none => rw [hq] at hp; cases hp
      | some q =>
        rw [hq, Option.some_bind] at hp
        split_ifs at hp with hlen
        simp only [Option.some.injEq] at hp
        subst hp
        obtain ⟨e, he, rfl⟩ := List.mem_map.1 hk
        have hpost := hs.words_have_postings hdoc e he
        rw [hq, Option.some_bind] at hpost
        have hmem : d ∈ OrdMap.keys q := by
          rw [← OrdMap.lookup_isSome_iff]
          exact Option.ne_none_iff_isSome.1 hpost
        intro hnil
        exact hlen ((length_eq_one_iff_erase (hs.index.w2d_inner _ _ hq) hmem).2 hnil)
    · rw [if_neg hk] at hp
      exact h w p hp

/-- In a state reached without the parallel removal no word has an empty posting map. -/
theorem ReachableSeq.no_empty_postings {s : SearchServer F} (h : ReachableSeq s) :
    ∀ w p, OrdMap.lookup w s.word_to_document_freqs_ = some p → p ≠ [] := by
  induction h with
  | init stop_words s h =>
    intro w p hp
    unfold SearchServer.new at h
    split_ifs at h
    simp only [Except.ok.injEq] at h
    subst h
    simp at hp
  | add s s1 d text st r hs h ih => exact AddDocument_no_empty_postings hs.reachable.inv h ih
  | remove s s1 d hs h ih =>
    have := hs.reachable.inv.RemoveDocument_no_empty_postings d ih
    rw [h] at this
    exact this

end SearchServer
end SearchEngine

namespace SearchEngine
namespace SearchServer
variable {F : Type} [LinearOrderedField F]

/-- C34 fails after a parallel removal.  In the state left by the parallel `RemoveDocument` of the
one document "a" the word "a" keeps an entry with an empty posting map; the query "a" parses to
the plus-word "a"; the loop of `FindAllDocuments` over the plus-words finds `count("a") != 0` and
so continues with the value of `ComputeWordInverseDocumentFreq("a")`, which is the logarithm of
the quotient of the document count 0 by the size 0 of the posting map. -/
theorem C34_counterexample :
    Reachable (afterParRemovalFixture ℚ) ∧
    (afterParRemovalFixture ℚ).ParseQuery "a".toList = .ok ⟨["a".toList], []⟩ ∧
    OrdMap.lookup "a".toList (afterParRemovalFixture ℚ).word_to_document_freqs_ = some [] ∧
    (∀ (ln : ℚ → ℚ) (P : Int → DocumentStatus → Int → Bool) (cm : ConcurrentMap ℚ),
      scorePlusWords (afterParRemovalFixture ℚ) ln P ["a".toList] cm =
        match (afterParRemovalFixture ℚ).ComputeWordInverseDocumentFreq ln "a".toList with
        | .error e => .error e
        | .ok inverse_document_freq =>
          match scorePostings (afterParRemovalFixture ℚ) P inverse_document_freq [] cm with
          | .error e => .error e
          | .ok next => .ok next) ∧
    (∀ ln : ℚ → ℚ,
      (afterParRemovalFixture ℚ).ComputeWordInverseDocumentFreq ln "a".toList =
        .ok (ln (((0 : Int) : ℚ) * 1 / (([] : OrdMap Int ℚ).length : ℚ)))) ∧
    (([] : OrdMap Int ℚ).length : ℚ) = 0 :=
  ⟨reachable_afterParRemovalFixture, rfl, rfl, fun _ _ _ => rfl, fun _ => rfl, by simp⟩

/-- C34 as amended: in every state reached by `AddDocument` and the sequential `RemoveDocument`,
every word that has an entry in `word_to_document_freqs_` (the words for which `FindAllDocuments`
calls `ComputeWordInverseDocumentFreq`) has a non-empty posting map, so the call returns the
logarithm of a quotient whose divisor is not zero. -/
theorem C34_postings_nonempty_without_parallel_removal (s : SearchServer F)
    (hs : ReachableSeq s) (ln : F → F) (word : Word) (freqs : OrdMap Int F)
    (hw : OrdMap.lookup word s.word_to_document_freqs_ = some freqs) :
    freqs ≠ [] ∧ ((freqs.length : Nat) : F) ≠ 0 ∧
    s.ComputeWordInverseDocumentFreq ln word =
      .ok (ln ((s.GetDocumentCount : F) * 1 / (freqs.length : F))) := by
  have hne := hs.no_empty_postings word freqs hw
  refine ⟨hne, ?_, ?_⟩
  · rw [Nat.cast_ne_zero]
    intro h
    exact hne (List.length_eq_zero.1 h)
  · simp only [ComputeWordInverseDocumentFreq, hw]

/-- Witness of C34 as amended: the word "a" on the server that holds the one document "a". -/
theorem C34_postings_nonempty_without_parallel_removal_witness :
    ReachableSeq (oneWordFixture ℚ) ∧
      OrdMap.lookup "a".toList (oneWordFixture ℚ).word_to_document_freqs_ =
        some [(1, 0 + 1 / ((1 : Nat) : ℚ))] ∧
      [((1 : Int), (0 + 1 / ((1 : Nat) : ℚ) : ℚ))] ≠ [] :=
  ⟨ReachableSeq.add _ _ 1 "a".toList DocumentStatus.ACTUAL [] (ReachableSeq.init [] _ rfl) rfl,
    rfl,
    (C34_postings_nonempty_without_parallel_removal (oneWordFixture ℚ)
      (ReachableSeq.add _ _ 1 "a".toList DocumentStatus.ACTUAL [] (ReachableSeq.init [] _ rfl)
        rfl)
      (fun x => x) "a".toList [(1, 0 + 1 / ((1 : Nat) : ℚ))] rfl).1⟩

end SearchServer
end SearchEngine

/-! ## Dropping the empty posting maps -/

namespace SearchEngine
namespace SearchServer
variable {F : Type}

/-- Reading `word_to_document_freqs_` after the empty posting maps were dropped. -/
theorem Inv.lookup_dropEmptyPostings {s : SearchServer F} (hs : Inv s) (w : Word) :
    OrdMap.lookup w s.dropEmptyPostings.word_to_document_freqs_ =
      (OrdMap.lookup w s.word_to_document_freqs_).bind
        (fun p => if p.isEmpty then none else some p) := by
  unfold SearchServer.dropEmptyPostings
  simp only
  rw [OrdMap.lookup_filter _ hs.index.w2d_wf]
  cases OrdMap.lookup w s.word_to_document_freqs_ with
  | none => rfl
  | some p =>
    cases p with
    | nil => rfl
    | cons e rest => rfl

/-- Dropping the empty posting maps changes no recorded term frequency. -/
theorem Inv.tfW_dropEmptyPostings {s : SearchServer F} (hs : Inv s) (w : Word) (d : Int) :
    s.dropEmptyPostings.tfW w d = s.tfW w d := by
  unfold tfW
  rw [hs.lookup_dropEmptyPostings]
  cases OrdMap.lookup w s.word_to_document_freqs_ with
  | none => rfl
  | some p =>
    cases p with
    | nil => rfl
    | cons e rest => rfl

/-- Dropping the empty posting maps keeps the invariant. -/
theorem Inv.dropEmptyPostings {s : SearchServer F} (hs : Inv s) : Inv s.dropEmptyPostings := by
  refine ⟨⟨?_, ?_, hs.index.d2w_wf, hs.index.d2w_inner, ?_, hs.index.no_stop,
    hs.index.d2w_nonempty⟩, hs.docs_wf, hs.ids_eq, hs.d2w_docs⟩
  · exact OrdMap.WF.filter _ hs.index.w2d_wf
  · intro w p hp
    rw [hs.lookup_dropEmptyPostings] at hp
    cases hq : OrdMap.lookup w s.word_to_document_freqs_ with
    | none => rw [hq] at hp; cases hp
    | some q =>
      rw [hq, Option.some_bind] at hp
      split_ifs at hp
      cases hp
      exact hs.index.w2d_inner _ _ hq
  · intro w d
    rw [hs.tfW_dropEmptyPostings]
    exact hs.index.transpose w d

end SearchServer
end SearchEngine

/-! ## Claim C35: empty posting maps are not observable -/

namespace SearchEngine
namespace SearchServer
variable {F : Type} [LinearOrderedField F]

/-- The loop over the postings of a word reads only the metadata map of the server. -/
theorem scorePostings_congr (s t : SearchServer F) (h : s.documents_ = t.documents_)
    (P : Int → DocumentStatus → Int → Bool) (idf : F) :
    ∀ (postings : List (Int × F)) (cm : ConcurrentMap F),
      scorePostings s P idf postings cm = scorePostings t P idf postings cm := by
  intro postings
  induction postings with
  | nil => intro cm; rfl
  | cons e rest ih =>
    intro cm
    simp only [scorePostings, h, ih]

omit [LinearOrderedField F] in
/-- The final loop of `FindAllDocuments` reads only the metadata map of the server. -/
theorem collectDocuments_congr (s t : SearchServer F) (h : s.documents_ = t.documents_) :
    ∀ l : List (Int × F), collectDocuments s l = collectDocuments t l := by
  intro l
  induction l with
  | nil => rfl
  | cons e rest ih => simp only [collectDocuments, h, ih]

/-- The loop over the plus-words does the same with and without the empty posting maps. -/
theorem Inv.scorePlusWords_dropEmptyPostings {s : SearchServer F} (hs : Inv s) (ln : F → F)
    (P : Int → DocumentStatus → Int → Bool) :
    ∀ (words : List Word) (cm : ConcurrentMap F),
      scorePlusWords s.dropEmptyPostings ln P words cm = scorePlusWords s ln P words cm := by
  intro words
  induction words with
  | nil => intro cm; rfl
  | cons w rest ih =>
    intro cm
    have hl := hs.lookup_dropEmptyPostings w
    cases hq : OrdMap.lookup w s.word_to_document_freqs_ with
    | none =>
      rw [hq] at hl
      simp only [scorePlusWords, hl, hq, Option.none_bind, ih]
    | some p =>
      rw [hq] at hl
      cases p with
      | nil =>
        have hl1 : OrdMap.lookup w s.dropEmptyPostings.word_to_document_freqs_ = none := hl
        simp only [scorePlusWords, hl1, hq, ComputeWordInverseDocumentFreq, scorePostings, ih]
      | cons e p1 =>
        have hl1 : OrdMap.lookup w s.dropEmptyPostings.word_to_document_freqs_ =
            some (e :: p1) := hl
        simp only [scorePlusWords, hl1, hq, ComputeWordInverseDocumentFreq]
        rw [scorePostings_congr s.dropEmptyPostings s rfl]
        have hN : s.dropEmptyPostings.GetDocumentCount = s.GetDocumentCount := rfl
        rw [hN]
        cases scorePostings s P (ln ((s.GetDocumentCount : F) * 1 / ((e :: p1).length : F)))
          (e :: p1) cm with
        | error err => rfl
        | ok next => exact ih next

omit [LinearOrderedField F] in
/-- The loop over the minus-words does the same with and without the empty posting maps. -/
theorem Inv.eraseMinusWords_dropEmptyPostings {s : SearchServer F} (hs : Inv s) :
    ∀ (words : List Word) (m : OrdMap Int F),
      eraseMinusWords s.dropEmptyPostings words m = eraseMinusWords s words m := by
  intro words
  induction words with
  | nil => intro m; rfl
  | cons w rest ih =>
    intro m
    have hl := hs.lookup_dropEmptyPostings w
    cases hq : OrdMap.lookup w s.word_to_document_freqs_ with
    | none =>
      rw [hq] at hl
      simp only [eraseMinusWords, hl, hq, Option.none_bind, ih]
    | some p =>
      rw [hq] at hl
      cases p with
      | nil =>
        have hl1 : OrdMap.lookup w s.dropEmptyPostings.word_to_document_freqs_ = none := hl
        simp only [eraseMinusWords, hl1, hq, List.foldl_nil, ih]
      | cons e p1 =>
        have hl1 : OrdMap.lookup w s.dropEmptyPostings.word_to_document_freqs_ =
            some (e :: p1) := hl
        simp only [eraseMinusWords, hl1, hq, ih]

/-- `FindTopDocuments` returns the same with and without the empty posting maps. -/
theorem Inv.FindTopDocuments_dropEmptyPostings {s : SearchServer F} (hs : Inv s) (ln : F → F)
    (raw_query : List Char) (P : Int → DocumentStatus → Int → Bool) :
    s.dropEmptyPostings.FindTopDocuments ln raw_query P = s.FindTopDocuments ln raw_query P := by
  have hall : ∀ query, s.dropEmptyPostings.FindAllDocuments ln query P =
      s.FindAllDocuments ln query P := by
    intro query
    unfold FindAllDocuments
    rw [hs.scorePlusWords_dropEmptyPostings]
    cases scorePlusWords s ln P query.plus_words (ConcurrentMap.new 6) with
    | error e => rfl
    | ok cm =>
      simp only [hs.eraseMinusWords_dropEmptyPostings]
      exact collectDocuments_congr s.dropEmptyPostings s rfl _
  unfold FindTopDocuments
  rw [ParseQuery_congr s.dropEmptyPostings s rfl raw_query]
  cases s.ParseQuery raw_query with
  | error e => rfl
  | ok query => simp only [hall]

omit [LinearOrderedField F] in
/-- `IsWordFound` answers the same with and without the empty posting maps. -/
theorem Inv.IsWordFound_dropEmptyPostings {s : SearchServer F} (hs : Inv s) (w : Word)
    (d : Int) : s.dropEmptyPostings.IsWordFound w d = s.IsWordFound w d := by
  unfold IsWordFound
  rw [hs.lookup_dropEmptyPostings]
  cases OrdMap.lookup w s.word_to_document_freqs_ with
  | none => rfl
  | some p =>
    cases p with
    | nil => rfl
    | cons e rest => rfl

omit [LinearOrderedField F] in
/-- Both variants of `MatchDocument` return the same with and without the empty posting maps. -/
theorem Inv.MatchDocument_dropEmptyPostings {s : SearchServer F} (hs : Inv s)
    (raw_query : List Char) (d : Int) :
    s.dropEmptyPostings.MatchDocument raw_query d = s.MatchDocument raw_query d ∧
    s.dropEmptyPostings.MatchDocumentPar raw_query d = s.MatchDocumentPar raw_query d := by
  have hfound : (fun word => s.dropEmptyPostings.IsWordFound word d) =
      (fun word => s.IsWordFound word d) := by
    funext word
    exact hs.IsWordFound_dropEmptyPostings word d
  have hstatus : s.dropEmptyPostings.statusAt d = s.statusAt d := rfl
  unfold MatchDocument MatchDocumentPar
  rw [ParseQuery_congr s.dropEmptyPostings s rfl raw_query]
  cases s.ParseQuery raw_query with
  | error e => exact ⟨rfl, rfl⟩
  | ok query => simp only [hfound, hstatus, and_self]

end SearchServer
end SearchEngine

namespace SearchEngine
namespace SearchServer
variable {F : Type}

/-- Reading a well-formed map of posting maps after the empty ones were dropped. -/
theorem lookup_filter_nonempty {m : OrdMap Word (OrdMap Int F)} (hm : OrdMap.WF m) (w : Word) :
    OrdMap.lookup w (m.filter (fun e => !e.2.isEmpty)) =
      (OrdMap.lookup w m).bind (fun p => if p.isEmpty then none else some p) := by
  rw [OrdMap.lookup_filter _ hm]
  cases OrdMap.lookup w m with
  | none => rfl
  | some p =>
    cases p with
    | nil => rfl
    | cons e rest => rfl

/-- The sequential `RemoveDocument` on the server without its empty posting maps leaves the
server that the call leaves on the full server, without its empty posting maps. -/
theorem Inv.RemoveDocument_dropEmptyPostings {s : SearchServer F} (hs : Inv s) (d : Int) :
    s.dropEmptyPostings.RemoveDocument d = (.ok (), (s.RemoveDocument d).2.dropEmptyPostings) := by
  cases hdoc : OrdMap.lookup d s.document_to_words_freqs_ with
  | none =>
    rw [(RemoveDocument_of_no_entry s d hdoc).1]
    exact (RemoveDocument_of_no_entry s.dropEmptyPostings d hdoc).1
  | some doc =>
    have hdoc1 : OrdMap.lookup d s.dropEmptyPostings.document_to_words_freqs_ = some doc := hdoc
    have hnd := OrdMap.keys_nodup (hs.index.d2w_inner _ _ hdoc)
    obtain ⟨w2d1, e1, e2, _⟩ := removeWordsLoop_spec d doc s.word_to_document_freqs_
      hs.index.w2d_wf hs.index.w2d_inner hnd (hs.words_have_postings hdoc)
    obtain ⟨w2d2, f1, f2, _⟩ := removeWordsLoop_spec d doc
      s.dropEmptyPostings.word_to_document_freqs_
      hs.dropEmptyPostings.index.w2d_wf hs.dropEmptyPostings.index.w2d_inner hnd
      (hs.dropEmptyPostings.words_have_postings hdoc1)
    have hseq := removeWordsLoop_lookup d doc _ hs.index.w2d_wf hnd (hs.words_have_entries hdoc)
    have hseq1 := removeWordsLoop_lookup d doc _ hs.dropEmptyPostings.index.w2d_wf hnd
      (hs.dropEmptyPostings.words_have_entries hdoc1)
    rw [e1] at hseq
    rw [f1] at hseq1
    have heq : w2d2 = w2d1.filter (fun e => !e.2.isEmpty) := by
      apply OrdMap.ext_lookup f2 (OrdMap.WF.filter _ e2)
      intro w
      rw [lookup_filter_nonempty e2, hseq1 w, hseq w, hs.lookup_dropEmptyPostings]
      by_cases hk : w ∈ OrdMap.keys doc
      · simp only [hk, if_true]
        obtain ⟨e, he, rfl⟩ := List.mem_map.1 hk
        have hpost := hs.words_have_postings hdoc e he
        cases hq : OrdMap.lookup e.1 s.word_to_document_freqs_ with
        | none => rfl
        | some q =>
          rw [hq, Option.some_bind] at hpost
          have hmem : d ∈ OrdMap.keys q := by
            rw [← OrdMap.lookup_isSome_iff]
            exact Option.ne_none_iff_isSome.1 hpost
          have hq0 : q.isEmpty = false := by
            cases q with
            | nil => cases hmem
            | cons _ _ => rfl
          simp only [Option.some_bind, hq0, Bool.false_eq_true, if_false]
          by_cases hlen : q.length = 1
          · simp only [hlen, if_true, Option.none_bind]
          · have hne : OrdMap.erase d q ≠ [] := fun h =>
              hlen ((length_eq_one_iff_erase (hs.index.w2d_inner _ _ hq) hmem).2 h)
            have hne0 : (OrdMap.erase d q).isEmpty = false := by
              cases hx : OrdMap.erase d q with
              | nil => exact absurd hx hne
              | cons _ _ => rfl
            simp only [hlen, if_false, Option.some_bind, hne0, Bool.false_eq_true]
      · simp only [hk, if_false]
    rw [hs.RemoveDocument_eq hdoc, hs.dropEmptyPostings.RemoveDocument_eq hdoc1, e1, f1]
    simp only [heq]
    rfl

/-- The loop of `RemoveDuplicates` on the server without its empty posting maps: same outcome,
same reported ids, and the server it leaves is the one left on the full server, without its empty
posting maps. -/
theorem removeDuplicatesLoop_dropEmptyPostings (rest : List Int) :
    ∀ (U : List (List Word)) (t : SearchServer F) (R : List Int), Inv t →
      removeDuplicatesLoop rest U t.dropEmptyPostings R =
        ((removeDuplicatesLoop rest U t R).1,
          (removeDuplicatesLoop rest U t R).2.1.dropEmptyPostings,
          (removeDuplicatesLoop rest U t R).2.2) := by
  induction rest with
  | nil => intro U t R _; rfl
  | cons id rest ih =>
    intro U t R ht
    rw [removeDuplicatesLoop_cons ht, removeDuplicatesLoop_cons ht.dropEmptyPostings]
    have hg : t.dropEmptyPostings.GetWordFrequencies id = t.GetWordFrequencies id := rfl
    rw [hg]
    by_cases hU : OrdMap.keys (t.GetWordFrequencies id) ∈ U
    · rw [if_pos hU, if_pos hU, ht.RemoveDocument_dropEmptyPostings id]
      exact ih U _ _ (ht.RemoveDocument_ok id).2
    · rw [if_neg hU, if_neg hU]
      exact ih _ t R ht

/-- After the parallel and after the sequential `RemoveDocument` the servers are the same once
the empty posting maps are dropped. -/
theorem Inv.RemoveDocumentPar_dropEmptyPostings {s : SearchServer F} (hs : Inv s) (d : Int) :
    (s.RemoveDocumentPar d).2.dropEmptyPostings = (s.RemoveDocument d).2.dropEmptyPostings := by
  cases hdoc : OrdMap.lookup d s.document_to_words_freqs_ with
  | none =>
    rw [(RemoveDocument_of_no_entry s d hdoc).1, (RemoveDocument_of_no_entry s d hdoc).2]
  | some doc =>
    have hnd := OrdMap.keys_nodup (hs.index.d2w_inner _ _ hdoc)
    obtain ⟨w2d1, e1, e2, _⟩ := removeWordsLoop_spec d doc s.word_to_document_freqs_
      hs.index.w2d_wf hs.index.w2d_inner hnd (hs.words_have_postings hdoc)
    obtain ⟨w2d2, f1, f2, _⟩ := removeWordsLoopPar_spec d doc s.word_to_document_freqs_
      hs.index.w2d_wf hs.index.w2d_inner (hs.words_have_entries hdoc)
    have hseq := removeWordsLoop_lookup d doc _ hs.index.w2d_wf hnd (hs.words_have_entries hdoc)
    have hpar := removeWordsLoopPar_lookup d doc _ hs.index.w2d_wf hnd
      (hs.words_have_entries hdoc)
    rw [e1] at hseq
    rw [f1] at hpar
    have heq : w2d2.filter (fun e => !e.2.isEmpty) = w2d1.filter (fun e => !e.2.isEmpty) := by
      apply OrdMap.ext_lookup (OrdMap.WF.filter _ f2) (OrdMap.WF.filter _ e2)
      intro w
      rw [lookup_filter_nonempty e2, lookup_filter_nonempty f2, hseq w, hpar w]
      by_cases hk : w ∈ OrdMap.keys doc
      · simp only [hk, if_true]
        obtain ⟨e, he, rfl⟩ := List.mem_map.1 hk
        have hpost := hs.words_have_postings hdoc e he
        cases hq : OrdMap.lookup e.1 s.word_to_document_freqs_ with
        | none => rfl
        | some q =>
          rw [hq, Option.some_bind] at hpost
          have hmem : d ∈ OrdMap.keys q := by
            rw [← OrdMap.lookup_isSome_iff]
            exact Option.ne_none_iff_isSome.1 hpost
          have hiff := length_eq_one_iff_erase (hs.index.w2d_inner _ _ hq) hmem
          simp only [Option.map_some', Option.some_bind]
          by_cases hlen : q.length = 1
          · simp only [hlen, if_true, Option.none_bind, hiff.1 hlen, List.isEmpty_nil]
          · have hne0 : (OrdMap.erase d q).isEmpty = false := by
              cases hx : OrdMap.erase d q with
              | nil => exact absurd (hiff.2 hx) hlen
              | cons _ _ => rfl
            simp only [hlen, if_false, Option.some_bind, hne0, Bool.false_eq_true]
      · simp only [hk, if_false]
    rw [hs.RemoveDocument_eq hdoc, hs.RemoveDocumentPar_eq hdoc, e1, f1]
    unfold SearchServer.dropEmptyPostings
    simp only [heq]

end SearchServer
end SearchEngine

namespace SearchEngine
namespace SearchServer
variable {F : Type} [LinearOrderedField F]

/-- C35: empty posting maps are unobservable.  In every reachable state, deleting from
`word_to_document_freqs_` all words whose posting map is empty changes no result of
`FindTopDocuments`, of `MatchDocument` (either variant), of `GetWordFrequencies` or of
`GetDocumentCount`, and `RemoveDuplicates` has the same outcome, reports the same ids and leaves
the same server up to empty posting maps; hence after the parallel `RemoveDocument(d)` and after
the sequential `RemoveDocument(d)` each of these queries returns the same result. -/
theorem C35_empty_postings_unobservable (s : SearchServer F) (hs : Reachable s) :
    ((∀ (ln : F → F) (raw_query : List Char) (P : Int → DocumentStatus → Int → Bool),
        s.dropEmptyPostings.FindTopDocuments ln raw_query P =
          s.FindTopDocuments ln raw_query P) ∧
      (∀ (raw_query : List Char) (e : Int),
        s.dropEmptyPostings.MatchDocument raw_query e = s.MatchDocument raw_query e ∧
        s.dropEmptyPostings.MatchDocumentPar raw_query e = s.MatchDocumentPar raw_query e) ∧
      (∀ e, s.dropEmptyPostings.GetWordFrequencies e = s.GetWordFrequencies e) ∧
      s.dropEmptyPostings.GetDocumentCount = s.GetDocumentCount ∧
      RemoveDuplicates s.dropEmptyPostings =
        ((RemoveDuplicates s).1, (RemoveDuplicates s).2.1.dropEmptyPostings,
          (RemoveDuplicates s).2.2)) ∧
    ∀ d : Int,
      (∀ (ln : F → F) (raw_query : List Char) (P : Int → DocumentStatus → Int → Bool),
        (s.RemoveDocumentPar d).2.FindTopDocuments ln raw_query P =
          (s.RemoveDocument d).2.FindTopDocuments ln raw_query P) ∧
      (∀ (raw_query : List Char) (e : Int),
        (s.RemoveDocumentPar d).2.MatchDocument raw_query e =
          (s.RemoveDocument d).2.MatchDocument raw_query e ∧
        (s.RemoveDocumentPar d).2.MatchDocumentPar raw_query e =
          (s.RemoveDocument d).2.MatchDocumentPar raw_query e) ∧
      (∀ e, (s.RemoveDocumentPar d).2.GetWordFrequencies e =
        (s.RemoveDocument d).2.GetWordFrequencies e) ∧
      (s.RemoveDocumentPar d).2.GetDocumentCount = (s.RemoveDocument d).2.GetDocumentCount ∧
      (RemoveDuplicates (s.RemoveDocumentPar d).2).1 =
        (RemoveDuplicates (s.RemoveDocument d).2).1 ∧
      (RemoveDuplicates (s.RemoveDocumentPar d).2).2.2 =
        (RemoveDuplicates (s.RemoveDocument d).2).2.2 ∧
      (RemoveDuplicates (s.RemoveDocumentPar d).2).2.1.dropEmptyPostings =
        (RemoveDuplicates (s.RemoveDocument d).2).2.1.dropEmptyPostings := by
  have hinv := hs.inv
  have hdup : ∀ t : SearchServer F, Inv t →
      RemoveDuplicates t.dropEmptyPostings =
        ((RemoveDuplicates t).1, (RemoveDuplicates t).2.1.dropEmptyPostings,
          (RemoveDuplicates t).2.2) :=
    fun t ht => removeDuplicatesLoop_dropEmptyPostings t.document_ids_ [] t [] ht
  refine ⟨⟨fun ln q P => hinv.FindTopDocuments_dropEmptyPostings ln q P,
    fun q e => hinv.MatchDocument_dropEmptyPostings q e, fun _ => rfl, rfl, hdup s hinv⟩, ?_⟩
  intro d
  have hp := (hinv.RemoveDocumentPar_ok d).2
  have hq := (hinv.RemoveDocument_ok d).2
  have heq := hinv.RemoveDocumentPar_dropEmptyPostings d
  have hd1 := hdup _ hp
  have hd2 := hdup _ hq
  rw [heq, hd2] at hd1
  refine ⟨?_, ?_, ?_, ?_, ?_, ?_, ?_⟩
  · intro ln q P
    rw [← hp.FindTopDocuments_dropEmptyPostings, ← hq.FindTopDocuments_dropEmptyPostings, heq]
  · intro q e
    rw [← (hp.MatchDocument_dropEmptyPostings q e).1, ← (hq.MatchDocument_dropEmptyPostings q e).1,
      ← (hp.MatchDocument_dropEmptyPostings q e).2, ← (hq.MatchDocument_dropEmptyPostings q e).2,
      heq]
    exact ⟨rfl, rfl⟩
  · intro e
    show (s.RemoveDocumentPar d).2.dropEmptyPostings.GetWordFrequencies e =
      (s.RemoveDocument d).2.dropEmptyPostings.GetWordFrequencies e
    rw [heq]
  · show (s.RemoveDocumentPar d).2.dropEmptyPostings.GetDocumentCount =
      (s.RemoveDocument d).2.dropEmptyPostings.GetDocumentCount
    rw [heq]
  · exact (congrArg Prod.fst hd1).symm
  · exact (congrArg (fun x => x.2.2) hd1).symm
  · exact (congrArg (fun x => x.2.1) hd1).symm

/-- Witness of C35: the one document "a" and its removal. -/
theorem C35_empty_postings_unobservable_witness :
    Reachable (oneWordFixture ℚ) ∧
      ((oneWordFixture ℚ).RemoveDocumentPar 1).2.word_to_document_freqs_ =
        [("a".toList, [])] ∧
      ((oneWordFixture ℚ).RemoveDocument 1).2.word_to_document_freqs_ = [] ∧
      (∀ (ln : ℚ → ℚ) (raw_query : List Char) (P : Int → DocumentStatus → Int → Bool),
        ((oneWordFixture ℚ).RemoveDocumentPar 1).2.FindTopDocuments ln raw_query P =
          ((oneWordFixture ℚ).RemoveDocument 1).2.FindTopDocuments ln raw_query P) :=
  ⟨reachable_oneWordFixture, rfl, rfl,
    ((C35_empty_postings_unobservable (oneWordFixture ℚ) reachable_oneWordFixture).2 1).1⟩

end SearchServer
end SearchEngine

/-! ## The fixture with six matching documents -/

namespace SearchEngine
namespace SearchServer
variable {F : Type} [LinearOrderedField F]

/-- Adding the text "x c ... c" under a fresh non-negative id succeeds. -/
theorem AddDocument_nearTieText_ok (s : SearchServer F) (hs : Inv s) (d : Int) (n : Nat)
    (st : DocumentStatus) (r : List Int) (h1 : 0 ≤ d)
    (h2 : OrdMap.lookup d s.documents_ = none) :
    (s.AddDocument d (nearTieText n) st r).1 = .ok () := by
  have hvalid : (SplitIntoWords (nearTieText n)).all IsValidWord = true := by
    rw [SplitIntoWords_nearTieText, List.all_eq_true]
    intro w hw
    rcases List.mem_cons.1 hw with hw | hw
    · subst hw; decide
    · rw [List.eq_of_mem_replicate hw]; decide
  exact (AddDocument_effect s hs d (nearTieText n) st r h1 h2 hvalid).1

theorem reachable_nearTieFixture : Reachable (nearTieFixture F) := by
  have a0 : Reachable (emptyServer F) := reachable_emptyServer
  obtain ⟨a1, b1, c1, d1, e1⟩ := AddDocument_nearTieText (emptyServer F) a0.inv rfl 1 632
    DocumentStatus.ACTUAL [3] (by decide) rfl
  have r1 := a0.add_of_ok 1 (nearTieText 632) DocumentStatus.ACTUAL [3]
    (AddDocument_nearTieText_ok _ a0.inv 1 632 _ _ (by decide) rfl)
  obtain ⟨a2, b2, c2, d2, e2⟩ := AddDocument_nearTieText _ a1 b1 2 631
    DocumentStatus.ACTUAL [2] (by decide) (by rw [d1]; rfl)
  have r2 := r1.add_of_ok 2 (nearTieText 631) DocumentStatus.ACTUAL [2]
    (AddDocument_nearTieText_ok _ a1 2 631 _ _ (by decide) (by rw [d1]; rfl))
  obtain ⟨a3, b3, c3, d3, e3⟩ := AddDocument_nearTieText _ a2 b2 3 630
    DocumentStatus.ACTUAL [1] (by decide) (by rw [d2, d1]; rfl)
  have r3 := r2.add_of_ok 3 (nearTieText 630) DocumentStatus.ACTUAL [1]
    (AddDocument_nearTieText_ok _ a2 3 630 _ _ (by decide) (by rw [d2, d1]; rfl))
  have r4 := r3.add_of_ok 4 "y".toList DocumentStatus.ACTUAL [1]
    (AddDocument_effect _ a3 4 "y".toList DocumentStatus.ACTUAL [1] (by decide)
      (by rw [d3, d2, d1]; rfl) (by decide)).1
  rw [nearTieFixture_eq]
  exact r4

theorem topSixFixture_eq :
    topSixFixture F =
      (((((nearTieFixture F).AddDocument 5 (nearTieText 0) DocumentStatus.ACTUAL
        [5]).2.AddDocument 6 (nearTieText 0) DocumentStatus.ACTUAL [5]).2.AddDocument 7
          (nearTieText 0) DocumentStatus.ACTUAL [5]).2.AddDocument 8 "y".toList
            DocumentStatus.ACTUAL [1]).2 := by
  unfold topSixFixture
  rfl

/-- The state of the fixture with six matching documents, as far as the query "x" reads it. -/
theorem topSixFixture_facts :
    Reachable (topSixFixture F) ∧
    (topSixFixture F).stop_words_ = [] ∧
    (topSixFixture F).document_ids_ = [1, 2, 3, 4, 5, 6, 7, 8] ∧
    (topSixFixture F).documents_ =
      [(1, ⟨3, DocumentStatus.ACTUAL⟩), (2, ⟨2, DocumentStatus.ACTUAL⟩),
        (3, ⟨1, DocumentStatus.ACTUAL⟩), (4, ⟨1, DocumentStatus.ACTUAL⟩),
        (5, ⟨5, DocumentStatus.ACTUAL⟩), (6, ⟨5, DocumentStatus.ACTUAL⟩),
        (7, ⟨5, DocumentStatus.ACTUAL⟩), (8, ⟨1, DocumentStatus.ACTUAL⟩)] ∧
    ∀ d1, (topSixFixture F).tfW ['x'] d1 =
      if d1 = 8 then none
      else if d1 = 7 then some (1 / (((0 : Nat) : F) + 1))
      else if d1 = 6 then some (1 / (((0 : Nat) : F) + 1))
      else if d1 = 5 then some (1 / (((0 : Nat) : F) + 1))
      else if d1 = 4 then none
      else if d1 = 3 then some (1 / (((630 : Nat) : F) + 1))
      else if d1 = 2 then some (1 / (((631 : Nat) : F) + 1))
      else if d1 = 1 then some (1 / (((632 : Nat) : F) + 1))
      else none := by
  have r0 : Reachable (nearTieFixture F) := reachable_nearTieFixture
  obtain ⟨a0, b0, c0, d0, e0⟩ := nearTieFixture_facts (F := F)
  obtain ⟨a1, b1, c1, d1, e1⟩ := AddDocument_nearTieText (nearTieFixture F) a0 b0 5 0
    DocumentStatus.ACTUAL [5] (by decide) (by rw [d0]; rfl)
  have r1 := r0.add_of_ok 5 (nearTieText 0) DocumentStatus.ACTUAL [5]
    (AddDocument_nearTieText_ok _ a0 5 0 _ _ (by decide) (by rw [d0]; rfl))
  obtain ⟨a2, b2, c2, d2, e2⟩ := AddDocument_nearTieText _ a1 b1 6 0
    DocumentStatus.ACTUAL [5] (by decide) (by rw [d1, d0]; rfl)
  have r2 := r1.add_of_ok 6 (nearTieText 0) DocumentStatus.ACTUAL [5]
    (AddDocument_nearTieText_ok _ a1 6 0 _ _ (by decide) (by rw [d1, d0]; rfl))
  obtain ⟨a3, b3, c3, d3, e3⟩ := AddDocument_nearTieText _ a2 b2 7 0
    DocumentStatus.ACTUAL [5] (by decide) (by rw [d2, d1, d0]; rfl)
  have r3 := r2.add_of_ok 7 (nearTieText 0) DocumentStatus.ACTUAL [5]
    (AddDocument_nearTieText_ok _ a2 7 0 _ _ (by decide) (by rw [d2, d1, d0]; rfl))
  obtain ⟨h4, a4, b4, c4, d4, e4⟩ := AddDocument_effect _ a3 8 "y".toList
    DocumentStatus.ACTUAL [1] (by decide) (by rw [d3, d2, d1, d0]; rfl) (by decide)
  have r4 := r3.add_of_ok 8 "y".toList DocumentStatus.ACTUAL [1] h4
  rw [topSixFixture_eq]
  refine ⟨r4, ?_, ?_, ?_, ?_⟩
  · exact b4.trans b3
  · refine c4.trans ?_
    rw [c3, c2, c1, c0]
    rfl
  · refine d4.trans ?_
    rw [d3, d2, d1, d0]
    rfl
  · intro j
    refine (e4 ['x'] j).trans ?_
    rw [e3, e2, e1, e0]
    have hx : ['x'] ∉ (SplitIntoWords "y".toList).filter
        (fun w => !((((nearTieFixture F).AddDocument 5 (nearTieText 0) DocumentStatus.ACTUAL
          [5]).2.AddDocument 6 (nearTieText 0) DocumentStatus.ACTUAL [5]).2.AddDocument 7
            (nearTieText 0) DocumentStatus.ACTUAL [5]).2.IsStopWord w) := by
      intro h
      have := (List.mem_filter.1 h).1
      revert this
      decide
    rw [if_neg hx]

end SearchServer
end SearchEngine

namespace SearchEngine
namespace SearchServer

/-- The documents found for "x" in the fixture with six matching documents, before sorting. -/
theorem topSixFixture_found :
    (topSixFixture ℝ).FindAllDocuments Real.log ⟨[['x']], []⟩
        (GetStatusPredicate DocumentStatus.ACTUAL) =
      .ok [⟨1, 1 / 633 * Real.log (4 / 3), 3⟩, ⟨2, 1 / 632 * Real.log (4 / 3), 2⟩,
        ⟨3, 1 / 631 * Real.log (4 / 3), 1⟩, ⟨5, Real.log (4 / 3), 5⟩,
        ⟨6, Real.log (4 / 3), 5⟩, ⟨7, Real.log (4 / 3), 5⟩] := by
  obtain ⟨hreach, hstop, hids, hdocs, htf⟩ := topSixFixture_facts (F := ℝ)
  have hinv := hreach.inv
  obtain ⟨m, hm, hall, hl⟩ := FindAllDocuments_spec (topSixFixture ℝ) hinv Real.log
    ⟨[['x']], []⟩ (GetStatusPredicate DocumentStatus.ACTUAL)
  -- the postings of "x"
  obtain ⟨p, hp⟩ : ∃ p, OrdMap.lookup ['x'] (topSixFixture ℝ).word_to_document_freqs_ =
      some p := by
    have h1 := htf 1
    norm_num at h1
    unfold tfW at h1
    cases hx : OrdMap.lookup ['x'] (topSixFixture ℝ).word_to_document_freqs_ with
    | none => simp [hx] at h1
    | some p => exact ⟨p, rfl⟩
  have hpl : p = [(1, 1 / 633), (2, 1 / 632), (3, 1 / 631), (5, 1), (6, 1), (7, 1)] := by
    apply OrdMap.ext_lookup (hinv.index.w2d_inner _ _ hp)
    · simp [OrdMap.WF]
    · intro j
      have hj := htf j
      simp only [tfW, hp, Option.some_bind] at hj
      rw [hj]
      by_cases h8 : j = 8
      · subst h8; norm_num [OrdMap.lookup]
      by_cases h7 : j = 7
      · subst h7; norm_num [OrdMap.lookup]
      by_cases h6 : j = 6
      · subst h6; norm_num [OrdMap.lookup]
      by_cases h5 : j = 5
      · subst h5; norm_num [OrdMap.lookup]
      by_cases h4 : j = 4
      · subst h4; norm_num [OrdMap.lookup]
      by_cases h3 : j = 3
      · subst h3; norm_num [OrdMap.lookup]
      by_cases h2 : j = 2
      · subst h2; norm_num [OrdMap.lookup]
      by_cases h1 : j = 1
      · subst h1; norm_num [OrdMap.lookup]
      simp [OrdMap.lookup, h1, h2, h3, h4, h5, h6, h7, h8]
  have hidf : (topSixFixture ℝ).idfOf Real.log ['x'] = Real.log (4 / 3) := by
    simp only [idfOf, hp, Option.getD_some, hpl, GetDocumentCount, hdocs]
    norm_num
  have hrel : ∀ j, (topSixFixture ℝ).relevanceOf Real.log [['x']] j =
      ((topSixFixture ℝ).tfW ['x'] j).getD 0 * Real.log (4 / 3) := by
    intro j
    simp [relevanceOf, hidf]
  have hmeq : m = [(1, 1 / 633 * Real.log (4 / 3)), (2, 1 / 632 * Real.log (4 / 3)),
      (3, 1 / 631 * Real.log (4 / 3)), (5, Real.log (4 / 3)), (6, Real.log (4 / 3)),
      (7, Real.log (4 / 3))] := by
    apply OrdMap.ext_lookup hm
    · simp [OrdMap.WF]
    · intro j
      have hkey : OrdMap.lookup j m =
          if (topSixFixture ℝ).docPred (GetStatusPredicate DocumentStatus.ACTUAL) j = true ∧
              (topSixFixture ℝ).tfW ['x'] j ≠ none then
            some (((topSixFixture ℝ).tfW ['x'] j).getD 0 * Real.log (4 / 3))
          else none := by
        rw [hl j, hrel]
        simp only [List.mem_singleton, exists_eq_left, List.not_mem_nil, false_and,
          exists_false, not_false_eq_true, and_true]
      have hpred : ∀ k ∈ [(1 : Int), 2, 3, 5, 6, 7],
          (topSixFixture ℝ).docPred (GetStatusPredicate DocumentStatus.ACTUAL) k = true := by
        intro k hk
        unfold docPred
        rw [hdocs]
        revert k
        decide
      rw [hkey, htf j]
      by_cases h8 : j = 8
      · subst h8; norm_num [OrdMap.lookup]
      by_cases h7 : j = 7
      · subst h7; rw [hpred 7 (by decide)]; norm_num [OrdMap.lookup]; try (intro h; cases h)
      by_cases h6 : j = 6
      · subst h6; rw [hpred 6 (by decide)]; norm_num [OrdMap.lookup]; try (intro h; cases h)
      by_cases h5 : j = 5
      · subst h5; rw [hpred 5 (by decide)]; norm_num [OrdMap.lookup]; try (intro h; cases h)
      by_cases h4 : j = 4
      · subst h4; norm_num [OrdMap.lookup]
      by_cases h3 : j = 3
      · subst h3; rw [hpred 3 (by decide)]; norm_num [OrdMap.lookup]; try (intro h; cases h)
      by_cases h2 : j = 2
      · subst h2; rw [hpred 2 (by decide)]; norm_num [OrdMap.lookup]; try (intro h; cases h)
      by_cases h1 : j = 1
      · subst h1; rw [hpred 1 (by decide)]; norm_num [OrdMap.lookup]; try (intro h; cases h)
      simp [OrdMap.lookup, h1, h2, h3, h4, h5, h6, h7, h8]
  rw [hall, hmeq]
  have t1 : (topSixFixture ℝ).ratingOf 1 = 3 := by unfold ratingOf; rw [hdocs]; rfl
  have t2 : (topSixFixture ℝ).ratingOf 2 = 2 := by unfold ratingOf; rw [hdocs]; rfl
  have t3 : (topSixFixture ℝ).ratingOf 3 = 1 := by unfold ratingOf; rw [hdocs]; rfl
  have t5 : (topSixFixture ℝ).ratingOf 5 = 5 := by unfold ratingOf; rw [hdocs]; rfl
  have t6 : (topSixFixture ℝ).ratingOf 6 = 5 := by unfold ratingOf; rw [hdocs]; rfl
  have t7 : (topSixFixture ℝ).ratingOf 7 = 5 := by unfold ratingOf; rw [hdocs]; rfl
  simp only [List.map_cons, List.map_nil, t1, t2, t3, t5, t6, t7]

end SearchServer
end SearchEngine

/-! ## Claim C31: the five returned documents -/

namespace SearchEngine
namespace SearchServer

/-- The `std::sort` of libstdc++ on six elements compared as the six documents of the fixture
are. -/
theorem Libstdcxx.sort_six {α : Type} (comp : α → α → Bool) (d1 d2 d3 d5 d6 d7 : α)
    (h21 : comp d2 d1 = false) (h31 : comp d3 d1 = true)
    (h53 : comp d5 d3 = true) (h65 : comp d6 d5 = false) (h62 : comp d6 d2 = true)
    (h61 : comp d6 d1 = true) (h63 : comp d6 d3 = true) (h75 : comp d7 d5 = false)
    (h72 : comp d7 d2 = true) (h71 : comp d7 d1 = true) (h73 : comp d7 d3 = true)
    (h76 : comp d7 d6 = false) :
    Libstdcxx.sort comp [d1, d2, d3, d5, d6, d7] = some [d5, d6, d7, d3, d1, d2] := by
  simp [Libstdcxx.sort, Libstdcxx.lg, Libstdcxx.introsort_loop,
    Libstdcxx.final_insertion_sort, Libstdcxx.insertion_sort, Libstdcxx.insertion_sort_loop,
    Libstdcxx.unguarded_linear_insert, h21, h31, h53, h65, h62, h61, h63, h75, h72, h71, h73,
    h76]

/-- C31, the counterexample.  The fixture is reachable and six of its documents match the query
"x": 1, 2 and 3 hold "x" once among 633, 632 and 631 words and are rated 3, 2 and 1, and 5, 6 and 7
are the text "x".  `FindTopDocuments`, sorting with the `std::sort` of libstdc++, returns the
documents 5, 6, 7, 3, 1 and leaves out document 2, whose relevance `ln(4/3)/632` is within `1e-6`
of the relevance `ln(4/3)/631` of the returned document 3 and whose rating 2 is higher than the
rating 1 of document 3, so document 2 strictly precedes document 3 in the sort order.  No other
choice of five would do: each of the six documents strictly precedes another of them. -/
theorem C31_counterexample :
    Reachable (topSixFixture ℝ) ∧
    (topSixFixture ℝ).ParseQuery "x".toList = .ok ⟨[['x']], []⟩ ∧
    (topSixFixture ℝ).FindAllDocuments Real.log ⟨[['x']], []⟩
        (GetStatusPredicate DocumentStatus.ACTUAL) =
      .ok [⟨1, 1 / 633 * Real.log (4 / 3), 3⟩, ⟨2, 1 / 632 * Real.log (4 / 3), 2⟩,
        ⟨3, 1 / 631 * Real.log (4 / 3), 1⟩, ⟨5, Real.log (4 / 3), 5⟩,
        ⟨6, Real.log (4 / 3), 5⟩, ⟨7, Real.log (4 / 3), 5⟩] ∧
    (topSixFixture ℝ).FindTopDocumentsLibstdcxx Real.log "x".toList
        (GetStatusPredicate DocumentStatus.ACTUAL) =
      .ok [⟨5, Real.log (4 / 3), 5⟩, ⟨6, Real.log (4 / 3), 5⟩, ⟨7, Real.log (4 / 3), 5⟩,
        ⟨3, 1 / 631 * Real.log (4 / 3), 1⟩, ⟨1, 1 / 633 * Real.log (4 / 3), 3⟩] ∧
    (|(1 : ℝ) / 632 * Real.log (4 / 3) - 1 / 631 * Real.log (4 / 3)| < 1 / 1000000 ∧
      (2 : Int) > 1) ∧
    documentBefore (⟨2, 1 / 632 * Real.log (4 / 3), 2⟩ : Document ℝ)
      ⟨3, 1 / 631 * Real.log (4 / 3), 1⟩ = true ∧
    ∀ a ∈ ([⟨1, 1 / 633 * Real.log (4 / 3), 3⟩, ⟨2, 1 / 632 * Real.log (4 / 3), 2⟩,
        ⟨3, 1 / 631 * Real.log (4 / 3), 1⟩, ⟨5, Real.log (4 / 3), 5⟩,
        ⟨6, Real.log (4 / 3), 5⟩, ⟨7, Real.log (4 / 3), 5⟩] : List (Document ℝ)),
      ∃ b ∈ ([⟨1, 1 / 633 * Real.log (4 / 3), 3⟩, ⟨2, 1 / 632 * Real.log (4 / 3), 2⟩,
        ⟨3, 1 / 631 * Real.log (4 / 3), 1⟩, ⟨5, Real.log (4 / 3), 5⟩,
        ⟨6, Real.log (4 / 3), 5⟩, ⟨7, Real.log (4 / 3), 5⟩] : List (Document ℝ)),
        documentBefore a b = true := by
  obtain ⟨hL1, hL2⟩ := log_four_thirds_bounds
  obtain ⟨hreach, hstop, _, _, _⟩ := topSixFixture_facts (F := ℝ)
  have hq : (topSixFixture ℝ).ParseQuery "x".toList = .ok ⟨[['x']], []⟩ := by
    rw [ParseQuery_congr (topSixFixture ℝ) (emptyServer ℝ) hstop]
    rfl
  -- the comparisons between the six documents
  have n32 : documentBefore (⟨3, 1 / 631 * Real.log (4 / 3), 1⟩ : Document ℝ)
      ⟨2, 1 / 632 * Real.log (4 / 3), 2⟩ = false := by
    rw [documentBefore_of_near _ _ (by
      simp only
      rw [abs_lt]
      constructor <;> linarith)]
    rfl
  have n21 : documentBefore (⟨2, 1 / 632 * Real.log (4 / 3), 2⟩ : Document ℝ)
      ⟨1, 1 / 633 * Real.log (4 / 3), 3⟩ = false := by
    rw [documentBefore_of_near _ _ (by
      simp only
      rw [abs_lt]
      constructor <;> linarith)]
    rfl
  have n23 : documentBefore (⟨2, 1 / 632 * Real.log (4 / 3), 2⟩ : Document ℝ)
      ⟨3, 1 / 631 * Real.log (4 / 3), 1⟩ = true := by
    rw [documentBefore_of_near _ _ (by
      simp only
      rw [abs_lt]
      constructor <;> linarith)]
    rfl
  have n12 : documentBefore (⟨1, 1 / 633 * Real.log (4 / 3), 3⟩ : Document ℝ)
      ⟨2, 1 / 632 * Real.log (4 / 3), 2⟩ = true := by
    rw [documentBefore_of_near _ _ (by
      simp only
      rw [abs_lt]
      constructor <;> linarith)]
    rfl
  have f31 : documentBefore (⟨3, 1 / 631 * Real.log (4 / 3), 1⟩ : Document ℝ)
      ⟨1, 1 / 633 * Real.log (4 / 3), 3⟩ = true :=
    documentBefore_of_gt _ _ (by simp only; linarith)
  have top : ∀ (i r j q : Int) (c : ℝ), c ≤ 1 / 631 →
      documentBefore (⟨i, Real.log (4 / 3), r⟩ : Document ℝ)
        ⟨j, c * Real.log (4 / 3), q⟩ = true := by
    intro i r j q c hc
    apply documentBefore_of_gt
    simp only
    nlinarith
  have tie : ∀ (i j : Int), documentBefore (⟨i, Real.log (4 / 3), 5⟩ : Document ℝ)
      ⟨j, Real.log (4 / 3), 5⟩ = false := by
    intro i j
    simp [documentBefore]
  have s1 := top 5 5 1 3 (1 / 633) (by norm_num)
  have s2 := top 6 5 1 3 (1 / 633) (by norm_num)
  have s3 := top 7 5 1 3 (1 / 633) (by norm_num)
  have s4 := top 5 5 2 2 (1 / 632) (by norm_num)
  have s5 := top 6 5 2 2 (1 / 632) (by norm_num)
  have s6 := top 7 5 2 2 (1 / 632) (by norm_num)
  have s7 := top 5 5 3 1 (1 / 631) (by norm_num)
  have s8 := top 6 5 3 1 (1 / 631) (by norm_num)
  have s9 := top 7 5 3 1 (1 / 631) (by norm_num)
  refine ⟨hreach, hq, topSixFixture_found, ?_, ⟨?_, by decide⟩, n23, ?_⟩
  · unfold FindTopDocumentsLibstdcxx
    simp only [hq, topSixFixture_found]
    rw [Libstdcxx.sort_six documentBefore _ _ _ _ _ _ n21 f31 s7 (tie 6 5) s5 s2 s8 (tie 7 5)
      s6 s3 s9 (tie 7 6)]
    rfl
  · rw [abs_lt]
    constructor <;> linarith
  · intro a ha
    simp only [List.mem_cons, List.mem_singleton, List.not_mem_nil, or_false] at ha
    rcases ha with h | h | h | h | h | h
    · exact ⟨_, by simp, h ▸ n12⟩
    · exact ⟨_, by simp, h ▸ n23⟩
    · exact ⟨_, by simp, h ▸ f31⟩
    · exact ⟨⟨1, 1 / 633 * Real.log (4 / 3), 3⟩, by simp, h ▸ s1⟩
    · exact ⟨⟨1, 1 / 633 * Real.log (4 / 3), 3⟩, by simp, h ▸ s2⟩
    · exact ⟨⟨1, 1 / 633 * Real.log (4 / 3), 3⟩, by simp, h ▸ s3⟩

end SearchServer
end SearchEngine

/-! ## The fixture of tied documents -/

namespace SearchEngine
namespace SearchServer
variable {F : Type} [LinearOrderedField F]

/-- The state of the fixture of `n` tied documents, as far as the query "x" reads it. -/
theorem tiedFixture_facts (n : Nat) :
    Reachable (tiedFixture F n) ∧
    (tiedFixture F n).stop_words_ = [] ∧
    (∀ d, OrdMap.lookup d (tiedFixture F n).documents_ =
      if 1 ≤ d ∧ d ≤ (n : Int) then some ⟨1, DocumentStatus.ACTUAL⟩ else none) ∧
    ∀ d, (tiedFixture F n).tfW ['x'] d =
      if 1 ≤ d ∧ d ≤ (n : Int) then some (1 / (((0 : Nat) : F) + 1)) else none := by
  induction n with
  | zero =>
    refine ⟨reachable_emptyServer, rfl, ?_, ?_⟩
    · intro d
      have : ¬ (1 ≤ d ∧ d ≤ ((0 : Nat) : Int)) := by
        rintro ⟨h1, h2⟩
        simp at h2
        omega
      rw [if_neg this]
      rfl
    · intro d
      have : ¬ (1 ≤ d ∧ d ≤ ((0 : Nat) : Int)) := by
        rintro ⟨h1, h2⟩
        simp at h2
        omega
      rw [if_neg this]
      rfl
  | succ n ih =>
    obtain ⟨hr, hstop, hdocs, htf⟩ := ih
    have hfresh : OrdMap.lookup ((n : Int) + 1) (tiedFixture F n).documents_ = none := by
      rw [hdocs, if_neg]
      omega
    obtain ⟨a1, b1, _, d1, e1⟩ := AddDocument_nearTieText (tiedFixture F n) hr.inv hstop
      ((n : Int) + 1) 0 DocumentStatus.ACTUAL [1] (by omega) hfresh
    have r1 := hr.add_of_ok ((n : Int) + 1) (nearTieText 0) DocumentStatus.ACTUAL [1]
      (AddDocument_nearTieText_ok _ hr.inv _ 0 _ _ (by omega) hfresh)
    refine ⟨r1, b1, ?_, ?_⟩
    · intro d
      show OrdMap.lookup d ((tiedFixture F n).AddDocument ((n : Int) + 1) (nearTieText 0)
        DocumentStatus.ACTUAL [1]).2.documents_ = _
      rw [d1]
      by_cases hd : d = (n : Int) + 1
      · subst hd
        rw [OrdMap.lookup_emplace_self _ _ hr.inv.docs_wf, hfresh, if_pos]
        · rfl
        · push_cast
          omega
      · rw [OrdMap.lookup_emplace_ne hd, hdocs]
        have : (1 ≤ d ∧ d ≤ (n : Int)) ↔ (1 ≤ d ∧ d ≤ ((n + 1 : Nat) : Int)) := by
          push_cast
          omega
        simp only [this]
    · intro d
      show ((tiedFixture F n).AddDocument ((n : Int) + 1) (nearTieText 0)
        DocumentStatus.ACTUAL [1]).2.tfW ['x'] d = _
      rw [e1, htf]
      by_cases hd : d = (n : Int) + 1
      · subst hd
        rw [if_pos rfl, if_pos]
        push_cast
        omega
      · rw [if_neg hd]
        have : (1 ≤ d ∧ d ≤ (n : Int)) ↔ (1 ≤ d ∧ d ≤ ((n + 1 : Nat) : Int)) := by
          push_cast
          omega
        simp only [this]

/-- The documents found for "x" in the fixture of `n` tied documents: all of them, with one and
the same relevance and the rating 1, in the order of the ids. -/
theorem tiedFixture_found (n : Nat) (ln : F → F) :
    (tiedFixture F n).ParseQuery "x".toList = .ok ⟨[['x']], []⟩ ∧
    (tiedFixture F n).FindAllDocuments ln ⟨[['x']], []⟩
        (GetStatusPredicate DocumentStatus.ACTUAL) =
      .ok ((List.range n).map (fun (i : Nat) =>
        (⟨(i : Int) + 1, 1 / (((0 : Nat) : F) + 1) * (tiedFixture F n).idfOf ln ['x'], 1⟩ :
          Document F))) := by
  obtain ⟨hr, hstop, hdocs, htf⟩ := tiedFixture_facts (F := F) n
  have hinv := hr.inv
  have hq : (tiedFixture F n).ParseQuery "x".toList = .ok ⟨[['x']], []⟩ := by
    rw [ParseQuery_congr (tiedFixture F n) (emptyServer F) hstop]
    rfl
  refine ⟨hq, ?_⟩
  obtain ⟨m, hm, hall, hl⟩ := FindAllDocuments_spec (tiedFixture F n) hinv ln
    ⟨[['x']], []⟩ (GetStatusPredicate DocumentStatus.ACTUAL)
  have hrel : ∀ j, (tiedFixture F n).relevanceOf ln [['x']] j =
      ((tiedFixture F n).tfW ['x'] j).getD 0 * (tiedFixture F n).idfOf ln ['x'] := by
    intro j
    simp [relevanceOf]
  have hlook : ∀ j, OrdMap.lookup j m =
      if 1 ≤ j ∧ j ≤ (n : Int) then
        some (1 / (((0 : Nat) : F) + 1) * (tiedFixture F n).idfOf ln ['x'])
      else none := by
    intro j
    rw [hl j, hrel]
    simp only [List.mem_singleton, exists_eq_left, List.not_mem_nil, false_and,
      exists_false, not_false_eq_true, and_true, htf, docPred, hdocs]
    by_cases hj : 1 ≤ j ∧ j ≤ (n : Int)
    · simp [hj, GetStatusPredicate]
    · simp [hj]
  have hkeys : OrdMap.keys m = (List.range n).map (fun (i : Nat) => (i : Int) + 1) := by
    apply sorted_eq_of_mem_iff hm
    · rw [List.Sorted, List.pairwise_map]
      exact (List.pairwise_lt_range n).imp (fun {a b} h => by
        show (a : Int) + 1 < (b : Int) + 1
        omega)
    · intro j
      show j ∈ OrdMap.keys m ↔ _
      rw [← OrdMap.lookup_isSome_iff, hlook, List.mem_map]
      constructor
      · intro h
        split_ifs at h with hj
        · exact ⟨(j - 1).toNat, List.mem_range.2 (by omega), by omega⟩
        · cases h
      · rintro ⟨i, hi, rfl⟩
        have := List.mem_range.1 hi
        rw [if_pos (by omega)]
        rfl
  have hm2 := map_eq_of_lookup hm _ _ hlook
  rw [hkeys, List.map_map] at hm2
  rw [hall, hm2, List.map_map]
  congr 1
  apply List.map_congr_left
  intro i hi
  have := List.mem_range.1 hi
  have hrate : (tiedFixture F n).ratingOf ((i : Int) + 1) = 1 := by
    unfold ratingOf
    rw [hdocs, if_pos (by omega)]
  simp only [Function.comp, hrate]

end SearchServer
end SearchEngine

/-! ## The `std::sort` of libstdc++ on at most 16 elements -/

namespace SearchEngine
namespace Libstdcxx
variable {α : Type}

/-- An element that goes after every element of the list is inserted at the end. -/
theorem orderedInsert_of_all_not {r : α → α → Prop} [DecidableRel r] (a : α) :
    ∀ l : List α, (∀ y ∈ l, ¬ r a y) → l.orderedInsert r a = l ++ [a] := by
  intro l
  induction l with
  | nil => intro _; rfl
  | cons b l ih =>
    intro h
    simp only [List.orderedInsert]
    rw [if_neg (h b (List.mem_cons_self _ _)), ih (fun y hy => h y (List.mem_cons_of_mem _ hy))]
    rfl

/-- `std::__unguarded_linear_insert` of `val` into the sorted range in front of position
`pre.length`: when some element of the range is not `comp`-after `val`, the loop stops inside the
vector and `val` lands behind the last such element. -/
theorem unguarded_linear_insert_eq (comp : α → α → Bool) (val : α) (pre : List α) :
    ∀ (x : α) (post : List α), (∃ y ∈ pre, comp val y = false) →
      unguarded_linear_insert comp val pre.length (pre ++ x :: post) =
        some ((List.orderedInsert (fun a b => comp a b = false) val pre.reverse).reverse ++
          post) := by
  induction pre using List.reverseRecOn with
  | nil =>
    intro x post h
    obtain ⟨y, hy, _⟩ := h
    cases hy
  | append_singleton p y ih =>
    intro x post h
    have hlen : (p ++ [y]).length = p.length + 1 := by simp
    have hget : (p ++ [y] ++ x :: post)[p.length]? = some y := by
      rw [List.append_assoc, List.getElem?_append_right (le_refl _)]
      simp
    rw [hlen, unguarded_linear_insert, hget]
    simp only [List.reverse_append, List.reverse_cons, List.reverse_nil, List.nil_append,
      List.singleton_append, List.orderedInsert]
    by_cases hc : comp val y = true
    · have hset : (p ++ [y] ++ x :: post).set (p.length + 1) y = p ++ y :: (y :: post) := by
        rw [List.append_assoc, List.set_append_right _ _ (by omega)]
        simp
      have hex : ∃ z ∈ p, comp val z = false := by
        obtain ⟨z, hz, hzc⟩ := h
        rcases List.mem_append.1 hz with hz | hz
        · exact ⟨z, hz, hzc⟩
        · simp only [List.mem_singleton] at hz
          subst hz
          rw [hc] at hzc
          cases hzc
      rw [if_pos hc, hset, ih y (y :: post) hex, if_neg (by simp [hc])]
      simp
    · have hset : (p ++ [y] ++ x :: post).set (p.length + 1) val =
          p ++ [y] ++ val :: post := by
        rw [List.set_append_right _ _ (by simp)]
        simp
      rw [if_neg hc, hset, if_pos (by simpa using hc)]
      simp

/-- The loop of `std::__insertion_sort` from the start of the vector, on elements among which
the comparator is asymmetric and its complement is transitive: the loop stays inside the vector
and inserts each element into the sorted range in front of it, behind the last element that is
not `comp`-after it. -/
theorem insertion_sort_loop_eq (comp : α → α → Bool) (S : α → Prop)
    (hasymm : ∀ x, S x → ∀ y, S y → comp x y = true → comp y x = false)
    (htrans : ∀ x, S x → ∀ y, S y → ∀ z, S z →
      comp x y = false → comp y z = false → comp x z = false)
    (rest : List α) :
    ∀ rp : List α, rp ≠ [] → rp.Sorted (fun a b => comp a b = false) → (∀ x ∈ rp, S x) →
      (∀ x ∈ rest, S x) →
      insertion_sort_loop comp 0 rest.length rp.length (rp.reverse ++ rest) =
        some ((rest.foldl (fun acc a =>
          acc.orderedInsert (fun a b => comp a b = false) a) rp).reverse) := by
  induction rest with
  | nil =>
    intro rp _ _ _ _
    simp [insertion_sort_loop]
  | cons val rest ih =>
    intro rp hne hsorted hS hrest
    have hval : S val := hrest val (List.mem_cons_self _ _)
    have hrest1 : ∀ x ∈ rest, S x := fun x hx => hrest x (List.mem_cons_of_mem _ hx)
    have hins : (rp.orderedInsert (fun a b => comp a b = false) val).Sorted
        (fun a b => comp a b = false) := by
      apply sorted_orderedInsert_of val rp hsorted
      · intro x hx
        by_cases hc : comp val x = true
        · exact Or.inr (hasymm val hval x (hS x hx) hc)
        · exact Or.inl (by simpa using hc)
      · intro x hx y hy h1 h2
        exact htrans val hval x (hS x hx) y (hS y hy) h1 h2
    have hSins : ∀ x ∈ rp.orderedInsert (fun a b => comp a b = false) val, S x := by
      intro x hx
      rcases (List.mem_orderedInsert _).1 hx with h | h
      · exact h ▸ hval
      · exact hS x h
    have hnins : rp.orderedInsert (fun a b => comp a b = false) val ≠ [] := by
      intro h
      have := congrArg List.length h
      rw [List.orderedInsert_length] at this
      simp at this
    have hstep := ih (rp.orderedInsert (fun a b => comp a b = false) val) hnins hins hSins hrest1
    rw [List.orderedInsert_length] at hstep
    rw [List.foldl_cons, ← hstep]
    -- the last element of the sorted range, which the vector starts with
    obtain ⟨t, h, hrp⟩ : ∃ t h, rp = t ++ [h] := by
      rcases List.eq_nil_or_concat rp with hnil | ⟨t, h, hth⟩
      · exact absurd hnil hne
      · exact ⟨t, h, by rw [hth]; simp⟩
    have hrev : rp.reverse = h :: t.reverse := by rw [hrp]; simp
    have hlen : rp.reverse.length = rp.length := List.length_reverse rp
    have hgeti : (rp.reverse ++ val :: rest)[rp.length]? = some val := by
      rw [List.getElem?_append_right (by omega)]
      simp [hlen]
    have hget0 : (rp.reverse ++ val :: rest)[0]? = some h := by
      rw [hrev]
      simp
    rw [List.length_cons, insertion_sort_loop, hgeti, hget0]
    by_cases hc : comp val h = true
    · -- the new element goes in front of the whole range
      have hall : ∀ y ∈ rp, ¬ (comp val y = false) := by
        intro y hy hvy
        have hirr : comp y y = false := by
          cases hyy : comp y y with
          | false => rfl
          | true =>
            have := hasymm y (hS y hy) y (hS y hy) hyy
            rw [hyy] at this
            cases this
        have hyh : comp y h = false := by
          have hy1 := hy
          rw [hrp] at hy1 hsorted
          rcases List.mem_append.1 hy1 with hyt | hyh
          · exact (List.pairwise_append.1 hsorted).2.2 y hyt h (List.mem_singleton_self _)
          · simp only [List.mem_singleton] at hyh
            rw [← hyh]
            exact hirr
        have hh : S h := hS h (by rw [hrp]; simp)
        have := htrans val hval y (hS y hy) h hh hvy hyh
        rw [hc] at this
        cases this
      rw [orderedInsert_of_all_not val rp hall]
      simp only [hc, if_true, List.take_zero, List.nil_append, List.drop_zero, Nat.sub_zero]
      have htake : (rp.reverse ++ val :: rest).take rp.length = rp.reverse := by
        rw [← hlen, List.take_left']
        rfl
      have hdrop : (rp.reverse ++ val :: rest).drop (rp.length + 1) = rest := by
        have : rp.reverse ++ val :: rest = (rp.reverse ++ [val]) ++ rest := by simp
        rw [this, List.drop_left']
        simp
      rw [htake, hdrop]
      simp
    · have hex : ∃ y ∈ rp.reverse, comp val y = false :=
        ⟨h, by rw [hrev]; exact List.mem_cons_self _ _, by simpa using hc⟩
      have hli := unguarded_linear_insert_eq comp val rp.reverse val rest hex
      rw [hlen, List.reverse_reverse] at hli
      simp only [hc, if_false, Bool.false_eq_true, hli]

theorem introsort_loop_of_le (comp : α → α → Bool) (depth_limit : Nat) (v : List α)
    (first last : Nat) (h : last - first ≤ 16) :
    introsort_loop comp depth_limit v first last = some v := by
  cases depth_limit with
  | zero => rw [introsort_loop, if_neg (by omega)]
  | succ d => rw [introsort_loop, if_neg (by omega)]

theorem insertionSort_eq_foldr (r : α → α → Prop) [DecidableRel r] (l : List α) :
    l.insertionSort r = l.foldr (fun a acc => acc.orderedInsert r a) [] := by
  induction l with
  | nil => rfl
  | cons a l ih => simp only [List.insertionSort, List.foldr_cons, ih]

/-- On at most 16 elements among which the comparator is asymmetric and its complement is
transitive, the `std::sort` of libstdc++ returns, and its result is the insertion sort of the
reversed vector, reversed. -/
theorem sort_of_length_le (comp : α → α → Bool) (S : α → Prop)
    (hasymm : ∀ x, S x → ∀ y, S y → comp x y = true → comp y x = false)
    (htrans : ∀ x, S x → ∀ y, S y → ∀ z, S z →
      comp x y = false → comp y z = false → comp x z = false)
    (l : List α) (hl : l.length ≤ 16) (hS : ∀ x ∈ l, S x) :
    sort comp l = some ((l.reverse.insertionSort (fun a b => comp a b = false)).reverse) := by
  cases l with
  | nil => rfl
  | cons a t =>
    have hloop := insertion_sort_loop_eq comp S hasymm htrans t [a] (by simp)
      (List.sorted_singleton a) (fun x hx => hS x (by simp at hx; simp [hx]))
      (fun x hx => hS x (List.mem_cons_of_mem _ hx))
    simp only [List.length_singleton, List.reverse_singleton, List.singleton_append] at hloop
    have hlen : (a :: t).length - 0 ≤ 16 := by simpa using hl
    have hlen2 : ¬ (a :: t).length - 0 > 16 := by omega
    rw [sort, if_neg (by simp), introsort_loop_of_le comp _ _ 0 _ hlen]
    simp only [final_insertion_sort, if_neg hlen2, insertion_sort,
      if_neg (show ¬ (0 = (a :: t).length) by simp)]
    have hcount : (a :: t).length - (0 + 1) = t.length := by simp
    rw [hcount, hloop, insertionSort_eq_foldr, List.reverse_cons, List.foldr_append,
      List.foldr_reverse]
    rfl

/-- Insertion sort of a list that is ascending for `lt`, by a relation that is total and
transitive on the elements: the result is sorted, and two elements that go either way keep the
order of the list. -/
theorem pairwise_insertionSort_stable (ρ : α → α → Prop) [DecidableRel ρ]
    (lt : α → α → Prop) (S : α → Prop)
    (htot : ∀ x, S x → ∀ y, S y → ρ x y ∨ ρ y x)
    (htrans : ∀ x, S x → ∀ y, S y → ∀ z, S z → ρ x y → ρ y z → ρ x z) :
    ∀ L : List α, (∀ x ∈ L, S x) → L.Pairwise lt →
      (L.insertionSort ρ).Pairwise (fun x y => ρ x y ∧ (ρ y x → lt x y)) := by
  have hins : ∀ (a : α), S a → ∀ M : List α, (∀ x ∈ M, S x) → (∀ y ∈ M, lt a y) →
      M.Pairwise (fun x y => ρ x y ∧ (ρ y x → lt x y)) →
      (M.orderedInsert ρ a).Pairwise (fun x y => ρ x y ∧ (ρ y x → lt x y)) := by
    intro a ha M
    induction M with
    | nil => intro _ _ _; simp
    | cons b M ih =>
      intro hM hlt hp
      have hp2 := List.pairwise_cons.1 hp
      simp only [List.orderedInsert]
      split_ifs with hab
      · refine List.pairwise_cons.2 ⟨?_, hp⟩
        intro y hy
        refine ⟨?_, fun _ => hlt y hy⟩
        rcases List.mem_cons.1 hy with h | h
        · exact h ▸ hab
        · exact htrans a ha b (hM b (List.mem_cons_self _ _)) y (hM y hy) hab (hp2.1 y h).1
      · refine List.pairwise_cons.2 ⟨?_, ih (fun x hx => hM x (List.mem_cons_of_mem _ hx))
          (fun y hy => hlt y (List.mem_cons_of_mem _ hy)) hp2.2⟩
        intro z hz
        rcases (List.mem_orderedInsert ρ).1 hz with h | h
        · subst h
          rcases htot z ha b (hM b (List.mem_cons_self _ _)) with h1 | h1
          · exact absurd h1 hab
          · exact ⟨h1, fun h2 => absurd h2 hab⟩
        · exact hp2.1 z h
  intro L
  induction L with
  | nil => intro _ _; simp
  | cons a L ih =>
    intro hS hlt
    have hlt2 := List.pairwise_cons.1 hlt
    simp only [List.insertionSort]
    apply hins a (hS a (List.mem_cons_self _ _))
    · intro x hx
      exact hS x (List.mem_cons_of_mem _ ((List.perm_insertionSort ρ L).mem_iff.1 hx))
    · intro y hy
      exact hlt2.1 y ((List.perm_insertionSort ρ L).mem_iff.1 hy)
    · exact ih (fun x hx => hS x (List.mem_cons_of_mem _ hx)) hlt2.2

end Libstdcxx
end SearchEngine

namespace SearchEngine
section SortDocuments
variable {F : Type} [LinearOrderedField F]

/-- On at most 16 documents in ascending order of the ids, among which near-equality of the
relevance is transitive, the `std::sort` of libstdc++ returns the list that the stable insertion
sort returns: sorted by the comparator, and two documents that the comparator does not order
keep the order of their ids. -/
theorem sort_documents_eq_stdSort (l : List (Document F)) (hl : l.length ≤ 16)
    (hid : l.Pairwise (fun a b => a.id < b.id))
    (hnear : ∀ a ∈ l, ∀ b ∈ l, ∀ c ∈ l,
      |a.relevance - b.relevance| < 1 / 1000000 → |b.relevance - c.relevance| < 1 / 1000000 →
        |a.relevance - c.relevance| < 1 / 1000000) :
    Libstdcxx.sort documentBefore l = some (stdSort documentBefore l) ∧
    (stdSort documentBefore l).Pairwise (fun a b =>
      documentBefore b a = false ∧ (documentBefore a b = false → a.id < b.id)) := by
  have htr : ∀ x ∈ l, ∀ y ∈ l, ∀ z ∈ l,
      documentBefore y x = false → documentBefore z y = false → documentBefore z x = false := by
    intro x hx y hy z hz hxy hyz
    apply documentBefore_trans x y z ?_ ?_ (hnear x hx y hy z hz) hxy hyz
    · intro h1 h2
      exact hnear x hx z hz y hy h1 h2
    · intro h1 h2
      exact hnear y hy x hx z hz h1 h2
  have hbase := Libstdcxx.pairwise_insertionSort_stable
    (fun (a b : Document F) => documentBefore b a = false) (fun a b => a.id < b.id) (· ∈ l)
    (fun x _ y _ => documentBefore_total x y) htr l (fun x hx => hx) hid
  have hlib := Libstdcxx.pairwise_insertionSort_stable
    (fun (a b : Document F) => documentBefore a b = false) (fun a b => b.id < a.id) (· ∈ l)
    (fun x _ y _ => (documentBefore_total x y).symm)
    (fun x hx y hy z hz h1 h2 => htr z hz y hy x hx h2 h1) l.reverse
    (fun x hx => List.mem_reverse.1 hx) (List.pairwise_reverse.2 hid)
  have hsort := Libstdcxx.sort_of_length_le (documentBefore (F := F)) (· ∈ l)
    (fun x _ y _ h => documentBefore_asymm x y h)
    (fun x hx y hy z hz h1 h2 => htr z hz y hy x hx h2 h1) l hl (fun x hx => hx)
  refine ⟨?_, hbase⟩
  rw [hsort]
  congr 1
  haveI : IsAntisymm (Document F) (fun a b =>
      documentBefore b a = false ∧ (documentBefore a b = false → a.id < b.id)) :=
    ⟨fun a b h1 h2 => absurd (h1.2 h2.1) (not_lt.2 (le_of_lt (h2.2 h1.1)))⟩
  apply List.eq_of_perm_of_sorted ?_ (List.pairwise_reverse.2 hlib) hbase
  exact (List.reverse_perm _).trans (((List.perm_insertionSort _ _).trans
    (List.reverse_perm l)).trans (SearchServer.perm_stdSort documentBefore l).symm)

end SortDocuments
end SearchEngine

/-! ## The fixture with a cycle and two tied documents -/

namespace SearchEngine
namespace SearchServer
variable {F : Type} [LinearOrderedField F]

theorem cycleFixture_eq :
    cycleFixture F =
      ((((((emptyServer F).AddDocument 1 (nearTieText 630) DocumentStatus.ACTUAL
        [1]).2.AddDocument 2 (nearTieText 632) DocumentStatus.ACTUAL [3]).2.AddDocument 3
          (nearTieText 631) DocumentStatus.ACTUAL [2]).2.AddDocument 4 (nearTieText 632)
            DocumentStatus.ACTUAL [3]).2.AddDocument 5 "y".toList DocumentStatus.ACTUAL
              [1]).2 := by
  unfold cycleFixture
  rfl

/-- The state of the fixture with a cycle, as far as the query "x" reads it. -/
theorem cycleFixture_facts :
    Reachable (cycleFixture F) ∧
    (cycleFixture F).stop_words_ = [] ∧
    (cycleFixture F).documents_ =
      [(1, ⟨1, DocumentStatus.ACTUAL⟩), (2, ⟨3, DocumentStatus.ACTUAL⟩),
        (3, ⟨2, DocumentStatus.ACTUAL⟩), (4, ⟨3, DocumentStatus.ACTUAL⟩),
        (5, ⟨1, DocumentStatus.ACTUAL⟩)] ∧
    ∀ d1, (cycleFixture F).tfW ['x'] d1 =
      if d1 = 5 then none
      else if d1 = 4 then some (1 / (((632 : Nat) : F) + 1))
      else if d1 = 3 then some (1 / (((631 : Nat) : F) + 1))
      else if d1 = 2 then some (1 / (((632 : Nat) : F) + 1))
      else if d1 = 1 then some (1 / (((630 : Nat) : F) + 1))
      else none := by
  have r0 : Reachable (emptyServer F) := reachable_emptyServer
  obtain ⟨a1, b1, _, d1, e1⟩ := AddDocument_nearTieText (emptyServer F) r0.inv rfl 1 630
    DocumentStatus.ACTUAL [1] (by decide) rfl
  have r1 := r0.add_of_ok 1 (nearTieText 630) DocumentStatus.ACTUAL [1]
    (AddDocument_nearTieText_ok _ r0.inv 1 630 _ _ (by decide) rfl)
  obtain ⟨a2, b2, _, d2, e2⟩ := AddDocument_nearTieText _ a1 b1 2 632
    DocumentStatus.ACTUAL [3] (by decide) (by rw [d1]; rfl)
  have r2 := r1.add_of_ok 2 (nearTieText 632) DocumentStatus.ACTUAL [3]
    (AddDocument_nearTieText_ok _ a1 2 632 _ _ (by decide) (by rw [d1]; rfl))
  obtain ⟨a3, b3, _, d3, e3⟩ := AddDocument_nearTieText _ a2 b2 3 631
    DocumentStatus.ACTUAL [2] (by decide) (by rw [d2, d1]; rfl)
  have r3 := r2.add_of_ok 3 (nearTieText 631) DocumentStatus.ACTUAL [2]
    (AddDocument_nearTieText_ok _ a2 3 631 _ _ (by decide) (by rw [d2, d1]; rfl))
  obtain ⟨a4, b4, _, d4, e4⟩ := AddDocument_nearTieText _ a3 b3 4 632
    DocumentStatus.ACTUAL [3] (by decide) (by rw [d3, d2, d1]; rfl)
  have r4 := r3.add_of_ok 4 (nearTieText 632) DocumentStatus.ACTUAL [3]
    (AddDocument_nearTieText_ok _ a3 4 632 _ _ (by decide) (by rw [d3, d2, d1]; rfl))
  obtain ⟨h5, _, b5, _, d5, e5⟩ := AddDocument_effect _ a4 5 "y".toList
    DocumentStatus.ACTUAL [1] (by decide) (by rw [d4, d3, d2, d1]; rfl) (by decide)
  have r5 := r4.add_of_ok 5 "y".toList DocumentStatus.ACTUAL [1] h5
  rw [cycleFixture_eq]
  refine ⟨r5, ?_, ?_, ?_⟩
  · exact b5.trans b4
  · refine d5.trans ?_
    rw [d4, d3, d2, d1]
    rfl
  · intro j
    refine (e5 ['x'] j).trans ?_
    rw [e4, e3, e2, e1]
    have hx : ['x'] ∉ (SplitIntoWords "y".toList).filter
        (fun w => !(((((emptyServer F).AddDocument 1 (nearTieText 630) DocumentStatus.ACTUAL
          [1]).2.AddDocument 2 (nearTieText 632) DocumentStatus.ACTUAL [3]).2.AddDocument 3
            (nearTieText 631) DocumentStatus.ACTUAL [2]).2.AddDocument 4 (nearTieText 632)
              DocumentStatus.ACTUAL [3]).2.IsStopWord w) := by
      intro h
      have := (List.mem_filter.1 h).1
      revert this
      decide
    rw [if_neg hx]
    have he : (emptyServer F).tfW ['x'] j = none := rfl
    rw [he]

end SearchServer

namespace SearchServer

/-- The documents found for "x" in the fixture with a cycle, before sorting. -/
theorem cycleFixture_found :
    (cycleFixture ℝ).FindAllDocuments Real.log ⟨[['x']], []⟩
        (GetStatusPredicate DocumentStatus.ACTUAL) =
      .ok [⟨1, 1 / 631 * Real.log (5 / 4), 1⟩, ⟨2, 1 / 633 * Real.log (5 / 4), 3⟩,
        ⟨3, 1 / 632 * Real.log (5 / 4), 2⟩, ⟨4, 1 / 633 * Real.log (5 / 4), 3⟩] := by
  obtain ⟨hreach, hstop, hdocs, htf⟩ := cycleFixture_facts (F := ℝ)
  have hinv := hreach.inv
  obtain ⟨m, hm, hall, hl⟩ := FindAllDocuments_spec (cycleFixture ℝ) hinv Real.log
    ⟨[['x']], []⟩ (GetStatusPredicate DocumentStatus.ACTUAL)
  obtain ⟨p, hp⟩ : ∃ p, OrdMap.lookup ['x'] (cycleFixture ℝ).word_to_document_freqs_ =
      some p := by
    have h1 := htf 1
    norm_num at h1
    unfold tfW at h1
    cases hx : OrdMap.lookup ['x'] (cycleFixture ℝ).word_to_document_freqs_ with
    | none => simp [hx] at h1
    | some p => exact ⟨p, rfl⟩
  have hpl : p = [(1, 1 / 631), (2, 1 / 633), (3, 1 / 632), (4, 1 / 633)] := by
    apply OrdMap.ext_lookup (hinv.index.w2d_inner _ _ hp)
    · simp [OrdMap.WF]
    · intro j
      have hj := htf j
      simp only [tfW, hp, Option.some_bind] at hj
      rw [hj]
      by_cases h5 : j = 5
      · subst h5; norm_num [OrdMap.lookup]
      by_cases h4 : j = 4
      · subst h4; norm_num [OrdMap.lookup]
      by_cases h3 : j = 3
      · subst h3; norm_num [OrdMap.lookup]
      by_cases h2 : j = 2
      · subst h2; norm_num [OrdMap.lookup]
      by_cases h1 : j = 1
      · subst h1; norm_num [OrdMap.lookup]
      simp [OrdMap.lookup, h1, h2, h3, h4, h5]
  have hidf : (cycleFixture ℝ).idfOf Real.log ['x'] = Real.log (5 / 4) := by
    simp only [idfOf, hp, Option.getD_some, hpl, GetDocumentCount, hdocs]
    norm_num
  have hrel : ∀ j, (cycleFixture ℝ).relevanceOf Real.log [['x']] j =
      ((cycleFixture ℝ).tfW ['x'] j).getD 0 * Real.log (5 / 4) := by
    intro j
    simp [relevanceOf, hidf]
  have hmeq : m = [(1, 1 / 631 * Real.log (5 / 4)), (2, 1 / 633 * Real.log (5 / 4)),
      (3, 1 / 632 * Real.log (5 / 4)), (4, 1 / 633 * Real.log (5 / 4))] := by
    apply OrdMap.ext_lookup hm
    · simp [OrdMap.WF]
    · intro j
      have hkey : OrdMap.lookup j m =
          if (cycleFixture ℝ).docPred (GetStatusPredicate DocumentStatus.ACTUAL) j = true ∧
              (cycleFixture ℝ).tfW ['x'] j ≠ none then
            some (((cycleFixture ℝ).tfW ['x'] j).getD 0 * Real.log (5 / 4))
          else none := by
        rw [hl j, hrel]
        simp only [List.mem_singleton, exists_eq_left, List.not_mem_nil, false_and,
          exists_false, not_false_eq_true, and_true]
      have hpred : ∀ k ∈ [(1 : Int), 2, 3, 4],
          (cycleFixture ℝ).docPred (GetStatusPredicate DocumentStatus.ACTUAL) k = true := by
        intro k hk
        unfold docPred
        rw [hdocs]
        revert k
        decide
      rw [hkey, htf j]
      by_cases h5 : j = 5
      · subst h5; norm_num [OrdMap.lookup]
      by_cases h4 : j = 4
      · subst h4; rw [hpred 4 (by decide)]; norm_num [OrdMap.lookup]; try (intro h; cases h)
      by_cases h3 : j = 3
      · subst h3; rw [hpred 3 (by decide)]; norm_num [OrdMap.lookup]; try (intro h; cases h)
      by_cases h2 : j = 2
      · subst h2; rw [hpred 2 (by decide)]; norm_num [OrdMap.lookup]; try (intro h; cases h)
      by_cases h1 : j = 1
      · subst h1; rw [hpred 1 (by decide)]; norm_num [OrdMap.lookup]; try (intro h; cases h)
      simp [OrdMap.lookup, h1, h2, h3, h4, h5]
  rw [hall, hmeq]
  have t1 : (cycleFixture ℝ).ratingOf 1 = 1 := by unfold ratingOf; rw [hdocs]; rfl
  have t2 : (cycleFixture ℝ).ratingOf 2 = 3 := by unfold ratingOf; rw [hdocs]; rfl
  have t3 : (cycleFixture ℝ).ratingOf 3 = 2 := by unfold ratingOf; rw [hdocs]; rfl
  have t4 : (cycleFixture ℝ).ratingOf 4 = 3 := by unfold ratingOf; rw [hdocs]; rfl
  simp only [List.map_cons, List.map_nil, t1, t2, t3, t4]

end SearchServer
end SearchEngine

/-! ## The server of `TestProcessQueries` over the reals -/

namespace SearchEngine
namespace SearchServer
variable {F : Type} [LinearOrderedField F]

theorem queriesFixture_step1 :
    (stopWordsServer F).AddDocument 1 "funny pet and nasty rat".toList
      DocumentStatus.ACTUAL [1, 2] = (.ok (), queriesState1 F) := rfl

theorem queriesFixture_step2 :
    (queriesState1 F).AddDocument 2 "funny pet with curly hair".toList
      DocumentStatus.ACTUAL [1, 2] = (.ok (), queriesState2 F) := rfl

theorem queriesFixture_step3 :
    (queriesState2 F).AddDocument 3 "funny pet and not very nasty rat".toList
      DocumentStatus.ACTUAL [1, 2] = (.ok (), queriesState3 F) := rfl

theorem queriesFixture_step4 :
    (queriesState3 F).AddDocument 4 "pet with rat and rat and rat".toList
      DocumentStatus.ACTUAL [1, 2] = (.ok (), queriesState4 F) := rfl

theorem queriesFixture_step5 :
    (queriesState4 F).AddDocument 5 "nasty rat with curly hair".toList
      DocumentStatus.ACTUAL [1, 2] = (.ok (), queriesState5 F) := rfl

theorem queriesFixture_eq : queriesFixture F = queriesState5 F := by
  unfold queriesFixture
  simp only [queriesFixture_step1, queriesFixture_step2, queriesFixture_step3,
    queriesFixture_step4, queriesFixture_step5]

end SearchServer
end SearchEngine

namespace SearchEngine
namespace SearchServer
variable {F : Type} [LinearOrderedField F]

/-- `FindAllDocuments` in a state that satisfies the invariant, as a list: the matching ids in
the order of the doc-id set, each with its accumulated relevance and its stored rating. -/
theorem FindAllDocuments_eq_map_ids (s : SearchServer F) (hs : Inv s) (ln : F → F)
    (query : Query) (P : Int → DocumentStatus → Int → Bool) :
    s.FindAllDocuments ln query P =
      .ok ((s.document_ids_.filter (s.inMatchSet query P)).map
        (fun d => (⟨d, s.relevanceOf ln query.plus_words d, s.ratingOf d⟩ : Document F))) := by
  obtain ⟨m, h1, h2, h3⟩ := FindAllDocuments_spec s hs ln query P
  have h4 : ∀ j, OrdMap.lookup j m =
      if s.inMatchSet query P j = true then some (s.relevanceOf ln query.plus_words j)
      else none := by
    intro j
    rw [h3]
    by_cases hc : s.inMatchSet query P j = true
    · rw [if_pos hc, if_pos ((hs.inMatchSet_iff query P j).1 hc)]
    · rw [if_neg hc, if_neg (fun h => hc ((hs.inMatchSet_iff query P j).2 h))]
  have hk : OrdMap.keys m = s.document_ids_.filter (s.inMatchSet query P) := by
    apply keys_eq_filter_ids hs query P h1
    intro j
    rw [h4]
    by_cases hc : s.inMatchSet query P j = true <;> simp [hc]
  have hm2 := map_eq_of_lookup h1 _ _ h4
  rw [hk] at hm2
  rw [h2, hm2, List.map_map]
  rfl

theorem queriesFixture_reachable : Reachable (queriesFixture F) := by
  rw [queriesFixture_eq]
  exact Reachable.add _ _ _ _ _ _ (Reachable.add _ _ _ _ _ _ (Reachable.add _ _ _ _ _ _
    (Reachable.add _ _ _ _ _ _ (Reachable.add _ _ _ _ _ _ reachable_stopWordsServer
      queriesFixture_step1) queriesFixture_step2) queriesFixture_step3) queriesFixture_step4)
    queriesFixture_step5

end SearchServer

namespace SearchServer

/-- The documents found for the three queries of `TestProcessQueries`, before sorting, in exact
real arithmetic. -/
theorem queriesFixture_found :
    ((queriesFixture ℝ).ParseQuery "nasty rat -not".toList =
        .ok ⟨["nasty".toList, "rat".toList], ["not".toList]⟩ ∧
      (queriesFixture ℝ).FindAllDocuments Real.log
          ⟨["nasty".toList, "rat".toList], ["not".toList]⟩
          (GetStatusPredicate DocumentStatus.ACTUAL) =
        .ok [⟨1, 1 / 4 * Real.log (5 / 3) + 1 / 4 * Real.log (5 / 4), 1⟩,
          ⟨4, 3 / 4 * Real.log (5 / 4), 1⟩,
          ⟨5, 1 / 4 * Real.log (5 / 3) + 1 / 4 * Real.log (5 / 4), 1⟩]) ∧
    ((queriesFixture ℝ).ParseQuery "not very funny nasty pet".toList =
        .ok ⟨["funny".toList, "nasty".toList, "not".toList, "pet".toList, "very".toList], []⟩ ∧
      (queriesFixture ℝ).FindAllDocuments Real.log
          ⟨["funny".toList, "nasty".toList, "not".toList, "pet".toList, "very".toList], []⟩
          (GetStatusPredicate DocumentStatus.ACTUAL) =
        .ok [⟨1, 1 / 2 * Real.log (5 / 3) + 1 / 4 * Real.log (5 / 4), 1⟩,
          ⟨2, 1 / 4 * Real.log (5 / 3) + 1 / 4 * Real.log (5 / 4), 1⟩,
          ⟨3, 1 / 3 * Real.log (5 / 3) + 1 / 6 * Real.log (5 / 4) + 1 / 3 * Real.log 5, 1⟩,
          ⟨4, 1 / 4 * Real.log (5 / 4), 1⟩,
          ⟨5, 1 / 4 * Real.log (5 / 3), 1⟩]) ∧
    ((queriesFixture ℝ).ParseQuery "curly hair".toList =
        .ok ⟨["curly".toList, "hair".toList], []⟩ ∧
      (queriesFixture ℝ).FindAllDocuments Real.log ⟨["curly".toList, "hair".toList], []⟩
          (GetStatusPredicate DocumentStatus.ACTUAL) =
        .ok [⟨2, 1 / 2 * Real.log (5 / 2), 1⟩, ⟨5, 1 / 2 * Real.log (5 / 2), 1⟩]) := by
  have hreach : Reachable (queriesState5 ℝ) :=
    queriesFixture_eq (F := ℝ) ▸ queriesFixture_reachable
  have t1 : (queriesState5 ℝ).ratingOf 1 = 1 := rfl
  have t2 : (queriesState5 ℝ).ratingOf 2 = 1 := rfl
  have t3 : (queriesState5 ℝ).ratingOf 3 = 1 := rfl
  have t4 : (queriesState5 ℝ).ratingOf 4 = 1 := rfl
  have t5 : (queriesState5 ℝ).ratingOf 5 = 1 := rfl
  rw [queriesFixture_eq]
  refine ⟨⟨rfl, ?_⟩, ⟨rfl, ?_⟩, ⟨rfl, ?_⟩⟩
  · rw [FindAllDocuments_eq_map_ids _ hreach.inv]
    have hk : (queriesState5 ℝ).document_ids_.filter
        ((queriesState5 ℝ).inMatchSet ⟨["nasty".toList, "rat".toList], ["not".toList]⟩
          (GetStatusPredicate DocumentStatus.ACTUAL)) = [1, 4, 5] := rfl
    rw [hk]
    have r1 : (queriesState5 ℝ).relevanceOf Real.log ["nasty".toList, "rat".toList] 1 =
        1 / 4 * Real.log (5 / 3) + 1 / 4 * Real.log (5 / 4) := by
      simp [relevanceOf, tfW, idfOf, queriesState5, OrdMap.lookup, GetDocumentCount]
    have r4 : (queriesState5 ℝ).relevanceOf Real.log ["nasty".toList, "rat".toList] 4 =
        3 / 4 * Real.log (5 / 4) := by
      simp [relevanceOf, tfW, idfOf, queriesState5, OrdMap.lookup, GetDocumentCount]
      norm_num
    have r5 : (queriesState5 ℝ).relevanceOf Real.log ["nasty".toList, "rat".toList] 5 =
        1 / 4 * Real.log (5 / 3) + 1 / 4 * Real.log (5 / 4) := by
      simp [relevanceOf, tfW, idfOf, queriesState5, OrdMap.lookup, GetDocumentCount]
    simp only [List.map_cons, List.map_nil, r1, r4, r5, t1, t4, t5]
  · rw [FindAllDocuments_eq_map_ids _ hreach.inv]
    have hk : (queriesState5 ℝ).document_ids_.filter
        ((queriesState5 ℝ).inMatchSet
          ⟨["funny".toList, "nasty".toList, "not".toList, "pet".toList, "very".toList], []⟩
          (GetStatusPredicate DocumentStatus.ACTUAL)) = [1, 2, 3, 4, 5] := rfl
    rw [hk]
    have r1 : (queriesState5 ℝ).relevanceOf Real.log
        ["funny".toList, "nasty".toList, "not".toList, "pet".toList, "very".toList] 1 =
        1 / 2 * Real.log (5 / 3) + 1 / 4 * Real.log (5 / 4) := by
      simp [relevanceOf, tfW, idfOf, queriesState5, OrdMap.lookup, GetDocumentCount]
      ring
    have r2 : (queriesState5 ℝ).relevanceOf Real.log
        ["funny".toList, "nasty".toList, "not".toList, "pet".toList, "very".toList] 2 =
        1 / 4 * Real.log (5 / 3) + 1 / 4 * Real.log (5 / 4) := by
      simp [relevanceOf, tfW, idfOf, queriesState5, OrdMap.lookup, GetDocumentCount]
    have r3 : (queriesState5 ℝ).relevanceOf Real.log
        ["funny".toList, "nasty".toList, "not".toList, "pet".toList, "very".toList] 3 =
        1 / 3 * Real.log (5 / 3) + 1 / 6 * Real.log (5 / 4) + 1 / 3 * Real.log 5 := by
      simp [relevanceOf, tfW, idfOf, queriesState5, OrdMap.lookup, GetDocumentCount]
      ring
    have r4 : (queriesState5 ℝ).relevanceOf Real.log
        ["funny".toList, "nasty".toList, "not".toList, "pet".toList, "very".toList] 4 =
        1 / 4 * Real.log (5 / 4) := by
      simp [relevanceOf, tfW, idfOf, queriesState5, OrdMap.lookup, GetDocumentCount]
    have r5 : (queriesState5 ℝ).relevanceOf Real.log
        ["funny".toList, "nasty".toList, "not".toList, "pet".toList, "very".toList] 5 =
        1 / 4 * Real.log (5 / 3) := by
      simp [relevanceOf, tfW, idfOf, queriesState5, OrdMap.lookup, GetDocumentCount]
    simp only [List.map_cons, List.map_nil, r1, r2, r3, r4, r5, t1, t2, t3, t4, t5]
  · rw [FindAllDocuments_eq_map_ids _ hreach.inv]
    have hk : (queriesState5 ℝ).document_ids_.filter
        ((queriesState5 ℝ).inMatchSet ⟨["curly".toList, "hair".toList], []⟩
          (GetStatusPredicate DocumentStatus.ACTUAL)) = [2, 5] := rfl
    rw [hk]
    have r2 : (queriesState5 ℝ).relevanceOf Real.log ["curly".toList, "hair".toList] 2 =
        1 / 2 * Real.log (5 / 2) := by
      simp [relevanceOf, tfW, idfOf, queriesState5, OrdMap.lookup, GetDocumentCount]
      ring
    have r5 : (queriesState5 ℝ).relevanceOf Real.log ["curly".toList, "hair".toList] 5 =
        1 / 2 * Real.log (5 / 2) := by
      simp [relevanceOf, tfW, idfOf, queriesState5, OrdMap.lookup, GetDocumentCount]
      ring
    simp only [List.map_cons, List.map_nil, r2, r5, t2, t5]

end SearchServer
end SearchEngine

namespace SearchEngine
namespace SearchServer

/-- Bounds on the logarithms that occur in the relevances of `TestProcessQueries`. -/
theorem log_bounds_queriesFixture :
    (1 : ℝ) / 5 ≤ Real.log (5 / 4) ∧ Real.log (5 / 4) ≤ 1 / 4 ∧
    1 / 4 ≤ Real.log (5 / 3) - Real.log (5 / 4) ∧
    1 / 16 ≤ Real.log (5 / 3) - 2 * Real.log (5 / 4) ∧
    Real.log (5 / 3) ≤ 2 / 3 ∧ 4 / 5 ≤ Real.log 5 := by
  have h1 := Real.one_sub_inv_le_log_of_pos (show (0 : ℝ) < 5 / 4 by norm_num)
  have h2 := Real.log_le_sub_one_of_pos (show (0 : ℝ) < 5 / 4 by norm_num)
  have h3 := Real.one_sub_inv_le_log_of_pos (show (0 : ℝ) < 4 / 3 by norm_num)
  have h4 := Real.one_sub_inv_le_log_of_pos (show (0 : ℝ) < 16 / 15 by norm_num)
  have h5 := Real.log_le_sub_one_of_pos (show (0 : ℝ) < 5 / 3 by norm_num)
  have h6 := Real.one_sub_inv_le_log_of_pos (show (0 : ℝ) < 5 by norm_num)
  have e3 : Real.log (5 / 3) - Real.log (5 / 4) = Real.log (4 / 3) := by
    rw [← Real.log_div (by norm_num) (by norm_num)]
    norm_num
  have e4 : Real.log (5 / 3) - 2 * Real.log (5 / 4) = Real.log (16 / 15) := by
    have : (2 : ℝ) * Real.log (5 / 4) = Real.log ((5 / 4) ^ 2) := by
      rw [Real.log_pow]
      norm_num
    rw [this, ← Real.log_div (by norm_num) (by norm_num)]
    norm_num
  rw [e3, e4]
  norm_num at h1 h2 h3 h4 h5 h6
  refine ⟨by linarith, by linarith, by linarith, by linarith, by linarith, by linarith⟩

end SearchServer

namespace SearchServer
variable {F : Type} [LinearOrderedField F]

/-- Near-equality of the relevance is transitive on a list that has an arrangement in which every
document has the relevance of each later one or exceeds it by the tolerance at least. -/
theorem near_trans_of_arranged (l arranged : List (Document F)) (hp : arranged.Perm l)
    (hg : arranged.Pairwise (fun a b =>
      a.relevance = b.relevance ∨ 1 / 1000000 ≤ a.relevance - b.relevance)) :
    ∀ a ∈ l, ∀ b ∈ l, ∀ c ∈ l,
      |a.relevance - b.relevance| < 1 / 1000000 → |b.relevance - c.relevance| < 1 / 1000000 →
        |a.relevance - c.relevance| < 1 / 1000000 := by
  have hsep : ∀ a ∈ arranged, ∀ b ∈ arranged,
      |a.relevance - b.relevance| < 1 / 1000000 → a.relevance = b.relevance := by
    intro a ha b hb
    refine List.Pairwise.forall_of_forall
      (R := fun (a b : Document F) =>
        |a.relevance - b.relevance| < 1 / 1000000 → a.relevance = b.relevance)
      ?_ ?_ (hg.imp ?_) ha hb
    · intro x y h hyx
      rw [abs_sub_comm] at hyx
      exact (h hyx).symm
    · intro x _ _
      rfl
    · intro x y h hxy
      rcases h with h | h
      · exact h
      · exact absurd (lt_of_le_of_lt (le_trans h (le_abs_self _)) hxy) (lt_irrefl _)
  intro a ha b hb c hc h1 h2
  rw [hsep a (hp.mem_iff.2 ha) b (hp.mem_iff.2 hb) h1,
    hsep b (hp.mem_iff.2 hb) c (hp.mem_iff.2 hc) h2, sub_self, abs_zero]
  norm_num

end SearchServer

namespace SearchServer

/-- The documents found for the first query of `TestProcessQueries`: near-equality of the
relevance is transitive on them, and the stable insertion sort puts them in the order 1, 5, 4. -/
theorem queriesFixture_sorted_first :
    (∀ a ∈ ([⟨1, 1 / 4 * Real.log (5 / 3) + 1 / 4 * Real.log (5 / 4), 1⟩,
        ⟨4, 3 / 4 * Real.log (5 / 4), 1⟩,
        ⟨5, 1 / 4 * Real.log (5 / 3) + 1 / 4 * Real.log (5 / 4), 1⟩] : List (Document ℝ)),
        ∀ b ∈ ([⟨1, 1 / 4 * Real.log (5 / 3) + 1 / 4 * Real.log (5 / 4), 1⟩,
          ⟨4, 3 / 4 * Real.log (5 / 4), 1⟩,
          ⟨5, 1 / 4 * Real.log (5 / 3) + 1 / 4 * Real.log (5 / 4), 1⟩] : List (Document ℝ)),
        ∀ c ∈ ([⟨1, 1 / 4 * Real.log (5 / 3) + 1 / 4 * Real.log (5 / 4), 1⟩,
          ⟨4, 3 / 4 * Real.log (5 / 4), 1⟩,
          ⟨5, 1 / 4 * Real.log (5 / 3) + 1 / 4 * Real.log (5 / 4), 1⟩] : List (Document ℝ)),
        |a.relevance - b.relevance| < 1 / 1000000 →
          |b.relevance - c.relevance| < 1 / 1000000 →
            |a.relevance - c.relevance| < 1 / 1000000) ∧
    stdSort documentBefore
        ([⟨1, 1 / 4 * Real.log (5 / 3) + 1 / 4 * Real.log (5 / 4), 1⟩,
          ⟨4, 3 / 4 * Real.log (5 / 4), 1⟩,
          ⟨5, 1 / 4 * Real.log (5 / 3) + 1 / 4 * Real.log (5 / 4), 1⟩] : List (Document ℝ)) =
      [⟨1, 1 / 4 * Real.log (5 / 3) + 1 / 4 * Real.log (5 / 4), 1⟩,
        ⟨5, 1 / 4 * Real.log (5 / 3) + 1 / 4 * Real.log (5 / 4), 1⟩,
        ⟨4, 3 / 4 * Real.log (5 / 4), 1⟩] := by
  obtain ⟨b1, b2, b3, b4, b5, b6⟩ := log_bounds_queriesFixture
  have hsort : stdSort documentBefore
      ([⟨1, 1 / 4 * Real.log (5 / 3) + 1 / 4 * Real.log (5 / 4), 1⟩,
        ⟨4, 3 / 4 * Real.log (5 / 4), 1⟩,
        ⟨5, 1 / 4 * Real.log (5 / 3) + 1 / 4 * Real.log (5 / 4), 1⟩] : List (Document ℝ)) =
      [⟨1, 1 / 4 * Real.log (5 / 3) + 1 / 4 * Real.log (5 / 4), 1⟩,
        ⟨5, 1 / 4 * Real.log (5 / 3) + 1 / 4 * Real.log (5 / 4), 1⟩,
        ⟨4, 3 / 4 * Real.log (5 / 4), 1⟩] := by
    have c1 : documentBefore (⟨5, 1 / 4 * Real.log (5 / 3) + 1 / 4 * Real.log (5 / 4), 1⟩ : Document ℝ)
        ⟨4, 3 / 4 * Real.log (5 / 4), 1⟩ = true :=
      documentBefore_of_gt _ _ (by simp only; linarith)
    have c2 : documentBefore (⟨5, 1 / 4 * Real.log (5 / 3) + 1 / 4 * Real.log (5 / 4), 1⟩ : Document ℝ)
        ⟨1, 1 / 4 * Real.log (5 / 3) + 1 / 4 * Real.log (5 / 4), 1⟩ = false := by
      rw [documentBefore_of_near _ _ (by simp)]
      rfl
    simp only [stdSort, List.insertionSort, List.orderedInsert, c1, c2, if_true, if_false,
      Bool.true_eq_false]
  refine ⟨near_trans_of_arranged _ _ (hsort ▸ perm_stdSort _ _) ?_, hsort⟩
  simp only [List.pairwise_cons, List.mem_cons, forall_eq_or_imp, List.mem_singleton, forall_eq,
    List.not_mem_nil, IsEmpty.forall_iff, implies_true, List.Pairwise.nil, and_true]
  refine ⟨⟨Or.inl trivial, Or.inr ?_⟩, Or.inr ?_⟩ <;> linarith

/-- The documents found for the second query of `TestProcessQueries`: near-equality of the
relevance is transitive on them, and the stable insertion sort puts them in the order
3, 1, 2, 5, 4. -/
theorem queriesFixture_sorted_second :
    (∀ a ∈ ([⟨1, 1 / 2 * Real.log (5 / 3) + 1 / 4 * Real.log (5 / 4), 1⟩,
        ⟨2, 1 / 4 * Real.log (5 / 3) + 1 / 4 * Real.log (5 / 4), 1⟩,
        ⟨3, 1 / 3 * Real.log (5 / 3) + 1 / 6 * Real.log (5 / 4) + 1 / 3 * Real.log 5, 1⟩,
        ⟨4, 1 / 4 * Real.log (5 / 4), 1⟩,
        ⟨5, 1 / 4 * Real.log (5 / 3), 1⟩] : List (Document ℝ)),
        ∀ b ∈ ([⟨1, 1 / 2 * Real.log (5 / 3) + 1 / 4 * Real.log (5 / 4), 1⟩,
          ⟨2, 1 / 4 * Real.log (5 / 3) + 1 / 4 * Real.log (5 / 4), 1⟩,
          ⟨3, 1 / 3 * Real.log (5 / 3) + 1 / 6 * Real.log (5 / 4) + 1 / 3 * Real.log 5, 1⟩,
          ⟨4, 1 / 4 * Real.log (5 / 4), 1⟩,
          ⟨5, 1 / 4 * Real.log (5 / 3), 1⟩] : List (Document ℝ)),
        ∀ c ∈ ([⟨1, 1 / 2 * Real.log (5 / 3) + 1 / 4 * Real.log (5 / 4), 1⟩,
          ⟨2, 1 / 4 * Real.log (5 / 3) + 1 / 4 * Real.log (5 / 4), 1⟩,
          ⟨3, 1 / 3 * Real.log (5 / 3) + 1 / 6 * Real.log (5 / 4) + 1 / 3 * Real.log 5, 1⟩,
          ⟨4, 1 / 4 * Real.log (5 / 4), 1⟩,
          ⟨5, 1 / 4 * Real.log (5 / 3), 1⟩] : List (Document ℝ)),
        |a.relevance - b.relevance| < 1 / 1000000 →
          |b.relevance - c.relevance| < 1 / 1000000 →
            |a.relevance - c.relevance| < 1 / 1000000) ∧
    stdSort documentBefore
        ([⟨1, 1 / 2 * Real.log (5 / 3) + 1 / 4 * Real.log (5 / 4), 1⟩,
          ⟨2, 1 / 4 * Real.log (5 / 3) + 1 / 4 * Real.log (5 / 4), 1⟩,
          ⟨3, 1 / 3 * Real.log (5 / 3) + 1 / 6 * Real.log (5 / 4) + 1 / 3 * Real.log 5, 1⟩,
          ⟨4, 1 / 4 * Real.log (5 / 4), 1⟩,
          ⟨5, 1 / 4 * Real.log (5 / 3), 1⟩] : List (Document ℝ)) =
      [⟨3, 1 / 3 * Real.log (5 / 3) + 1 / 6 * Real.log (5 / 4) + 1 / 3 * Real.log 5, 1⟩,
        ⟨1, 1 / 2 * Real.log (5 / 3) + 1 / 4 * Real.log (5 / 4), 1⟩,
        ⟨2, 1 / 4 * Real.log (5 / 3) + 1 / 4 * Real.log (5 / 4), 1⟩,
        ⟨5, 1 / 4 * Real.log (5 / 3), 1⟩,
        ⟨4, 1 / 4 * Real.log (5 / 4), 1⟩] := by
  obtain ⟨b1, b2, b3, b4, b5, b6⟩ := log_bounds_queriesFixture
  have hsort : stdSort documentBefore
      ([⟨1, 1 / 2 * Real.log (5 / 3) + 1 / 4 * Real.log (5 / 4), 1⟩,
        ⟨2, 1 / 4 * Real.log (5 / 3) + 1 / 4 * Real.log (5 / 4), 1⟩,
        ⟨3, 1 / 3 * Real.log (5 / 3) + 1 / 6 * Real.log (5 / 4) + 1 / 3 * Real.log 5, 1⟩,
        ⟨4, 1 / 4 * Real.log (5 / 4), 1⟩,
        ⟨5, 1 / 4 * Real.log (5 / 3), 1⟩] : List (Document ℝ)) =
      [⟨3, 1 / 3 * Real.log (5 / 3) + 1 / 6 * Real.log (5 / 4) + 1 / 3 * Real.log 5, 1⟩,
        ⟨1, 1 / 2 * Real.log (5 / 3) + 1 / 4 * Real.log (5 / 4), 1⟩,
        ⟨2, 1 / 4 * Real.log (5 / 3) + 1 / 4 * Real.log (5 / 4), 1⟩,
        ⟨5, 1 / 4 * Real.log (5 / 3), 1⟩,
        ⟨4, 1 / 4 * Real.log (5 / 4), 1⟩] := by
    have c1 : documentBefore (⟨5, 1 / 4 * Real.log (5 / 3), 1⟩ : Document ℝ) ⟨4, 1 / 4 * Real.log (5 / 4), 1⟩ = true :=
      documentBefore_of_gt _ _ (by simp only; linarith)
    have c2 : documentBefore (⟨5, 1 / 4 * Real.log (5 / 3), 1⟩ : Document ℝ)
        ⟨3, 1 / 3 * Real.log (5 / 3) + 1 / 6 * Real.log (5 / 4) + 1 / 3 * Real.log 5, 1⟩ = false :=
      documentBefore_of_lt _ _ (by simp only; linarith)
    have c3 : documentBefore
        (⟨3, 1 / 3 * Real.log (5 / 3) + 1 / 6 * Real.log (5 / 4) + 1 / 3 * Real.log 5, 1⟩ : Document ℝ)
        ⟨2, 1 / 4 * Real.log (5 / 3) + 1 / 4 * Real.log (5 / 4), 1⟩ = true :=
      documentBefore_of_gt _ _ (by simp only; linarith)
    have c4 : documentBefore (⟨5, 1 / 4 * Real.log (5 / 3), 1⟩ : Document ℝ)
        ⟨2, 1 / 4 * Real.log (5 / 3) + 1 / 4 * Real.log (5 / 4), 1⟩ = false :=
      documentBefore_of_lt _ _ (by simp only; linarith)
    have c5 : documentBefore
        (⟨3, 1 / 3 * Real.log (5 / 3) + 1 / 6 * Real.log (5 / 4) + 1 / 3 * Real.log 5, 1⟩ : Document ℝ)
        ⟨1, 1 / 2 * Real.log (5 / 3) + 1 / 4 * Real.log (5 / 4), 1⟩ = true :=
      documentBefore_of_gt _ _ (by simp only; linarith)
    have c6 : documentBefore (⟨2, 1 / 4 * Real.log (5 / 3) + 1 / 4 * Real.log (5 / 4), 1⟩ : Document ℝ)
        ⟨1, 1 / 2 * Real.log (5 / 3) + 1 / 4 * Real.log (5 / 4), 1⟩ = false :=
      documentBefore_of_lt _ _ (by simp only; linarith)
    simp only [stdSort, List.insertionSort, List.orderedInsert, c1, c2, c3, c4, c5, c6, if_true,
      if_false, Bool.true_eq_false]
  refine ⟨near_trans_of_arranged _ _ (hsort ▸ perm_stdSort _ _) ?_, hsort⟩
  simp only [List.pairwise_cons, List.mem_cons, forall_eq_or_imp, List.mem_singleton, forall_eq,
    List.not_mem_nil, IsEmpty.forall_iff, implies_true, List.Pairwise.nil, and_true]
  refine ⟨⟨Or.inr ?_, Or.inr ?_, Or.inr ?_, Or.inr ?_⟩, ⟨Or.inr ?_, Or.inr ?_, Or.inr ?_⟩,
    ⟨Or.inr ?_, Or.inr ?_⟩, Or.inr ?_⟩ <;> linarith

/-- The documents found for the third query of `TestProcessQueries`: near-equality of the
relevance is transitive on them, and the stable insertion sort leaves them in the order 2, 5. -/
theorem queriesFixture_sorted_third :
    (∀ a ∈ ([⟨2, 1 / 2 * Real.log (5 / 2), 1⟩,
        ⟨5, 1 / 2 * Real.log (5 / 2), 1⟩] : List (Document ℝ)),
        ∀ b ∈ ([⟨2, 1 / 2 * Real.log (5 / 2), 1⟩,
          ⟨5, 1 / 2 * Real.log (5 / 2), 1⟩] : List (Document ℝ)),
        ∀ c ∈ ([⟨2, 1 / 2 * Real.log (5 / 2), 1⟩,
          ⟨5, 1 / 2 * Real.log (5 / 2), 1⟩] : List (Document ℝ)),
        |a.relevance - b.relevance| < 1 / 1000000 →
          |b.relevance - c.relevance| < 1 / 1000000 →
            |a.relevance - c.relevance| < 1 / 1000000) ∧
    stdSort documentBefore
        ([⟨2, 1 / 2 * Real.log (5 / 2), 1⟩,
          ⟨5, 1 / 2 * Real.log (5 / 2), 1⟩] : List (Document ℝ)) =
      [⟨2, 1 / 2 * Real.log (5 / 2), 1⟩,
        ⟨5, 1 / 2 * Real.log (5 / 2), 1⟩] := by
  have hsort : stdSort documentBefore
      ([⟨2, 1 / 2 * Real.log (5 / 2), 1⟩,
        ⟨5, 1 / 2 * Real.log (5 / 2), 1⟩] : List (Document ℝ)) =
      [⟨2, 1 / 2 * Real.log (5 / 2), 1⟩,
        ⟨5, 1 / 2 * Real.log (5 / 2), 1⟩] := by
    have c1 : documentBefore (⟨5, 1 / 2 * Real.log (5 / 2), 1⟩ : Document ℝ) ⟨2, 1 / 2 * Real.log (5 / 2), 1⟩ = false := by
      rw [documentBefore_of_near _ _ (by simp)]
      rfl
    simp only [stdSort, List.insertionSort, List.orderedInsert, c1, if_true, if_false,
      Bool.false_eq_true]
  refine ⟨near_trans_of_arranged _ _ (hsort ▸ perm_stdSort _ _) ?_, hsort⟩
  simp only [List.pairwise_cons, List.mem_cons, forall_eq_or_imp, List.mem_singleton, forall_eq,
    List.not_mem_nil, IsEmpty.forall_iff, implies_true, List.Pairwise.nil, and_true]
  exact Or.inl trivial

end SearchServer
end SearchEngine

namespace SearchEngine
namespace SearchServer

/-- The results of the three queries of `TestProcessQueries` in exact real arithmetic, with the
`std::sort` of libstdc++ and with the stable insertion sort: the documents 1, 5, 4, then
3, 1, 2, 5, 4, then 2, 5. -/
theorem queriesFixture_top :
    ((queriesFixture ℝ).FindTopDocumentsLibstdcxx Real.log "nasty rat -not".toList
          (GetStatusPredicate DocumentStatus.ACTUAL) =
        .ok [⟨1, 1 / 4 * Real.log (5 / 3) + 1 / 4 * Real.log (5 / 4), 1⟩,
          ⟨5, 1 / 4 * Real.log (5 / 3) + 1 / 4 * Real.log (5 / 4), 1⟩,
          ⟨4, 3 / 4 * Real.log (5 / 4), 1⟩] ∧
      (queriesFixture ℝ).FindTopDocuments Real.log "nasty rat -not".toList
          (GetStatusPredicate DocumentStatus.ACTUAL) =
        .ok [⟨1, 1 / 4 * Real.log (5 / 3) + 1 / 4 * Real.log (5 / 4), 1⟩,
          ⟨5, 1 / 4 * Real.log (5 / 3) + 1 / 4 * Real.log (5 / 4), 1⟩,
          ⟨4, 3 / 4 * Real.log (5 / 4), 1⟩]) ∧
    ((queriesFixture ℝ).FindTopDocumentsLibstdcxx Real.log "not very funny nasty pet".toList
          (GetStatusPredicate DocumentStatus.ACTUAL) =
        .ok [⟨3, 1 / 3 * Real.log (5 / 3) + 1 / 6 * Real.log (5 / 4) + 1 / 3 * Real.log 5, 1⟩,
          ⟨1, 1 / 2 * Real.log (5 / 3) + 1 / 4 * Real.log (5 / 4), 1⟩,
          ⟨2, 1 / 4 * Real.log (5 / 3) + 1 / 4 * Real.log (5 / 4), 1⟩,
          ⟨5, 1 / 4 * Real.log (5 / 3), 1⟩,
          ⟨4, 1 / 4 * Real.log (5 / 4), 1⟩] ∧
      (queriesFixture ℝ).FindTopDocuments Real.log "not very funny nasty pet".toList
          (GetStatusPredicate DocumentStatus.ACTUAL) =
        .ok [⟨3, 1 / 3 * Real.log (5 / 3) + 1 / 6 * Real.log (5 / 4) + 1 / 3 * Real.log 5, 1⟩,
          ⟨1, 1 / 2 * Real.log (5 / 3) + 1 / 4 * Real.log (5 / 4), 1⟩,
          ⟨2, 1 / 4 * Real.log (5 / 3) + 1 / 4 * Real.log (5 / 4), 1⟩,
          ⟨5, 1 / 4 * Real.log (5 / 3), 1⟩,
          ⟨4, 1 / 4 * Real.log (5 / 4), 1⟩]) ∧
    ((queriesFixture ℝ).FindTopDocumentsLibstdcxx Real.log "curly hair".toList
          (GetStatusPredicate DocumentStatus.ACTUAL) =
        .ok [⟨2, 1 / 2 * Real.log (5 / 2), 1⟩,
          ⟨5, 1 / 2 * Real.log (5 / 2), 1⟩] ∧
      (queriesFixture ℝ).FindTopDocuments Real.log "curly hair".toList
          (GetStatusPredicate DocumentStatus.ACTUAL) =
        .ok [⟨2, 1 / 2 * Real.log (5 / 2), 1⟩,
          ⟨5, 1 / 2 * Real.log (5 / 2), 1⟩]) := by
  obtain ⟨hf1, hf2, hf3⟩ := queriesFixture_found
  refine ⟨?_, ?_, ?_⟩
  · obtain ⟨hnear, hsort⟩ := queriesFixture_sorted_first
    have hlib := (sort_documents_eq_stdSort _ (by simp) (by simp) hnear).1
    rw [hsort] at hlib
    constructor
    · unfold FindTopDocumentsLibstdcxx
      simp only [hf1.1, hf1.2, hlib]
      rfl
    · unfold FindTopDocuments
      simp only [hf1.1, hf1.2, hsort]
      rfl
  · obtain ⟨hnear, hsort⟩ := queriesFixture_sorted_second
    have hlib := (sort_documents_eq_stdSort _ (by simp) (by simp) hnear).1
    rw [hsort] at hlib
    constructor
    · unfold FindTopDocumentsLibstdcxx
      simp only [hf2.1, hf2.2, hlib]
      rfl
    · unfold FindTopDocuments
      simp only [hf2.1, hf2.2, hsort]
      rfl
  · obtain ⟨hnear, hsort⟩ := queriesFixture_sorted_third
    have hlib := (sort_documents_eq_stdSort _ (by simp) (by simp) hnear).1
    rw [hsort] at hlib
    constructor
    · unfold FindTopDocumentsLibstdcxx
      simp only [hf3.1, hf3.2, hlib]
      rfl
    · unfold FindTopDocuments
      simp only [hf3.1, hf3.2, hsort]
      rfl

/-- The result of `TestProcessQueriesJoined` in exact real arithmetic: ten documents, with the ids
1, 5, 4, 3, 1, 2, 5, 4, 2, 5. -/
theorem queriesFixture_joined :
    ProcessQueriesJoined (queriesFixture ℝ) Real.log queriesOfTest =
      .ok [⟨1, 1 / 4 * Real.log (5 / 3) + 1 / 4 * Real.log (5 / 4), 1⟩,
        ⟨5, 1 / 4 * Real.log (5 / 3) + 1 / 4 * Real.log (5 / 4), 1⟩,
        ⟨4, 3 / 4 * Real.log (5 / 4), 1⟩,
        ⟨3, 1 / 3 * Real.log (5 / 3) + 1 / 6 * Real.log (5 / 4) + 1 / 3 * Real.log 5, 1⟩,
        ⟨1, 1 / 2 * Real.log (5 / 3) + 1 / 4 * Real.log (5 / 4), 1⟩,
        ⟨2, 1 / 4 * Real.log (5 / 3) + 1 / 4 * Real.log (5 / 4), 1⟩,
        ⟨5, 1 / 4 * Real.log (5 / 3), 1⟩,
        ⟨4, 1 / 4 * Real.log (5 / 4), 1⟩,
        ⟨2, 1 / 2 * Real.log (5 / 2), 1⟩,
        ⟨5, 1 / 2 * Real.log (5 / 2), 1⟩] := by
  obtain ⟨⟨_, h1⟩, ⟨_, h2⟩, ⟨_, h3⟩⟩ := queriesFixture_top
  simp only [ProcessQueriesJoined, ProcessQueries, queriesOfTest, FindTopDocumentsDefault,
    FindTopDocumentsStatus, h1, h2, h3]
  rfl

end SearchServer
end SearchEngine

/-! ## Claim C32: documents with equal relevance and rating -/

namespace SearchEngine
namespace Libstdcxx
variable {α : Type}

/-- The `std::sort` of libstdc++ on 17 elements none of which is `comp`-before another. -/
theorem sort_seventeen_tied (comp : α → α → Bool) (f : Int → α)
    (htie : ∀ i j, comp (f i) (f j) = false) :
    sort comp ((List.range 17).map (fun (i : Nat) => f ((i : Int) + 1))) =
      some ([9, 17, 16, 15, 14, 13, 12, 11, 10, 1, 8, 7, 6, 5, 4, 3, 2].map f) := by
  simp only [List.range, List.range.loop, List.map]
  simp [sort, lg, introsort_loop, unguarded_partition_pivot, move_median_to_first, iter_swap,
    unguarded_partition, scanUp, scanDown, final_insertion_sort, insertion_sort,
    insertion_sort_loop, unguarded_linear_insert, unguarded_insertion_sort,
    unguarded_insertion_sort_loop, htie]

/-- The `std::sort` of libstdc++ on four elements compared as the documents of the fixture with
a cycle are. -/
theorem sort_cycle (comp : α → α → Bool) (d1 d2 d3 d4 : α)
    (h21 : comp d2 d1 = false) (h31 : comp d3 d1 = true) (h43 : comp d4 d3 = true) :
    sort comp [d1, d2, d3, d4] = some [d4, d3, d1, d2] := by
  simp [sort, lg, introsort_loop, final_insertion_sort, insertion_sort, insertion_sort_loop,
    unguarded_linear_insert, h21, h31, h43]

end Libstdcxx

namespace OrdMap

/-- A well-formed map whose keys are the numbers 1 to `n` has `n` entries. -/
theorem length_of_keys_one_to {V : Type} {m : OrdMap Int V} (hm : WF m) (n : Nat)
    (h : ∀ d, d ∈ keys m ↔ (1 ≤ d ∧ d ≤ (n : Int))) : m.length = n := by
  have hkeys : keys m = (List.range n).map (fun (i : Nat) => (i : Int) + 1) := by
    apply sorted_eq_of_mem_iff hm
    · rw [List.Sorted, List.pairwise_map]
      exact (List.pairwise_lt_range n).imp (fun {a b} h => by
        show (a : Int) + 1 < (b : Int) + 1
        omega)
    · intro j
      show j ∈ keys m ↔ _
      rw [h, List.mem_map]
      constructor
      · intro hj
        exact ⟨(j - 1).toNat, List.mem_range.2 (by omega), by omega⟩
      · rintro ⟨i, hi, rfl⟩
        have := List.mem_range.1 hi
        omega
  have := congrArg List.length hkeys
  simpa [keys] using this

end OrdMap

namespace SearchServer
variable {F : Type} [LinearOrderedField F]

/-- The inverse document frequency of "x" in the fixture of `n` tied documents. -/
theorem tiedFixture_idf (n : Nat) (ln : F → F) :
    (tiedFixture F n).idfOf ln ['x'] = ln ((n : F) * 1 / (n : F)) := by
  obtain ⟨hr, _, hdocs, htf⟩ := tiedFixture_facts (F := F) n
  have hinv := hr.inv
  have hcount : (tiedFixture F n).documents_.length = n := by
    apply OrdMap.length_of_keys_one_to hinv.docs_wf
    intro d
    rw [← OrdMap.lookup_isSome_iff, hdocs]
    split_ifs with h <;> simp [h]
  have hpost : ((OrdMap.lookup ['x'] (tiedFixture F n).word_to_document_freqs_).getD
      []).length = n := by
    cases hp : OrdMap.lookup ['x'] (tiedFixture F n).word_to_document_freqs_ with
    | none =>
      cases n with
      | zero => rfl
      | succ k =>
        have h1 := htf 1
        rw [if_pos ⟨le_refl _, by push_cast; omega⟩] at h1
        simp [tfW, hp] at h1
    | some p =>
      apply OrdMap.length_of_keys_one_to (hinv.index.w2d_inner _ _ hp)
      intro d
      have hd := htf d
      simp only [tfW, hp, Option.some_bind] at hd
      rw [← OrdMap.lookup_isSome_iff, hd]
      split_ifs with h <;> simp [h]
  unfold idfOf GetDocumentCount
  rw [hcount, hpost]
  simp

end SearchServer
end SearchEngine

namespace SearchEngine
namespace SearchServer

/-- C32, the counterexample, in two parts, with `std::sort` as libstdc++ implements it.
First, 17 documents with the text "x" and the same ratings all match the query "x" with the same
relevance and rating; `FindTopDocuments` returns the documents 9, 17, 16, 15, 14 in this order,
so that 17 comes before 16 (beyond 16 elements `std::sort` partitions the vector, which moves
equal elements past each other).  Second, four documents match "x" with relevances
`ln(5/4)/631`, `ln(5/4)/633`, `ln(5/4)/632`, `ln(5/4)/633` and ratings 1, 3, 2, 3, on which the
comparator is not transitive; `FindTopDocuments` returns them in the order 4, 3, 1, 2, so that
document 4 comes before document 2, which has the same relevance and the same rating. -/
theorem C32_counterexample :
    (Reachable (tiedFixture ℝ 17) ∧
      (tiedFixture ℝ 17).ParseQuery "x".toList = .ok ⟨[['x']], []⟩ ∧
      (tiedFixture ℝ 17).FindAllDocuments Real.log ⟨[['x']], []⟩
          (GetStatusPredicate DocumentStatus.ACTUAL) =
        .ok ((List.range 17).map (fun (i : Nat) => (⟨(i : Int) + 1, 0, 1⟩ : Document ℝ))) ∧
      (tiedFixture ℝ 17).FindTopDocumentsLibstdcxx Real.log "x".toList
          (GetStatusPredicate DocumentStatus.ACTUAL) =
        .ok [⟨9, 0, 1⟩, ⟨17, 0, 1⟩, ⟨16, 0, 1⟩, ⟨15, 0, 1⟩, ⟨14, 0, 1⟩]) ∧
    (Reachable (cycleFixture ℝ) ∧
      (cycleFixture ℝ).ParseQuery "x".toList = .ok ⟨[['x']], []⟩ ∧
      (cycleFixture ℝ).FindAllDocuments Real.log ⟨[['x']], []⟩
          (GetStatusPredicate DocumentStatus.ACTUAL) =
        .ok [⟨1, 1 / 631 * Real.log (5 / 4), 1⟩, ⟨2, 1 / 633 * Real.log (5 / 4), 3⟩,
          ⟨3, 1 / 632 * Real.log (5 / 4), 2⟩, ⟨4, 1 / 633 * Real.log (5 / 4), 3⟩] ∧
      (cycleFixture ℝ).FindTopDocumentsLibstdcxx Real.log "x".toList
          (GetStatusPredicate DocumentStatus.ACTUAL) =
        .ok [⟨4, 1 / 633 * Real.log (5 / 4), 3⟩, ⟨3, 1 / 632 * Real.log (5 / 4), 2⟩,
          ⟨1, 1 / 631 * Real.log (5 / 4), 1⟩, ⟨2, 1 / 633 * Real.log (5 / 4), 3⟩]) := by
  constructor
  · obtain ⟨hr, _, _, _⟩ := tiedFixture_facts (F := ℝ) 17
    obtain ⟨hq, hall⟩ := tiedFixture_found (F := ℝ) 17 Real.log
    have hc : 1 / (((0 : Nat) : ℝ) + 1) * (tiedFixture ℝ 17).idfOf Real.log ['x'] = 0 := by
      rw [tiedFixture_idf]
      norm_num
    rw [hc] at hall
    refine ⟨hr, hq, hall, ?_⟩
    unfold FindTopDocumentsLibstdcxx
    simp only [hq, hall]
    rw [Libstdcxx.sort_seventeen_tied documentBefore (fun i => (⟨i, 0, 1⟩ : Document ℝ))
      (fun i j => by simp [documentBefore])]
    rfl
  · obtain ⟨hr, hstop, _, _⟩ := cycleFixture_facts (F := ℝ)
    have hq : (cycleFixture ℝ).ParseQuery "x".toList = .ok ⟨[['x']], []⟩ := by
      rw [ParseQuery_congr (cycleFixture ℝ) (emptyServer ℝ) hstop]
      rfl
    have hL1 := log_five_fourths_ge
    have hL2 : Real.log (5 / 4) ≤ 1 / 4 := by
      have := Real.log_le_sub_one_of_pos (show (0 : ℝ) < 5 / 4 by norm_num)
      norm_num at this
      linarith
    have h21 : documentBefore (⟨2, 1 / 633 * Real.log (5 / 4), 3⟩ : Document ℝ)
        ⟨1, 1 / 631 * Real.log (5 / 4), 1⟩ = false :=
      documentBefore_of_lt _ _ (by simp only; linarith)
    have h31 : documentBefore (⟨3, 1 / 632 * Real.log (5 / 4), 2⟩ : Document ℝ)
        ⟨1, 1 / 631 * Real.log (5 / 4), 1⟩ = true := by
      rw [documentBefore_of_near _ _ (by
        simp only
        rw [abs_lt]
        constructor <;> linarith)]
      rfl
    have h43 : documentBefore (⟨4, 1 / 633 * Real.log (5 / 4), 3⟩ : Document ℝ)
        ⟨3, 1 / 632 * Real.log (5 / 4), 2⟩ = true := by
      rw [documentBefore_of_near _ _ (by
        simp only
        rw [abs_lt]
        constructor <;> linarith)]
      rfl
    refine ⟨hr, hq, cycleFixture_found, ?_⟩
    unfold FindTopDocumentsLibstdcxx
    simp only [hq, cycleFixture_found]
    rw [Libstdcxx.sort_cycle documentBefore _ _ _ _ h21 h31 h43]
    rfl

end SearchServer
end SearchEngine

namespace SearchEngine
namespace SearchServer
variable {F : Type} [LinearOrderedField F]

/-- C32 as amended: in every reachable state, when at most 16 documents match the query and
near-equality of the relevance (a difference below `1e-6`) is transitive on them, `FindTopDocuments`
with the `std::sort` of libstdc++ returns normally, returns the list that the stable insertion
sort gives, and breaks ties by id: of any two returned documents with equal relevance and equal
rating, the one with the smaller id comes first. -/
theorem C32_ties_in_id_order_on_small_transitive_results (s : SearchServer F)
    (hs : Reachable s) (ln : F → F) (raw_query : List Char)
    (P : Int → DocumentStatus → Int → Bool) (query : Query)
    (hq : s.ParseQuery raw_query = .ok query) (matched : List (Document F))
    (hall : s.FindAllDocuments ln query P = .ok matched) (hlen : matched.length ≤ 16)
    (hnear : ∀ a ∈ matched, ∀ b ∈ matched, ∀ c ∈ matched,
      |a.relevance - b.relevance| < 1 / 1000000 → |b.relevance - c.relevance| < 1 / 1000000 →
        |a.relevance - c.relevance| < 1 / 1000000) :
    ∃ docs, s.FindTopDocumentsLibstdcxx ln raw_query P = .ok docs ∧
      s.FindTopDocuments ln raw_query P = .ok docs ∧
      docs.Pairwise (fun a b =>
        a.relevance = b.relevance → a.rating = b.rating → a.id < b.id) := by
  obtain ⟨m, hm, hall1, _⟩ := FindAllDocuments_spec s hs.inv ln query P
  have hmatched : matched = m.map (fun e => (⟨e.1, e.2, s.ratingOf e.1⟩ : Document F)) := by
    rw [hall] at hall1
    exact Except.ok.inj hall1
  have hid : matched.Pairwise (fun a b => a.id < b.id) := by
    rw [hmatched, List.pairwise_map]
    have : (m.map Prod.fst).Pairwise (· < ·) := hm
    rw [List.pairwise_map] at this
    exact this
  obtain ⟨hsort, hpair⟩ := sort_documents_eq_stdSort matched hlen hid hnear
  have htie : (stdSort documentBefore matched).Pairwise (fun a b =>
      a.relevance = b.relevance → a.rating = b.rating → a.id < b.id) := by
    refine hpair.imp ?_
    intro a b h hrel hrat
    apply h.2
    unfold documentBefore
    rw [hrel, hrat]
    simp
  refine ⟨if (stdSort documentBefore matched).length > MAX_RESULT_DOCUMENT_COUNT then
      (stdSort documentBefore matched).take MAX_RESULT_DOCUMENT_COUNT
    else stdSort documentBefore matched, ?_, ?_, ?_⟩
  · unfold FindTopDocumentsLibstdcxx
    simp only [hq, hall, hsort]
  · unfold FindTopDocuments
    simp only [hq, hall]
  · split_ifs
    · exact htie.sublist (List.take_sublist _ _)
    · exact htie

/-- Witness of C32 as amended: the first query of `TestProcessQueries`, "nasty rat -not", in exact
real arithmetic.  The documents 1, 4 and 5 match, 1 and 5 with the same relevance and rating, and
the result is 1, 5, 4; the joined result of the three queries of the test has the ids
1, 5, 4, 3, 1, 2, 5, 4, 2, 5. -/
theorem C32_ties_in_id_order_on_small_transitive_results_witness :
    Reachable (queriesFixture ℝ) ∧
    (queriesFixture ℝ).ParseQuery "nasty rat -not".toList =
      .ok ⟨["nasty".toList, "rat".toList], ["not".toList]⟩ ∧
    (queriesFixture ℝ).FindAllDocuments Real.log
        ⟨["nasty".toList, "rat".toList], ["not".toList]⟩
        (GetStatusPredicate DocumentStatus.ACTUAL) =
      .ok [⟨1, 1 / 4 * Real.log (5 / 3) + 1 / 4 * Real.log (5 / 4), 1⟩,
        ⟨4, 3 / 4 * Real.log (5 / 4), 1⟩,
        ⟨5, 1 / 4 * Real.log (5 / 3) + 1 / 4 * Real.log (5 / 4), 1⟩] ∧
    ([⟨1, 1 / 4 * Real.log (5 / 3) + 1 / 4 * Real.log (5 / 4), 1⟩,
      ⟨4, 3 / 4 * Real.log (5 / 4), 1⟩,
      ⟨5, 1 / 4 * Real.log (5 / 3) + 1 / 4 * Real.log (5 / 4), 1⟩] : List (Document ℝ)).length ≤ 16 ∧
    (∀ a ∈ ([⟨1, 1 / 4 * Real.log (5 / 3) + 1 / 4 * Real.log (5 / 4), 1⟩,
        ⟨4, 3 / 4 * Real.log (5 / 4), 1⟩,
        ⟨5, 1 / 4 * Real.log (5 / 3) + 1 / 4 * Real.log (5 / 4), 1⟩] : List (Document ℝ)),
        ∀ b ∈ ([⟨1, 1 / 4 * Real.log (5 / 3) + 1 / 4 * Real.log (5 / 4), 1⟩,
          ⟨4, 3 / 4 * Real.log (5 / 4), 1⟩,
          ⟨5, 1 / 4 * Real.log (5 / 3) + 1 / 4 * Real.log (5 / 4), 1⟩] : List (Document ℝ)),
        ∀ c ∈ ([⟨1, 1 / 4 * Real.log (5 / 3) + 1 / 4 * Real.log (5 / 4), 1⟩,
          ⟨4, 3 / 4 * Real.log (5 / 4), 1⟩,
          ⟨5, 1 / 4 * Real.log (5 / 3) + 1 / 4 * Real.log (5 / 4), 1⟩] : List (Document ℝ)),
        |a.relevance - b.relevance| < 1 / 1000000 →
          |b.relevance - c.relevance| < 1 / 1000000 →
            |a.relevance - c.relevance| < 1 / 1000000) ∧
    (∃ docs, (queriesFixture ℝ).FindTopDocumentsLibstdcxx Real.log "nasty rat -not".toList
        (GetStatusPredicate DocumentStatus.ACTUAL) = .ok docs ∧
      (queriesFixture ℝ).FindTopDocuments Real.log "nasty rat -not".toList
        (GetStatusPredicate DocumentStatus.ACTUAL) = .ok docs ∧
      docs.Pairwise (fun a b =>
        a.relevance = b.relevance → a.rating = b.rating → a.id < b.id)) ∧
    (queriesFixture ℝ).FindTopDocumentsLibstdcxx Real.log "nasty rat -not".toList
        (GetStatusPredicate DocumentStatus.ACTUAL) =
      .ok [⟨1, 1 / 4 * Real.log (5 / 3) + 1 / 4 * Real.log (5 / 4), 1⟩,
        ⟨5, 1 / 4 * Real.log (5 / 3) + 1 / 4 * Real.log (5 / 4), 1⟩,
        ⟨4, 3 / 4 * Real.log (5 / 4), 1⟩] ∧
    ∃ joined, ProcessQueriesJoined (queriesFixture ℝ) Real.log queriesOfTest = .ok joined ∧
      joined.map (fun doc => doc.id) = [1, 5, 4, 3, 1, 2, 5, 4, 2, 5] :=
  ⟨queriesFixture_reachable, queriesFixture_found.1.1, queriesFixture_found.1.2, by simp,
    queriesFixture_sorted_first.1,
    C32_ties_in_id_order_on_small_transitive_results (queriesFixture ℝ)
      queriesFixture_reachable Real.log "nasty rat -not".toList
      (GetStatusPredicate DocumentStatus.ACTUAL) _ queriesFixture_found.1.1 _
      queriesFixture_found.1.2 (by simp) queriesFixture_sorted_first.1,
    queriesFixture_top.1.1, _, queriesFixture_joined, rfl⟩

end SearchServer
end SearchEngine

/-! ## The `std::sort` of libstdc++ on a strict weak order

The call returns on a vector of any length and sorts it: `sort_spec`.  The final insertion sort
orders whatever the loop of `std::__introsort_loop` leaves, provided that its unguarded part
finds, for every element from the 17th on, an element in front of it that is not `comp`-after it;
the partition leaves the pivot as such an element, and the heap sort leaves a child of the
former root. -/

namespace SearchEngine
namespace Libstdcxx
variable {α : Type}

theorem perm_cons_set (a y : α) :
    ∀ (t : List α) (j : Nat), t[j]? = some y → (y :: t.set j a).Perm (a :: t) := by
  intro t
  induction t with
  | nil => intro j h; simp at h
  | cons b t ih =>
    intro j h
    cases j with
    | zero =>
      simp only [List.getElem?_cons_zero, Option.some.injEq] at h
      subst h
      exact List.Perm.swap _ _ _
    | succ j =>
      simp only [List.getElem?_cons_succ] at h
      simp only [List.set_cons_succ]
      exact (List.Perm.swap _ _ _).trans (((ih j h).cons b).trans (List.Perm.swap _ _ _))

/-- Exchanging two positions of a vector rearranges it. -/
theorem perm_set_set :
    ∀ (l : List α) (i j : Nat) (x y : α), l[i]? = some x → l[j]? = some y →
      ((l.set i y).set j x).Perm l := by
  intro l
  induction l with
  | nil => intro i j x y h; simp at h
  | cons b t ih =>
    intro i j x y hi hj
    cases i with
    | zero =>
      simp only [List.getElem?_cons_zero, Option.some.injEq] at hi
      subst hi
      cases j with
      | zero =>
        simp only [List.getElem?_cons_zero, Option.some.injEq] at hj
        subst hj
        simp
      | succ j =>
        simp only [List.getElem?_cons_succ] at hj
        simp only [List.set_cons_zero, List.set_cons_succ]
        exact perm_cons_set b y t j hj
    | succ i =>
      simp only [List.getElem?_cons_succ] at hi
      cases j with
      | zero =>
        simp only [List.getElem?_cons_zero, Option.some.injEq] at hj
        subst hj
        simp only [List.set_cons_zero, List.set_cons_succ]
        exact perm_cons_set b x t i hi
      | succ j =>
        simp only [List.getElem?_cons_succ] at hj
        simp only [List.set_cons_succ]
        exact (ih i j x y hi hj).cons b

/-- The elements of the positions from `a` up to `b`. -/
theorem mem_slice_iff (v : List α) (a b : Nat) (x : α) :
    x ∈ (v.drop a).take (b - a) ↔ ∃ j, a ≤ j ∧ j < b ∧ v[j]? = some x := by
  rw [List.mem_iff_getElem?]
  constructor
  · rintro ⟨n, hn⟩
    rw [List.getElem?_take] at hn
    split_ifs at hn with h
    rw [List.getElem?_drop] at hn
    exact ⟨a + n, by omega, by omega, hn⟩
  · rintro ⟨j, h1, h2, h3⟩
    refine ⟨j - a, ?_⟩
    rw [List.getElem?_take, if_pos (by omega), List.getElem?_drop]
    rw [show a + (j - a) = j by omega]
    exact h3

theorem Rearranged.refl (v : List α) (a b : Nat) : Rearranged v v a b :=
  ⟨List.Perm.refl v, fun _ _ => rfl⟩

theorem Rearranged.trans {v v1 v2 : List α} {a b : Nat} (h1 : Rearranged v v1 a b)
    (h2 : Rearranged v1 v2 a b) : Rearranged v v2 a b :=
  ⟨h2.1.trans h1.1, fun i hi => (h2.2 i hi).trans (h1.2 i hi)⟩

theorem Rearranged.mono {v v1 : List α} {a b a1 b1 : Nat} (h : Rearranged v v1 a1 b1)
    (ha : a ≤ a1) (hb : b1 ≤ b) : Rearranged v v1 a b :=
  ⟨h.1, fun i hi => h.2 i (by omega)⟩

theorem Rearranged.length {v v1 : List α} {a b : Nat} (h : Rearranged v v1 a b) :
    v1.length = v.length := h.1.length_eq

/-- Rearranging the positions from `a` up to `b` rearranges the elements of these positions. -/
theorem Rearranged.slice {v v1 : List α} {a b : Nat} (h : Rearranged v v1 a b) (hab : a ≤ b) :
    ((v1.drop a).take (b - a)).Perm ((v.drop a).take (b - a)) := by
  have hpre : v1.take a = v.take a := by
    apply List.ext_getElem?
    intro n
    rw [List.getElem?_take, List.getElem?_take]
    split_ifs with hn
    · exact h.2 n (Or.inl hn)
    · rfl
  have hpost : (v1.drop a).drop (b - a) = (v.drop a).drop (b - a) := by
    apply List.ext_getElem?
    intro n
    rw [List.getElem?_drop, List.getElem?_drop, List.getElem?_drop, List.getElem?_drop]
    exact h.2 _ (Or.inr (by omega))
  have e1 : v1 = v1.take a ++ ((v1.drop a).take (b - a) ++ (v1.drop a).drop (b - a)) := by
    rw [List.take_append_drop, List.take_append_drop]
  have e : v = v.take a ++ ((v.drop a).take (b - a) ++ (v.drop a).drop (b - a)) := by
    rw [List.take_append_drop, List.take_append_drop]
  have hp := h.1
  rw [e1, e, hpre, hpost] at hp
  exact (List.perm_append_right_iff _).1 ((List.perm_append_left_iff _).1 hp)

/-- An element of the positions from `a` up to `b` is still there after they were rearranged. -/
theorem Rearranged.mem_slice {v v1 : List α} {a b : Nat} (h : Rearranged v v1 a b)
    (hab : a ≤ b) (x : α) :
    x ∈ (v1.drop a).take (b - a) ↔ x ∈ (v.drop a).take (b - a) :=
  (h.slice hab).mem_iff

/-- The positions from `a` up to `b` are among the positions from `a` up to `c`. -/
theorem mem_slice_mono (v : List α) {a b c : Nat} (hbc : b ≤ c) {x : α}
    (h : x ∈ (v.drop a).take (b - a)) : x ∈ (v.drop a).take (c - a) := by
  rw [mem_slice_iff] at h ⊢
  obtain ⟨j, h1, h2, h3⟩ := h
  exact ⟨j, h1, by omega, h3⟩

/-- Positions that two vectors share hold the same elements. -/
theorem mem_slice_congr {v v1 : List α} {a b : Nat}
    (h : ∀ i, a ≤ i → i < b → v1[i]? = v[i]?) (x : α) :
    x ∈ (v1.drop a).take (b - a) ↔ x ∈ (v.drop a).take (b - a) := by
  rw [mem_slice_iff, mem_slice_iff]
  constructor
  · rintro ⟨j, h1, h2, h3⟩
    exact ⟨j, h1, h2, (h j h1 h2) ▸ h3⟩
  · rintro ⟨j, h1, h2, h3⟩
    exact ⟨j, h1, h2, (h j h1 h2).symm ▸ h3⟩

theorem iter_swap_eq (v : List α) (a b : Nat) (x y : α) (ha : v[a]? = some x)
    (hb : v[b]? = some y) : iter_swap v a b = some ((v.set a y).set b x) := by
  simp only [iter_swap, ha, hb]

theorem Rearranged.of_swap (v : List α) (i j : Nat) (x y : α) (hi : v[i]? = some x)
    (hj : v[j]? = some y) {a b : Nat} (hai : a ≤ i) (hib : i < b) (haj : a ≤ j) (hjb : j < b) :
    Rearranged v ((v.set i y).set j x) a b := by
  refine ⟨perm_set_set v i j x y hi hj, ?_⟩
  intro k hk
  rw [List.getElem?_set_ne (by omega), List.getElem?_set_ne (by omega)]

/-- The loop `while (comp(first, pivot)) ++first;` stops inside the vector when an element from
`first` on is not `comp`-before the pivot. -/
theorem scanUp_spec (comp : α → α → Bool) (v : List α) (pivot : Nat) (p : α)
    (hp : v[pivot]? = some p) :
    ∀ (d fuel first k : Nat) (x : α), k = first + d → d < fuel → v[k]? = some x →
      comp x p = false →
      ∃ k1 x1, scanUp comp v pivot fuel first = some k1 ∧ first ≤ k1 ∧ k1 ≤ k ∧
        v[k1]? = some x1 ∧ comp x1 p = false := by
  intro d
  induction d with
  | zero =>
    intro fuel first k x hk hfuel hx hc
    obtain ⟨fuel1, rfl⟩ : ∃ fuel1, fuel = fuel1 + 1 := ⟨fuel - 1, by omega⟩
    have hk1 : k = first := by omega
    subst hk1
    refine ⟨k, x, ?_, le_refl _, le_refl _, hx, hc⟩
    simp only [scanUp, hx, hp, hc, Bool.false_eq_true, if_false]
  | succ d ih =>
    intro fuel first k x hk hfuel hx hc
    obtain ⟨fuel1, rfl⟩ : ∃ fuel1, fuel = fuel1 + 1 := ⟨fuel - 1, by omega⟩
    have hklen : k < v.length := (List.getElem?_eq_some.1 hx).1
    have hflen : first < v.length := by omega
    obtain ⟨x0, hx0⟩ : ∃ x0, v[first]? = some x0 := ⟨_, List.getElem?_eq_getElem hflen⟩
    by_cases hc0 : comp x0 p = true
    · obtain ⟨k1, x1, h1, h2, h3, h4, h5⟩ := ih fuel1 (first + 1) k x (by omega) (by omega) hx hc
      refine ⟨k1, x1, ?_, by omega, h3, h4, h5⟩
      simp only [scanUp, hx0, hp, hc0, if_true, h1]
    · refine ⟨first, x0, ?_, le_refl _, by omega, hx0, by simpa using hc0⟩
      simp only [scanUp, hx0, hp, hc0, Bool.false_eq_true, if_false]

/-- The loop `while (comp(pivot, last)) --last;` stops at the pivot at the latest. -/
theorem scanDown_spec (comp : α → α → Bool) (v : List α) (pivot : Nat) (p : α)
    (hp : v[pivot]? = some p) (hirr : comp p p = false) :
    ∀ last : Nat, pivot ≤ last → last < v.length →
      ∃ k1 x1, scanDown comp v pivot last = some k1 ∧ pivot ≤ k1 ∧ k1 ≤ last ∧
        v[k1]? = some x1 ∧ comp p x1 = false ∧
        ∀ j y, k1 < j → j ≤ last → v[j]? = some y → comp p y = true := by
  intro last
  induction last with
  | zero =>
    intro h1 _
    have h0 : pivot = 0 := by omega
    subst h0
    refine ⟨0, p, ?_, le_refl _, le_refl _, hp, hirr, ?_⟩
    · simp only [scanDown, hp, hirr, Bool.false_eq_true, if_false]
    · intro j y hj1 hj2
      omega
  | succ last ih =>
    intro h1 h2
    obtain ⟨x, hx⟩ : ∃ x, v[last + 1]? = some x := ⟨_, List.getElem?_eq_getElem h2⟩
    by_cases hc : comp p x = true
    · have hne : pivot ≠ last + 1 := by
        intro h
        rw [h, hx] at hp
        cases hp
        rw [hirr] at hc
        cases hc
      obtain ⟨k1, x1, e1, e2, e3, e4, e5, e6⟩ := ih (by omega) (by omega)
      refine ⟨k1, x1, ?_, e2, by omega, e4, e5, ?_⟩
      · simp only [scanDown, hx, hp, hc, if_true, e1]
      · intro j y hj1 hj2 hy
        by_cases hj : j = last + 1
        · rw [hj, hx] at hy
          cases hy
          exact hc
        · exact e6 j y hj1 (by omega) hy
    · refine ⟨last + 1, x, ?_, h1, le_refl _, hx, by simpa using hc, ?_⟩
      · simp only [scanDown, hx, hp, hc, Bool.false_eq_true, if_false]
      · intro j y hj1 hj2
        omega

/-- `std::__unguarded_partition` with the pivot at position `f`, in front of the range: when an
element of the range is not `comp`-before the pivot, the loops stay inside the vector, and no
element from the cut on is `comp`-before the pivot. -/
theorem unguarded_partition_spec (comp : α → α → Bool) (S : α → Prop)
    (hasymm : ∀ x, S x → ∀ y, S y → comp x y = true → comp y x = false)
    (f L : Nat) (p : α) :
    ∀ (fuel : Nat) (v : List α) (first last : Nat),
      (∀ x ∈ v, S x) → v[f]? = some p → f < first → f < last → last ≤ L → L ≤ v.length →
      last - f ≤ fuel →
      (∃ k x, first ≤ k ∧ k < L ∧ v[k]? = some x ∧ comp x p = false) →
      (∀ k x, last ≤ k → k < L → v[k]? = some x → comp x p = false) →
      ∃ v1 cut, unguarded_partition comp f fuel v first last = some (v1, cut) ∧
        Rearranged v v1 (f + 1) L ∧ f < cut ∧ cut < L ∧
        ∀ k x, cut ≤ k → k < L → v1[k]? = some x → comp x p = false := by
  intro fuel
  induction fuel with
  | zero =>
    intro v first last _ _ _ h1 _ _ h2
    omega
  | succ fuel ih =>
    intro v first last hS hp hf hfl hlL hLv hfuel hsent hR
    have hSp : S p := hS p (List.getElem?_mem hp)
    have hirr : comp p p = false := by
      cases hpp : comp p p with
      | false => rfl
      | true =>
        have := hasymm p hSp p hSp hpp
        rw [hpp] at this
        cases this
    obtain ⟨k, x, hk1, hk2, hkx, hkc⟩ := hsent
    obtain ⟨first1, x1, e1, e2, e3, e4, e5⟩ :=
      scanUp_spec comp v f p hp (k - first) (v.length + 1) first k x (by omega) (by omega) hkx hkc
    obtain ⟨last0, hlast0⟩ : ∃ last0, last = last0 + 1 := ⟨last - 1, by omega⟩
    subst hlast0
    obtain ⟨last1, y1, d1, d2, d3, d4, d5, d6⟩ :=
      scanDown_spec comp v f p hp hirr last0 (by omega) (by omega)
    by_cases hlt : first1 < last1
    · have hswap := iter_swap_eq v first1 last1 x1 y1 e4 d4
      have hre : Rearranged v ((v.set first1 y1).set last1 x1) (f + 1) L :=
        Rearranged.of_swap v first1 last1 x1 y1 e4 d4 (by omega) (by omega) (by omega)
          (by omega)
      have hS1 : ∀ z ∈ (v.set first1 y1).set last1 x1, S z :=
        fun z hz => hS z (hre.1.mem_iff.1 hz)
      have hp1 : ((v.set first1 y1).set last1 x1)[f]? = some p := by
        rw [hre.2 f (Or.inl (by omega))]
        exact hp
      have hlast1 : ((v.set first1 y1).set last1 x1)[last1]? = some x1 := by
        rw [List.getElem?_set_self (by rw [List.length_set]; omega)]
      obtain ⟨v1, cut, r1, r2, r3, r4, r5⟩ := ih ((v.set first1 y1).set last1 x1)
        (first1 + 1) last1 hS1 hp1 (by omega) (by omega) (by omega)
        (by rw [List.length_set, List.length_set]; exact hLv) (by omega)
        ⟨last1, x1, by omega, by omega, hlast1, e5⟩
        (by
          intro j y hj1 hj2 hy
          by_cases hj : j = last1
          · rw [hj, hlast1] at hy
            cases hy
            exact e5
          · rw [List.getElem?_set_ne (by omega), List.getElem?_set_ne (by omega)] at hy
            by_cases hj3 : j ≤ last0
            · exact hasymm p hSp y (hS y (List.getElem?_mem hy)) (d6 j y (by omega) hj3 hy)
            · exact hR j y (by omega) hj2 hy)
      refine ⟨v1, cut, ?_, hre.trans r2, r3, r4, r5⟩
      simp only [unguarded_partition, e1, d1, if_pos hlt, hswap, r1]
    · refine ⟨v, first1, ?_, Rearranged.refl _ _ _, by omega, by omega, ?_⟩
      · simp only [unguarded_partition, e1, d1, if_neg hlt]
      · intro j y hj1 hj2 hy
        by_cases hj : j = first1
        · rw [hj, e4] at hy
          cases hy
          exact e5
        · by_cases hj3 : j ≤ last0
          · exact hasymm p hSp y (hS y (List.getElem?_mem hy)) (d6 j y (by omega) hj3 hy)
          · exact hR j y (by omega) hj2 hy

/-- The partition that follows after `std::__move_median_to_first` has exchanged the first
position with position `m`, when position `k` holds an element that is not `comp`-before the
element of `m`. -/
theorem partition_after_swap (comp : α → α → Bool) (S : α → Prop)
    (hasymm : ∀ x, S x → ∀ y, S y → comp x y = true → comp y x = false)
    (v : List α) (first last m k : Nat) (w p x : α) (hS : ∀ x ∈ v, S x)
    (hlast : last ≤ v.length) (hm1 : first < m) (hm2 : m < last) (hk1 : first < k)
    (hk2 : k < last) (hmk : m ≠ k) (hw : v[first]? = some w) (hp : v[m]? = some p)
    (hx : v[k]? = some x) (hc : comp x p = false) :
    ∃ v1 cut p1, (match iter_swap v first m with
        | none => none
        | some v0 => unguarded_partition comp first (v0.length + 1) v0 (first + 1) last) =
          some (v1, cut) ∧
      Rearranged v v1 first last ∧ first < cut ∧ cut < last ∧ v1[first]? = some p1 ∧
      ∀ j y, cut ≤ j → j < last → v1[j]? = some y → comp y p1 = false := by
  have hswap := iter_swap_eq v first m w p hw hp
  have hre : Rearranged v ((v.set first p).set m w) first last :=
    Rearranged.of_swap v first m w p hw hp (le_refl _) (by omega) (by omega) hm2
  have hlen : ((v.set first p).set m w).length = v.length := by
    rw [List.length_set, List.length_set]
  have hp0 : ((v.set first p).set m w)[first]? = some p := by
    rw [List.getElem?_set_ne (by omega), List.getElem?_set_self (by omega)]
  have hx0 : ((v.set first p).set m w)[k]? = some x := by
    rw [List.getElem?_set_ne (by omega), List.getElem?_set_ne (by omega)]
    exact hx
  obtain ⟨v1, cut, r1, r2, r3, r4, r5⟩ := unguarded_partition_spec comp S hasymm first last p
    (((v.set first p).set m w).length + 1) ((v.set first p).set m w) (first + 1) last
    (fun z hz => hS z (hre.1.mem_iff.1 hz)) hp0 (by omega) (by omega) (le_refl _)
    (by omega) (by omega) ⟨k, x, by omega, hk2, hx0, hc⟩
    (by intro j y hj1 hj2; omega)
  refine ⟨v1, cut, p, ?_, hre.trans (r2.mono (by omega) (le_refl _)), r3, r4, ?_, r5⟩
  · simp only [hswap, r1]
  · rw [r2.2 first (Or.inl (by omega))]
    exact hp0

/-- `std::__unguarded_partition_pivot` on a range of more than 16 elements among which the
comparator is asymmetric: it returns, the cut lies inside the range behind its first position,
which holds the pivot, and no element from the cut on is `comp`-before the pivot. -/
theorem unguarded_partition_pivot_spec (comp : α → α → Bool) (S : α → Prop)
    (hasymm : ∀ x, S x → ∀ y, S y → comp x y = true → comp y x = false)
    (v : List α) (first last : Nat) (hS : ∀ x ∈ v, S x) (hlast : last ≤ v.length)
    (hsize : last - first > 16) :
    ∃ v1 cut p, unguarded_partition_pivot comp v first last = some (v1, cut) ∧
      Rearranged v v1 first last ∧ first < cut ∧ cut < last ∧ v1[first]? = some p ∧
      ∀ j y, cut ≤ j → j < last → v1[j]? = some y → comp y p = false := by
  obtain ⟨w, hw⟩ : ∃ w, v[first]? = some w := ⟨_, List.getElem?_eq_getElem (by omega)⟩
  obtain ⟨x, hx⟩ : ∃ x, v[first + 1]? = some x := ⟨_, List.getElem?_eq_getElem (by omega)⟩
  obtain ⟨y, hy⟩ : ∃ y, v[first + (last - first) / 2]? = some y :=
    ⟨_, List.getElem?_eq_getElem (by omega)⟩
  obtain ⟨z, hz⟩ : ∃ z, v[last - 1]? = some z := ⟨_, List.getElem?_eq_getElem (by omega)⟩
  have hSx : S x := hS x (List.getElem?_mem hx)
  have hSy : S y := hS y (List.getElem?_mem hy)
  have hSz : S z := hS z (List.getElem?_mem hz)
  simp only [unguarded_partition_pivot, move_median_to_first, hx, hy, hz]
  by_cases hxy : comp x y = true
  · by_cases hyz : comp y z = true
    · simp only [hxy, hyz, if_true]
      exact partition_after_swap comp S hasymm v first last _ (last - 1) w y z hS hlast
        (by omega) (by omega) (by omega) (by omega) (by omega) hw hy hz (hasymm y hSy z hSz hyz)
    · by_cases hxz : comp x z = true
      · simp only [hxy, hyz, hxz, if_true, if_false, Bool.false_eq_true]
        exact partition_after_swap comp S hasymm v first last (last - 1) _ w z y hS hlast
          (by omega) (by omega) (by omega) (by omega) (by omega) hw hz hy (by simpa using hyz)
      · simp only [hxy, hyz, hxz, if_true, if_false, Bool.false_eq_true]
        exact partition_after_swap comp S hasymm v first last (first + 1) _ w x y hS hlast
          (by omega) (by omega) (by omega) (by omega) (by omega) hw hx hy (hasymm x hSx y hSy hxy)
  · by_cases hxz : comp x z = true
    · simp only [hxy, hxz, if_true, if_false, Bool.false_eq_true]
      exact partition_after_swap comp S hasymm v first last (first + 1) (last - 1) w x z hS hlast
        (by omega) (by omega) (by omega) (by omega) (by omega) hw hx hz (hasymm x hSx z hSz hxz)
    · by_cases hyz : comp y z = true
      · simp only [hxy, hxz, hyz, if_true, if_false, Bool.false_eq_true]
        exact partition_after_swap comp S hasymm v first last (last - 1) (first + 1) w z x hS
          hlast (by omega) (by omega) (by omega) (by omega) (by omega) hw hz hx
          (by simpa using hxz)
      · simp only [hxy, hxz, hyz, if_false, Bool.false_eq_true]
        exact partition_after_swap comp S hasymm v first last _ (first + 1) w y x hS hlast
          (by omega) (by omega) (by omega) (by omega) (by omega) hw hy hx (by simpa using hxy)

theorem Desc.le {top h : Nat} (d : Desc top h) : top ≤ h := by
  induction d with
  | refl => exact le_refl _
  | left h _ ih => omega
  | right h _ ih => omega

theorem Desc.parent {top h : Nat} (d : Desc top h) (hne : h ≠ top) :
    Desc top ((h - 1) / 2) := by
  cases d with
  | refl => exact absurd rfl hne
  | left h0 d0 =>
    have : (2 * h0 + 1 - 1) / 2 = h0 := by omega
    rw [this]
    exact d0
  | right h0 d0 =>
    have : (2 * h0 + 2 - 1) / 2 = h0 := by omega
    rw [this]
    exact d0

theorem Desc.child {top h c : Nat} (d : Desc top h) (hc1 : 1 ≤ c) (hc : (c - 1) / 2 = h) :
    Desc top c := by
  rcases Nat.even_or_odd c with he | ho
  · obtain ⟨k, hk⟩ := he
    have : c = 2 * h + 2 := by omega
    rw [this]
    exact Desc.right h d
  · obtain ⟨k, hk⟩ := ho
    have : c = 2 * h + 1 := by omega
    rw [this]
    exact Desc.left h d

theorem HeapFrom.mono_lo {comp : α → α → Bool} {v : List α} {first len lo lo1 : Nat}
    (h : HeapFrom comp v first len lo) (hlo : lo ≤ lo1) : HeapFrom comp v first len lo1 :=
  fun c x y h1 h2 h3 hx hy => h c x y h1 h2 (by omega) hx hy

/-- The heap order after one position of the heap was overwritten. -/
theorem heapFrom_set (comp : α → α → Bool) (v : List α) (first len lo h : Nat) (z : α)
    (hlen : first + h < v.length)
    (hold : ∀ c x y, 1 ≤ c → c < len → lo ≤ (c - 1) / 2 → c ≠ h → (c - 1) / 2 ≠ h →
      v[first + (c - 1) / 2]? = some x → v[first + c]? = some y → comp x y = false)
    (hup : 1 ≤ h → lo ≤ (h - 1) / 2 → ∀ x, v[first + (h - 1) / 2]? = some x →
      comp x z = false)
    (hdown : ∀ c y, 1 ≤ c → c < len → (c - 1) / 2 = h → v[first + c]? = some y →
      comp z y = false) :
    HeapFrom comp (v.set (first + h) z) first len lo := by
  intro c x y hc1 hc2 hlo hx hy
  by_cases hch : c = h
  · subst hch
    rw [List.getElem?_set_ne (by omega)] at hx
    rw [List.getElem?_set_self hlen] at hy
    cases hy
    exact hup hc1 hlo x hx
  · rw [List.getElem?_set_ne (by omega)] at hy
    by_cases hph : (c - 1) / 2 = h
    · rw [hph, List.getElem?_set_self hlen] at hx
      cases hx
      exact hdown c y hc1 hc2 hph hy
    · rw [List.getElem?_set_ne (by omega)] at hx
      exact hold c x y hc1 hc2 hlo hch hph hx hy

theorem irrefl_of_asymm (comp : α → α → Bool) (S : α → Prop)
    (hasymm : ∀ x, S x → ∀ y, S y → comp x y = true → comp y x = false) (x : α) (hx : S x) :
    comp x x = false := by
  cases hxx : comp x x with
  | false => rfl
  | true =>
    have := hasymm x hx x hx hxx
    rw [hxx] at this
    cases this

/-- One turn of the loop of `std::__adjust_heap`: the child `c` of the hole, which no child of
the hole is `comp`-after, moves into the hole, and the hole moves to `c`. -/
theorem HoleInv.sift_step (comp : α → α → Bool) (S : α → Prop)
    (htrans : ∀ x, S x → ∀ y, S y → ∀ z, S z →
      comp x y = false → comp y z = false → comp x z = false)
    {value : α} {v0 v : List α} {first len top h : Nat}
    (inv : HoleInv comp S value v0 v first len top h) (hv0 : first + len ≤ v0.length)
    (c : Nat) (z : α) (hc1 : 1 ≤ c) (hc2 : c < len) (hch : (c - 1) / 2 = h)
    (hz : v[first + c]? = some z)
    (hbest : ∀ c1 y, 1 ≤ c1 → c1 < len → (c1 - 1) / 2 = h → v[first + c1]? = some y →
      comp z y = false) :
    HoleInv comp S value v0 (v.set (first + h) z) first len top c := by
  have hle := inv.desc.le
  have hlen := inv.length
  have hSz : S z := inv.elems z (List.getElem?_mem hz)
  have hhlen : first + h < v.length := by have := inv.hole_lt; omega
  obtain ⟨vh, hvh⟩ : ∃ vh, v[first + h]? = some vh := ⟨_, List.getElem?_eq_getElem hhlen⟩
  have hrel : ∀ (lo : Nat), top ≤ lo →
      (∀ c1 x y, 1 ≤ c1 → c1 < len → lo ≤ (c1 - 1) / 2 → c1 ≠ h → (c1 - 1) / 2 ≠ h →
        v[first + (c1 - 1) / 2]? = some x → v[first + c1]? = some y → comp x y = false) →
      HeapFrom comp (v.set (first + h) z) first len lo := by
    intro lo hlo hold
    apply heapFrom_set comp v first len lo h z hhlen hold
    · intro h1 h2 x hx
      have hne : h ≠ top := by omega
      have r1 := inv.heap_top hne h x vh h1 inv.hole_lt (by omega) hx hvh
      have r2 := inv.heap c vh z hc1 hc2 (by omega) (by rw [hch]; exact hvh) hz
      exact htrans x (inv.elems x (List.getElem?_mem hx)) vh
        (inv.elems vh (List.getElem?_mem hvh)) z hSz r1 r2
    · exact hbest
  refine ⟨by rw [List.length_set]; exact hlen, ?_, ?_, ?_, hc2, inv.desc.child hc1 hch, ?_, ?_⟩
  · intro x hx
    rcases List.mem_or_eq_of_mem_set hx with h1 | h1
    · exact inv.elems x h1
    · exact h1 ▸ hSz
  · intro i hi
    rw [List.getElem?_set_ne (by omega)]
    exact inv.outside i hi
  · have hu1 : (v.set (first + h) value)[first + h]? = some value :=
      List.getElem?_set_self hhlen
    have hu2 : (v.set (first + h) value)[first + c]? = some z := by
      rw [List.getElem?_set_ne (by omega)]
      exact hz
    have hp := perm_set_set (v.set (first + h) value) (first + h) (first + c) value z hu1 hu2
    rw [List.set_set] at hp
    exact hp.trans inv.perm
  · apply hrel (top + 1) (by omega)
    intro c1 x y h1 h2 h3 _ _ hx hy
    exact inv.heap c1 x y h1 h2 h3 hx hy
  · intro _
    apply hrel top (le_refl _)
    intro c1 x y h1 h2 h3 h4 h5 hx hy
    by_cases hne : h = top
    · exact inv.heap c1 x y h1 h2 (by omega) hx hy
    · exact inv.heap_top hne c1 x y h1 h2 h3 hx hy

/-- The loop of `std::__adjust_heap`: it stays inside the vector and moves the hole down to an
index without a second child. -/
theorem adjust_heap_loop_spec (comp : α → α → Bool) (S : α → Prop)
    (hasymm : ∀ x, S x → ∀ y, S y → comp x y = true → comp y x = false)
    (htrans : ∀ x, S x → ∀ y, S y → ∀ z, S z →
      comp x y = false → comp y z = false → comp x z = false)
    (value : α) (v0 : List α) (first len top : Nat) (hv0 : first + len ≤ v0.length) :
    ∀ (fuel : Nat) (v : List α) (h : Nat), HoleInv comp S value v0 v first len top h →
      len ≤ fuel + h →
      ∃ v1 h1, adjust_heap_loop comp first len fuel v h h = some (v1, h1, h1) ∧
        ¬ (h1 < (len - 1) / 2) ∧ HoleInv comp S value v0 v1 first len top h1 := by
  intro fuel
  induction fuel with
  | zero =>
    intro v h inv hfuel
    have := inv.hole_lt
    omega
  | succ fuel ih =>
    intro v h inv hfuel
    have hlen := inv.length
    have hh := inv.hole_lt
    by_cases hlt : h < (len - 1) / 2
    · obtain ⟨x, hx⟩ : ∃ x, v[first + 2 * (h + 1)]? = some x :=
        ⟨_, List.getElem?_eq_getElem (by omega)⟩
      obtain ⟨y, hy⟩ : ∃ y, v[first + (2 * (h + 1) - 1)]? = some y :=
        ⟨_, List.getElem?_eq_getElem (by omega)⟩
      have hSx : S x := inv.elems x (List.getElem?_mem hx)
      have hSy : S y := inv.elems y (List.getElem?_mem hy)
      have hhl : first + h < v.length := by omega
      by_cases hc : comp x y = true
      · have inv1 := inv.sift_step comp S htrans hv0 (2 * (h + 1) - 1) y (by omega) (by omega)
          (by omega) hy (by
            intro c1 y1 h1 h2 h3 hy1
            have hcases : c1 = 2 * (h + 1) - 1 ∨ c1 = 2 * (h + 1) := by omega
            rcases hcases with e | e
            · rw [e, hy] at hy1
              cases hy1
              exact irrefl_of_asymm comp S hasymm y hSy
            · rw [e, hx] at hy1
              cases hy1
              exact hasymm x hSx y hSy hc)
        obtain ⟨v1, h1, r1, r2, r3⟩ := ih _ _ inv1 (by omega)
        refine ⟨v1, h1, ?_, r2, r3⟩
        simp only [adjust_heap_loop, if_pos hlt, hx, hy, hc, if_true, if_pos hhl, r1]
      · have inv1 := inv.sift_step comp S htrans hv0 (2 * (h + 1)) x (by omega) (by omega)
          (by omega) hx (by
            intro c1 y1 h1 h2 h3 hy1
            have hcases : c1 = 2 * (h + 1) - 1 ∨ c1 = 2 * (h + 1) := by omega
            rcases hcases with e | e
            · rw [e, hy] at hy1
              cases hy1
              simpa using hc
            · rw [e, hx] at hy1
              cases hy1
              exact irrefl_of_asymm comp S hasymm x hSx)
        obtain ⟨v1, h1, r1, r2, r3⟩ := ih _ _ inv1 (by omega)
        refine ⟨v1, h1, ?_, r2, r3⟩
        simp only [adjust_heap_loop, if_pos hlt, hx, hy, hc, if_false, Bool.false_eq_true,
          if_pos hhl, r1]
    · refine ⟨v, h, ?_, hlt, inv⟩
      simp only [adjust_heap_loop, if_neg hlt]

/-- `std::__push_heap` from a hole whose children are not `comp`-after the value: it stays
inside the vector, and the heap order holds from `top` on with the value put in. -/
theorem push_heap_spec (comp : α → α → Bool) (S : α → Prop)
    (hasymm : ∀ x, S x → ∀ y, S y → comp x y = true → comp y x = false)
    (htrans : ∀ x, S x → ∀ y, S y → ∀ z, S z →
      comp x y = false → comp y z = false → comp x z = false)
    (value : α) (hvalue : S value) (v0 : List α) (first len top : Nat)
    (hv0 : first + len ≤ v0.length) :
    ∀ (fuel : Nat) (v : List α) (h : Nat), HoleInv comp S value v0 v first len top h →
      HeapFrom comp v first len top →
      (∀ c y, 1 ≤ c → c < len → (c - 1) / 2 = h → v[first + c]? = some y →
        comp value y = false) →
      h < fuel →
      ∃ v1, push_heap comp first top value fuel v h = some v1 ∧
        v1.Perm (v0.set (first + top) value) ∧
        (∀ i, (i < first ∨ first + len ≤ i) → v1[i]? = v0[i]?) ∧
        HeapFrom comp v1 first len top := by
  intro fuel
  induction fuel with
  | zero =>
    intro v h _ _ _ hfuel
    omega
  | succ fuel ih =>
    intro v h inv hheap hchild hfuel
    have hlen := inv.length
    have hh := inv.hole_lt
    have hle := inv.desc.le
    have hhl : first + h < v.length := by omega
    have hfinal : HeapFrom comp (v.set (first + h) value) first len top →
        ∃ v1, some (v.set (first + h) value) = some v1 ∧
          v1.Perm (v0.set (first + top) value) ∧
          (∀ i, (i < first ∨ first + len ≤ i) → v1[i]? = v0[i]?) ∧
          HeapFrom comp v1 first len top := by
      intro hf
      refine ⟨_, rfl, inv.perm, ?_, hf⟩
      intro i hi
      rw [List.getElem?_set_ne (by omega)]
      exact inv.outside i hi
    by_cases hgt : h > top
    · obtain ⟨x, hx⟩ : ∃ x, v[first + (h - 1) / 2]? = some x :=
        ⟨_, List.getElem?_eq_getElem (by omega)⟩
      have hSx : S x := inv.elems x (List.getElem?_mem hx)
      obtain ⟨vh, hvh⟩ : ∃ vh, v[first + h]? = some vh := ⟨_, List.getElem?_eq_getElem hhl⟩
      have hSvh : S vh := inv.elems vh (List.getElem?_mem hvh)
      have hdp := inv.desc.parent (by omega)
      by_cases hc : comp x value = true
      · have hvx : comp value x = false := hasymm x hSx value hvalue hc
        have hheap1 : HeapFrom comp (v.set (first + h) x) first len top := by
          apply heapFrom_set comp v first len top h x hhl
          · intro c x1 y1 h1 h2 h3 _ _ hx1 hy1
            exact hheap c x1 y1 h1 h2 h3 hx1 hy1
          · intro _ _ x1 hx1
            rw [hx] at hx1
            cases hx1
            exact irrefl_of_asymm comp S hasymm x hSx
          · intro c y h1 h2 h3 hy
            have r1 := hheap h x vh (by omega) hh hdp.le hx hvh
            have r2 := hheap c vh y h1 h2 (by omega) (by rw [h3]; exact hvh) hy
            exact htrans x hSx vh hSvh y (inv.elems y (List.getElem?_mem hy)) r1 r2
        have inv1 : HoleInv comp S value v0 (v.set (first + h) x) first len top
            ((h - 1) / 2) := by
          refine ⟨by rw [List.length_set]; exact hlen, ?_, ?_, ?_, by omega, hdp,
            hheap1.mono_lo (by omega), fun _ => hheap1⟩
          · intro z hz
            rcases List.mem_or_eq_of_mem_set hz with h1 | h1
            · exact inv.elems z h1
            · exact h1 ▸ hSx
          · intro i hi
            rw [List.getElem?_set_ne (by omega)]
            exact inv.outside i hi
          · have hu1 : (v.set (first + h) value)[first + h]? = some value :=
              List.getElem?_set_self hhl
            have hu2 : (v.set (first + h) value)[first + (h - 1) / 2]? = some x := by
              rw [List.getElem?_set_ne (by omega)]
              exact hx
            have hp := perm_set_set (v.set (first + h) value) (first + h)
              (first + (h - 1) / 2) value x hu1 hu2
            rw [List.set_set] at hp
            exact hp.trans inv.perm
        obtain ⟨v1, r1, r2, r3, r4⟩ := ih _ _ inv1 hheap1 (by
          intro c y h1 h2 h3 hy
          by_cases hch : c = h
          · rw [hch, List.getElem?_set_self hhl] at hy
            cases hy
            exact hvx
          · rw [List.getElem?_set_ne (by omega)] at hy
            have r := hheap c x y h1 h2 (by rw [h3]; exact hdp.le) (by rw [h3]; exact hx) hy
            exact htrans value hvalue x hSx y (inv.elems y (List.getElem?_mem hy)) hvx r)
          (by omega)
        refine ⟨v1, ?_, r2, r3, r4⟩
        simp only [push_heap, if_pos hgt, hx, hc, if_true, r1]
      · obtain ⟨v1, r1, r2, r3, r4⟩ := hfinal (by
          apply heapFrom_set comp v first len top h value hhl
          · intro c x1 y1 h1 h2 h3 _ _ hx1 hy1
            exact hheap c x1 y1 h1 h2 h3 hx1 hy1
          · intro _ _ x1 hx1
            rw [hx] at hx1
            cases hx1
            simpa using hc
          · exact hchild)
        refine ⟨v1, ?_, r2, r3, r4⟩
        simp only [push_heap, if_pos hgt, hx, hc, if_false, Bool.false_eq_true, if_pos hhl, r1]
    · obtain ⟨v1, r1, r2, r3, r4⟩ := hfinal (by
        apply heapFrom_set comp v first len top h value hhl
        · intro c x1 y1 h1 h2 h3 _ _ hx1 hy1
          exact hheap c x1 y1 h1 h2 h3 hx1 hy1
        · intro h1 h2 x1 _
          omega
        · exact hchild)
      refine ⟨v1, ?_, r2, r3, r4⟩
      simp only [push_heap, if_neg hgt, if_pos hhl, r1]

/-- `std::__adjust_heap` with the hole at `top`, on `len` elements among which the comparator is
asymmetric and its complement transitive, when the heap order holds below `top`: it stays
inside the vector, puts the value into the heap in place of the element of `top`, and the heap
order holds from `top` on. -/
theorem adjust_heap_spec (comp : α → α → Bool) (S : α → Prop)
    (hasymm : ∀ x, S x → ∀ y, S y → comp x y = true → comp y x = false)
    (htrans : ∀ x, S x → ∀ y, S y → ∀ z, S z →
      comp x y = false → comp y z = false → comp x z = false)
    (v : List α) (first top len : Nat) (value : α) (hvalue : S value)
    (hv : first + len ≤ v.length) (htop : top < len) (hS : ∀ x ∈ v, S x)
    (hheap : HeapFrom comp v first len (top + 1)) :
    ∃ v1, adjust_heap comp v first top len value = some v1 ∧
      v1.Perm (v.set (first + top) value) ∧
      (∀ i, (i < first ∨ first + len ≤ i) → v1[i]? = v[i]?) ∧
      HeapFrom comp v1 first len top := by
  have inv0 : HoleInv comp S value v v first len top top :=
    ⟨rfl, hS, fun _ _ => rfl, List.Perm.refl _, htop, Desc.refl, hheap,
      fun h => absurd rfl h⟩
  obtain ⟨v1, h1, e1, e2, inv1⟩ := adjust_heap_loop_spec comp S hasymm htrans value v first len
    top hv (len + 1) v top inv0 (by omega)
  have hh1 := inv1.hole_lt
  have hle1 := inv1.desc.le
  have hlen1 := inv1.length
  by_cases hsp : len % 2 = 0 ∧ 2 ≤ len ∧ h1 = (len - 2) / 2
  · obtain ⟨z, hz⟩ : ∃ z, v1[first + (2 * (h1 + 1) - 1)]? = some z :=
      ⟨_, List.getElem?_eq_getElem (by omega)⟩
    have hSz : S z := inv1.elems z (List.getElem?_mem hz)
    have inv2 := inv1.sift_step comp S htrans hv (2 * (h1 + 1) - 1) z (by omega) (by omega)
      (by omega) hz (by
        intro c1 y1 c1a c1b c1c hy1
        have : c1 = 2 * (h1 + 1) - 1 := by omega
        rw [this, hz] at hy1
        cases hy1
        exact irrefl_of_asymm comp S hasymm z hSz)
    obtain ⟨v2, r1, r2, r3, r4⟩ := push_heap_spec comp S hasymm htrans value hvalue v first len
      top hv (len + 1) _ _ inv2 (inv2.heap_top (by omega))
      (by intro c y c1 c2 c3 _; omega) (by omega)
    refine ⟨v2, ?_, r2, r3, r4⟩
    have hhl : first + h1 < v1.length := by omega
    simp only [adjust_heap, e1, if_pos hsp, hz, if_pos hhl, r1]
  · have hnochild : ∀ c, 1 ≤ c → c < len → (c - 1) / 2 ≠ h1 := by
      intro c c1 c2 c3
      apply hsp
      omega
    have hheap1 : HeapFrom comp v1 first len top := by
      by_cases hne : h1 = top
      · intro c x y c1 c2 c3 hx hy
        have := hnochild c c1 c2
        exact inv1.heap c x y c1 c2 (by omega) hx hy
      · exact inv1.heap_top hne
    obtain ⟨v2, r1, r2, r3, r4⟩ := push_heap_spec comp S hasymm htrans value hvalue v first len
      top hv (len + 1) _ _ inv1 hheap1
      (by intro c y c1 c2 c3 _; exact absurd c3 (hnochild c c1 c2)) (by omega)
    refine ⟨v2, ?_, r2, r3, r4⟩
    simp only [adjust_heap, e1, if_neg hsp, r1]

theorem set_eq_self_of_getElem? (v : List α) (i : Nat) (x : α) (h : v[i]? = some x) :
    v.set i x = v := by
  apply List.ext_getElem?
  intro n
  rw [List.getElem?_set]
  split_ifs with h1 h2
  · rw [← h1, h]
  · rw [← h1, List.getElem?_eq_none (by omega)]
  · rfl

/-- The loop of `std::__make_heap` from the index `parent` down: it stays inside the vector and
establishes the heap order. -/
theorem make_heap_loop_spec (comp : α → α → Bool) (S : α → Prop)
    (hasymm : ∀ x, S x → ∀ y, S y → comp x y = true → comp y x = false)
    (htrans : ∀ x, S x → ∀ y, S y → ∀ z, S z →
      comp x y = false → comp y z = false → comp x z = false)
    (first len : Nat) :
    ∀ (parent : Nat) (v : List α), first + len ≤ v.length → parent < len → (∀ x ∈ v, S x) →
      HeapFrom comp v first len (parent + 1) →
      ∃ v1, make_heap_loop comp first len parent v = some v1 ∧
        Rearranged v v1 first (first + len) ∧ HeapFrom comp v1 first len 0 := by
  intro parent
  induction parent with
  | zero =>
    intro v hv hp hS hheap
    obtain ⟨value, hvalue⟩ : ∃ value, v[first]? = some value :=
      ⟨_, List.getElem?_eq_getElem (by omega)⟩
    obtain ⟨v1, r1, r2, r3, r4⟩ := adjust_heap_spec comp S hasymm htrans v first 0 len value
      (hS value (List.getElem?_mem hvalue)) hv hp hS hheap
    rw [Nat.add_zero, set_eq_self_of_getElem? v first value hvalue] at r2
    refine ⟨v1, ?_, ⟨r2, r3⟩, r4⟩
    simp only [make_heap_loop, hvalue, r1]
  | succ parent ih =>
    intro v hv hp hS hheap
    obtain ⟨value, hvalue⟩ : ∃ value, v[first + (parent + 1)]? = some value :=
      ⟨_, List.getElem?_eq_getElem (by omega)⟩
    obtain ⟨v1, r1, r2, r3, r4⟩ := adjust_heap_spec comp S hasymm htrans v first (parent + 1)
      len value (hS value (List.getElem?_mem hvalue)) hv hp hS hheap
    rw [set_eq_self_of_getElem? v _ value hvalue] at r2
    obtain ⟨v2, t1, t2, t3⟩ := ih v1 (by rw [r2.length_eq]; exact hv) (by omega)
      (fun x hx => hS x (r2.mem_iff.1 hx)) r4
    refine ⟨v2, ?_, Rearranged.trans ⟨r2, r3⟩ t2, t3⟩
    simp only [make_heap_loop, hvalue, r1, t1]

/-- `std::__make_heap` on elements among which the comparator is asymmetric and its complement
transitive. -/
theorem make_heap_spec (comp : α → α → Bool) (S : α → Prop)
    (hasymm : ∀ x, S x → ∀ y, S y → comp x y = true → comp y x = false)
    (htrans : ∀ x, S x → ∀ y, S y → ∀ z, S z →
      comp x y = false → comp y z = false → comp x z = false)
    (v : List α) (first last : Nat) (hfl : first ≤ last) (hv : last ≤ v.length)
    (hS : ∀ x ∈ v, S x) :
    ∃ v1, make_heap comp v first last = some v1 ∧ Rearranged v v1 first last ∧
      HeapFrom comp v1 first (last - first) 0 := by
  by_cases hsmall : last - first < 2
  · refine ⟨v, ?_, Rearranged.refl _ _ _, ?_⟩
    · simp only [make_heap, if_pos hsmall]
    · intro c x y h1 h2
      omega
  · obtain ⟨v1, r1, r2, r3⟩ := make_heap_loop_spec comp S hasymm htrans first (last - first)
      ((last - first - 2) / 2) v (by omega) (by omega) hS (by
        intro c x y h1 h2 h3
        omega)
    refine ⟨v1, ?_, ?_, r3⟩
    · simp only [make_heap, if_neg hsmall, r1]
    · rw [show first + (last - first) = last by omega] at r2
      exact r2

/-- `std::__pop_heap` of a heap of `n + 1` elements into its last position: the former root is
there afterwards, and the other `n` positions hold a heap of the other elements. -/
theorem pop_heap_spec (comp : α → α → Bool) (S : α → Prop)
    (hasymm : ∀ x, S x → ∀ y, S y → comp x y = true → comp y x = false)
    (htrans : ∀ x, S x → ∀ y, S y → ∀ z, S z →
      comp x y = false → comp y z = false → comp x z = false)
    (v : List α) (first n : Nat) (hn : 1 ≤ n) (hv : first + n + 1 ≤ v.length)
    (hS : ∀ x ∈ v, S x) (hheap : HeapFrom comp v first (n + 1) 0) (r value : α)
    (hr : v[first]? = some r) (hvalue : v[first + n]? = some value) :
    ∃ v1, pop_heap comp v first (first + n) (first + n) = some v1 ∧
      Rearranged ((v.set (first + n) r).set first value) v1 first (first + n) ∧
      HeapFrom comp v1 first n 0 := by
  have hheap1 : HeapFrom comp (v.set (first + n) r) first n (0 + 1) := by
    intro c x y h1 h2 h3 hx hy
    rw [List.getElem?_set_ne (by omega)] at hx hy
    exact hheap c x y h1 (by omega) (by omega) hx hy
  obtain ⟨v1, r1, r2, r3, r4⟩ := adjust_heap_spec comp S hasymm htrans (v.set (first + n) r)
    first 0 n value (hS value (List.getElem?_mem hvalue))
    (by rw [List.length_set]; omega) (by omega)
    (by
      intro x hx
      rcases List.mem_or_eq_of_mem_set hx with h1 | h1
      · exact hS x h1
      · exact h1 ▸ hS r (List.getElem?_mem hr))
    hheap1
  refine ⟨v1, ?_, ⟨r2, ?_⟩, r4⟩
  · simp only [pop_heap, hvalue, hr, Nat.add_sub_cancel_left, r1]
  · intro i hi
    rw [r3 i hi]
    exact (List.getElem?_set_ne (by omega)).symm

/-- `std::__sort_heap` on a heap of `m` elements: it stays inside the vector, and afterwards
every element behind the first has an element of the heap in front of it that is not
`comp`-after it. -/
theorem sort_heap_spec (comp : α → α → Bool) (S : α → Prop)
    (hasymm : ∀ x, S x → ∀ y, S y → comp x y = true → comp y x = false)
    (htrans : ∀ x, S x → ∀ y, S y → ∀ z, S z →
      comp x y = false → comp y z = false → comp x z = false)
    (first : Nat) :
    ∀ (m : Nat) (v : List α), first + m ≤ v.length → (∀ x ∈ v, S x) →
      HeapFrom comp v first m 0 →
      ∃ v1, sort_heap comp first m v = some v1 ∧ Rearranged v v1 first (first + m) ∧
        ∀ i x, first + 1 ≤ i → i < first + m → v1[i]? = some x →
          ∃ y ∈ (v1.drop first).take (i - first), comp x y = false := by
  intro m
  induction m with
  | zero =>
    intro v _ _ _
    refine ⟨v, rfl, Rearranged.refl _ _ _, ?_⟩
    intro i x h1 h2
    omega
  | succ count ih =>
    intro v hv hS hheap
    by_cases hcount : count + 1 > 1
    · obtain ⟨r, hr⟩ : ∃ r, v[first]? = some r := ⟨_, List.getElem?_eq_getElem (by omega)⟩
      obtain ⟨value, hvalue⟩ : ∃ value, v[first + count]? = some value :=
        ⟨_, List.getElem?_eq_getElem (by omega)⟩
      obtain ⟨c, hc⟩ : ∃ c, v[first + 1]? = some c := ⟨_, List.getElem?_eq_getElem (by omega)⟩
      obtain ⟨v1, r1, r2, r3⟩ := pop_heap_spec comp S hasymm htrans v first count (by omega)
        (by omega) hS hheap r value hr hvalue
      have hu : ((v.set (first + count) r).set first value).Perm v :=
        perm_set_set v (first + count) first value r hvalue hr
      have hS1 : ∀ x ∈ v1, S x := fun x hx => hS x (hu.mem_iff.1 (r2.1.mem_iff.1 hx))
      have hlen1 : v1.length = v.length := r2.1.length_eq.trans hu.length_eq
      obtain ⟨v2, t1, t2, t3⟩ := ih v1 (by omega) hS1 r3
      have hout : ∀ i, (i < first ∨ first + count ≤ i) →
          v2[i]? = ((v.set (first + count) r).set first value)[i]? :=
        fun i hi => (t2.2 i hi).trans (r2.2 i hi)
      refine ⟨v2, ?_, ⟨t2.1.trans (r2.1.trans hu), ?_⟩, ?_⟩
      · simp only [sort_heap, if_pos hcount, r1, t1]
      · intro i hi
        rw [hout i (by omega), List.getElem?_set_ne (by omega), List.getElem?_set_ne (by omega)]
      · intro i x h1 h2 hx
        by_cases hi : i < first + count
        · exact t3 i x h1 hi hx
        · have hie : i = first + count := by omega
          subst hie
          rw [hout _ (Or.inr (le_refl _)), List.getElem?_set_ne (by omega),
            List.getElem?_set_self (by omega)] at hx
          cases hx
          have hrc : comp r c = false :=
            hheap 1 r c (le_refl _) (by omega) (Nat.zero_le _) hr hc
          have hcu : c ∈ (((v.set (first + count) r).set first value).drop first).take
              (first + count - first) := by
            rw [mem_slice_iff]
            by_cases h2c : 2 ≤ count
            · refine ⟨first + 1, by omega, by omega, ?_⟩
              rw [List.getElem?_set_ne (by omega), List.getElem?_set_ne (by omega)]
              exact hc
            · have h1c : count = 1 := by omega
              subst h1c
              refine ⟨first, le_refl _, by omega, ?_⟩
              rw [List.getElem?_set_self (by rw [List.length_set]; omega)]
              rw [hvalue] at hc
              exact hc
          exact ⟨c, (t2.mem_slice (by omega) c).2 ((r2.mem_slice (by omega) c).2 hcu), hrc⟩
    · refine ⟨v, ?_, Rearranged.refl _ _ _, ?_⟩
      · simp only [sort_heap, if_neg hcount]
      · intro i x h1 h2
        omega

/-- `std::__partial_sort` of a whole range, the heap sort that `std::__introsort_loop` falls
back on. -/
theorem partial_sort_spec (comp : α → α → Bool) (S : α → Prop)
    (hasymm : ∀ x, S x → ∀ y, S y → comp x y = true → comp y x = false)
    (htrans : ∀ x, S x → ∀ y, S y → ∀ z, S z →
      comp x y = false → comp y z = false → comp x z = false)
    (v : List α) (first last : Nat) (hfl : first ≤ last) (hv : last ≤ v.length)
    (hS : ∀ x ∈ v, S x) :
    ∃ v1, partial_sort comp v first last last = some v1 ∧ Rearranged v v1 first last ∧
      Guarded comp v1 first last := by
  obtain ⟨v1, r1, r2, r3⟩ := make_heap_spec comp S hasymm htrans v first last hfl hv hS
  obtain ⟨v2, t1, t2, t3⟩ := sort_heap_spec comp S hasymm htrans first (last - first) v1
    (by rw [r2.length]; omega) (fun x hx => hS x (r2.1.mem_iff.1 hx)) r3
  rw [show first + (last - first) = last by omega] at t2 t3
  refine ⟨v2, ?_, r2.trans t2, ?_⟩
  · simp only [partial_sort, heap_select, r1, Nat.sub_self, heap_select_loop, t1]
  · intro i x h1 h2 hx
    exact t3 i x (by omega) h2 hx

/-- `std::__introsort_loop` on elements among which the comparator is asymmetric and its
complement transitive: it stays inside the vector, rearranges the range, and leaves every
element from the 17th position of the range on with an element in front of it that is not
`comp`-after it. -/
theorem introsort_loop_spec (comp : α → α → Bool) (S : α → Prop)
    (hasymm : ∀ x, S x → ∀ y, S y → comp x y = true → comp y x = false)
    (htrans : ∀ x, S x → ∀ y, S y → ∀ z, S z →
      comp x y = false → comp y z = false → comp x z = false) :
    ∀ (depth_limit : Nat) (v : List α) (first last : Nat), first ≤ last → last ≤ v.length →
      (∀ x ∈ v, S x) →
      ∃ v1, introsort_loop comp depth_limit v first last = some v1 ∧
        Rearranged v v1 first last ∧ Guarded comp v1 first last := by
  intro depth_limit
  induction depth_limit with
  | zero =>
    intro v first last hfl hv hS
    by_cases hsize : last - first > 16
    · obtain ⟨v1, r1, r2, r3⟩ := partial_sort_spec comp S hasymm htrans v first last hfl hv hS
      exact ⟨v1, by simp only [introsort_loop, if_pos hsize, r1], r2, r3⟩
    · refine ⟨v, by simp only [introsort_loop, if_neg hsize], Rearranged.refl _ _ _, ?_⟩
      intro i x h1 h2
      omega
  | succ d ih =>
    intro v first last hfl hv hS
    by_cases hsize : last - first > 16
    · obtain ⟨v1, cut, p, r1, r2, r3, r4, r5, r6⟩ :=
        unguarded_partition_pivot_spec comp S hasymm v first last hS hv hsize
      have hS1 : ∀ x ∈ v1, S x := fun x hx => hS x (r2.1.mem_iff.1 hx)
      obtain ⟨v2, t1, t2, t3⟩ := ih v1 cut last (by omega) (by rw [r2.length]; exact hv) hS1
      have hS2 : ∀ x ∈ v2, S x := fun x hx => hS1 x (t2.1.mem_iff.1 hx)
      obtain ⟨v3, u1, u2, u3⟩ := ih v2 first cut (by omega)
        (by rw [t2.length, r2.length]; omega) hS2
      refine ⟨v3, ?_, r2.trans ((t2.mono (by omega) (le_refl _)).trans
        (u2.mono (le_refl _) (by omega))), ?_⟩
      · simp only [introsort_loop, if_pos hsize, r1, t1, u1]
      · intro i x h1 h2 hx
        by_cases hi : i < cut
        · exact u3 i x h1 hi hx
        · rw [u2.2 i (Or.inr (by omega))] at hx
          have hx2 : x ∈ (v2.drop cut).take (last - cut) :=
            (mem_slice_iff v2 cut last x).2 ⟨i, by omega, h2, hx⟩
          obtain ⟨k, k1, k2, k3⟩ :=
            (mem_slice_iff v1 cut last x).1 ((t2.mem_slice (by omega) x).1 hx2)
          have hp1 : p ∈ (v1.drop first).take (cut - first) :=
            (mem_slice_iff v1 first cut p).2 ⟨first, le_refl _, r3, r5⟩
          have hp2 : p ∈ (v2.drop first).take (cut - first) :=
            (mem_slice_congr (fun j _ hj => t2.2 j (Or.inl hj)) p).2 hp1
          have hp3 : p ∈ (v3.drop first).take (cut - first) :=
            (u2.mem_slice (by omega) p).2 hp2
          exact ⟨p, mem_slice_mono v3 (by omega) hp3, r6 k x k1 k2 k3⟩
    · refine ⟨v, by simp only [introsort_loop, if_neg hsize], Rearranged.refl _ _ _, ?_⟩
      intro i x h1 h2
      omega

/-- Inserting the elements of a list one by one into a sorted list, each behind the last
element that it is not in front of: the result is sorted and holds the same elements. -/
theorem foldl_orderedInsert_spec (comp : α → α → Bool) (S : α → Prop)
    (hasymm : ∀ x, S x → ∀ y, S y → comp x y = true → comp y x = false)
    (htrans : ∀ x, S x → ∀ y, S y → ∀ z, S z →
      comp x y = false → comp y z = false → comp x z = false)
    (rest : List α) :
    ∀ rp : List α, rp.Sorted (fun a b => comp a b = false) → (∀ x ∈ rp, S x) →
      (∀ x ∈ rest, S x) →
      (rest.foldl (fun acc a => acc.orderedInsert (fun a b => comp a b = false) a) rp).Sorted
          (fun a b => comp a b = false) ∧
        (rest.foldl (fun acc a => acc.orderedInsert (fun a b => comp a b = false) a) rp).Perm
          (rp ++ rest) := by
  induction rest with
  | nil =>
    intro rp hs _ _
    simpa using hs
  | cons val rest ih =>
    intro rp hsorted hS hrest
    have hval : S val := hrest val (List.mem_cons_self _ _)
    have hins : (rp.orderedInsert (fun a b => comp a b = false) val).Sorted
        (fun a b => comp a b = false) := by
      apply sorted_orderedInsert_of val rp hsorted
      · intro x hx
        by_cases hc : comp val x = true
        · exact Or.inr (hasymm val hval x (hS x hx) hc)
        · exact Or.inl (by simpa using hc)
      · intro x hx y hy h1 h2
        exact htrans val hval x (hS x hx) y (hS y hy) h1 h2
    have hSins : ∀ x ∈ rp.orderedInsert (fun a b => comp a b = false) val, S x := by
      intro x hx
      rcases (List.mem_orderedInsert _).1 hx with h | h
      · exact h ▸ hval
      · exact hS x h
    obtain ⟨h1, h2⟩ := ih _ hins hSins (fun x hx => hrest x (List.mem_cons_of_mem _ hx))
    refine ⟨h1, h2.trans ?_⟩
    have hp : (rp.orderedInsert (fun a b => comp a b = false) val).Perm (val :: rp) :=
      List.perm_orderedInsert _ _ _
    refine (hp.append_right rest).trans ?_
    simp only [List.cons_append]
    exact List.perm_middle.symm

/-- The loop of `std::__insertion_sort` from the start of the vector over the range that `rest`
fills, with `post` behind the range. -/
theorem insertion_sort_loop_prefix (comp : α → α → Bool) (S : α → Prop)
    (hasymm : ∀ x, S x → ∀ y, S y → comp x y = true → comp y x = false)
    (htrans : ∀ x, S x → ∀ y, S y → ∀ z, S z →
      comp x y = false → comp y z = false → comp x z = false)
    (post rest : List α) :
    ∀ rp : List α, rp ≠ [] → rp.Sorted (fun a b => comp a b = false) → (∀ x ∈ rp, S x) →
      (∀ x ∈ rest, S x) →
      insertion_sort_loop comp 0 rest.length rp.length (rp.reverse ++ (rest ++ post)) =
        some ((rest.foldl (fun acc a =>
          acc.orderedInsert (fun a b => comp a b = false) a) rp).reverse ++ post) := by
  induction rest with
  | nil =>
    intro rp _ _ _ _
    simp [insertion_sort_loop]
  | cons val rest ih =>
    intro rp hne hsorted hS hrest
    have hval : S val := hrest val (List.mem_cons_self _ _)
    have hrest1 : ∀ x ∈ rest, S x := fun x hx => hrest x (List.mem_cons_of_mem _ hx)
    obtain ⟨hins, hpins⟩ := foldl_orderedInsert_spec comp S hasymm htrans [val] rp hsorted hS
      (fun x hx => by simp at hx; exact hx ▸ hval)
    simp only [List.foldl_cons, List.foldl_nil] at hins hpins
    have hSins : ∀ x ∈ rp.orderedInsert (fun a b => comp a b = false) val, S x := by
      intro x hx
      rcases (List.mem_orderedInsert _).1 hx with h | h
      · exact h ▸ hval
      · exact hS x h
    have hnins : rp.orderedInsert (fun a b => comp a b = false) val ≠ [] := by
      intro h
      have := congrArg List.length h
      rw [List.orderedInsert_length] at this
      simp at this
    have hstep := ih (rp.orderedInsert (fun a b => comp a b = false) val) hnins hins hSins hrest1
    rw [List.orderedInsert_length] at hstep
    rw [List.foldl_cons, ← hstep]
    obtain ⟨t, h, hrp⟩ : ∃ t h, rp = t ++ [h] := by
      rcases List.eq_nil_or_concat rp with hnil | ⟨t, h, hth⟩
      · exact absurd hnil hne
      · exact ⟨t, h, by rw [hth]; simp⟩
    have hrev : rp.reverse = h :: t.reverse := by rw [hrp]; simp
    have hlen : rp.reverse.length = rp.length := List.length_reverse rp
    have hgeti : (rp.reverse ++ (val :: rest ++ post))[rp.length]? = some val := by
      rw [List.getElem?_append_right (by omega)]
      simp [hlen]
    have hget0 : (rp.reverse ++ (val :: rest ++ post))[0]? = some h := by
      rw [hrev]
      simp
    rw [List.length_cons, insertion_sort_loop, hgeti, hget0]
    by_cases hc : comp val h = true
    · have hall : ∀ y ∈ rp, ¬ (comp val y = false) := by
        intro y hy hvy
        have hirr : comp y y = false := irrefl_of_asymm comp S hasymm y (hS y hy)
        have hyh : comp y h = false := by
          have hy1 := hy
          rw [hrp] at hy1 hsorted
          rcases List.mem_append.1 hy1 with hyt | hyh
          · exact (List.pairwise_append.1 hsorted).2.2 y hyt h (List.mem_singleton_self _)
          · simp only [List.mem_singleton] at hyh
            rw [← hyh]
            exact hirr
        have hh : S h := hS h (by rw [hrp]; simp)
        have := htrans val hval y (hS y hy) h hh hvy hyh
        rw [hc] at this
        cases this
      rw [orderedInsert_of_all_not val rp hall]
      simp only [hc, if_true, List.take_zero, List.nil_append, List.drop_zero, Nat.sub_zero]
      have htake : (rp.reverse ++ (val :: rest ++ post)).take rp.length = rp.reverse := by
        rw [← hlen, List.take_left']
        rfl
      have hdrop : (rp.reverse ++ (val :: rest ++ post)).drop (rp.length + 1) =
          rest ++ post := by
        have : rp.reverse ++ (val :: rest ++ post) = (rp.reverse ++ [val]) ++ (rest ++ post) := by
          simp
        rw [this, List.drop_left']
        simp
      rw [htake, hdrop]
      simp
    · have hex : ∃ y ∈ rp.reverse, comp val y = false :=
        ⟨h, by rw [hrev]; exact List.mem_cons_self _ _, by simpa using hc⟩
      have hli := unguarded_linear_insert_eq comp val rp.reverse val (rest ++ post) hex
      rw [hlen, List.reverse_reverse] at hli
      simp only [hc, if_false, Bool.false_eq_true, List.cons_append, hli]

/-- The loop of `std::__unguarded_insertion_sort` behind a sorted range, when every element has
an element in front of it that is not `comp`-after it. -/
theorem unguarded_insertion_sort_loop_eq (comp : α → α → Bool) (S : α → Prop)
    (hasymm : ∀ x, S x → ∀ y, S y → comp x y = true → comp y x = false)
    (htrans : ∀ x, S x → ∀ y, S y → ∀ z, S z →
      comp x y = false → comp y z = false → comp x z = false)
    (rest : List α) :
    ∀ rp : List α, rp.Sorted (fun a b => comp a b = false) → (∀ x ∈ rp, S x) →
      (∀ x ∈ rest, S x) →
      (∀ r1 val r2, rest = r1 ++ val :: r2 → ∃ y, (y ∈ rp ∨ y ∈ r1) ∧ comp val y = false) →
      unguarded_insertion_sort_loop comp rest.length rp.length (rp.reverse ++ rest) =
        some ((rest.foldl (fun acc a =>
          acc.orderedInsert (fun a b => comp a b = false) a) rp).reverse) := by
  induction rest with
  | nil =>
    intro rp _ _ _ _
    simp [unguarded_insertion_sort_loop]
  | cons val rest ih =>
    intro rp hsorted hS hrest hguard
    have hval : S val := hrest val (List.mem_cons_self _ _)
    have hrest1 : ∀ x ∈ rest, S x := fun x hx => hrest x (List.mem_cons_of_mem _ hx)
    obtain ⟨hins, _⟩ := foldl_orderedInsert_spec comp S hasymm htrans [val] rp hsorted hS
      (fun x hx => by simp at hx; exact hx ▸ hval)
    simp only [List.foldl_cons, List.foldl_nil] at hins
    have hSins : ∀ x ∈ rp.orderedInsert (fun a b => comp a b = false) val, S x := by
      intro x hx
      rcases (List.mem_orderedInsert _).1 hx with h | h
      · exact h ▸ hval
      · exact hS x h
    have hstep := ih (rp.orderedInsert (fun a b => comp a b = false) val) hins hSins hrest1 (by
      intro r1 val1 r2 hr
      obtain ⟨y, hy, hyc⟩ := hguard (val :: r1) val1 r2 (by rw [hr]; rfl)
      refine ⟨y, ?_, hyc⟩
      rcases hy with hy | hy
      · exact Or.inl ((List.mem_orderedInsert _).2 (Or.inr hy))
      · rcases List.mem_cons.1 hy with hy | hy
        · exact Or.inl ((List.mem_orderedInsert _).2 (Or.inl hy))
        · exact Or.inr hy)
    rw [List.orderedInsert_length] at hstep
    rw [List.foldl_cons, ← hstep]
    have hlen : rp.reverse.length = rp.length := List.length_reverse rp
    have hgeti : (rp.reverse ++ val :: rest)[rp.length]? = some val := by
      rw [List.getElem?_append_right (by omega)]
      simp [hlen]
    obtain ⟨y, hy, hyc⟩ := hguard [] val rest rfl
    have hex : ∃ y ∈ rp.reverse, comp val y = false := by
      rcases hy with hy | hy
      · exact ⟨y, List.mem_reverse.2 hy, hyc⟩
      · cases hy
    have hli := unguarded_linear_insert_eq comp val rp.reverse val rest hex
    rw [hlen, List.reverse_reverse] at hli
    rw [List.length_cons, unguarded_insertion_sort_loop, hgeti]
    simp only [hli]

/-- The `std::sort` of libstdc++ on a vector of any length, for a comparator that is a strict
weak order on its elements (asymmetric, with a transitive complement): the call stays inside the
vector and returns, the result holds the elements of the vector, and no element of the result is
`comp`-before an element in front of it. -/
theorem sort_spec (comp : α → α → Bool) (S : α → Prop)
    (hasymm : ∀ x, S x → ∀ y, S y → comp x y = true → comp y x = false)
    (htrans : ∀ x, S x → ∀ y, S y → ∀ z, S z →
      comp x y = false → comp y z = false → comp x z = false)
    (l : List α) (hS : ∀ x ∈ l, S x) :
    ∃ l1, sort comp l = some l1 ∧ l1.Perm l ∧ l1.Pairwise (fun a b => comp b a = false) := by
  by_cases hl : l.length ≤ 16
  · refine ⟨_, sort_of_length_le comp S hasymm htrans l hl hS, ?_, ?_⟩
    · exact (List.reverse_perm _).trans ((List.perm_insertionSort _ _).trans
        (List.reverse_perm _))
    · rw [List.pairwise_reverse]
      apply sorted_insertionSort_of
      · intro x hx y hy
        have hSx := hS x (List.mem_reverse.1 hx)
        have hSy := hS y (List.mem_reverse.1 hy)
        by_cases hc : comp x y = true
        · exact Or.inr (hasymm x hSx y hSy hc)
        · exact Or.inl (by simpa using hc)
      · intro x hx y hy z hz h1 h2
        exact htrans x (hS x (List.mem_reverse.1 hx)) y (hS y (List.mem_reverse.1 hy)) z
          (hS z (List.mem_reverse.1 hz)) h1 h2
  · obtain ⟨v1, r1, r2, r3⟩ := introsort_loop_spec comp S hasymm htrans
      (lg l.length l.length * 2) l 0 l.length (Nat.zero_le _) (le_refl _) hS
    have hlen1 : v1.length = l.length := r2.length
    have hS1 : ∀ x ∈ v1, S x := fun x hx => hS x (r2.1.mem_iff.1 hx)
    obtain ⟨a, t, hv1⟩ : ∃ a t, v1 = a :: t := by
      cases v1 with
      | nil => simp at hlen1; omega
      | cons a t => exact ⟨a, t, rfl⟩
    have htlen : t.length = l.length - 1 := by
      rw [← hlen1, hv1]
      simp
    have hSa : S a := hS1 a (by rw [hv1]; exact List.mem_cons_self _ _)
    have hSt : ∀ x ∈ t, S x := fun x hx => hS1 x (by rw [hv1]; exact List.mem_cons_of_mem _ hx)
    have hsplit : t = t.take 15 ++ t.drop 15 := (List.take_append_drop 15 t).symm
    have htake : (t.take 15).length = 15 := by
      rw [List.length_take]
      omega
    have h1 := insertion_sort_loop_prefix comp S hasymm htrans (t.drop 15) (t.take 15) [a]
      (by simp) (List.sorted_singleton a) (fun x hx => by simp at hx; exact hx ▸ hSa)
      (fun x hx => hSt x (List.mem_of_mem_take hx))
    rw [← hsplit, htake] at h1
    simp only [List.length_singleton, List.reverse_singleton, List.singleton_append] at h1
    obtain ⟨hs16, hp16⟩ := foldl_orderedInsert_spec comp S hasymm htrans (t.take 15) [a]
      (List.sorted_singleton a) (fun x hx => by simp at hx; exact hx ▸ hSa)
      (fun x hx => hSt x (List.mem_of_mem_take hx))
    have hlen16 : ((t.take 15).foldl (fun acc a =>
        acc.orderedInsert (fun a b => comp a b = false) a) [a]).length = 16 := by
      rw [hp16.length_eq]
      simp [htake]
    have h2 := unguarded_insertion_sort_loop_eq comp S hasymm htrans (t.drop 15)
      ((t.take 15).foldl (fun acc a => acc.orderedInsert (fun a b => comp a b = false) a) [a])
      hs16 (fun x hx => by
        rcases List.mem_append.1 (hp16.mem_iff.1 hx) with h | h
        · simp at h; exact h ▸ hSa
        · exact hSt x (List.mem_of_mem_take h))
      (fun x hx => hSt x (List.mem_of_mem_drop hx))
      (by
        intro q1 val q2 hq
        have hv : v1 = (a :: t.take 15 ++ q1) ++ val :: q2 := by
          rw [hv1, List.append_assoc, ← hq, List.cons_append, ← hsplit]
        have hpre : (a :: t.take 15 ++ q1).length = 16 + q1.length := by
          simp [htake]
          omega
        have hget : v1[16 + q1.length]? = some val := by
          rw [hv, ← hpre, List.getElem?_append_right (le_refl _), Nat.sub_self]
          simp
        have hlt : 16 + q1.length < l.length := by
          rw [← hlen1]
          exact (List.getElem?_eq_some.1 hget).1
        obtain ⟨y, hy, hyc⟩ := r3 (16 + q1.length) val (by omega) hlt hget
        refine ⟨y, ?_, hyc⟩
        rw [List.drop_zero, Nat.sub_zero, hv, ← hpre, List.take_left'] at hy
        · rcases List.mem_append.1 hy with h | h
          · exact Or.inl (hp16.mem_iff.2 (by simpa using h))
          · exact Or.inr h
        · rfl)
    rw [hlen16] at h2
    have hdrop : (t.drop 15).length = l.length - 16 := by
      rw [List.length_drop]
      omega
    rw [hdrop, ← List.foldl_append, ← hsplit] at h2
    obtain ⟨hs, hp⟩ := foldl_orderedInsert_spec comp S hasymm htrans t [a]
      (List.sorted_singleton a) (fun x hx => by simp at hx; exact hx ▸ hSa) hSt
    refine ⟨(t.foldl (fun acc a =>
      acc.orderedInsert (fun a b => comp a b = false) a) [a]).reverse, ?_, ?_, ?_⟩
    · rw [sort, if_neg (by omega), r1]
      simp only [final_insertion_sort, if_pos (show l.length - 0 > 16 by omega), insertion_sort,
        if_neg (show ¬ (0 = 0 + 16) by omega), hv1]
      rw [show 0 + 16 - (0 + 1) = 15 from rfl, show 0 + 1 = 1 from rfl, h1]
      simp only [unguarded_insertion_sort]
      rw [show 0 + 16 = 16 from rfl, h2]
    · refine (List.reverse_perm _).trans (hp.trans ?_)
      rw [List.singleton_append, ← hv1]
      exact r2.1
    · rw [List.pairwise_reverse]
      exact hs

end Libstdcxx
end SearchEngine

/-! ## The fixture with six matches, two of them tied in relevance -/

namespace SearchEngine

namespace SearchServer
variable {F : Type} [LinearOrderedField F]

theorem rankedFixture_step1 :
    (emptyServer F).AddDocument 1 "x a a".toList DocumentStatus.ACTUAL [1] =
      (.ok (), rankedState1 F) := rfl

theorem rankedFixture_step2 :
    (rankedState1 F).AddDocument 2 "x a a a a a".toList DocumentStatus.ACTUAL [1] =
      (.ok (), rankedState2 F) := rfl

theorem rankedFixture_step3 :
    (rankedState2 F).AddDocument 3 "x".toList DocumentStatus.ACTUAL [1] =
      (.ok (), rankedState3 F) := rfl

theorem rankedFixture_step4 :
    (rankedState3 F).AddDocument 4 "x a".toList DocumentStatus.ACTUAL [1] =
      (.ok (), rankedState4 F) := rfl

theorem rankedFixture_step5 :
    (rankedState4 F).AddDocument 5 "x a a a a".toList DocumentStatus.ACTUAL [1] =
      (.ok (), rankedState5 F) := rfl

theorem rankedFixture_step6 :
    (rankedState5 F).AddDocument 6 "x a a".toList DocumentStatus.ACTUAL [2] =
      (.ok (), rankedState6 F) := rfl

theorem rankedFixture_step7 :
    (rankedState6 F).AddDocument 7 "a".toList DocumentStatus.ACTUAL [1] =
      (.ok (), rankedState7 F) := rfl

theorem rankedFixture_eq : rankedFixture F = rankedState7 F := by
  unfold rankedFixture
  simp only [rankedFixture_step1, rankedFixture_step2, rankedFixture_step3, rankedFixture_step4,
    rankedFixture_step5, rankedFixture_step6, rankedFixture_step7]

theorem rankedFixture_reachable : Reachable (rankedFixture F) := by
  rw [rankedFixture_eq]
  exact Reachable.add _ _ _ _ _ _ (Reachable.add _ _ _ _ _ _ (Reachable.add _ _ _ _ _ _
    (Reachable.add _ _ _ _ _ _ (Reachable.add _ _ _ _ _ _ (Reachable.add _ _ _ _ _ _
      (Reachable.add _ _ _ _ _ _ reachable_emptyServer rankedFixture_step1) rankedFixture_step2)
        rankedFixture_step3) rankedFixture_step4) rankedFixture_step5) rankedFixture_step6)
    rankedFixture_step7

end SearchServer
end SearchEngine

/-! ## The search with the `std::sort` of libstdc++ for any number of matches -/

namespace SearchEngine
section SortDocumentsAny
variable {F : Type} [LinearOrderedField F]

/-- The `std::sort` of libstdc++ on documents among which near-equality of the relevance is
transitive, whatever their number: the call returns, the result holds the same documents, and
no document of the result is before a document in front of it. -/
theorem sort_documents_spec (l : List (Document F))
    (hnear : ∀ a ∈ l, ∀ b ∈ l, ∀ c ∈ l,
      |a.relevance - b.relevance| < 1 / 1000000 → |b.relevance - c.relevance| < 1 / 1000000 →
        |a.relevance - c.relevance| < 1 / 1000000) :
    ∃ l1, Libstdcxx.sort documentBefore l = some l1 ∧ l1.Perm l ∧
      l1.Pairwise (fun a b => documentBefore b a = false) := by
  have htr : ∀ x ∈ l, ∀ y ∈ l, ∀ z ∈ l,
      documentBefore y x = false → documentBefore z y = false → documentBefore z x = false := by
    intro x hx y hy z hz hxy hyz
    apply documentBefore_trans x y z ?_ ?_ (hnear x hx y hy z hz) hxy hyz
    · intro h1 h2
      exact hnear x hx z hz y hy h1 h2
    · intro h1 h2
      exact hnear y hy x hx z hz h1 h2
  exact Libstdcxx.sort_spec documentBefore (· ∈ l)
    (fun x _ y _ h => documentBefore_asymm x y h)
    (fun x hx y hy z hz h1 h2 => htr z hz y hy x hx h2 h1) l (fun x hx => hx)

end SortDocumentsAny

namespace SearchServer

theorem log_seven_sixths_bounds : (1 : ℝ) / 7 ≤ Real.log (7 / 6) ∧ Real.log (7 / 6) ≤ 1 / 6 := by
  have h1 := Real.one_sub_inv_le_log_of_pos (show (0 : ℝ) < 7 / 6 by norm_num)
  have h2 := Real.log_le_sub_one_of_pos (show (0 : ℝ) < 7 / 6 by norm_num)
  norm_num at h1 h2
  constructor <;> linarith

/-- The documents found for "x" in the ranked fixture, before sorting, in exact real
arithmetic. -/
theorem rankedFixture_found :
    (rankedFixture ℝ).ParseQuery "x".toList = .ok ⟨[['x']], []⟩ ∧
    (rankedFixture ℝ).FindAllDocuments Real.log ⟨[['x']], []⟩
        (GetStatusPredicate DocumentStatus.ACTUAL) =
      .ok [⟨1, 1 / 3 * Real.log (7 / 6), 1⟩, ⟨2, 1 / 6 * Real.log (7 / 6), 1⟩,
        ⟨3, 1 * Real.log (7 / 6), 1⟩, ⟨4, 1 / 2 * Real.log (7 / 6), 1⟩,
        ⟨5, 1 / 5 * Real.log (7 / 6), 1⟩, ⟨6, 1 / 3 * Real.log (7 / 6), 2⟩] := by
  have hreach : Reachable (rankedState7 ℝ) :=
    rankedFixture_eq (F := ℝ) ▸ rankedFixture_reachable
  rw [rankedFixture_eq]
  refine ⟨rfl, ?_⟩
  rw [FindAllDocuments_eq_map_ids _ hreach.inv]
  have hk : (rankedState7 ℝ).document_ids_.filter
      ((rankedState7 ℝ).inMatchSet ⟨[['x']], []⟩
        (GetStatusPredicate DocumentStatus.ACTUAL)) = [1, 2, 3, 4, 5, 6] := rfl
  rw [hk]
  have r1 : (rankedState7 ℝ).relevanceOf Real.log [['x']] 1 = 1 / 3 * Real.log (7 / 6) := by
    simp [relevanceOf, tfW, idfOf, rankedState7, OrdMap.lookup, GetDocumentCount]
  have r2 : (rankedState7 ℝ).relevanceOf Real.log [['x']] 2 = 1 / 6 * Real.log (7 / 6) := by
    simp [relevanceOf, tfW, idfOf, rankedState7, OrdMap.lookup, GetDocumentCount]
  have r3 : (rankedState7 ℝ).relevanceOf Real.log [['x']] 3 = 1 * Real.log (7 / 6) := by
    simp [relevanceOf, tfW, idfOf, rankedState7, OrdMap.lookup, GetDocumentCount]
  have r4 : (rankedState7 ℝ).relevanceOf Real.log [['x']] 4 = 1 / 2 * Real.log (7 / 6) := by
    simp [relevanceOf, tfW, idfOf, rankedState7, OrdMap.lookup, GetDocumentCount]
  have r5 : (rankedState7 ℝ).relevanceOf Real.log [['x']] 5 = 1 / 5 * Real.log (7 / 6) := by
    simp [relevanceOf, tfW, idfOf, rankedState7, OrdMap.lookup, GetDocumentCount]
  have r6 : (rankedState7 ℝ).relevanceOf Real.log [['x']] 6 = 1 / 3 * Real.log (7 / 6) := by
    simp [relevanceOf, tfW, idfOf, rankedState7, OrdMap.lookup, GetDocumentCount]
  have t1 : (rankedState7 ℝ).ratingOf 1 = 1 := rfl
  have t2 : (rankedState7 ℝ).ratingOf 2 = 1 := rfl
  have t3 : (rankedState7 ℝ).ratingOf 3 = 1 := rfl
  have t4 : (rankedState7 ℝ).ratingOf 4 = 1 := rfl
  have t5 : (rankedState7 ℝ).ratingOf 5 = 1 := rfl
  have t6 : (rankedState7 ℝ).ratingOf 6 = 2 := rfl
  simp only [List.map_cons, List.map_nil, r1, r2, r3, r4, r5, r6, t1, t2, t3, t4, t5, t6]

/-- The documents found for "x" in the ranked fixture: near-equality of the relevance is
transitive on them, and the stable insertion sort puts them in the order 3, 4, 6, 1, 5, 2. -/
theorem rankedFixture_sorted :
    (∀ a ∈ ([⟨1, 1 / 3 * Real.log (7 / 6), 1⟩, ⟨2, 1 / 6 * Real.log (7 / 6), 1⟩,
        ⟨3, 1 * Real.log (7 / 6), 1⟩, ⟨4, 1 / 2 * Real.log (7 / 6), 1⟩,
        ⟨5, 1 / 5 * Real.log (7 / 6), 1⟩, ⟨6, 1 / 3 * Real.log (7 / 6), 2⟩] : List (Document ℝ)),
      ∀ b ∈ ([⟨1, 1 / 3 * Real.log (7 / 6), 1⟩, ⟨2, 1 / 6 * Real.log (7 / 6), 1⟩,
        ⟨3, 1 * Real.log (7 / 6), 1⟩, ⟨4, 1 / 2 * Real.log (7 / 6), 1⟩,
        ⟨5, 1 / 5 * Real.log (7 / 6), 1⟩, ⟨6, 1 / 3 * Real.log (7 / 6), 2⟩] : List (Document ℝ)),
      ∀ c ∈ ([⟨1, 1 / 3 * Real.log (7 / 6), 1⟩, ⟨2, 1 / 6 * Real.log (7 / 6), 1⟩,
        ⟨3, 1 * Real.log (7 / 6), 1⟩, ⟨4, 1 / 2 * Real.log (7 / 6), 1⟩,
        ⟨5, 1 / 5 * Real.log (7 / 6), 1⟩, ⟨6, 1 / 3 * Real.log (7 / 6), 2⟩] : List (Document ℝ)),
      |a.relevance - b.relevance| < 1 / 1000000 →
        |b.relevance - c.relevance| < 1 / 1000000 →
          |a.relevance - c.relevance| < 1 / 1000000) ∧
    stdSort documentBefore
        ([⟨1, 1 / 3 * Real.log (7 / 6), 1⟩, ⟨2, 1 / 6 * Real.log (7 / 6), 1⟩,
          ⟨3, 1 * Real.log (7 / 6), 1⟩, ⟨4, 1 / 2 * Real.log (7 / 6), 1⟩,
          ⟨5, 1 / 5 * Real.log (7 / 6), 1⟩, ⟨6, 1 / 3 * Real.log (7 / 6), 2⟩] : List (Document ℝ)) =
      [⟨3, 1 * Real.log (7 / 6), 1⟩, ⟨4, 1 / 2 * Real.log (7 / 6), 1⟩,
        ⟨6, 1 / 3 * Real.log (7 / 6), 2⟩, ⟨1, 1 / 3 * Real.log (7 / 6), 1⟩,
        ⟨5, 1 / 5 * Real.log (7 / 6), 1⟩, ⟨2, 1 / 6 * Real.log (7 / 6), 1⟩] := by
  obtain ⟨b1, b2⟩ := log_seven_sixths_bounds
  have hsort : stdSort documentBefore
      ([⟨1, 1 / 3 * Real.log (7 / 6), 1⟩, ⟨2, 1 / 6 * Real.log (7 / 6), 1⟩,
        ⟨3, 1 * Real.log (7 / 6), 1⟩, ⟨4, 1 / 2 * Real.log (7 / 6), 1⟩,
        ⟨5, 1 / 5 * Real.log (7 / 6), 1⟩, ⟨6, 1 / 3 * Real.log (7 / 6), 2⟩] : List (Document ℝ)) =
      [⟨3, 1 * Real.log (7 / 6), 1⟩, ⟨4, 1 / 2 * Real.log (7 / 6), 1⟩,
        ⟨6, 1 / 3 * Real.log (7 / 6), 2⟩, ⟨1, 1 / 3 * Real.log (7 / 6), 1⟩,
        ⟨5, 1 / 5 * Real.log (7 / 6), 1⟩, ⟨2, 1 / 6 * Real.log (7 / 6), 1⟩] := by
    have c1 : documentBefore (⟨6, 1 / 3 * Real.log (7 / 6), 2⟩ : Document ℝ)
        ⟨5, 1 / 5 * Real.log (7 / 6), 1⟩ = true :=
      documentBefore_of_gt _ _ (by simp only; linarith)
    have c2 : documentBefore (⟨6, 1 / 3 * Real.log (7 / 6), 2⟩ : Document ℝ)
        ⟨4, 1 / 2 * Real.log (7 / 6), 1⟩ = false :=
      documentBefore_of_lt _ _ (by simp only; linarith)
    have c3 : documentBefore (⟨4, 1 / 2 * Real.log (7 / 6), 1⟩ : Document ℝ)
        ⟨3, 1 * Real.log (7 / 6), 1⟩ = false :=
      documentBefore_of_lt _ _ (by simp only; linarith)
    have c4 : documentBefore (⟨3, 1 * Real.log (7 / 6), 1⟩ : Document ℝ)
        ⟨2, 1 / 6 * Real.log (7 / 6), 1⟩ = true :=
      documentBefore_of_gt _ _ (by simp only; linarith)
    have c5 : documentBefore (⟨4, 1 / 2 * Real.log (7 / 6), 1⟩ : Document ℝ)
        ⟨2, 1 / 6 * Real.log (7 / 6), 1⟩ = true :=
      documentBefore_of_gt _ _ (by simp only; linarith)
    have c6 : documentBefore (⟨6, 1 / 3 * Real.log (7 / 6), 2⟩ : Document ℝ)
        ⟨2, 1 / 6 * Real.log (7 / 6), 1⟩ = true :=
      documentBefore_of_gt _ _ (by simp only; linarith)
    have c7 : documentBefore (⟨5, 1 / 5 * Real.log (7 / 6), 1⟩ : Document ℝ)
        ⟨2, 1 / 6 * Real.log (7 / 6), 1⟩ = true :=
      documentBefore_of_gt _ _ (by simp only; linarith)
    have c8 : documentBefore (⟨3, 1 * Real.log (7 / 6), 1⟩ : Document ℝ)
        ⟨1, 1 / 3 * Real.log (7 / 6), 1⟩ = true :=
      documentBefore_of_gt _ _ (by simp only; linarith)
    have c9 : documentBefore (⟨4, 1 / 2 * Real.log (7 / 6), 1⟩ : Document ℝ)
        ⟨1, 1 / 3 * Real.log (7 / 6), 1⟩ = true :=
      documentBefore_of_gt _ _ (by simp only; linarith)
    have c10 : documentBefore (⟨6, 1 / 3 * Real.log (7 / 6), 2⟩ : Document ℝ)
        ⟨1, 1 / 3 * Real.log (7 / 6), 1⟩ = true := by
      rw [documentBefore_of_near _ _ (by simp)]
      rfl
    have c11 : documentBefore (⟨5, 1 / 5 * Real.log (7 / 6), 1⟩ : Document ℝ)
        ⟨1, 1 / 3 * Real.log (7 / 6), 1⟩ = false :=
      documentBefore_of_lt _ _ (by simp only; linarith)
    simp only [stdSort, List.insertionSort, List.orderedInsert, c1, c2, c3, c4, c5,
      c6, c7, c8, c9, c10, c11, if_true, if_false, Bool.true_eq_false]
  refine ⟨near_trans_of_arranged _ _ (hsort ▸ perm_stdSort _ _) ?_, hsort⟩
  simp only [List.pairwise_cons, List.mem_cons, forall_eq_or_imp, List.mem_singleton, forall_eq,
    List.not_mem_nil, IsEmpty.forall_iff, implies_true, List.Pairwise.nil, and_true]
  refine ⟨⟨Or.inr ?_, Or.inr ?_, Or.inr ?_, Or.inr ?_, Or.inr ?_⟩,
    ⟨Or.inr ?_, Or.inr ?_, Or.inr ?_, Or.inr ?_⟩, ⟨Or.inl trivial, Or.inr ?_, Or.inr ?_⟩,
    ⟨Or.inr ?_, Or.inr ?_⟩, Or.inr ?_⟩ <;> linarith

end SearchServer
end SearchEngine

/-! ## Claims C7 and C31: the order and the selection of the result -/

namespace SearchEngine
namespace Libstdcxx
variable {α : Type}

/-- The `std::sort` of libstdc++ on three elements of which the second is not `comp`-before the
first and the third is: the third moves to the front. -/
theorem sort_three (comp : α → α → Bool) (d1 d2 d3 : α)
    (h21 : comp d2 d1 = false) (h31 : comp d3 d1 = true) :
    sort comp [d1, d2, d3] = some [d3, d1, d2] := by
  simp [sort, lg, introsort_loop, final_insertion_sort, insertion_sort, insertion_sort_loop,
    unguarded_linear_insert, h21, h31]

end Libstdcxx

namespace SearchServer

/-- The documents found for "x" in the near-tie fixture, before sorting. -/
theorem nearTieFixture_matched :
    (nearTieFixture ℝ).ParseQuery "x".toList = .ok ⟨[['x']], []⟩ ∧
    (nearTieFixture ℝ).FindAllDocuments Real.log ⟨[['x']], []⟩
        (GetStatusPredicate DocumentStatus.ACTUAL) =
      .ok [⟨1, 1 / 633 * Real.log (4 / 3), 3⟩, ⟨2, 1 / 632 * Real.log (4 / 3), 2⟩,
        ⟨3, 1 / 631 * Real.log (4 / 3), 1⟩] := by
  obtain ⟨hinv, hstop, hids, hdocs, htf⟩ := nearTieFixture_facts (F := ℝ)
  have hq : (nearTieFixture ℝ).ParseQuery "x".toList = .ok ⟨[['x']], []⟩ := by
    rw [ParseQuery_congr (nearTieFixture ℝ) (emptyServer ℝ) hstop]
    rfl
  refine ⟨hq, ?_⟩
  -- the postings of "x"
  obtain ⟨p, hp⟩ : ∃ p, OrdMap.lookup ['x'] (nearTieFixture ℝ).word_to_document_freqs_ =
      some p := by
    have h1 := htf 1
    norm_num at h1
    unfold tfW at h1
    cases hx : OrdMap.lookup ['x'] (nearTieFixture ℝ).word_to_document_freqs_ with
    | none => simp [hx] at h1
    | some p => exact ⟨p, rfl⟩
  have hpl : p = [(1, 1 / 633), (2, 1 / 632), (3, 1 / 631)] := by
    apply OrdMap.ext_lookup (hinv.index.w2d_inner _ _ hp)
    · simp [OrdMap.WF]
    · intro j
      have hj := htf j
      simp only [tfW, hp, Option.some_bind] at hj
      rw [hj]
      by_cases h4 : j = 4
      · subst h4; norm_num [OrdMap.lookup]
      by_cases h3 : j = 3
      · subst h3; norm_num [OrdMap.lookup]
      by_cases h2 : j = 2
      · subst h2; norm_num [OrdMap.lookup]
      by_cases h1 : j = 1
      · subst h1; norm_num [OrdMap.lookup]
      simp [OrdMap.lookup, h1, h2, h3, h4]
  have hidf : (nearTieFixture ℝ).idfOf Real.log ['x'] = Real.log (4 / 3) := by
    simp only [idfOf, hp, Option.getD_some, hpl, GetDocumentCount, hdocs]
    norm_num
  have hrel : ∀ j, (nearTieFixture ℝ).relevanceOf Real.log [['x']] j =
      ((nearTieFixture ℝ).tfW ['x'] j).getD 0 * Real.log (4 / 3) := by
    intro j
    simp [relevanceOf, hidf]
  have hin : ∀ j, (nearTieFixture ℝ).inMatchSet ⟨[['x']], []⟩
      (GetStatusPredicate DocumentStatus.ACTUAL) j = true ↔ (j = 1 ∨ j = 2 ∨ j = 3) := by
    intro j
    rw [hinv.inMatchSet_iff]
    constructor
    · rintro ⟨_, ⟨w, hw, hne⟩, _⟩
      simp only [List.mem_singleton] at hw
      subst hw
      rw [htf] at hne
      by_contra hcon
      push_neg at hcon
      simp [hcon.1, hcon.2.1, hcon.2.2] at hne
    · intro hj
      refine ⟨?_, ⟨['x'], List.mem_singleton_self _, ?_⟩, by simp⟩
      · unfold docPred
        rw [hdocs]
        rcases hj with h | h | h <;> subst h <;> rfl
      · rw [htf]
        rcases hj with h | h | h <;> subst h <;> simp
  have hkeys : (nearTieFixture ℝ).document_ids_.filter
      ((nearTieFixture ℝ).inMatchSet ⟨[['x']], []⟩
        (GetStatusPredicate DocumentStatus.ACTUAL)) = [1, 2, 3] := by
    rw [hids]
    have e1 := (hin 1).2 (Or.inl rfl)
    have e2 := (hin 2).2 (Or.inr (Or.inl rfl))
    have e3 := (hin 3).2 (Or.inr (Or.inr rfl))
    have e4 : (nearTieFixture ℝ).inMatchSet ⟨[['x']], []⟩
        (GetStatusPredicate DocumentStatus.ACTUAL) 4 = false := by
      rw [← Bool.not_eq_true, hin]
      decide
    simp [List.filter, e1, e2, e3, e4]
  rw [FindAllDocuments_eq_map_ids _ hinv, hkeys]
  have t1 : (nearTieFixture ℝ).ratingOf 1 = 3 := by unfold ratingOf; rw [hdocs]; rfl
  have t2 : (nearTieFixture ℝ).ratingOf 2 = 2 := by unfold ratingOf; rw [hdocs]; rfl
  have t3 : (nearTieFixture ℝ).ratingOf 3 = 1 := by unfold ratingOf; rw [hdocs]; rfl
  simp only [List.map_cons, List.map_nil, hrel, htf, t1, t2, t3]
  norm_num

/-- The results of the query "x" on the ranked fixture in exact real arithmetic, with the
`std::sort` of libstdc++: the documents 3, 4, 6, 1, 5; document 2 is left out. -/
theorem rankedFixture_top :
    (rankedFixture ℝ).FindTopDocumentsLibstdcxx Real.log "x".toList
        (GetStatusPredicate DocumentStatus.ACTUAL) =
      .ok [⟨3, 1 * Real.log (7 / 6), 1⟩, ⟨4, 1 / 2 * Real.log (7 / 6), 1⟩,
        ⟨6, 1 / 3 * Real.log (7 / 6), 2⟩, ⟨1, 1 / 3 * Real.log (7 / 6), 1⟩,
        ⟨5, 1 / 5 * Real.log (7 / 6), 1⟩] := by
  obtain ⟨hq, hall⟩ := rankedFixture_found
  obtain ⟨hnear, hsort⟩ := rankedFixture_sorted
  have hlib := (sort_documents_eq_stdSort _ (by simp) (by simp) hnear).1
  rw [hsort] at hlib
  unfold FindTopDocumentsLibstdcxx
  simp only [hq, hall, hlib]
  rfl

end SearchServer

namespace SearchServer
variable {F : Type} [LinearOrderedField F]

/-- C7 as amended: when near-equality of the relevance (a difference below `1e-6`) is transitive
on the documents found for the query, `FindTopDocuments`, sorting with the `std::sort` of
libstdc++, returns, and the list it returns is sorted by the specified order for every two
positions `i < j`: either `relevance[i] - relevance[j] ≥ 1e-6`, or
`|relevance[i] - relevance[j]| < 1e-6` and `rating[i] ≥ rating[j]`. -/
theorem C7_sorted_when_near_equality_transitive (s : SearchServer F) (ln : F → F)
    (raw_query : List Char) (P : Int → DocumentStatus → Int → Bool) (query : Query)
    (hq : s.ParseQuery raw_query = .ok query) (matched : List (Document F))
    (hall : s.FindAllDocuments ln query P = .ok matched)
    (hnear : ∀ a ∈ matched, ∀ b ∈ matched, ∀ c ∈ matched,
      |a.relevance - b.relevance| < 1 / 1000000 → |b.relevance - c.relevance| < 1 / 1000000 →
        |a.relevance - c.relevance| < 1 / 1000000) :
    ∃ docs, s.FindTopDocumentsLibstdcxx ln raw_query P = .ok docs ∧
      docs.Pairwise (fun a b =>
        1 / 1000000 ≤ a.relevance - b.relevance ∨
          (|a.relevance - b.relevance| < 1 / 1000000 ∧ b.rating ≤ a.rating)) := by
  obtain ⟨l1, hsort, _, hsorted⟩ := sort_documents_spec matched hnear
  have hpair : l1.Pairwise (fun a b =>
      1 / 1000000 ≤ a.relevance - b.relevance ∨
        (|a.relevance - b.relevance| < 1 / 1000000 ∧ b.rating ≤ a.rating)) :=
    List.Pairwise.imp (fun {a b} h => (documentBefore_eq_false_iff a b).1 h) hsorted
  refine ⟨if l1.length > MAX_RESULT_DOCUMENT_COUNT then l1.take MAX_RESULT_DOCUMENT_COUNT
    else l1, ?_, ?_⟩
  · unfold FindTopDocumentsLibstdcxx
    simp only [hq, hall, hsort]
  · split_ifs
    · exact hpair.sublist (List.take_sublist _ _)
    · exact hpair

/-- C31 as amended: when near-equality of the relevance (a difference below `1e-6`) is transitive
on the documents that match the query, `FindTopDocuments`, sorting with the `std::sort` of
libstdc++, returns `min(5, number of matches)` matching documents and they are the best ones:
no matching document that was left out strictly precedes a returned document in the sort order,
that is, none has relevance higher by `1e-6` or more than a returned document, and none has
relevance within `1e-6` of a returned document together with a strictly higher rating. -/
theorem C31_top_five_are_best_when_near_equality_transitive (s : SearchServer F) (ln : F → F)
    (raw_query : List Char) (P : Int → DocumentStatus → Int → Bool) (query : Query)
    (hq : s.ParseQuery raw_query = .ok query) (matched : List (Document F))
    (hall : s.FindAllDocuments ln query P = .ok matched)
    (hnear : ∀ a ∈ matched, ∀ b ∈ matched, ∀ c ∈ matched,
      |a.relevance - b.relevance| < 1 / 1000000 → |b.relevance - c.relevance| < 1 / 1000000 →
        |a.relevance - c.relevance| < 1 / 1000000) :
    ∃ docs, s.FindTopDocumentsLibstdcxx ln raw_query P = .ok docs ∧
      docs.length = min 5 matched.length ∧
      (∀ b ∈ docs, b ∈ matched) ∧
      ∀ a ∈ matched, a ∉ docs → ∀ b ∈ docs,
        ¬ (1 / 1000000 ≤ a.relevance - b.relevance) ∧
        ¬ (|a.relevance - b.relevance| < 1 / 1000000 ∧ a.rating > b.rating) := by
  obtain ⟨l1, hsort, hperm, hsorted⟩ := sort_documents_spec matched hnear
  have hres : s.FindTopDocumentsLibstdcxx ln raw_query P = .ok (l1.take 5) := by
    unfold FindTopDocumentsLibstdcxx
    simp only [hq, hall, hsort, MAX_RESULT_DOCUMENT_COUNT]
    split_ifs with hlen
    · rfl
    · rw [List.take_of_length_le (by omega)]
  refine ⟨_, hres, ?_, ?_, ?_⟩
  · rw [List.length_take, hperm.length_eq]
  · intro b hb
    exact hperm.mem_iff.1 (List.mem_of_mem_take hb)
  · intro a ha hna b hb
    have hsplit := List.take_append_drop 5 l1
    have ha1 : a ∈ l1.drop 5 := by
      have : a ∈ l1.take 5 ++ l1.drop 5 := by
        rw [hsplit]
        exact hperm.mem_iff.2 ha
      rcases List.mem_append.1 this with h | h
      · exact absurd h hna
      · exact h
    rw [← hsplit, List.pairwise_append] at hsorted
    have hba : documentBefore a b = false := hsorted.2.2 b hb a ha1
    have hiff := documentBefore_iff a b
    rw [hba] at hiff
    have hnot : ¬ (|a.relevance - b.relevance| < 1 / 1000000 ∧ a.rating > b.rating ∨
        |a.relevance - b.relevance| ≥ 1 / 1000000 ∧ a.relevance > b.relevance) :=
      fun h => Bool.noConfusion (hiff.2 h)
    constructor
    · intro hgt
      have heps : (0 : F) < 1 / 1000000 := by norm_num
      exact hnot (Or.inr ⟨le_trans hgt (le_abs_self _), by linarith⟩)
    · intro hnr
      exact hnot (Or.inl hnr)

end SearchServer

namespace SearchServer

/-- C7, the counterexample: three documents hold "x" once among 633, 632 and 631 words and are
rated 3, 2 and 1; a fourth document lacks "x".  For the query "x" the relevances
`ln(4/3)/633 < ln(4/3)/632 < ln(4/3)/631` are within `1e-6` for neighbours and `1e-6` or more
apart for the extremes, so the comparator is cyclic on the three documents.  `FindTopDocuments`,
sorting with the `std::sort` of libstdc++, returns them in the order 3, 1, 2; the first and the
last violate the claimed order (document 2 is within `1e-6` of document 3 and rated higher), and
every other arrangement of the three documents violates it as well. -/
theorem C7_counterexample :
    (nearTieFixture ℝ).ParseQuery "x".toList = .ok ⟨[['x']], []⟩ ∧
    (nearTieFixture ℝ).FindAllDocuments Real.log ⟨[['x']], []⟩
        (GetStatusPredicate DocumentStatus.ACTUAL) =
      .ok [⟨1, 1 / 633 * Real.log (4 / 3), 3⟩, ⟨2, 1 / 632 * Real.log (4 / 3), 2⟩,
        ⟨3, 1 / 631 * Real.log (4 / 3), 1⟩] ∧
    (nearTieFixture ℝ).FindTopDocumentsLibstdcxx Real.log "x".toList
        (GetStatusPredicate DocumentStatus.ACTUAL) =
      .ok [⟨3, 1 / 631 * Real.log (4 / 3), 1⟩, ⟨1, 1 / 633 * Real.log (4 / 3), 3⟩,
        ⟨2, 1 / 632 * Real.log (4 / 3), 2⟩] ∧
    ¬ ([⟨3, 1 / 631 * Real.log (4 / 3), 1⟩, ⟨1, 1 / 633 * Real.log (4 / 3), 3⟩,
        ⟨2, 1 / 632 * Real.log (4 / 3), 2⟩] : List (Document ℝ)).Pairwise (fun a b =>
        1 / 1000000 ≤ a.relevance - b.relevance ∨
          (|a.relevance - b.relevance| < 1 / 1000000 ∧ b.rating ≤ a.rating)) ∧
    ∀ l : List (Document ℝ),
      l.Perm [⟨1, 1 / 633 * Real.log (4 / 3), 3⟩, ⟨2, 1 / 632 * Real.log (4 / 3), 2⟩,
        ⟨3, 1 / 631 * Real.log (4 / 3), 1⟩] →
      ¬ l.Pairwise (fun a b =>
        1 / 1000000 ≤ a.relevance - b.relevance ∨
          (|a.relevance - b.relevance| < 1 / 1000000 ∧ b.rating ≤ a.rating)) := by
  obtain ⟨hL1, hL2⟩ := log_four_thirds_bounds
  obtain ⟨hq, hall⟩ := nearTieFixture_matched
  -- the three failing pairs of the cycle
  have q13 : ¬ (1 / 1000000 ≤ (1 / 633 * Real.log (4 / 3)) - 1 / 631 * Real.log (4 / 3) ∨
      (|(1 / 633 * Real.log (4 / 3)) - 1 / 631 * Real.log (4 / 3)| < 1 / 1000000 ∧
        (1 : Int) ≤ 3)) := by
    rintro (h | ⟨h, _⟩)
    · linarith
    · rw [abs_lt] at h
      linarith [h.1]
  have q32 : ¬ (1 / 1000000 ≤ (1 / 631 * Real.log (4 / 3)) - 1 / 632 * Real.log (4 / 3) ∨
      (|(1 / 631 * Real.log (4 / 3)) - 1 / 632 * Real.log (4 / 3)| < 1 / 1000000 ∧
        (2 : Int) ≤ 1)) := by
    rintro (h | ⟨_, h⟩)
    · linarith
    · omega
  have q21 : ¬ (1 / 1000000 ≤ (1 / 632 * Real.log (4 / 3)) - 1 / 633 * Real.log (4 / 3) ∨
      (|(1 / 632 * Real.log (4 / 3)) - 1 / 633 * Real.log (4 / 3)| < 1 / 1000000 ∧
        (3 : Int) ≤ 2)) := by
    rintro (h | ⟨_, h⟩)
    · linarith
    · omega
  refine ⟨hq, hall, ?_, ?_, ?_⟩
  · have c21 : documentBefore (⟨2, 1 / 632 * Real.log (4 / 3), 2⟩ : Document ℝ)
        ⟨1, 1 / 633 * Real.log (4 / 3), 3⟩ = false := by
      rw [documentBefore_of_near _ _ (by
        simp only
        rw [abs_lt]
        constructor <;> linarith)]
      rfl
    have c31 : documentBefore (⟨3, 1 / 631 * Real.log (4 / 3), 1⟩ : Document ℝ)
        ⟨1, 1 / 633 * Real.log (4 / 3), 3⟩ = true :=
      documentBefore_of_gt _ _ (by simp only; linarith)
    unfold FindTopDocumentsLibstdcxx
    simp only [hq, hall]
    rw [Libstdcxx.sort_three documentBefore _ _ _ c21 c31]
    rfl
  · intro h
    rw [List.pairwise_cons] at h
    exact q32 (h.1 ⟨2, 1 / 632 * Real.log (4 / 3), 2⟩
      (List.mem_cons_of_mem _ (List.mem_singleton_self _)))
  · intro l hl hp
    have hlen : l.length = 3 := hl.length_eq
    match l, hlen with
    | [x, y, z], _ =>
      simp only [List.pairwise_cons, List.mem_cons, List.mem_singleton, forall_eq_or_imp,
        forall_eq, List.not_mem_nil, false_imp_iff, implies_true, List.Pairwise.nil,
        and_true] at hp
      obtain ⟨⟨hxy, hxz⟩, hyz⟩ := hp
      have hx : x ∈ [x, y, z] := by simp
      have hy : y ∈ [x, y, z] := by simp
      have hz : z ∈ [x, y, z] := by simp
      have hnd : [x, y, z].Nodup := hl.nodup_iff.2 (by
        simp only [List.nodup_cons, List.mem_cons, List.mem_singleton, Document.mk.injEq,
          List.not_mem_nil, not_false_eq_true, List.nodup_nil, and_true]
        norm_num)
      simp only [List.nodup_cons, List.mem_cons, List.mem_singleton, List.not_mem_nil,
        not_false_eq_true, List.nodup_nil, and_true, not_or] at hnd
      rw [hl.mem_iff] at hx hy hz
      simp only [List.mem_cons, List.mem_singleton, List.not_mem_nil, or_false] at hx hy hz
      rcases hx with hx | hx | hx <;> rcases hy with hy | hy | hy <;>
        rcases hz with hz | hz | hz <;> subst hx <;> subst hy <;> subst hz <;>
        first
          | exact absurd rfl hnd.1.1
          | exact absurd rfl hnd.1.2
          | exact absurd rfl hnd.2
          | exact q13 hxy
          | exact q13 hxz
          | exact q13 hyz
          | exact q32 hxy
          | exact q32 hxz
          | exact q32 hyz
          | exact q21 hxy
          | exact q21 hxz

/-- Witness of C7 as amended: the second query of `TestProcessQueries`,
"not very funny nasty pet", in exact real arithmetic: all five documents match, with five
relevances that are far apart, and the result is 3, 1, 2, 5, 4.  Then the query "x" on the
ranked fixture: the documents 1 and 6 have the same relevance, document 6 has the higher
rating, and the result is 3, 4, 6, 1, 5. -/
theorem C7_sorted_when_near_equality_transitive_witness :
    (queriesFixture ℝ).ParseQuery "not very funny nasty pet".toList =
      .ok ⟨["funny".toList, "nasty".toList, "not".toList, "pet".toList, "very".toList], []⟩ ∧
    (queriesFixture ℝ).FindAllDocuments Real.log
        ⟨["funny".toList, "nasty".toList, "not".toList, "pet".toList, "very".toList], []⟩
        (GetStatusPredicate DocumentStatus.ACTUAL) =
      .ok [⟨1, 1 / 2 * Real.log (5 / 3) + 1 / 4 * Real.log (5 / 4), 1⟩,
        ⟨2, 1 / 4 * Real.log (5 / 3) + 1 / 4 * Real.log (5 / 4), 1⟩,
        ⟨3, 1 / 3 * Real.log (5 / 3) + 1 / 6 * Real.log (5 / 4) + 1 / 3 * Real.log 5, 1⟩,
        ⟨4, 1 / 4 * Real.log (5 / 4), 1⟩,
        ⟨5, 1 / 4 * Real.log (5 / 3), 1⟩] ∧
    (∀ a ∈ ([⟨1, 1 / 2 * Real.log (5 / 3) + 1 / 4 * Real.log (5 / 4), 1⟩,
        ⟨2, 1 / 4 * Real.log (5 / 3) + 1 / 4 * Real.log (5 / 4), 1⟩,
        ⟨3, 1 / 3 * Real.log (5 / 3) + 1 / 6 * Real.log (5 / 4) + 1 / 3 * Real.log 5, 1⟩,
        ⟨4, 1 / 4 * Real.log (5 / 4), 1⟩,
        ⟨5, 1 / 4 * Real.log (5 / 3), 1⟩] : List (Document ℝ)),
      ∀ b ∈ ([⟨1, 1 / 2 * Real.log (5 / 3) + 1 / 4 * Real.log (5 / 4), 1⟩,
        ⟨2, 1 / 4 * Real.log (5 / 3) + 1 / 4 * Real.log (5 / 4), 1⟩,
        ⟨3, 1 / 3 * Real.log (5 / 3) + 1 / 6 * Real.log (5 / 4) + 1 / 3 * Real.log 5, 1⟩,
        ⟨4, 1 / 4 * Real.log (5 / 4), 1⟩,
        ⟨5, 1 / 4 * Real.log (5 / 3), 1⟩] : List (Document ℝ)),
      ∀ c ∈ ([⟨1, 1 / 2 * Real.log (5 / 3) + 1 / 4 * Real.log (5 / 4), 1⟩,
        ⟨2, 1 / 4 * Real.log (5 / 3) + 1 / 4 * Real.log (5 / 4), 1⟩,
        ⟨3, 1 / 3 * Real.log (5 / 3) + 1 / 6 * Real.log (5 / 4) + 1 / 3 * Real.log 5, 1⟩,
        ⟨4, 1 / 4 * Real.log (5 / 4), 1⟩,
        ⟨5, 1 / 4 * Real.log (5 / 3), 1⟩] : List (Document ℝ)),
      |a.relevance - b.relevance| < 1 / 1000000 →
        |b.relevance - c.relevance| < 1 / 1000000 →
          |a.relevance - c.relevance| < 1 / 1000000) ∧
    (∃ docs, (queriesFixture ℝ).FindTopDocumentsLibstdcxx Real.log
        "not very funny nasty pet".toList (GetStatusPredicate DocumentStatus.ACTUAL) = .ok docs ∧
      docs.Pairwise (fun a b =>
        1 / 1000000 ≤ a.relevance - b.relevance ∨
          (|a.relevance - b.relevance| < 1 / 1000000 ∧ b.rating ≤ a.rating))) ∧
    (queriesFixture ℝ).FindTopDocumentsLibstdcxx Real.log "not very funny nasty pet".toList
        (GetStatusPredicate DocumentStatus.ACTUAL) =
      .ok [⟨3, 1 / 3 * Real.log (5 / 3) + 1 / 6 * Real.log (5 / 4) + 1 / 3 * Real.log 5, 1⟩,
        ⟨1, 1 / 2 * Real.log (5 / 3) + 1 / 4 * Real.log (5 / 4), 1⟩,
        ⟨2, 1 / 4 * Real.log (5 / 3) + 1 / 4 * Real.log (5 / 4), 1⟩,
        ⟨5, 1 / 4 * Real.log (5 / 3), 1⟩,
        ⟨4, 1 / 4 * Real.log (5 / 4), 1⟩] ∧
    (∃ docs, (rankedFixture ℝ).FindTopDocumentsLibstdcxx Real.log "x".toList
        (GetStatusPredicate DocumentStatus.ACTUAL) = .ok docs ∧
      docs.Pairwise (fun a b =>
        1 / 1000000 ≤ a.relevance - b.relevance ∨
          (|a.relevance - b.relevance| < 1 / 1000000 ∧ b.rating ≤ a.rating))) ∧
    (rankedFixture ℝ).FindTopDocumentsLibstdcxx Real.log "x".toList
        (GetStatusPredicate DocumentStatus.ACTUAL) =
      .ok [⟨3, 1 * Real.log (7 / 6), 1⟩, ⟨4, 1 / 2 * Real.log (7 / 6), 1⟩,
        ⟨6, 1 / 3 * Real.log (7 / 6), 2⟩, ⟨1, 1 / 3 * Real.log (7 / 6), 1⟩,
        ⟨5, 1 / 5 * Real.log (7 / 6), 1⟩] :=
  ⟨queriesFixture_found.2.1.1, queriesFixture_found.2.1.2, queriesFixture_sorted_second.1,
    C7_sorted_when_near_equality_transitive (queriesFixture ℝ) Real.log
      "not very funny nasty pet".toList (GetStatusPredicate DocumentStatus.ACTUAL) _
      queriesFixture_found.2.1.1 _ queriesFixture_found.2.1.2 queriesFixture_sorted_second.1,
    queriesFixture_top.2.1.1,
    C7_sorted_when_near_equality_transitive (rankedFixture ℝ) Real.log "x".toList
      (GetStatusPredicate DocumentStatus.ACTUAL) _ rankedFixture_found.1 _
      rankedFixture_found.2 rankedFixture_sorted.1,
    rankedFixture_top⟩

/-- Witness of C31 as amended: the query "x" on the ranked fixture in exact real arithmetic.
Six documents match, with the relevances `ln(7/6)` times 1/3, 1/6, 1, 1/2, 1/5 and 1/3;
document 6 is rated 2 and the others 1.  The documents 3, 4, 6, 1, 5 are returned, document 6
in front of document 1 by its rating, and document 2, which has the least relevance, is left
out. -/
theorem C31_top_five_are_best_when_near_equality_transitive_witness :
    (rankedFixture ℝ).ParseQuery "x".toList = .ok ⟨[['x']], []⟩ ∧
    (rankedFixture ℝ).FindAllDocuments Real.log ⟨[['x']], []⟩
        (GetStatusPredicate DocumentStatus.ACTUAL) =
      .ok [⟨1, 1 / 3 * Real.log (7 / 6), 1⟩, ⟨2, 1 / 6 * Real.log (7 / 6), 1⟩,
        ⟨3, 1 * Real.log (7 / 6), 1⟩, ⟨4, 1 / 2 * Real.log (7 / 6), 1⟩,
        ⟨5, 1 / 5 * Real.log (7 / 6), 1⟩, ⟨6, 1 / 3 * Real.log (7 / 6), 2⟩] ∧
    (∀ a ∈ ([⟨1, 1 / 3 * Real.log (7 / 6), 1⟩, ⟨2, 1 / 6 * Real.log (7 / 6), 1⟩,
        ⟨3, 1 * Real.log (7 / 6), 1⟩, ⟨4, 1 / 2 * Real.log (7 / 6), 1⟩,
        ⟨5, 1 / 5 * Real.log (7 / 6), 1⟩, ⟨6, 1 / 3 * Real.log (7 / 6), 2⟩] : List (Document ℝ)),
      ∀ b ∈ ([⟨1, 1 / 3 * Real.log (7 / 6), 1⟩, ⟨2, 1 / 6 * Real.log (7 / 6), 1⟩,
        ⟨3, 1 * Real.log (7 / 6), 1⟩, ⟨4, 1 / 2 * Real.log (7 / 6), 1⟩,
        ⟨5, 1 / 5 * Real.log (7 / 6), 1⟩, ⟨6, 1 / 3 * Real.log (7 / 6), 2⟩] : List (Document ℝ)),
      ∀ c ∈ ([⟨1, 1 / 3 * Real.log (7 / 6), 1⟩, ⟨2, 1 / 6 * Real.log (7 / 6), 1⟩,
        ⟨3, 1 * Real.log (7 / 6), 1⟩, ⟨4, 1 / 2 * Real.log (7 / 6), 1⟩,
        ⟨5, 1 / 5 * Real.log (7 / 6), 1⟩, ⟨6, 1 / 3 * Real.log (7 / 6), 2⟩] : List (Document ℝ)),
      |a.relevance - b.relevance| < 1 / 1000000 →
        |b.relevance - c.relevance| < 1 / 1000000 →
          |a.relevance - c.relevance| < 1 / 1000000) ∧
    (∃ docs, (rankedFixture ℝ).FindTopDocumentsLibstdcxx Real.log "x".toList
        (GetStatusPredicate DocumentStatus.ACTUAL) = .ok docs ∧
      docs.length = min 5
        ([⟨1, 1 / 3 * Real.log (7 / 6), 1⟩, ⟨2, 1 / 6 * Real.log (7 / 6), 1⟩,
          ⟨3, 1 * Real.log (7 / 6), 1⟩, ⟨4, 1 / 2 * Real.log (7 / 6), 1⟩,
          ⟨5, 1 / 5 * Real.log (7 / 6), 1⟩, ⟨6, 1 / 3 * Real.log (7 / 6), 2⟩] : List (Document ℝ)).length ∧
      (∀ b ∈ docs, b ∈ ([⟨1, 1 / 3 * Real.log (7 / 6), 1⟩, ⟨2, 1 / 6 * Real.log (7 / 6), 1⟩,
          ⟨3, 1 * Real.log (7 / 6), 1⟩, ⟨4, 1 / 2 * Real.log (7 / 6), 1⟩,
          ⟨5, 1 / 5 * Real.log (7 / 6), 1⟩, ⟨6, 1 / 3 * Real.log (7 / 6), 2⟩] : List (Document ℝ))) ∧
      ∀ a ∈ ([⟨1, 1 / 3 * Real.log (7 / 6), 1⟩, ⟨2, 1 / 6 * Real.log (7 / 6), 1⟩,
          ⟨3, 1 * Real.log (7 / 6), 1⟩, ⟨4, 1 / 2 * Real.log (7 / 6), 1⟩,
          ⟨5, 1 / 5 * Real.log (7 / 6), 1⟩, ⟨6, 1 / 3 * Real.log (7 / 6), 2⟩] : List (Document ℝ)), a ∉ docs → ∀ b ∈ docs,
        ¬ (1 / 1000000 ≤ a.relevance - b.relevance) ∧
        ¬ (|a.relevance - b.relevance| < 1 / 1000000 ∧ a.rating > b.rating)) ∧
    (rankedFixture ℝ).FindTopDocumentsLibstdcxx Real.log "x".toList
        (GetStatusPredicate DocumentStatus.ACTUAL) =
      .ok [⟨3, 1 * Real.log (7 / 6), 1⟩, ⟨4, 1 / 2 * Real.log (7 / 6), 1⟩,
        ⟨6, 1 / 3 * Real.log (7 / 6), 2⟩, ⟨1, 1 / 3 * Real.log (7 / 6), 1⟩,
        ⟨5, 1 / 5 * Real.log (7 / 6), 1⟩] :=
  ⟨rankedFixture_found.1, rankedFixture_found.2, rankedFixture_sorted.1,
    C31_top_five_are_best_when_near_equality_transitive (rankedFixture ℝ) Real.log "x".toList
      (GetStatusPredicate DocumentStatus.ACTUAL) _ rankedFixture_found.1 _ rankedFixture_found.2
      rankedFixture_sorted.1,
    rankedFixture_top⟩

end SearchServer
end SearchEngine
